import Mathlib

/-!
Minitalk: verification of the buffering, command, hub and file transfer layers

Shallow embedding of `strlib/dbuffer.c`, `strlib/iobuffer.c`, `strlib/command.c`,
`strlib/hash.c`, `server/clients.c`, `server/srvcmd.c`, `client/files.c` and
`client/cltcmd.c`.

Conventions of the embedding

* A `char` is a natural number (its value as `unsigned char`); a C string is the list of
  its bytes before the terminating NUL.
* A singly linked list is the Lean list of its nodes, head first; a `last` pointer is the
  last node of that list.
* `malloc` always succeeds (the out-of-memory branches are not taken).
* `assert` aborts the process: a function that asserts returns `Except.error Fault.assertion`
  when the asserted condition is false.
* A `while` loop that is not structurally bounded carries a fuel argument and yields
  `none` / `Fault.fuel` when the fuel runs out; the theorems show that the fuel chosen by
  the caller is always enough.
* A read outside an array, or through a pointer that designates no allocated structure,
  yields `Fault.bounds`.
* A structure reached through pointers from several places (`client_t`, `file_t`, `nick_t`)
  is held in a list of allocated structures and designated by its address.
* The results of system calls are given beforehand as lists (`sysio_t`) or functions
  (`env_t`, `host_t`); the calls made are recorded in a log.
-/

namespace Minitalk

/-- Ways in which a run of the embedded code stops without a result. -/
inductive Fault where
  | assertion
  | fuel
  | bounds
deriving DecidableEq, Repr

/-! ## strlib/dbuffer.c -/

/-- Size of the data array of an internal buffer (`BUFFER_SIZE`). -/
def BUFFER_SIZE : Nat := 256

/-- Internal buffer `ibuffer_t`; the `next` pointer is the position in the chunk list. -/
structure ibuffer_t where
  start : Nat
  end_ : Nat
  data : List Nat
deriving DecidableEq, Repr

/-- Dynamic buffer `dbuffer_t`: `chunks` is the list `first .. last`. -/
structure dbuffer_t where
  chunks : List ibuffer_t
  size : Int
  fd : Int
  fds : Option Nat
  separator : Nat
deriving DecidableEq, Repr

/-- Input line `line_t`: `start` is the whole allocated area (`space` reserved bytes followed
by the line), `data` is the offset `space` into it. -/
structure line_t where
  length : Nat
  start : List Nat
  data : Nat
deriving DecidableEq, Repr

/-- The call `memcpy(dst + off, src, |src|)` on an array held as a list. -/
def memcpy (dst : List Nat) (off : Nat) (src : List Nat) : List Nat :=
  dst.take off ++ src ++ dst.drop (off + src.length)

/-- Function `ibuffer_new`: a fresh chunk (the uninitialised array is held as zeros). -/
def ibuffer_new : ibuffer_t :=
  { start := 0, end_ := 0, data := List.replicate BUFFER_SIZE 0 }

/-- Function `dbuffer_init`. -/
def dbuffer_init (fd : Int) (fds : Option Nat) (separator : Nat) : dbuffer_t :=
  { chunks := [], size := 0, fd := fd, fds := fds, separator := separator }

/-- Function `dbuffer_free`. -/
def dbuffer_free (buffer : dbuffer_t) : dbuffer_t :=
  { buffer with chunks := [], size := 0 }

/-- Function `dbuffer_get_size`. -/
def dbuffer_get_size (buffer : dbuffer_t) : Int := buffer.size

/-- The `while (1)` loop of `dbuffer_get_data`. `ibuffer` is the current first chunk and
`rest` the chunks after it; `size` bytes remain to be taken, `copy_size` bytes were just
copied out of `ibuffer`, which held `buffer_size` bytes. Returns the new chunk list, `done`
and the bytes copied to `data`. -/
def get_loop (ibuffer : ibuffer_t) (rest : List ibuffer_t) (size copy_size buffer_size : Nat)
    (done : Nat) (out : List Nat) : List ibuffer_t × Nat × List Nat :=
  if copy_size ≠ buffer_size then
    ({ ibuffer with start := ibuffer.start + copy_size } :: rest, done, out)
  else
    match rest with
    | [] => ([], done, out)
    | nxt :: rest' =>
      if size = 0 then (nxt :: rest', done, out)
      else
        let buffer_size' := nxt.end_
        let copy_size' := if size ≤ buffer_size' then size else buffer_size'
        get_loop nxt rest' (size - copy_size') copy_size' buffer_size'
          (done + copy_size') (out ++ nxt.data.take copy_size')

/-- Function `dbuffer_get_data`. Returns the buffer afterwards, the return value `done` and the
bytes written to `data` (a caller passing `data == NULL` ignores them). -/
def dbuffer_get_data (buffer : dbuffer_t) (data_size : Nat) : dbuffer_t × Nat × List Nat :=
  let size := data_size
  if size = 0 then (buffer, 0, [])
  else
    match buffer.chunks with
    | [] => (buffer, 0, [])
    | ibuffer :: rest =>
      let buffer_size := ibuffer.end_ - ibuffer.start
      let copy_size := if size ≤ buffer_size then size else buffer_size
      let r := get_loop ibuffer rest (size - copy_size) copy_size buffer_size copy_size
        ((ibuffer.data.drop ibuffer.start).take copy_size)
      ({ buffer with chunks := r.1, size := buffer.size - r.2.1 }, r.2.1, r.2.2)

/-- The `while (1)` loop of `dbuffer_put_data`, run on the chunk `ibuffer` (the current last
chunk) with the data still to append. Returns the chunks that replace `ibuffer` and `total`. -/
def put_loop : Nat → ibuffer_t → List Nat → Option (List ibuffer_t × Nat)
  | 0, _, _ => none
  | fuel + 1, ibuffer, data =>
    let len := data.length
    let empty := BUFFER_SIZE - ibuffer.end_
    if len < empty then
      some ([{ ibuffer with data := memcpy ibuffer.data ibuffer.end_ data,
                            end_ := ibuffer.end_ + len }], len)
    else
      let ib : ibuffer_t :=
        { ibuffer with data := memcpy ibuffer.data ibuffer.end_ (data.take empty),
                       end_ := ibuffer.end_ + empty }
      if (data.drop empty).length ≠ 0 then
        match put_loop fuel ibuffer_new (data.drop empty) with
        | some (cs, total) => some (ib :: cs, empty + total)
        | none => none
      else some ([ib], empty)

/-- Function `dbuffer_put_data` with `data_size = |data|`. Returns the buffer afterwards and the
return value `total`. The loop runs at most `|data| + 2` times, so the fuel given here is
enough (`put_loop_spec`) and the `none` branch is not taken. -/
def dbuffer_put_data (buffer : dbuffer_t) (data : List Nat) : dbuffer_t × Int :=
  let front := buffer.chunks.dropLast
  let ibuffer := match buffer.chunks.getLast? with
    | some l => l
    | none => ibuffer_new
  match put_loop (data.length + 2) ibuffer data with
  | some (cs, total) =>
    ({ buffer with chunks := front ++ cs, size := buffer.size + total }, total)
  | none => (buffer, -1)

/-- The live bytes `data[start .. end)` of a chunk. -/
def ibuffer_live (c : ibuffer_t) : List Nat := (c.data.take c.end_).drop c.start

/-- The logical byte sequence of a queue: the live bytes of its chunks, in order. -/
def dbuffer_contents (buffer : dbuffer_t) : List Nat :=
  (buffer.chunks.map ibuffer_live).flatten

/-- Well-formed chunk: `0 ≤ start ≤ end ≤ BUFFER_SIZE` over an array of `BUFFER_SIZE` bytes. -/
def ibuffer_wf (c : ibuffer_t) : Prop :=
  c.start ≤ c.end_ ∧ c.end_ ≤ BUFFER_SIZE ∧ c.data.length = BUFFER_SIZE

/-- Well-formed queue: well-formed chunks, only the first may have `start > 0`, and `size` is
the number of live bytes. -/
def dbuffer_wf (b : dbuffer_t) : Prop :=
  (∀ c ∈ b.chunks, ibuffer_wf c) ∧ (∀ c ∈ b.chunks.tail, c.start = 0) ∧
    b.size = (dbuffer_contents b).length

/-- Queue states reached from `dbuffer_init` by `dbuffer_put_data` and by `dbuffer_get_data`
with `n ≤ size`. -/
inductive dbuffer_reachable : dbuffer_t → Prop
  | init (fd : Int) (fds : Option Nat) (separator : Nat) :
      dbuffer_reachable (dbuffer_init fd fds separator)
  | put (b : dbuffer_t) (xs : List Nat) :
      dbuffer_reachable b → dbuffer_reachable (dbuffer_put_data b xs).1
  | get (b : dbuffer_t) (n : Nat) :
      dbuffer_reachable b → (n : Int) ≤ b.size → dbuffer_reachable (dbuffer_get_data b n).1

/-- Successive `dbuffer_get_data` calls with the sizes `ns`; returns the final queue and the
byte sequences returned by the calls, in order. -/
def dbuffer_takes (b : dbuffer_t) : List Nat → dbuffer_t × List (List Nat)
  | [] => (b, [])
  | n :: ns =>
    let r := dbuffer_get_data b n
    let r' := dbuffer_takes r.1 ns
    (r'.1, r.2.2 :: r'.2)

/-- The `for` loop of `dbuffer_token_size` over the bytes `data[start .. end)` of one chunk;
returns `size` and `chr` afterwards. -/
def token_scan (separator : Nat) : List Nat → Nat → Nat → Nat × Nat
  | [], size, chr => (size, chr)
  | c :: cs, size, _ =>
    if c = separator then (size + 1, c) else token_scan separator cs (size + 1) c

/-- The `while (ibuffer != NULL)` loop of `dbuffer_token_size`; `none` when the loop ends with
`ibuffer == NULL`. -/
def token_loop (separator : Nat) : List ibuffer_t → Nat → Nat → Option Nat
  | [], _, _ => none
  | ibuffer :: rest, size, chr =>
    let r := token_scan separator (ibuffer_live ibuffer) size chr
    if r.2 = separator then some r.1 else token_loop separator rest r.1 r.2

/-- Function `dbuffer_token_size`. -/
def dbuffer_token_size (buffer : dbuffer_t) : Nat :=
  match token_loop buffer.separator buffer.chunks 0 0 with
  | some size => size
  | none => 0

/-- The `while` loop of `dbuffer_input_line`. Returns the line (or `none` for `NULL`) and the
buffer afterwards. -/
def input_line_loop : Nat → dbuffer_t → Nat → Except Fault (Option line_t × dbuffer_t)
  | 0, _, _ => .error Fault.fuel
  | fuel + 1, buffer, space =>
    let len := dbuffer_token_size buffer
    if len ≠ 0 then
      if len ≠ 1 then
        let r := dbuffer_get_data buffer len
        let area := memcpy (List.replicate (space + len) 0) space r.2.2
        if len ≠ 2 ∨ area.getD space 0 ≠ 13 then
          if area.getD (space + (len - 2)) 0 = 13 then
            .ok (some ⟨len - 1, area.set (space + (len - 2)) 10, space⟩, r.1)
          else .ok (some ⟨len, area, space⟩, r.1)
        else input_line_loop fuel r.1 space
      else input_line_loop fuel (dbuffer_get_data buffer 1).1 space
    else .ok (none, buffer)

/-- Function `dbuffer_input_line`. Every iteration of its loop removes at least one byte, so
the fuel given here is enough on a well-formed queue. -/
def dbuffer_input_line (buffer : dbuffer_t) (space : Nat) :
    Except Fault (Option line_t × dbuffer_t) :=
  input_line_loop ((dbuffer_contents buffer).length + 1) buffer space

/-- The bytes `data[0 .. length)` of a line. -/
def line_bytes (line : line_t) : List Nat := (line.start.drop line.data).take line.length

/-- Calls `dbuffer_input_line` until it returns `NULL`; returns the lines obtained, in order,
and the buffer after the last call. -/
def input_lines_loop : Nat → dbuffer_t → Nat → Except Fault (List line_t × dbuffer_t)
  | 0, _, _ => .error Fault.fuel
  | fuel + 1, buffer, space =>
    match dbuffer_input_line buffer space with
    | .error e => .error e
    | .ok (none, buffer') => .ok ([], buffer')
    | .ok (some line, buffer') =>
      match input_lines_loop fuel buffer' space with
      | .error e => .error e
      | .ok (lines, buffer'') => .ok (line :: lines, buffer'')

/-- Repeated `dbuffer_input_line` calls until `NULL`. -/
def dbuffer_input_lines (buffer : dbuffer_t) (space : Nat) :
    Except Fault (List line_t × dbuffer_t) :=
  input_lines_loop ((dbuffer_contents buffer).length + 1) buffer space

/-- A line of the input stream: bytes other than the separator, then the separator. -/
def is_line (separator : Nat) (ln : List Nat) : Prop :=
  ∃ body, ln = body ++ [separator] ∧ separator ∉ body

/-- The blank lines that `dbuffer_input_line` drops: LF alone and CR LF. -/
def is_blank (ln : List Nat) : Bool := ln == [10] || ln == [13, 10]

/-- The line with a trailing CR LF replaced by LF. -/
def normalize_line (ln : List Nat) : List Nat :=
  if ln.drop (ln.length - 2) = [13, 10] then ln.take (ln.length - 2) ++ [10] else ln

/-- Length of the first token of a byte sequence, separator included, counted from `size`;
`none` when the sequence holds no separator. -/
def first_token_size (separator : Nat) : List Nat → Nat → Option Nat
  | [], _ => none
  | c :: cs, size =>
    if c = separator then some (size + 1) else first_token_size separator cs (size + 1)

/-! ## strlib/command.c -/

/-- The first (counting) pass of `command_get_tokens`. `chr` is the byte last read, at index `i`
of `command`, and `rest` holds the bytes after it; reading past the end of the buffer is a
bounds fault. With `in_token = false` control is at the head of the outer `while`; with
`in_token = true` it is at the test of the `do .. while`, `chr` having just been read.
Leaving the `do .. while` continues at the head of the outer loop with the same `chr`, which is
then a space, a tab or LF. -/
def count_tokens : List Nat → Nat → Bool → Nat → Except Fault Nat
  | rest, chr, false, count =>
    if chr = 10 then .ok count
    else if chr = 32 ∨ chr = 9 then
      match rest with
      | [] => .error Fault.bounds
      | c :: rest' => count_tokens rest' c false count
    else
      match rest with
      | [] => .error Fault.bounds
      | c :: rest' => count_tokens rest' c true (count + 1)
  | rest, chr, true, count =>
    if chr ≠ 32 ∧ chr ≠ 9 ∧ chr ≠ 10 then
      match rest with
      | [] => .error Fault.bounds
      | c :: rest' => count_tokens rest' c true count
    else if chr = 10 then .ok count
    else
      match rest with
      | [] => .error Fault.bounds
      | c :: rest' => count_tokens rest' c false count

/-- The second (filling) pass of `command_get_tokens`, read as `count_tokens`; `i` is the index
of `chr`, `args` the offsets stored so far (`(*args)[count++] = command + i`) and `command` the
buffer, in which `command[i] = 0` is written after each `do .. while`. -/
def fill_tokens : List Nat → Nat → Nat → Bool → List Nat → List Nat →
    Except Fault (List Nat × List Nat)
  | rest, chr, i, false, args, command =>
    if chr = 10 then .ok (args, command)
    else if chr = 32 ∨ chr = 9 then
      match rest with
      | [] => .error Fault.bounds
      | c :: rest' => fill_tokens rest' c (i + 1) false args command
    else
      match rest with
      | [] => .error Fault.bounds
      | c :: rest' => fill_tokens rest' c (i + 1) true (args ++ [i]) command
  | rest, chr, i, true, args, command =>
    if chr ≠ 32 ∧ chr ≠ 9 ∧ chr ≠ 10 then
      match rest with
      | [] => .error Fault.bounds
      | c :: rest' => fill_tokens rest' c (i + 1) true args command
    else if chr = 10 then .ok (args, command.set i 0)
    else
      match rest with
      | [] => .error Fault.bounds
      | c :: rest' => fill_tokens rest' c (i + 1) false args (command.set i 0)

/-- Function `command_get_tokens`. Returns the return value, the argument table (offsets into
`command`) and the buffer afterwards. -/
def command_get_tokens (command : List Nat) : Except Fault (Int × List Nat × List Nat) :=
  match command with
  | [] => .error Fault.bounds
  | chr :: rest =>
    match count_tokens rest chr false 0 with
    | .error e => .error e
    | .ok count =>
      if count = 0 then .ok (0, [], command)
      else
        match fill_tokens rest chr 0 false [] command with
        | .error e => .error e
        | .ok (args, command') => .ok (args.length, args, command')

/-- The C string at offset `off` of a buffer: the bytes up to the first NUL. -/
def cstr (buffer : List Nat) (off : Nat) : List Nat := (buffer.drop off).takeWhile (· ≠ 0)

/-- Space or tab. -/
def is_space_tab (c : Nat) : Bool := c == 32 || c == 9

/-- The maximal runs of bytes other than space and tab of a line, each with its offset, the
line starting at offset `i`: a byte joins the run that starts right after it. -/
def token_runs : List Nat → Nat → List (Nat × List Nat)
  | [], _ => []
  | c :: cs, i =>
    if is_space_tab c then token_runs cs (i + 1)
    else
      match token_runs cs (i + 1) with
      | (o, r) :: rs => if o = i + 1 then (i, c :: r) :: rs else (i, [c]) :: (o, r) :: rs
      | [] => [(i, [c])]

/-- The buffer after a NUL was written behind each of the given runs. -/
def write_sentinels (runs : List (Nat × List Nat)) (command : List Nat) : List Nat :=
  runs.foldl (fun c p => c.set (p.1 + p.2.length) 0) command

/-- The bytes of a string literal (without the terminating NUL). -/
def bytes (s : String) : List Nat := s.toList.map Char.toNat

/-- Function `strcmp` on C strings given by their bytes: negative, zero or positive as the
first string is below, equal to or above the second in the order of `unsigned char` values. -/
def strcmp : List Nat → List Nat → Int
  | [], [] => 0
  | [], _ :: _ => -1
  | _ :: _, [] => 1
  | x :: xs, y :: ys => if x < y then -1 else if y < x then 1 else strcmp xs ys

/-- Command structure `command_t`. The callback receives `arg_count`, the argument strings,
`console`, `buffer` (possibly `NULL`) and `data`, and acts on the state `W` of the program;
`R` is the type of the `iobuffer` pointers. -/
structure command_t (W R D : Type) where
  name : List Nat
  arg_count : Int
  syntax_ : Option (List Nat)
  function : Int → List (List Nat) → R → Option R → D → W → Except Fault (W × Int)

/-- The `while` loop of `command_find`. Reading `commands[pos]` outside the table is a bounds
fault. Returns the index of the entry found (`commands + pos`) or `none` for `NULL`. -/
def find_loop {W R D : Type} (command : List Nat) (commands : List (command_t W R D)) :
    Nat → Int → Int → Int → Except Fault (Option Nat)
  | 0, _, _, _ => .error Fault.fuel
  | fuel + 1, start, end_, pos =>
    if pos < 0 then .error Fault.bounds
    else
      match commands[pos.toNat]? with
      | none => .error Fault.bounds
      | some entry =>
        let cmp := strcmp command entry.name
        if cmp ≠ 0 ∧ start < end_ then
          if cmp < 0 then find_loop command commands fuel start (pos - 1) ((start + (pos - 1)).tdiv 2)
          else find_loop command commands fuel (pos + 1) end_ ((pos + 1 + end_).tdiv 2)
        else if cmp = 0 then .ok (some pos.toNat)
        else .ok none

/-- Function `command_find`. The search interval shrinks with every iteration, so `count + 1`
iterations are enough. -/
def command_find {W R D : Type} (command : List Nat) (commands : List (command_t W R D))
    (count : Int) : Except Fault (Option Nat) :=
  find_loop command commands (count.toNat + 1) 0 (count - 1) ((count - 1).tdiv 2)

/-- Message `msg_no_cmd` of `command_exec`. -/
def msg_no_cmd : List Nat :=
  bytes "No command entered.  Syntax: /command [arg 1] [arg 2] ... [arg n]\nType `/help' to get a command list.\n"

/-- Message `msg_mem` of `command_exec`. -/
def msg_mem : List Nat := bytes "Error: no more memory!\n"

/-- Message `msg_count` of `command_exec`. -/
def msg_count : List Nat := bytes "Wrong argument count"

/-- Message `msg_none` of `command_exec`. -/
def msg_none : List Nat := bytes ": this command takes none.\n"

/-- Message `msg_unknown` of `command_exec`. -/
def msg_unknown : List Nat := bytes "Unknown command.  Type `/help' to get a command list.\n"

/-- The guarded call `if (buffer != NULL) iobuffer_put_data(buffer, msg, |msg|)`. -/
def put_if {W R : Type} (put : R → List Nat → W → W) (buffer : Option R) (msg : List Nat)
    (w : W) : W :=
  match buffer with
  | some b => put b msg w
  | none => w

/-- Function `command_exec`. `put` is `iobuffer_put_data` on the state `W`; the strings handed
to the callback and to `command_find` are the C strings at the offsets in `args`. -/
def command_exec {W R D : Type} [DecidableEq R] (put : R → List Nat → W → W)
    (command : List Nat) (commands : List (command_t W R D)) (count : Int)
    (console : R) (buffer : Option R) (data : D) (w : W) : Except Fault (W × Int) :=
  match command_get_tokens command with
  | .error e => .error e
  | .ok (arg_count, args, command') =>
    if arg_count = 0 then .ok (put_if put buffer msg_no_cmd w, 0)
    else
      let argv := args.map (cstr command')
      match command_find (argv.headD []) commands count with
      | .error e => .error e
      | .ok none => .ok (put_if put buffer msg_unknown w, 0)
      | .ok (some pos) =>
        match commands[pos]? with
        | none => .error Fault.bounds
        | some cmd =>
          if arg_count = cmd.arg_count + 1 then
            match cmd.function arg_count argv console buffer data w with
            | .error e => .error e
            | .ok (w', res) =>
              if res = 2 then
                let w1 := put_if put buffer msg_mem w'
                .ok (if some console ≠ buffer then put console msg_mem w1 else w1, res)
              else .ok (w', res)
          else
            match buffer with
            | none => .ok (w, 0)
            | some b =>
              let w1 := put b msg_count w
              if cmd.arg_count ≠ 0 then
                match cmd.syntax_ with
                | none => .error Fault.bounds
                | some syn =>
                  .ok (put b (bytes "\n") (put b syn (put b (bytes " ")
                    (put b (argv.headD []) (put b (bytes ".  Syntax: /") w1)))), 0)
              else .ok (put b msg_none w1, 0)

/-! ## strlib/iobuffer.c -/

/-- Dynamic input/output buffer `iobuffer_t`. -/
structure iobuffer_t where
  input : dbuffer_t
  output : dbuffer_t
deriving DecidableEq, Repr

/-- Function `iobuffer_init`. -/
def iobuffer_init (input_fd output_fd : Int) (read_fds write_fds : Option Nat)
    (separator : Nat) : iobuffer_t :=
  { input := dbuffer_init input_fd read_fds separator,
    output := dbuffer_init output_fd write_fds separator }

/-- Function `iobuffer_free`. -/
def iobuffer_free (buffer : iobuffer_t) : iobuffer_t :=
  { input := dbuffer_free buffer.input, output := dbuffer_free buffer.output }

/-- Function `iobuffer_get_input_fd`. -/
def iobuffer_get_input_fd (buffer : iobuffer_t) : Int := buffer.input.fd

/-- Function `iobuffer_get_output_size`. -/
def iobuffer_get_output_size (buffer : iobuffer_t) : Int := dbuffer_get_size buffer.output

/-- Function `iobuffer_put_data` (the buffer afterwards; the return value is that of
`dbuffer_put_data`). -/
def iobuffer_put_data (buffer : iobuffer_t) (data : List Nat) : iobuffer_t :=
  { buffer with output := (dbuffer_put_data buffer.output data).1 }

/-- Function `iobuffer_input_line`. -/
def iobuffer_input_line (buffer : iobuffer_t) (space : Nat) :
    Except Fault (Option line_t × iobuffer_t) :=
  match dbuffer_input_line buffer.input space with
  | .error e => .error e
  | .ok (line, input) => .ok (line, { buffer with input := input })

/-! ## strlib/hash.c -/

/-- Number of hash keys (`HASH_SIZE`, with `HASH_BITS = 10` and `HASH_MIN = 0`). -/
def HASH_SIZE : Nat := 1024

/-- Hash table element `hash_element_t`. `addr` is the address of the element itself, `object`
the address of the object, `str` the string that the `str` pointer designates; `next` and
`prev` are the position in the list of the key. -/
structure hash_element_t where
  addr : Nat
  alloced : Int
  object : Nat
  str : List Nat
  key : Nat
deriving DecidableEq, Repr

/-- Hash table `hash_t`: for each key the linked list `table[key]`. -/
structure hash_t where
  table : List (List hash_element_t)
deriving DecidableEq, Repr

/-- Macro `ROT_LEFT(x, offset, 8)`. -/
def ROT_LEFT (x offset : Nat) : Nat :=
  if offset % 8 = 0 then x % 256
  else ((x * 2 ^ (offset % 8)) % 256) ||| ((x % 256) / 2 ^ (8 - offset % 8))

/-- The `for` loop of `hash_function` from index `i` on; returns `i` and `sum` at the end
(`sum` is an `unsigned` of 32 bits). -/
def hash_loop : List Nat → Nat → Nat → Nat × Nat
  | [], i, sum => (i, sum)
  | chr :: rest, i, sum => hash_loop rest (i + 1) ((sum + ROT_LEFT (chr % 256) i) % 2 ^ 32)

/-- Function `hash_function`. -/
def hash_function (str : List Nat) : Nat :=
  let r := hash_loop str 0 0
  ((r.1 % 4) * 256) ||| (r.2 % 256)

/-- Function `hash_init`. -/
def hash_init : hash_t := { table := List.replicate HASH_SIZE [] }

/-- Function `hash_add` with a given element (`element != NULL`, the element at address
`addr`); returns the table and the element as initialised. -/
def hash_add (hash : hash_t) (str : List Nat) (object : Nat) (addr : Nat) :
    Except Fault (hash_t × hash_element_t) :=
  let key := hash_function str
  if key < HASH_SIZE then
    let element : hash_element_t :=
      { addr := addr, alloced := 0, object := object, str := str, key := key }
    .ok ({ table := hash.table.set key (element :: hash.table.getD key []) }, element)
  else .error Fault.assertion

/-- Function `hash_remove`: unlinks the element (the node at its address) from the list of its
key. -/
def hash_remove (hash : hash_t) (element : hash_element_t) : Except Fault hash_t :=
  if element.key < HASH_SIZE then
    let list := (hash.table.getD element.key []).filter (fun e => e.addr ≠ element.addr)
    .ok { table := hash.table.set element.key list }
  else .error Fault.assertion

/-- The `for` loop of `hash_find` along the list of a key. -/
def hash_find_loop (str : List Nat) : List hash_element_t → Option hash_element_t
  | [] => none
  | element :: rest =>
    if strcmp str element.str = 0 then some element else hash_find_loop str rest

/-- Function `hash_find`. -/
def hash_find (hash : hash_t) (str : List Nat) : Except Fault (Option hash_element_t) :=
  let key := hash_function str
  if key < HASH_SIZE then .ok (hash_find_loop str (hash.table.getD key []))
  else .error Fault.assertion

/-! ## server/clients.c and server/srvcmd.c -/

/-- The `iobuffer_t` pointers of the hub: the console buffer and the buffer of the client at
address `ptr`. -/
inductive bufref where
  | console
  | client (ptr : Nat)
deriving DecidableEq, Repr

/-- Connected client `client_t`; `ptr` is the address of the structure, `next` and `prev` are
the position in the client list. -/
structure client_t where
  ptr : Nat
  buffer : iobuffer_t
  nick : Option (List Nat)
  nick_len : Int
  addr : List Nat
  addr_len : Int
  hash_elm : hash_element_t
deriving DecidableEq, Repr

/-- Client manager `clients_t`; `list` is the linked list `first .. last`, `read_fds` and
`write_fds` are the descriptor sets, `console` is the console buffer pointed to. -/
structure clients_t where
  number : Int
  list : List client_t
  read_fds : List Int
  write_fds : List Int
  console : iobuffer_t
  srv_sock : Int
  hash : hash_t
deriving DecidableEq, Repr

/-- Command type `srvcmd_type_t`. -/
inductive srvcmd_type_t where
  | SRVCMD_TYPE_SERVER
  | SRVCMD_TYPE_CLIENT
deriving DecidableEq, Repr

/-- Commands of the hub: the state is the client manager, the callback data
(`srvcmd_data_t`) is the manager itself and the address of the current client or `NULL`. -/
abbrev hub_command := command_t clients_t bufref (Option Nat)

/-- Macro `FD_CLR`. -/
def FD_CLR (fd : Int) (fds : List Int) : List Int := fds.filter (· ≠ fd)

/-- The client at address `ptr`. -/
def client_lookup (clients : clients_t) (ptr : Nat) : Option client_t :=
  clients.list.find? (fun c => c.ptr = ptr)

/-- An assignment through the client pointer `ptr`. -/
def client_update (clients : clients_t) (ptr : Nat) (f : client_t → client_t) : clients_t :=
  { clients with list := clients.list.map (fun c => if c.ptr = ptr then f c else c) }

/-- Call `iobuffer_put_data(r, data, |data|)` in the hub. -/
def hub_put (r : bufref) (data : List Nat) (clients : clients_t) : clients_t :=
  match r with
  | .console => { clients with console := iobuffer_put_data clients.console data }
  | .client ptr =>
    client_update clients ptr (fun c => { c with buffer := iobuffer_put_data c.buffer data })

/-- Call `sprintf(buffer, ..)` producing the characters `s`. -/
def sprintf (buffer : List Nat) (s : List Nat) : List Nat := memcpy buffer 0 (s ++ [0])

/-- Call `snprintf(buffer, size, ..)` of a format that produces the characters `s`. -/
def snprintf (buffer : List Nat) (size : Nat) (s : List Nat) : List Nat :=
  if size = 0 then buffer else memcpy buffer 0 (s.take (size - 1) ++ [0])

/-- The `for` loop of `verify_nick` from index `i` on. -/
def verify_nick_loop : List Nat → Nat → Nat
  | [], i => i
  | chr :: rest, i => if chr = 58 then 0 else verify_nick_loop rest (i + 1)

/-- Function `verify_nick`. -/
def verify_nick (nick : List Nat) : Nat := verify_nick_loop nick 0

/-- Function `clients_send` with `data[0 .. length)` given as `data`; `except` is the address of
the excluded client or `NULL`. -/
def clients_send (clients : clients_t) (data : List Nat) (except : Option Nat) : clients_t :=
  { clients with list := clients.list.map (fun client =>
      if some client.ptr ≠ except ∧ client.nick_len > 0 then
        { client with buffer := iobuffer_put_data client.buffer data }
      else client) }

/-- Function `clients_get_client_from_name`; returns the address of the client. -/
def clients_get_client_from_name (clients : clients_t) (name : List Nat) :
    Except Fault (Option Nat) :=
  match hash_find clients.hash name with
  | .error e => .error e
  | .ok (some element) => .ok (some element.object)
  | .ok none => .ok none

/-- Function `clients_disconnect`. -/
def clients_disconnect (clients : clients_t) (ptr : Nat) : Except Fault clients_t :=
  match client_lookup clients ptr with
  | none => .error Fault.bounds
  | some client =>
    let clients1 := client_update clients ptr (fun c => { c with nick_len := -1 })
    .ok { clients1 with read_fds := FD_CLR (iobuffer_get_input_fd client.buffer) clients1.read_fds }

/-- Message `msg_auth` of `client_input_lines`. -/
def msg_auth : List Nat :=
  bytes "You are not authenticated yet.  Use /connect to authenticate yourself.\n"

/-- Message `msg_syntax` of `client_auth_command`. -/
def msg_syntax : List Nat := bytes "Command error.  Syntax: /connect <nickname>\n"

/-- Message `msg_nick` of `client_auth_command`. -/
def msg_nick : List Nat :=
  bytes "Nickname is not valid.  Issue another /connect command with a valid one.\n"

/-- Message `msg_taken` of `client_auth_command`. -/
def msg_taken : List Nat := bytes "Nickname is already taken.  Choose another one.\n"

/-- The assignments of `client_auth_command` on success: the nickname and its length are
stored in the client and the table holds the client's element (`hash_add` fills the element
`client->hash_elm`). -/
def client_set_nick (clients : clients_t) (ptr : Nat) (nick : List Nat) (len : Int)
    (hash : hash_t) (element : hash_element_t) : clients_t :=
  client_update { clients with hash := hash } ptr
    (fun c => { c with nick := some nick, nick_len := len, hash_elm := element })

/-- Function `client_auth_command` for the client at address `ptr`; `args` are the argument
strings. -/
def client_auth_command (ptr : Nat) (clients : clients_t) (arg_count : Int)
    (args : List (List Nat)) : Except Fault (clients_t × Int) :=
  match client_lookup clients ptr with
  | none => .error Fault.bounds
  | some client =>
    if client.nick ≠ none ∨ client.nick_len ≠ 0 then .error Fault.assertion
    else if arg_count < 1 ∨ strcmp (args.getD 0 []) (bytes "connect") ≠ 0 then .ok (clients, 1)
    else if arg_count ≠ 2 then .ok (hub_put (.client ptr) msg_syntax clients, 2)
    else
      let nick := args.getD 1 []
      let len := verify_nick nick
      if len = 0 then .ok (hub_put (.client ptr) msg_nick clients, 3)
      else
        match hash_find clients.hash nick with
        | .error e => .error e
        | .ok (some _) => .ok (hub_put (.client ptr) msg_taken clients, 4)
        | .ok none =>
          match hash_add clients.hash nick ptr ptr with
          | .error e => .error e
          | .ok (hash, element) =>
            let clients1 := client_set_nick clients ptr nick len hash element
            let buffer0 := List.replicate (client.addr_len.toNat + len + 32) 0
            let buffer1 := sprintf buffer0 (bytes "** " ++ nick ++ bytes " connected.\n")
            let clients2 := clients_send clients1 (buffer1.take (len + 15)) (some ptr)
            let buffer2 := sprintf buffer1
              (bytes "Client `" ++ client.addr ++ bytes "' authenticated as `" ++ nick ++
                bytes "'.\n")
            let clients3 := hub_put .console (buffer2.take (client.addr_len.toNat + len + 31))
              clients2
            let buffer3 := sprintf buffer2 (bytes "** Hello, " ++ nick ++ bytes "!\n")
            .ok (hub_put (.client ptr) (buffer3.take (len + 12)) clients3, 0)

/-- Conversion `%d` of a number. -/
def fmt_d (n : Int) : List Nat :=
  if n < 0 then 45 :: bytes (toString (-n).toNat) else bytes (toString n.toNat)

/-- The loop `while (max <= number)` of `cmd_srv_who`; returns `len`. -/
def who_len_loop : Nat → Int → Int → Int → Except Fault Int
  | 0, _, _, _ => .error Fault.fuel
  | fuel + 1, max, len, number =>
    if max ≤ number then who_len_loop fuel (max * 10) (len + 1) number else .ok len

/-- The first loop of `cmd_srv_who`: the buffer size. -/
def who_size : List client_t → Int → Int
  | [], size => size
  | clt :: rest, size =>
    if clt.nick_len > 0 then who_size rest (size + (clt.nick_len + 1)) else who_size rest size

/-- The second loop of `cmd_srv_who`: the client names. -/
def who_names : List client_t → List Nat → Nat → List Nat × Nat
  | [], str_buffer, size => (str_buffer, size)
  | clt :: rest, str_buffer, size =>
    if clt.nick_len > 0 then
      let b1 := memcpy str_buffer size ((clt.nick.getD []).take clt.nick_len.toNat)
      who_names rest (b1.set (size + clt.nick_len.toNat) 10) (size + (clt.nick_len.toNat + 1))
    else who_names rest str_buffer size

/-- Console command `/who` (`cmd_srv_who`). -/
def cmd_srv_who (arg_count : Int) (_args : List (List Nat)) (_console : bufref)
    (buffer : Option bufref) (_data : Option Nat) (clients : clients_t) :
    Except Fault (clients_t × Int) :=
  if arg_count ≠ 1 ∨ buffer = none then .error Fault.assertion
  else
    let size := who_size clients.list 0
    if size = 0 then .ok (put_if hub_put buffer (bytes "No client connected.\n") clients, 0)
    else
      match who_len_loop (clients.number.toNat + 1) 10 1 clients.number with
      | .error e => .error e
      | .ok len0 =>
        let len := len0 + 32
        let b0 := List.replicate (size + len).toNat 0
        let b1 := snprintf b0 (len + 1).toNat
          (bytes "There are " ++ fmt_d clients.number ++ bytes " client(s) connected:\n")
        let r := who_names clients.list b1 len.toNat
        .ok (put_if hub_put buffer (r.1.take r.2) clients, 0)

/-- Console command `/kill` (`cmd_srv_kill`). -/
def cmd_srv_kill (arg_count : Int) (args : List (List Nat)) (console : bufref)
    (_buffer : Option bufref) (_data : Option Nat) (clients : clients_t) :
    Except Fault (clients_t × Int) :=
  if arg_count ≠ 2 then .error Fault.assertion
  else
    match clients_get_client_from_name clients (args.getD 1 []) with
    | .error e => .error e
    | .ok none => .ok (hub_put console (bytes "No such nickname.\n") clients, 0)
    | .ok (some ptr) =>
      match client_lookup clients ptr with
      | none => .error Fault.bounds
      | some clt =>
        let len := (clt.nick_len + 22).toNat
        let clients1 := hub_put (.client ptr) (bytes "** You have been killed.\n") clients
        let str_buffer := snprintf (List.replicate len 0) len
          (bytes "** " ++ clt.nick.getD [] ++ bytes " has been killed.\n")
        let clients2 := clients_send clients1 (str_buffer.take len) (some ptr)
        let clients3 := hub_put console ((str_buffer.drop 3).take (len - 3)) clients2
        match clients_disconnect clients3 ptr with
        | .error e => .error e
        | .ok clients4 => .ok (clients4, 0)

/-- Console command `/shutdown` (`cmd_srv_shutdown`). -/
def cmd_srv_shutdown (arg_count : Int) (_args : List (List Nat)) (_console : bufref)
    (_buffer : Option bufref) (_data : Option Nat) (clients : clients_t) :
    Except Fault (clients_t × Int) :=
  if arg_count ≠ 1 then .error Fault.assertion
  else .ok (clients_send clients
    (bytes "Server is shutting down; closing connections.\n") none, 1)

/-- Console command `/help` (`cmd_srv_help`). -/
def cmd_srv_help (arg_count : Int) (_args : List (List Nat)) (_console : bufref)
    (buffer : Option bufref) (_data : Option Nat) (clients : clients_t) :
    Except Fault (clients_t × Int) :=
  match buffer with
  | none => .error Fault.assertion
  | some b =>
    if arg_count ≠ 1 then .error Fault.assertion
    else .ok (hub_put b (bytes ("/who: get the list of the currently connected clients.\n" ++
      "/kill <nickname>: disconnect a client from the server.\n" ++
      "/shutdown: stop the server.\n" ++ "/help: get the command list.\n")) clients, 0)

/-- Client command `/connect` (`cmd_clt_connect`). -/
def cmd_clt_connect (arg_count : Int) (_args : List (List Nat)) (_console : bufref)
    (buffer : Option bufref) (_data : Option Nat) (clients : clients_t) :
    Except Fault (clients_t × Int) :=
  match buffer with
  | none => .error Fault.assertion
  | some b =>
    if arg_count ≠ 1 then .error Fault.assertion
    else .ok (hub_put b (bytes "You are already connected.\n") clients, 0)

/-- Client command `/quit` (`cmd_clt_quit`). -/
def cmd_clt_quit (arg_count : Int) (_args : List (List Nat)) (console : bufref)
    (buffer : Option bufref) (data : Option Nat) (clients : clients_t) :
    Except Fault (clients_t × Int) :=
  match data with
  | none => .error Fault.assertion
  | some ptr =>
    if arg_count ≠ 1 ∨ buffer = none then .error Fault.assertion
    else
      match client_lookup clients ptr with
      | none => .error Fault.bounds
      | some client =>
        let len := (client.nick_len + 22).toNat
        let clients1 := hub_put (.client ptr) (bytes "** Goodbye!\n") clients
        let str_buffer := snprintf (List.replicate len 0) len
          (bytes "** " ++ client.nick.getD [] ++ bytes " has left server.\n")
        let clients2 := clients_send clients1 (str_buffer.take len) (some ptr)
        let clients3 := hub_put console ((str_buffer.drop 3).take (len - 3)) clients2
        match clients_disconnect clients3 ptr with
        | .error e => .error e
        | .ok clients4 => .ok (clients4, 0)

/-- The loop over the other parameters in `cmd_clt_p2p`. -/
def p2p_params (b : bufref) : List (List Nat) → clients_t → clients_t
  | [], clients => clients
  | arg :: rest, clients => p2p_params b rest (hub_put b arg (hub_put b (bytes " ") clients))

/-- The error branch of `cmd_clt_p2p` and `cmd_clt_accept` for an unknown nickname. -/
def p2p_refuse (buffer : Option bufref) (id : List Nat) (clients : clients_t) :
    Except Fault (clients_t × Int) :=
  match buffer with
  | none => .error Fault.assertion
  | some b =>
    .ok (hub_put b (bytes " nick\nNo such nickname.\n")
      (hub_put b id (hub_put b ((bytes "/refuse ").take 6) clients)), 0)

/-- Client commands `/receive`, `/send` and `/refuse` (`cmd_clt_p2p`). -/
def cmd_clt_p2p (arg_count : Int) (args : List (List Nat)) (_console : bufref)
    (buffer : Option bufref) (data : Option Nat) (clients : clients_t) :
    Except Fault (clients_t × Int) :=
  if ¬ (arg_count > 2) then .error Fault.assertion
  else
    match clients_get_client_from_name clients (args.getD 1 []) with
    | .error e => .error e
    | .ok none => p2p_refuse buffer (args.getD 2 []) clients
    | .ok (some clt) =>
      match data.bind (client_lookup clients) with
      | none => .error Fault.bounds
      | some client =>
        let c1 := hub_put (.client clt) (args.getD 0 []) (hub_put (.client clt) (bytes "/") clients)
        let c2 := hub_put (.client clt) ((client.nick.getD []).take client.nick_len.toNat)
          (hub_put (.client clt) (bytes " ") c1)
        let c3 := p2p_params (.client clt) ((args.take arg_count.toNat).drop 2) c2
        .ok (hub_put (.client clt) (bytes "\n") c3, 0)

/-- Client command `/accept` (`cmd_clt_accept`). -/
def cmd_clt_accept (arg_count : Int) (args : List (List Nat)) (_console : bufref)
    (buffer : Option bufref) (data : Option Nat) (clients : clients_t) :
    Except Fault (clients_t × Int) :=
  if arg_count ≠ 5 then .error Fault.assertion
  else
    match clients_get_client_from_name clients (args.getD 1 []) with
    | .error e => .error e
    | .ok none => p2p_refuse buffer (args.getD 2 []) clients
    | .ok (some clt) =>
      match data.bind (client_lookup clients) with
      | none => .error Fault.bounds
      | some client =>
        let b := bufref.client clt
        let c1 := hub_put b ((client.nick.getD []).take client.nick_len.toNat)
          (hub_put b (bytes "/accept ") clients)
        let c2 := hub_put b (args.getD 2 []) (hub_put b (bytes " ") c1)
        let c3 := hub_put b (args.getD 3 []) (hub_put b (bytes " ") c2)
        if 58 ∈ client.addr then
          let c4 := hub_put b (client.addr.takeWhile (· ≠ 58)) (hub_put b (bytes " ") c3)
          let c5 := hub_put b (args.getD 4 []) (hub_put b (bytes " ") c4)
          .ok (hub_put b (bytes "\n") c5, 0)
        else .error Fault.bounds

/-- Client command `/help` (`cmd_clt_help`). -/
def cmd_clt_help (arg_count : Int) (_args : List (List Nat)) (_console : bufref)
    (buffer : Option bufref) (_data : Option Nat) (clients : clients_t) :
    Except Fault (clients_t × Int) :=
  match buffer with
  | none => .error Fault.assertion
  | some b =>
    if arg_count ≠ 1 then .error Fault.assertion
    else .ok (hub_put b (bytes ("/connect <nickname>: choose a nickname.\n" ++
      "/who: get the connected client list.\n" ++
      "/quit: disconnect from the server.\n" ++
      "/help: get the command list.\n" ++
      "/receive <nickname> <id> <mode> <filename>: recieve a file from a user.\n" ++
      "/send <nickname> <id> <mode> <filename>: send a file to another user.\n" ++
      "/accept <nickname> <id1> <id2> <port>: accept a file transfer.\n" ++
      "/refuse <nickname> <id> <reason>: refuse a file transfer.\n")) clients, 0)

/-- Table `server_commands` of srvcmd.c (console commands). -/
def server_commands : List hub_command :=
  [ ⟨bytes "help", 0, none, cmd_srv_help⟩,
    ⟨bytes "kill", 1, some (bytes "<nickname>"), cmd_srv_kill⟩,
    ⟨bytes "shutdown", 0, none, cmd_srv_shutdown⟩,
    ⟨bytes "who", 0, none, cmd_srv_who⟩ ]

/-- Table `client_commands` of srvcmd.c. -/
def client_commands : List hub_command :=
  [ ⟨bytes "accept", 4, some (bytes "<nickname> <id1> <id2> <port>"), cmd_clt_accept⟩,
    ⟨bytes "connect", 1, some (bytes "<nickname>"), cmd_clt_connect⟩,
    ⟨bytes "help", 0, none, cmd_clt_help⟩,
    ⟨bytes "quit", 0, none, cmd_clt_quit⟩,
    ⟨bytes "receive", 4, some (bytes "<nickname> <id> <mode> <filename>"), cmd_clt_p2p⟩,
    ⟨bytes "refuse", 3, some (bytes "<nickname> <id> <reason>"), cmd_clt_p2p⟩,
    ⟨bytes "send", 4, some (bytes "<nickname> <id> <mode> <filename>"), cmd_clt_p2p⟩,
    ⟨bytes "who", 0, none, cmd_srv_who⟩ ]

/-- Function `srvcmd_exec`. -/
def srvcmd_exec (command : List Nat) (type : srvcmd_type_t) (console : bufref)
    (buffer : Option bufref) (clients : clients_t) (client : Option Nat) :
    Except Fault (clients_t × Int) :=
  if buffer = none then .error Fault.assertion
  else
    match type with
    | .SRVCMD_TYPE_SERVER =>
      command_exec hub_put command server_commands server_commands.length console buffer
        client clients
    | .SRVCMD_TYPE_CLIENT =>
      command_exec hub_put command client_commands client_commands.length console buffer
        client clients

/-- The body of the `while` loop of `client_input_lines` for one line; `len` is the nickname
length read before the loop. -/
def client_input_line (ptr : Nat) (len : Int) (line : line_t) (clients : clients_t) :
    Except Fault clients_t :=
  match client_lookup clients ptr with
  | none => .error Fault.bounds
  | some client =>
    if line.start.getD line.data 0 ≠ 47 then
      if client.nick_len > 0 then
        let s1 := memcpy line.start 0 ((client.nick.getD []).take len.toNat)
        let s2 := (s1.set len.toNat 58).set (len.toNat + 1) 32
        .ok (clients_send clients (s2.take (line.length + len.toNat + 2)) (some ptr))
      else .ok (hub_put (.client ptr) msg_auth clients)
    else
      let command := line.start.drop (line.data + 1)
      if client.nick_len > 0 then
        match srvcmd_exec command .SRVCMD_TYPE_CLIENT .console (some (.client ptr)) clients
          (some ptr) with
        | .error e => .error e
        | .ok (clients', _) => .ok clients'
      else
        match command_get_tokens command with
        | .error e => .error e
        | .ok (arg_count, args, command') =>
          match client_auth_command ptr clients arg_count (args.map (cstr command')) with
          | .error e => .error e
          | .ok (clients', res) =>
            if res = 1 then .ok (hub_put (.client ptr) msg_auth clients') else .ok clients'

/-- The `while` loop of `client_input_lines`. -/
def client_input_loop (ptr : Nat) (len : Int) : Nat → clients_t → Except Fault clients_t
  | 0, _ => .error Fault.fuel
  | fuel + 1, clients =>
    match client_lookup clients ptr with
    | none => .error Fault.bounds
    | some client =>
      match iobuffer_input_line client.buffer (len + 2).toNat with
      | .error e => .error e
      | .ok (none, buffer) =>
        .ok (client_update clients ptr (fun c => { c with buffer := buffer }))
      | .ok (some line, buffer) =>
        match client_input_line ptr len line
          (client_update clients ptr (fun c => { c with buffer := buffer })) with
        | .error e => .error e
        | .ok clients' => client_input_loop ptr len fuel clients'

/-- Function `client_input_lines` for the client at address `ptr`. Every iteration of the loop
takes a line out of the input queue, so its number of bytes plus one bounds the number of
iterations. -/
def client_input_lines (ptr : Nat) (clients : clients_t) : Except Fault clients_t :=
  match client_lookup clients ptr with
  | none => .error Fault.bounds
  | some client =>
    client_input_loop ptr client.nick_len
      ((dbuffer_contents client.buffer.input).length + 1) clients

/-- Function `clients_init`; `console` is the console buffer as initialised in `main`. -/
def clients_init (console : iobuffer_t) (srv_sock : Int) : clients_t :=
  { number := 0, list := [], read_fds := [], write_fds := [], console := console,
    srv_sock := srv_sock, hash := hash_init }

/-- Function `clients_add`: `ptr` is the address returned by `malloc`, `sock` the descriptor
returned by `accept` and `addr` the address string written by `snprintf`. -/
def clients_add (clients : clients_t) (ptr : Nat) (sock : Int) (addr : List Nat) : clients_t :=
  let buffer := snprintf (List.replicate 43 0) 43
    (bytes "Client `" ++ addr ++ bytes "' connected.\n")
  let len := (buffer.takeWhile (· ≠ 0)).length
  let clients1 := hub_put .console (buffer.take len) clients
  let client : client_t :=
    { ptr := ptr, buffer := iobuffer_init sock sock (some 0) (some 1) 10, nick := none,
      nick_len := 0, addr := addr, addr_len := addr.length,
      hash_elm := { addr := ptr, alloced := 0, object := 0, str := [], key := 0 } }
  { clients1 with list := clients1.list ++ [client], number := clients1.number + 1 }

/-- Function `clients_remove` for the client at address `ptr`. -/
def clients_remove (clients : clients_t) (ptr : Nat) : Except Fault clients_t :=
  match client_lookup clients ptr with
  | none => .error Fault.bounds
  | some client =>
    if clients.number = 0 then .error Fault.assertion
    else
      let sock := iobuffer_get_input_fd client.buffer
      let c1 := client_update { clients with read_fds := FD_CLR sock clients.read_fds } ptr
        (fun c => { c with buffer := iobuffer_free c.buffer })
      let name := match client.nick with
        | some nick => nick
        | none => client.addr
      let len := name.length + 25
      let b1 := snprintf (List.replicate len 0) len
        (bytes "Client `" ++ name ++ bytes "' disconnected.\n")
      let c2 := hub_put .console (b1.take len) c1
      let c3 := if client.nick_len > 0 then
          clients_send c2
            ((snprintf b1 len (bytes "** " ++ name ++ bytes " disconnected.\n")).take (len - 6))
            (some ptr)
        else c2
      let r := match client.nick with
        | some _ => hash_remove c3.hash client.hash_elm
        | none => .ok c3.hash
      match r with
      | .error e => .error e
      | .ok hash =>
        .ok { c3 with hash := hash, list := c3.list.filter (fun c => c.ptr ≠ ptr),
                      number := c3.number - 1 }

/-- The linked list `table[k]` of a hash table. -/
def bucket (hash : hash_t) (k : Nat) : List hash_element_t := hash.table.getD k []

/-- The nicknames held in the nickname index: the strings of all elements of the table. -/
def index_nicks (clients : clients_t) : List (List Nat) :=
  clients.hash.table.flatten.map (fun e => e.str)

/-- The effect of reads and writes on the descriptors (`iobuffer_read`, `iobuffer_write`,
`select`, `FD_SET`): the queues of the console and of the clients and the descriptor sets
change, everything else stays. Any new contents is allowed. -/
def hub_io (clients : clients_t) (console : iobuffer_t) (buffers : Nat → iobuffer_t)
    (read_fds write_fds : List Int) : clients_t :=
  { clients with console := console, read_fds := read_fds, write_fds := write_fds,
                 list := clients.list.map (fun c => { c with buffer := buffers c.ptr }) }

/-- The states of the hub: from `clients_init`, by `clients_add` (with a fresh address), by
input and output on the descriptors, by `client_input_lines` on a client that is not
draining (as called from `clients_read`), by a console command or message (`console_input`),
and by `clients_remove`. -/
inductive hub_reachable : clients_t → Prop
  | init (console : iobuffer_t) (srv_sock : Int) :
      hub_reachable (clients_init console srv_sock)
  | add (s : clients_t) (ptr : Nat) (sock : Int) (addr : List Nat) :
      hub_reachable s → ptr ∉ s.list.map (fun c => c.ptr) →
      hub_reachable (clients_add s ptr sock addr)
  | io (s : clients_t) (console : iobuffer_t) (buffers : Nat → iobuffer_t)
      (read_fds write_fds : List Int) :
      hub_reachable s → hub_reachable (hub_io s console buffers read_fds write_fds)
  | input (s s' : clients_t) (client : client_t) :
      hub_reachable s → client ∈ s.list → client.nick_len ≠ -1 →
      client_input_lines client.ptr s = .ok s' → hub_reachable s'
  | console_command (s s' : clients_t) (command : List Nat) (res : Int) :
      hub_reachable s →
      srvcmd_exec command .SRVCMD_TYPE_SERVER .console (some .console) s none = .ok (s', res) →
      hub_reachable s'
  | console_message (s : clients_t) (data : List Nat) :
      hub_reachable s → hub_reachable (clients_send s data none)
  | remove (s s' : clients_t) (ptr : Nat) :
      hub_reachable s → clients_remove s ptr = .ok s' → hub_reachable s'

/-- Consistency of the registry: the table has `HASH_SIZE` lists, the client addresses are
pairwise distinct, a client without nickname has `nick_len ≤ 0`, the element of a client with a
nickname is in the list of its key, and every element of the table is under the key of its
string, holds a valid nickname and is the element of a client of the list with that nickname;
the strings in one list are pairwise distinct. -/
def hub_inv (s : clients_t) : Prop :=
  s.hash.table.length = HASH_SIZE ∧
  (s.list.map (fun c => c.ptr)).Nodup ∧
  (∀ c ∈ s.list, c.nick = none → c.nick_len ≤ 0) ∧
  (∀ c ∈ s.list, ∀ n, c.nick = some n →
    c.hash_elm ∈ bucket s.hash c.hash_elm.key ∧ c.hash_elm.str = n ∧
    c.hash_elm.addr = c.ptr) ∧
  (∀ k, ∀ e ∈ bucket s.hash k,
    hash_function e.str = k ∧ e.key = k ∧ e.str ≠ [] ∧ 58 ∉ e.str ∧ e.object = e.addr ∧
    ∃ c ∈ s.list, c.ptr = e.addr ∧ c.nick = some e.str ∧ c.hash_elm = e) ∧
  (∀ k, ((bucket s.hash k).map (fun e => e.str)).Nodup)

/-- Whether a run ended with a result. -/
def is_ok {α : Type} (r : Except Fault α) : Bool :=
  match r with
  | .ok _ => true
  | .error _ => false

/-- The result of a run, or the given state when it ended with a fault. -/
def result_or (s : clients_t) (r : Except Fault clients_t) : clients_t :=
  match r with
  | .ok s' => s'
  | .error _ => s

/-- The client `ptr` receives `data` (read by `iobuffer_read` into its input queue). -/
def hub_receive (s : clients_t) (ptr : Nat) (data : List Nat) : clients_t :=
  hub_io s s.console
    (fun p => match client_lookup s p with
      | some c =>
        if p = ptr then { c.buffer with input := (dbuffer_put_data c.buffer.input data).1 }
        else c.buffer
      | none => iobuffer_init 0 0 none none 10)
    s.read_fds s.write_fds

/-- Example: a hub with two connected clients, at addresses 100 and 200. -/
def hub_two : clients_t :=
  clients_add (clients_add (clients_init (iobuffer_init 0 1 (some 0) (some 1) 10) 3)
    100 4 (bytes "1.2.3.4:5")) 200 5 (bytes "1.2.3.5:6")

/-- Example: client 100 has sent `/connect bob`. -/
def hub_bob : clients_t :=
  result_or hub_two (client_input_lines 100 (hub_receive hub_two 100 (bytes "/connect bob\n")))

/-- Example: client 100, authenticated as `bob`, has then sent `/quit`. -/
def hub_bob_quit : clients_t :=
  result_or hub_bob (client_input_lines 100 (hub_receive hub_bob 100 (bytes "/quit\n")))

/-- Example: with `bob` authenticated, client 200 has sent `/connect alice` and the message
`hello` in one batch. -/
def hub_alice_hello : clients_t :=
  result_or hub_bob
    (client_input_lines 200 (hub_receive hub_bob 200 (bytes "/connect alice\nhello\n")))

/-- The outcome of a rejected `/connect` of the client at `ptr`: `msg` is appended to the
output queue of that client, which stays without nickname; everything else is unchanged. -/
def connect_rejected_with (s s' : clients_t) (ptr : Nat) (msg : List Nat) : Prop :=
  s'.hash = s.hash ∧ index_nicks s' = index_nicks s ∧ s'.console = s.console ∧
  s'.number = s.number ∧ s'.read_fds = s.read_fds ∧ s'.write_fds = s.write_fds ∧
  List.Forall₂ (fun c c' =>
      (c.ptr ≠ ptr → c' = c) ∧
      (c.ptr = ptr → c'.ptr = c.ptr ∧ c'.nick = none ∧ c'.nick_len = 0 ∧ c'.addr = c.addr ∧
        c'.addr_len = c.addr_len ∧ c'.hash_elm = c.hash_elm ∧
        c'.buffer.input = c.buffer.input ∧
        dbuffer_contents c'.buffer.output = dbuffer_contents c.buffer.output ++ msg))
    s.list s'.list

/-! ## Further properties of the hub state -/

/-- A byte that can stand in an argument string of a command: not NUL, tab, LF or space. -/
def is_token_byte (x : Nat) : Prop := x ≠ 0 ∧ x ≠ 9 ∧ x ≠ 10 ∧ x ≠ 32

/-- The fields of a client that are written once: `addr_len` is the length of the address
string, and a stored nickname is an argument string whose length is `nick_len` unless the
client is draining. -/
def client_fields (c : client_t) : Prop :=
  c.addr_len = c.addr.length ∧
  ∀ n, c.nick = some n → (c.nick_len = n.length ∨ c.nick_len = -1) ∧ ∀ x ∈ n, is_token_byte x

/-- Every client of the list satisfies `client_fields`. -/
def hub_fields (s : clients_t) : Prop := ∀ c ∈ s.list, client_fields c

/-- Example: client 100, authenticated as `bob`, has sent `/quit` and the message `hello` in
one batch. -/
def hub_bob_quit_hello : clients_t :=
  result_or hub_bob (client_input_lines 100 (hub_receive hub_bob 100 (bytes "/quit\nhello\n")))

/-- The outcome of enqueuing `data` on the channel of the client at address `t` and of nothing
else: the output queue of that client holds `data` after its former contents, and every other
queue, every other client, the console, the index and the descriptor sets are unchanged. -/
def enqueued_on (s s' : clients_t) (t : Nat) (data : List Nat) : Prop :=
  s'.hash = s.hash ∧ s'.console = s.console ∧ s'.number = s.number ∧
  s'.read_fds = s.read_fds ∧ s'.write_fds = s.write_fds ∧ s'.srv_sock = s.srv_sock ∧
  List.Forall₂ (fun c c' =>
      (c.ptr ≠ t → c' = c) ∧
      (c.ptr = t → c'.ptr = c.ptr ∧ c'.nick = c.nick ∧ c'.nick_len = c.nick_len ∧
        c'.addr = c.addr ∧ c'.addr_len = c.addr_len ∧ c'.hash_elm = c.hash_elm ∧
        c'.buffer.input = c.buffer.input ∧ dbuffer_wf c'.buffer.output ∧
        dbuffer_contents c'.buffer.output = dbuffer_contents c.buffer.output ++ data))
    s.list s'.list

/-- Example: with `bob` authenticated, client 200 has sent `/connect alice`. -/
def hub_bob_alice : clients_t :=
  result_or hub_bob (client_input_lines 200 (hub_receive hub_bob 200 (bytes "/connect alice\n")))

/-- Well-formedness of a queue can be checked by evaluation. -/
instance dbuffer_wf_decidable (b : dbuffer_t) : Decidable (dbuffer_wf b) := by
  unfold dbuffer_wf ibuffer_wf
  infer_instance

/-! ## client/files.c -/

/-- Key length for file transfers (`FILE_KEY_LENGTH`). -/
def FILE_KEY_LENGTH : Nat := 16

/-- File transfer mode `files_mode_t`. -/
inductive files_mode_t where
  | FILES_MODE_SECURE
  | FILES_MODE_FAST
deriving DecidableEq, Repr

/-- File transfer direction `file_dir_t`. -/
inductive file_dir_t where
  | FILE_DIR_RECEIVE
  | FILE_DIR_SEND
deriving DecidableEq, Repr

/-- File transfer structure `file_t`; `addr` is the address of the structure, `prev` and `next`
are the pointers of the linked list (addresses, `none` for `NULL`), `key`, `nick` and `name`
the strings stored behind the structure. -/
structure file_t where
  addr : Nat
  prev : Option Nat
  next : Option Nat
  mode : files_mode_t
  dir : file_dir_t
  from_fd : Int
  to_fd : Int
  sock_fd : Int
  nick_len : Int
  name_len : Int
  key : List Nat
  nick : List Nat
  name : List Nat
  element : hash_element_t
deriving DecidableEq, Repr

/-- Server handler `server_t` of the participant as far as file transfers use it: the socket,
the buffer, the descriptor sets and the descriptor number pointed to. -/
structure server_t where
  sock : Int
  buffer : iobuffer_t
  read_fds : List Int
  write_fds : List Int
  num_fds : Int
deriving DecidableEq, Repr

/-- Files handler `files_t`. `files` is the head pointer of the transfer list and `heap` holds
the allocated `file_t` structures; `console` and `server` are the objects pointed to. -/
structure files_t where
  nicks : Option Nat
  files : Option Nat
  heap : List file_t
  console : iobuffer_t
  server : server_t
  mode : files_mode_t
  forbid : hash_t
  file_keys : hash_t
deriving DecidableEq, Repr

/-- The array `pool` of `generate_key` (without the terminating NUL). -/
def pool : List Nat := bytes "0123456789ABCDEFGHIJKLMNOPQRSTUVWXYZabcdefghijklmnopqrstuvwxyz+-"

/-- The `for` loop of `generate_key`, from index `i` on. `rand` is the sequence of the values
returned by the successive calls of `rand()`, `pos` the number of calls made so far; reading
`pool` outside the array is a bounds fault (`sizeof(pool) - 1` is `pool.length`). -/
def generate_key_loop (rand : Nat → Nat) (pos : Nat) : Nat → Nat → Except Fault (List Nat)
  | 0, _ => .ok []
  | n + 1, i =>
    match pool[rand (pos + i) % pool.length]? with
    | none => .error Fault.bounds
    | some c =>
      match generate_key_loop rand pos n (i + 1) with
      | .error e => .error e
      | .ok cs => .ok (c :: cs)

/-- Function `generate_key`: the string written to `buffer`. -/
def generate_key (rand : Nat → Nat) (pos : Nat) (length : Nat) : Except Fault (List Nat) :=
  generate_key_loop rand pos length 0

/-- The `for` loop of `verify_filename`, from index 1 on. -/
def verify_filename_loop : List Nat → Int
  | [] => 0
  | chr :: rest => if chr = 47 then 2 else verify_filename_loop rest

/-- Function `verify_filename`. -/
def verify_filename (name : List Nat) : Int :=
  match name with
  | [] => 1
  | chr :: rest => if chr = 46 then 1 else verify_filename_loop rest

/-- The structure at address `ptr`. -/
def file_lookup (files : files_t) (ptr : Nat) : Option file_t :=
  files.heap.find? (fun f => f.addr = ptr)

/-- An assignment through the pointer `ptr` to a `file_t`. -/
def file_update (files : files_t) (ptr : Nat) (g : file_t → file_t) : files_t :=
  { files with heap := files.heap.map (fun f => if f.addr = ptr then g f else f) }

/-- The key generation of `file_new`: `generate_key` is called until `hash_find` does not find
the key (`srand` changes nothing in the sequence of the values that `rand()` returns, which
is the given one). Returns the key and the number of `rand()` calls made so far. -/
def file_new_key (rand : Nat → Nat) (keys : hash_t) : Nat → Nat → Except Fault (List Nat × Nat)
  | 0, _ => .error Fault.fuel
  | fuel + 1, pos =>
    match generate_key rand pos FILE_KEY_LENGTH with
    | .error e => .error e
    | .ok key =>
      match hash_find keys key with
      | .error e => .error e
      | .ok (some _) => file_new_key rand keys fuel (pos + FILE_KEY_LENGTH)
      | .ok none => .ok (key, pos + FILE_KEY_LENGTH)

/-- Function `file_new`. `ptr` is the address returned by `malloc` and `fds` holds the values
found in the three descriptor fields, which `file_new` does not initialise. Returns the
handler, the address of the new structure and the number of `rand()` calls made so far. -/
def file_new (files : files_t) (ptr : Nat) (fds : Int × Int × Int) (nick name : List Nat)
    (mode : files_mode_t) (dir : file_dir_t) (rand : Nat → Nat) (pos fuel : Nat) :
    Except Fault (files_t × Nat × Nat) :=
  let nick_len : Int := nick.length + 1
  let name_len : Int := name.length + 1
  match file_new_key rand files.file_keys fuel pos with
  | .error e => .error e
  | .ok (key, pos') =>
    match hash_add files.file_keys key ptr ptr with
    | .error e => .error e
    | .ok (keys, element) =>
      let file : file_t :=
        { addr := ptr, prev := none, next := files.files, mode := mode, dir := dir,
          from_fd := fds.1, to_fd := fds.2.1, sock_fd := fds.2.2, nick_len := nick_len - 1,
          name_len := name_len - 1, key := key, nick := nick, name := name, element := element }
      .ok ({ files with file_keys := keys, files := some ptr, heap := file :: files.heap },
        ptr, pos')

/-- Function `file_delete` for the structure at address `ptr`; returns the handler and the
descriptors closed. -/
def file_delete (files : files_t) (ptr : Nat) : Except Fault (files_t × List Int) :=
  match file_lookup files ptr with
  | none => .error Fault.bounds
  | some file =>
    match hash_remove files.file_keys file.element with
    | .error e => .error e
    | .ok keys =>
      let rd1 := if file.from_fd ≠ -1 then FD_CLR file.from_fd files.server.read_fds
        else files.server.read_fds
      let c1 := if file.from_fd ≠ -1 then [file.from_fd] else []
      let wr1 := if file.to_fd ≠ -1 then FD_CLR file.to_fd files.server.write_fds
        else files.server.write_fds
      let c2 := if file.to_fd ≠ -1 then [file.to_fd] else []
      let rd2 := if file.sock_fd ≠ -1 then FD_CLR file.sock_fd rd1 else rd1
      let c3 := if file.sock_fd ≠ -1 then [file.sock_fd] else []
      let server := { files.server with read_fds := rd2, write_fds := wr1 }
      let files0 := { files with file_keys := keys, server := server }
      let files1 := match file.prev with
        | some p => file_update files0 p (fun f => { f with next := file.next })
        | none => { files0 with files := file.next }
      let files2 := match file.next with
        | some n => file_update files1 n (fun f => { f with prev := file.prev })
        | none => files1
      .ok ({ files2 with heap := files2.heap.filter (fun f => f.addr ≠ ptr) }, c1 ++ c2 ++ c3)

/-- Function `file_find`: the address of the transfer with the given key, or `NULL`. -/
def file_find (files : files_t) (key : List Nat) : Except Fault (Option Nat) :=
  match hash_find files.file_keys key with
  | .error e => .error e
  | .ok (some element) => .ok (some element.object)
  | .ok none => .ok none

/-- The structures that the loop `for (file = files->files; file != NULL; file = next)` of
`files_transfer` visits, in order, from the pointer given; the walk stops at a pointer to a
structure that is not allocated. -/
def files_walk (files : files_t) : Nat → Option Nat → List Nat
  | 0, _ => []
  | _ + 1, none => []
  | fuel + 1, some p =>
    match file_lookup files p with
    | none => []
    | some f => p :: files_walk files fuel f.next

/-- The transfers of the linked list `files->files`. -/
def files_list (files : files_t) : List Nat := files_walk files files.heap.length files.files

/-- Example: a handler without transfers, connected to a hub on descriptor 3. -/
def files_empty : files_t :=
  { nicks := none, files := none, heap := [],
    console := iobuffer_init 0 1 (some 0) (some 1) 10,
    server := { sock := 3, buffer := iobuffer_init 3 3 (some 0) (some 1) 10, read_fds := [0],
                write_fds := [1], num_fds := 4 },
    mode := .FILES_MODE_SECURE, forbid := hash_init, file_keys := hash_init }

/-- The handler of a result, or the given one when the run ended with a fault. -/
def files_or {α : Type} (files : files_t) (r : Except Fault (files_t × α)) : files_t :=
  match r with
  | .ok r => r.1
  | .error _ => files

/-- Example: one transfer, created by `file_new` at address 1000 with the random values
0, 1, 2, .. -/
def table_one : files_t :=
  files_or files_empty (file_new files_empty 1000 (-1, -1, -1) (bytes "bob") (bytes "a.txt")
    .FILES_MODE_SECURE .FILE_DIR_RECEIVE (fun i => i) 0 1)

/-- Example: a second transfer, created at address 2000. -/
def table_two : files_t :=
  files_or table_one (file_new table_one 2000 (-1, -1, -1) (bytes "bob") (bytes "b.txt")
    .FILES_MODE_SECURE .FILE_DIR_RECEIVE (fun i => i) 16 1)

/-- Example: the older of the two transfers is deleted. -/
def table_two_deleted : files_t := files_or table_two (file_delete table_two 1000)

/-- Consistency of the transfer table: the key table has `HASH_SIZE` lists, the allocated
structures have pairwise distinct addresses, the element of each structure is in the list of
its key and designates the structure and its id, every element of the table is the element of
an allocated structure, the ids are pairwise distinct, and each id has `FILE_KEY_LENGTH`
characters of `pool`. -/
def files_inv (files : files_t) : Prop :=
  files.file_keys.table.length = HASH_SIZE ∧
  (files.heap.map (fun f => f.addr)).Nodup ∧
  (∀ f ∈ files.heap, f.element ∈ bucket files.file_keys f.element.key ∧
    f.element.str = f.key ∧ f.element.addr = f.addr ∧
    f.element.key = hash_function f.key ∧ f.element.object = f.addr) ∧
  (∀ k, ∀ e ∈ bucket files.file_keys k, e.key = k ∧ ∃ f ∈ files.heap, f.element = e) ∧
  (files.heap.map (fun f => f.key)).Nodup ∧
  (∀ f ∈ files.heap, f.key.length = FILE_KEY_LENGTH ∧ ∀ c ∈ f.key, c ∈ pool)

/-- The transfer tables of the participant: from a handler without transfers and with an
empty key table (`files_init`), by `file_new` (at a fresh address), by `file_delete`, by
assignments to the descriptor fields of a transfer, and by changes of the other fields of the
handler. -/
inductive files_reachable : files_t → Prop
  | init (files : files_t) :
      files.heap = [] → files.file_keys = hash_init → files_reachable files
  | new (files files' : files_t) (ptr : Nat) (fds : Int × Int × Int) (nick name : List Nat)
      (mode : files_mode_t) (dir : file_dir_t) (rand : Nat → Nat) (pos fuel p pos' : Nat) :
      files_reachable files → ptr ∉ files.heap.map (fun f => f.addr) →
      file_new files ptr fds nick name mode dir rand pos fuel = .ok (files', p, pos') →
      files_reachable files'
  | delete (files files' : files_t) (ptr : Nat) (closed : List Int) :
      files_reachable files → file_delete files ptr = .ok (files', closed) →
      files_reachable files'
  | set_fds (files : files_t) (ptr : Nat) (from_fd to_fd sock_fd : Int) :
      files_reachable files →
      files_reachable (file_update files ptr
        (fun f => { f with from_fd := from_fd, to_fd := to_fd, sock_fd := sock_fd }))
  | frame (files : files_t) (nicks : Option Nat) (console : iobuffer_t) (server : server_t)
      (mode : files_mode_t) (forbid : hash_t) :
      files_reachable files →
      files_reachable { files with nicks := nicks, console := console, server := server,
                                   mode := mode, forbid := forbid }

/-- Macro `FD_SET`. -/
def FD_SET (fd : Int) (fds : List Int) : List Int := if fd ∈ fds then fds else fd :: fds

/-- The digits of the conversion `%u`, most significant first, before the digits `acc`. -/
def fmt_u_loop : Nat → Nat → List Nat → List Nat
  | 0, _, acc => acc
  | fuel + 1, n, acc =>
    if n < 10 then (n + 48) :: acc else fmt_u_loop fuel (n / 10) ((n % 10 + 48) :: acc)

/-- Conversion `%u` of a number. -/
def fmt_u (n : Nat) : List Nat := fmt_u_loop (n + 1) n []

/-- The results of the system calls that the file transfer requests make: whether
`stat(name, ..)` returns 0, the values of `open(name, O_RDONLY)` and of `creat(name, 0666)`,
and the value of `create_socket(mode, &port)` with the port it stores (the outcome of its
`socket`, `bind`, `listen` and `getsockname` calls). -/
structure env_t where
  stat : List Nat → Bool
  open_ : List Nat → Int
  creat : List Nat → Int
  create_socket : files_mode_t → Int × Nat

/-- A system call made by a file transfer request. -/
inductive syscall_t where
  | stat (name : List Nat)
  | open_ (name : List Nat)
  | creat (name : List Nat)
  | create_socket (mode : files_mode_t)
  | close (fd : Int)
deriving DecidableEq, Repr

/-- Function `server_send` of client/server.c. -/
def server_send (server : server_t) (data : List Nat) : server_t :=
  if server.sock ≠ -1 then { server with buffer := iobuffer_put_data server.buffer data }
  else server

/-- Call `server_send(files->server, data, |data|)`. -/
def files_send (files : files_t) (data : List Nat) : files_t :=
  { files with server := server_send files.server data }

/-- Call `iobuffer_put_data(files->console, data, |data|)`. -/
def files_print (files : files_t) (data : List Nat) : files_t :=
  { files with console := iobuffer_put_data files.console data }

/-- Function `send_refuse`. -/
def send_refuse (files : files_t) (nick key reason : List Nat) : files_t :=
  files_send (files_send (files_send (files_send (files_send (files_send
    (files_send files (bytes "/refuse ")) nick) (bytes " ")) key) (bytes " ")) reason)
    (bytes "\n")

/-- Function `send_accept` for the transfer at address `ptr`; `port` is an `unsigned short`. -/
def send_accept (files : files_t) (ptr : Nat) (key : List Nat) (port : Nat) :
    Except Fault files_t :=
  match file_lookup files ptr with
  | none => .error Fault.bounds
  | some file =>
    let f1 := files_send files (bytes "/accept ")
    let f2 := files_send f1 (file.nick.take file.nick_len.toNat)
    let f3 := files_send (files_send f2 (bytes " ")) key
    let f4 := files_send (files_send f3 (bytes " ")) (file.key.take FILE_KEY_LENGTH)
    let s := bytes " " ++ fmt_u port ++ bytes "\n"
    let buffer := snprintf (List.replicate 8 0) 8 s
    .ok (files_send f4 (buffer.take s.length))

/-- Function `files_is_forbidden`. -/
def files_is_forbidden (files : files_t) (nick : List Nat) : Except Fault Bool :=
  match hash_find files.forbid nick with
  | .error e => .error e
  | .ok r => .ok r.isSome

/-- The mode named by a string, as selected at the head of `files_exec_receive` and
`files_exec_send`. -/
def parse_mode (mode : List Nat) : Option files_mode_t :=
  if strcmp mode (bytes "secure") = 0 then some .FILES_MODE_SECURE
  else if strcmp mode (bytes "fast") = 0 then some .FILES_MODE_FAST
  else none

/-- The call `snprintf(buffer, len, .., &len)` followed by
`iobuffer_put_data(files->console, buffer, len)`, for a format that produces `s`. -/
def files_note (files : files_t) (len : Nat) (s : List Nat) : files_t :=
  files_print files ((snprintf (List.replicate len 0) len s).take s.length)

/-- The end of `files_exec_receive` and `files_exec_send` once the transfer at `ptr` holds its
descriptors: the socket is set in the read set, the descriptor number is raised, and
`send_accept` is called. -/
def files_listen (files : files_t) (ptr : Nat) (sock : Int) (key : List Nat) (port : Nat) :
    Except Fault files_t :=
  let server := files.server
  let server1 := { server with read_fds := FD_SET sock server.read_fds,
                               num_fds := if sock ≥ server.num_fds then sock + 1
                                          else server.num_fds }
  send_accept { files with server := server1 } ptr key (port % 65536)

/-- Function `files_exec_receive`. `env` gives the results of the system calls, `ptr`, `fds`,
`rand`, `pos` and `fuel` are handed to `file_new`. Returns the handler, the return value and
the system calls made. -/
def files_exec_receive (env : env_t) (files : files_t) (nick key mode name : List Nat)
    (ptr : Nat) (fds : Int × Int × Int) (rand : Nat → Nat) (pos fuel : Nat) :
    Except Fault (files_t × Int × List syscall_t) :=
  match parse_mode mode with
  | none => .ok (send_refuse files nick key (bytes "mode"), 0, [])
  | some fmode =>
    if verify_filename name ≠ 0 then .ok (send_refuse files nick key (bytes "name"), 0, [])
    else
      let len := nick.length + name.length + 32
      match files_is_forbidden files nick with
      | .error e => .error e
      | .ok true =>
        let f1 := files_note files len
          (nick ++ bytes " attempted to get the `" ++ name ++ bytes "' file.\n")
        .ok (send_refuse f1 nick key (bytes "forbid"), 0, [])
      | .ok false =>
        let fd := env.open_ name
        if fd = -1 then
          let f1 := files_note files len
            (nick ++ bytes " attempted to get the `" ++ name ++ bytes "' file.\n")
          .ok (send_refuse f1 nick key (bytes "open"), 0, [.open_ name])
        else
          match file_new files ptr fds nick name fmode .FILE_DIR_SEND rand pos fuel with
          | .error e => .error e
          | .ok (f1, file, _) =>
            let r := env.create_socket fmode
            if r.1 = -1 then
              .ok (send_refuse f1 nick key (bytes "intern"), 2,
                [.open_ name, .create_socket fmode, .close fd])
            else
              let f2 := files_note f1 len
                (nick ++ bytes " is getting the `" ++ name ++ bytes "' file.\n")
              let f3 := file_update f2 file
                (fun f => { f with from_fd := fd, to_fd := -1, sock_fd := r.1 })
              match files_listen f3 file r.1 key r.2 with
              | .error e => .error e
              | .ok f4 => .ok (f4, 0, [.open_ name, .create_socket fmode])

/-- Function `files_exec_send`, read as `files_exec_receive`. -/
def files_exec_send (env : env_t) (files : files_t) (nick key mode name : List Nat)
    (ptr : Nat) (fds : Int × Int × Int) (rand : Nat → Nat) (pos fuel : Nat) :
    Except Fault (files_t × Int × List syscall_t) :=
  match parse_mode mode with
  | none => .ok (send_refuse files nick key (bytes "mode"), 0, [])
  | some fmode =>
    let len := nick.length + name.length + 33
    match files_is_forbidden files nick with
    | .error e => .error e
    | .ok true =>
      let f1 := files_note files len
        (nick ++ bytes " attempted to send the `" ++ name ++ bytes "' file.\n")
      .ok (send_refuse f1 nick key (bytes "forbid"), 0, [])
    | .ok false =>
      if env.stat name = true then
        .ok (send_refuse files nick key (bytes "exists"), 0, [.stat name])
      else
        let fd := env.creat name
        if fd = -1 then
          .ok (send_refuse files nick key (bytes "create"), 0, [.stat name, .creat name])
        else
          match file_new files ptr fds nick name fmode .FILE_DIR_RECEIVE rand pos fuel with
          | .error e => .error e
          | .ok (f1, file, _) =>
            let r := env.create_socket fmode
            if r.1 = -1 then
              .ok (send_refuse f1 nick key (bytes "intern"), 2,
                [.stat name, .creat name, .create_socket fmode, .close fd])
            else
              let f2 := files_note f1 len
                (nick ++ bytes " is sending the `" ++ name ++ bytes "' file.\n")
              let f3 := file_update f2 file (fun f =>
                if fmode = .FILES_MODE_SECURE then
                  { f with to_fd := fd, from_fd := -1, sock_fd := r.1 }
                else { f with to_fd := fd, from_fd := r.1, sock_fd := -1 })
              match files_listen f3 file r.1 key r.2 with
              | .error e => .error e
              | .ok f4 => .ok (f4, 0, [.stat name, .creat name, .create_socket fmode])

/-- Example: no file exists; `creat` and `open` return descriptor 7 and `create_socket`
returns descriptor 8 on port 5000. -/
def env_fresh : env_t :=
  { stat := fun _ => false, open_ := fun _ => 7, creat := fun _ => 7,
    create_socket := fun _ => (8, 5000) }

/-- What is looked at in a transfer: name, role and descriptors. -/
structure transfer_view_t where
  name : List Nat
  dir : file_dir_t
  from_fd : Int
  to_fd : Int
  sock_fd : Int
deriving DecidableEq, Repr

/-- What is looked at in the outcome of a file transfer request: the return value, the system
calls made, the transfers of the table, and the bytes queued for the hub. -/
structure request_view_t where
  res : Int
  log : List syscall_t
  transfers : List transfer_view_t
  sent : List Nat
deriving DecidableEq, Repr

/-- The view of an outcome; `none` when the run ended with a fault. -/
def request_view (r : Except Fault (files_t × Int × List syscall_t)) : Option request_view_t :=
  match r with
  | .ok (f, res, log) =>
    some ⟨res, log, f.heap.map (fun x => ⟨x.name, x.dir, x.from_fd, x.to_fd, x.sock_fd⟩),
      dbuffer_contents f.server.buffer.output⟩
  | .error _ => none

/-- A call of `read`, `write`, `lseek`, `accept`, `recvfrom` or `connect` made by
`files_transfer`, with its result: for `read` the bytes stored (`none` for -1), for `write` the
bytes offered and the number accepted (`none` for -1). -/
inductive sysevent_t where
  | read (fd : Int) (count : Nat) (result : Option (List Nat))
  | write (fd : Int) (data : List Nat) (result : Option Nat)
  | lseek (fd : Int) (offset : Int)
  | accept (fd : Int) (result : Int)
  | recvfrom (fd : Int) (result : Option (List Nat))
  | connect (fd : Int) (result : Int)
deriving DecidableEq, Repr

/-- The descriptors as `files_transfer` meets them: the results that the coming calls of
`read`, `write`, `accept`, `recvfrom` and `connect` will have, in the order of the calls, and
the calls made so far. When the results given are used up, `read` and `recvfrom` return 0
bytes, `write` accepts all the bytes offered, `accept` returns -1 and `connect` 0. -/
structure sysio_t where
  reads : List (Option (List Nat))
  writes : List (Option Nat)
  accepts : List Int
  recvs : List (Option (List Nat))
  connects : List Int
  log : List sysevent_t
deriving DecidableEq, Repr

/-- Call `read(fd, .., count)`: the bytes stored, or `none` for -1; at most `count` bytes. -/
def sys_read (io : sysio_t) (fd : Int) (count : Nat) : sysio_t × Option (List Nat) :=
  let r := match io.reads.head? with
    | some (some d) => some (d.take count)
    | some none => none
    | none => some []
  ({ io with reads := io.reads.tail, log := io.log ++ [.read fd count r] }, r)

/-- Call `write(fd, data, |data|)`: the number of bytes accepted, or `none` for -1. -/
def sys_write (io : sysio_t) (fd : Int) (data : List Nat) : sysio_t × Option Nat :=
  let r := match io.writes.head? with
    | some (some k) => some (min k data.length)
    | some none => none
    | none => some data.length
  ({ io with writes := io.writes.tail, log := io.log ++ [.write fd data r] }, r)

/-- Call `lseek(fd, offset, SEEK_CUR)`. -/
def sys_lseek (io : sysio_t) (fd : Int) (offset : Int) : sysio_t :=
  { io with log := io.log ++ [.lseek fd offset] }

/-- Call `accept(fd, ..)`. -/
def sys_accept (io : sysio_t) (fd : Int) : sysio_t × Int :=
  let r := io.accepts.headD (-1)
  ({ io with accepts := io.accepts.tail, log := io.log ++ [.accept fd r] }, r)

/-- Call `recvfrom(fd, .., count, ..)`. -/
def sys_recvfrom (io : sysio_t) (fd : Int) (count : Nat) : sysio_t × Option (List Nat) :=
  let r := match io.recvs.head? with
    | some (some d) => some (d.take count)
    | some none => none
    | none => some []
  ({ io with recvs := io.recvs.tail, log := io.log ++ [.recvfrom fd r] }, r)

/-- Call `connect(fd, ..)`. -/
def sys_connect (io : sysio_t) (fd : Int) : sysio_t × Int :=
  let r := io.connects.headD 0
  ({ io with connects := io.connects.tail, log := io.log ++ [.connect fd r] }, r)

/-- The bytes that the descriptor `fd` accepted through the `write` calls of a log, in order. -/
def accepted_by (fd : Int) : List sysevent_t → List Nat
  | [] => []
  | .write fd' data (some k) :: rest =>
    if fd' = fd then data.take k ++ accepted_by fd rest else accepted_by fd rest
  | _ :: rest => accepted_by fd rest

/-- The bytes that the `read` calls of a log obtained from the descriptor `fd`, in order. -/
def read_from (fd : Int) : List sysevent_t → List Nat
  | [] => []
  | .read fd' _ (some d) :: rest =>
    if fd' = fd then d ++ read_from fd rest else read_from fd rest
  | _ :: rest => read_from fd rest

/-- The way the body of the loop of `files_transfer` ends for one transfer: the transfer stays
(`more`), it ended with success, `msg_success` being printed and `file_delete` called
(`done`), or `files_transfer` returns the given value. -/
inductive step_t where
  | more
  | done
  | ret (code : Int)
deriving DecidableEq, Repr

/-- Message `msg_data` of `files_transfer`. -/
def msg_data : List Nat := bytes "Arbitrary data to initiate transfer."

/-- Message `msg_success` of `files_transfer`. -/
def msg_success : List Nat := bytes "File succesfully transfered.\n"

/-- The `do .. while (len == sizeof(buffer))` loop of the secure mode in `files_transfer`;
`buffer` holds the `len` bytes last read. Returns the descriptors, the buffer and `len` at the
end of the loop (`none` for -1), or the value returned from inside the loop. -/
def secure_loop (file : file_t) : Nat → sysio_t → List Nat → Nat →
    Except Fault (sysio_t × List Nat × (Option Nat ⊕ Int))
  | 0, _, _, _ => .error Fault.fuel
  | fuel + 1, io, buffer, len =>
    let w := sys_write io file.to_fd (buffer.take len)
    match w.2 with
    | none => .ok (w.1, buffer, .inr 1)
    | some written =>
      let io1 := if written ≠ len ∧ file.dir = .FILE_DIR_SEND then
          sys_lseek w.1 file.from_fd ((written : Int) - len)
        else w.1
      let r := sys_read io1 file.from_fd 1024
      match r.2 with
      | none => .ok (r.1, buffer, .inl none)
      | some d =>
        let buffer1 := memcpy buffer 0 d
        if d.length = 1024 then secure_loop file fuel r.1 buffer1 d.length
        else .ok (r.1, buffer1, .inl (some d.length))

/-- The `case FILES_MODE_SECURE` of `files_transfer` for one transfer. The loop takes one
result of `read` per iteration, so their number plus two bounds its iterations. -/
def transfer_secure (file : file_t) (io : sysio_t) (buffer : List Nat) :
    Except Fault (sysio_t × List Nat × step_t) :=
  let r := sys_read io file.from_fd 1024
  match r.2 with
  | none => .ok (r.1, buffer, .ret 1)
  | some d =>
    let buffer1 := memcpy buffer 0 d
    if d.length = 0 then .ok (r.1, buffer1, .done)
    else
      match secure_loop file (io.reads.length + 2) r.1 buffer1 d.length with
      | .error e => .error e
      | .ok (io1, buffer2, .inr code) => .ok (io1, buffer2, .ret code)
      | .ok (io1, buffer2, .inl none) => .ok (io1, buffer2, .ret 1)
      | .ok (io1, buffer2, .inl (some len)) =>
        if len > 0 then .ok ((sys_write io1 file.to_fd (buffer2.take len)).1, buffer2, .more)
        else .ok (io1, buffer2, .more)

/-- The `case FILE_DIR_RECEIVE` of the fast mode in `files_transfer` for one transfer. A
`write` with the count `len - 1` for `len = 0` reads outside `buffer`. -/
def transfer_fast_receive (file : file_t) (io : sysio_t) (buffer : List Nat) :
    Except Fault (sysio_t × List Nat × step_t) :=
  let r := sys_read io file.from_fd 1024
  match r.2 with
  | none => .ok (r.1, buffer, .ret 1)
  | some d =>
    let buffer1 := memcpy buffer 0 d
    let len := d.length
    if len ≠ 1 then
      if len = 0 then .error Fault.bounds
      else
        let w := sys_write r.1 file.to_fd ((buffer1.drop 1).take (len - 1))
        if w.2 = none then .ok (w.1, buffer1, .ret 1)
        else if len ≠ 1024 ∨ buffer1.getD 0 0 ≠ 0 then .ok (w.1, buffer1, .done)
        else .ok (w.1, buffer1, .more)
    else if len ≠ 1024 ∨ buffer1.getD 0 0 ≠ 0 then .ok (r.1, buffer1, .done)
    else .ok (r.1, buffer1, .more)

/-- The `case FILE_DIR_SEND` of the fast mode in `files_transfer` for one transfer; returns
also the value of `file->sock_fd` afterwards. -/
def transfer_fast_send (file : file_t) (io : sysio_t) (buffer : List Nat) :
    Except Fault (sysio_t × List Nat × step_t × Int) :=
  if file.sock_fd = -2 then .ok (io, buffer, .done, -1)
  else
    let r := sys_read io file.from_fd 1023
    match r.2 with
    | none => .ok (r.1, buffer, .ret 1, file.sock_fd)
    | some d =>
      let buffer1 := memcpy buffer 1 d
      let len := d.length
      if len = 1023 then
        let buffer2 := buffer1.set 0 0
        .ok ((sys_write r.1 file.to_fd (buffer2.take 1024)).1, buffer2, .more, file.sock_fd)
      else
        let buffer2 := buffer1.set 0 1
        .ok ((sys_write r.1 file.to_fd (buffer2.take (len + 1))).1, buffer2, .more, -2)

/-- The results of the successive calls `read(fd, .., count)` on a regular file that holds `f`
from the position of the descriptor to its end, up to the first one shorter than `count`:
pieces of `count` bytes, then the shorter rest (possibly empty). -/
def file_reads (count : Nat) : Nat → List Nat → List (List Nat)
  | 0, _ => []
  | fuel + 1, f =>
    if f.length < count then [f] else f.take count :: file_reads count fuel (f.drop count)

/-- Descriptors whose `read` calls give the listed results in order, each `write` accepting
all the bytes offered, with no call made yet. -/
def io_reads (results : List (List Nat)) : sysio_t :=
  { reads := results.map some, writes := [], accepts := [], recvs := [], connects := [],
    log := [] }

/-- The byte strings offered to the successive `write` calls of a log on the descriptor `fd`;
on a connected datagram socket each is one datagram. -/
def sent_to (fd : Int) : List sysevent_t → List (List Nat)
  | [] => []
  | .write fd' data _ :: rest => if fd' = fd then data :: sent_to fd rest else sent_to fd rest
  | _ :: rest => sent_to fd rest

/-- The fast-mode sender of `files_transfer` over `n` successive passes on which the
descriptors of the transfer are ready, or until the transfer ends. -/
def fast_send_run (file : file_t) : Nat → sysio_t → List Nat →
    Except Fault (sysio_t × List Nat × step_t)
  | 0, io, buffer => .ok (io, buffer, .more)
  | n + 1, io, buffer =>
    match transfer_fast_send file io buffer with
    | .error e => .error e
    | .ok (io1, buffer1, .more, sock_fd) =>
      fast_send_run { file with sock_fd := sock_fd } n io1 buffer1
    | .ok (io1, buffer1, s, _) => .ok (io1, buffer1, s)

/-- The fast-mode receiver of `files_transfer` over `n` successive passes on which the
descriptors of the transfer are ready, or until the transfer ends. -/
def fast_receive_run (file : file_t) : Nat → sysio_t → List Nat →
    Except Fault (sysio_t × List Nat × step_t)
  | 0, io, buffer => .ok (io, buffer, .more)
  | n + 1, io, buffer =>
    match transfer_fast_receive file io buffer with
    | .error e => .error e
    | .ok (io1, buffer1, .more) => fast_receive_run file n io1 buffer1
    | .ok (io1, buffer1, s) => .ok (io1, buffer1, s)

/-- The secure mode of `files_transfer` over `n` successive passes on which the descriptors
of the transfer are ready, or until the transfer ends. -/
def secure_run (file : file_t) : Nat → sysio_t → List Nat →
    Except Fault (sysio_t × List Nat × step_t)
  | 0, io, buffer => .ok (io, buffer, .more)
  | n + 1, io, buffer =>
    match transfer_secure file io buffer with
    | .error e => .error e
    | .ok (io1, buffer1, .more) => secure_run file n io1 buffer1
    | .ok (io1, buffer1, s) => .ok (io1, buffer1, s)

/-- A transfer in the given mode and direction that reads the descriptor 5 and writes the
descriptor 6. -/
def file_5_6 (mode : files_mode_t) (dir : file_dir_t) : file_t :=
  { addr := 1, prev := none, next := none, mode := mode, dir := dir, from_fd := 5, to_fd := 6,
    sock_fd := -1, nick_len := 3, name_len := 1, key := bytes "0123456789abcdef",
    nick := bytes "bob", name := bytes "f",
    element := { addr := 1, alloced := 0, object := 1, str := bytes "0123456789abcdef",
                 key := hash_function (bytes "0123456789abcdef") } }

/-- Descriptors on which the first `read` gives `abcd`, the second `ef` and the third 0 bytes,
the first `write` accepts 4 bytes and the second a single one. -/
def io_short_write : sysio_t :=
  { reads := [some (bytes "abcd"), some (bytes "ef"), some []], writes := [some 4, some 1],
    accepts := [], recvs := [], connects := [], log := [] }

/-- What is looked at in the clients of a hub state: address, `nick_len` and the bytes of the
output queue, in list order. -/
def hub_queues (s : clients_t) : List (Nat × Int × List Nat) :=
  s.list.map (fun c => (c.ptr, c.nick_len, dbuffer_contents c.buffer.output))

/-- The state after the client at `ptr` has received the bytes `data` and `client_input_lines`
has run on it (the given state when the run ends with a fault). -/
def hub_after (s : clients_t) (ptr : Nat) (data : List Nat) : clients_t :=
  result_or s (client_input_lines ptr (hub_receive s ptr data))

/-- The state after the console command `command` (the given state when the run ends with a
fault). -/
def hub_console (s : clients_t) (command : List Nat) : clients_t :=
  match srvcmd_exec command .SRVCMD_TYPE_SERVER .console (some .console) s none with
  | .ok r => r.1
  | .error _ => s

/-- Example: `bob` and `alice` authenticated, with the descriptors of the console, of the
listening socket and of both clients in the read set. -/
def hub_bob_alice_fds : clients_t := { hub_bob_alice with read_fds := [0, 3, 4, 5] }

/-! ## client/files.c: handler initialisation, forbidden users and transfer requests -/

/-- Forbidden user structure `nick_t`; `addr` is the address of the structure, `prev` and
`next` are the pointers of the linked list. The allocated structures are held in a list apart
from the handler. -/
structure nick_t where
  addr : Nat
  prev : Option Nat
  next : Option Nat
  nick : List Nat
  element : hash_element_t
deriving DecidableEq, Repr

/-- Function `files_init`. `files` is the memory of the structure before the call, as the
caller hands it over (in `main` an automatic variable that nothing has written yet); the
fields that `files_init` does not assign keep what that memory holds. -/
def files_init (files : files_t) (console : iobuffer_t) : files_t :=
  { files with nicks := none, console := console, forbid := hash_init, file_keys := hash_init }

/-- Function `files_set_server`. -/
def files_set_server (files : files_t) (server : server_t) : files_t :=
  { files with server := server }

/-- Message `msg_already` of `files_forbid`. -/
def msg_already : List Nat := bytes "User already forbidden.\n"

/-- Message `msg_not` of `files_allow`. -/
def msg_not : List Nat := bytes "User not forbidden.\n"

/-- Function `files_forbid`. `heap` holds the allocated `nick_t` structures and `ptr` is the
address returned by `malloc`. Returns the handler, the structures and the return value. -/
def files_forbid (files : files_t) (heap : List nick_t) (ptr : Nat) (nick : List Nat) :
    Except Fault (files_t × List nick_t × Int) :=
  match hash_find files.forbid nick with
  | .error e => .error e
  | .ok none =>
    match hash_add files.forbid nick ptr ptr with
    | .error e => .error e
    | .ok (forbid, element) =>
      let snick : nick_t :=
        { addr := ptr, prev := none, next := files.nicks, nick := nick, element := element }
      .ok ({ files with forbid := forbid }, snick :: heap, 0)
  | .ok (some _) => .ok (files_print files msg_already, heap, 0)

/-- The assignments to `snick->prev->next` and to `snick->next->prev` that take `snick` out of
the linked list in `files_allow`. -/
def nick_unlink (heap : List nick_t) (snick : nick_t) : List nick_t :=
  let heap1 := match snick.prev with
    | some p => heap.map (fun (n : nick_t) =>
        if n.addr = p then { n with next := snick.next } else n)
    | none => heap
  match snick.next with
  | some q => heap1.map (fun (n : nick_t) =>
      if n.addr = q then { n with prev := snick.prev } else n)
  | none => heap1

/-- Function `files_allow`. The head pointer `files->nicks` is assigned when `snick->prev` is
`NULL`. -/
def files_allow (files : files_t) (heap : List nick_t) (nick : List Nat) :
    Except Fault (files_t × List nick_t) :=
  match hash_find files.forbid nick with
  | .error e => .error e
  | .ok none => .ok (files_print files msg_not, heap)
  | .ok (some element) =>
    match heap.find? (fun n => n.addr = element.object) with
    | none => .error Fault.bounds
    | some snick =>
      let nicks := match snick.prev with
        | some _ => files.nicks
        | none => snick.next
      match hash_remove files.forbid element with
      | .error e => .error e
      | .ok forbid =>
        .ok ({ files with nicks := nicks, forbid := forbid },
          (nick_unlink heap snick).filter (fun n => n.addr ≠ snick.addr))

/-- Function `files_set_mode`. -/
def files_set_mode (files : files_t) (mode : files_mode_t) : files_t :=
  { files with mode := mode }

/-- Function `send_transfer_init` for the transfer at address `ptr`. -/
def send_transfer_init (files : files_t) (ptr : Nat) : Except Fault files_t :=
  match file_lookup files ptr with
  | none => .error Fault.bounds
  | some file =>
    let f1 := match file.dir with
      | .FILE_DIR_RECEIVE => files_send files (bytes "/receive ")
      | .FILE_DIR_SEND => files_send files (bytes "/send ")
    let f2 := files_send f1 (file.nick.take file.nick_len.toNat)
    let f3 := files_send (files_send f2 (bytes " ")) (file.key.take FILE_KEY_LENGTH)
    let f4 := match files.mode with
      | .FILES_MODE_SECURE => files_send f3 (bytes " secure ")
      | .FILES_MODE_FAST => files_send f3 (bytes " fast ")
    .ok (files_send (files_send f4 (file.name.take file.name_len.toNat)) (bytes "\n"))

/-- Function `files_req_receive`, read as `files_exec_receive`. -/
def files_req_receive (env : env_t) (files : files_t) (nick from_ to_ : List Nat)
    (ptr : Nat) (fds : Int × Int × Int) (rand : Nat → Nat) (pos fuel : Nat) :
    Except Fault (files_t × Int × List syscall_t) :=
  if verify_filename from_ ≠ 0 ∨ verify_filename to_ ≠ 0 then
    .ok (files_print files (bytes "Error: invalid filename.\n"), 0, [])
  else if env.stat to_ = true then
    .ok (files_print files (bytes "Error: file already exists.\n"), 0, [.stat to_])
  else
    let fd := env.creat to_
    if fd = -1 then
      .ok (files_print files (bytes "Error: cannot create file.\n"), 0, [.stat to_, .creat to_])
    else
      match file_new files ptr fds nick from_ files.mode .FILE_DIR_RECEIVE rand pos fuel with
      | .error e => .error e
      | .ok (f1, file, _) =>
        let f2 := file_update f1 file
          (fun f => { f with from_fd := -1, to_fd := fd, sock_fd := -1 })
        match send_transfer_init f2 file with
        | .error e => .error e
        | .ok f3 => .ok (f3, 0, [.stat to_, .creat to_])

/-- Function `files_req_send`, read as `files_exec_receive`. -/
def files_req_send (env : env_t) (files : files_t) (nick from_ to_ : List Nat)
    (ptr : Nat) (fds : Int × Int × Int) (rand : Nat → Nat) (pos fuel : Nat) :
    Except Fault (files_t × Int × List syscall_t) :=
  if verify_filename from_ ≠ 0 ∨ verify_filename to_ ≠ 0 then
    .ok (files_print files (bytes "Error: invalid filename.\n"), 0, [])
  else
    let fd := env.open_ from_
    if fd = -1 then
      .ok (files_print files (bytes "Error: cannot open file.\n"), 0, [.open_ from_])
    else
      match file_new files ptr fds nick to_ files.mode .FILE_DIR_SEND rand pos fuel with
      | .error e => .error e
      | .ok (f1, file, _) =>
        let f2 := file_update f1 file
          (fun f => { f with from_fd := fd, to_fd := -1, sock_fd := -1 })
        match send_transfer_init f2 file with
        | .error e => .error e
        | .ok f3 => .ok (f3, 0, [.open_ from_])

/-- What the execution of one command of the participant finds around it: the results of the
system calls (`env`, and `gethostbyname`, `socket`, `connect` for `files_accept`), the address
`ptr` returned by `malloc`, the values `fds` found in the descriptor fields of a fresh
`file_t`, the values of `rand()` with the number `pos` of calls made before, and the bound
`fuel` on the key generations of `file_new`. -/
structure host_t where
  env : env_t
  gethostbyname : List Nat → Bool
  socket : files_mode_t → Int
  connect : Int → Int
  ptr : Nat
  fds : Int × Int × Int
  rand : Nat → Nat
  pos : Nat
  fuel : Nat

/-- Message `msg_connect` of `files_accept`. -/
def msg_connect : List Nat := bytes "Error while connecting to host.\n"

/-- Message `msg_accept` of `files_accept`. -/
def msg_accept : List Nat := bytes "File transfer accepted.  Transfer initiated.\n"

/-- The assignments of `files_accept` once the socket is connected: the descriptor fields of
the transfer, the descriptor sets and the descriptor number. -/
def accept_set_fds (files : files_t) (file : file_t) (sock : Int) : files_t :=
  let server := files.server
  let files1 := match file.dir with
    | .FILE_DIR_RECEIVE =>
      if file.mode = files_mode_t.FILES_MODE_FAST then
        { file_update files file.addr (fun f => { f with from_fd := sock, sock_fd := sock })
          with server := { server with write_fds := FD_SET sock server.write_fds } }
      else
        { file_update files file.addr (fun f => { f with from_fd := sock })
          with server := { server with read_fds := FD_SET sock server.read_fds } }
    | .FILE_DIR_SEND =>
      { file_update files file.addr (fun f => { f with to_fd := sock })
        with server := { server with write_fds := FD_SET sock server.write_fds } }
  let server1 := files1.server
  { files1 with server :=
      { server1 with num_fds := if sock ≥ server1.num_fds then sock + 1 else server1.num_fds } }

/-- Function `files_accept`; the port string is only converted by `atoi` for `connect`. -/
def files_accept (host : host_t) (files : files_t) (nick key host_key address _port : List Nat) :
    Except Fault (files_t × Int) :=
  match file_find files key with
  | .error e => .error e
  | .ok none => .ok (send_refuse files nick host_key (bytes "id"), 0)
  | .ok (some ptr) =>
    if host.gethostbyname address = false then
      match file_delete (files_print (send_refuse files nick host_key (bytes "host"))
          msg_connect) ptr with
      | .error e => .error e
      | .ok (f1, _) => .ok (f1, 0)
    else
      match file_lookup files ptr with
      | none => .error Fault.bounds
      | some file =>
        let sock := host.socket file.mode
        if sock = -1 then
          .ok (send_refuse (files_print files msg_connect) nick host_key (bytes "intern"), 1)
        else if host.connect sock ≠ 0 then
          .ok (send_refuse (files_print files msg_connect) nick host_key (bytes "connect"), 1)
        else .ok (files_print (accept_set_fds files file sock) msg_accept, 0)

/-- Function `files_refuse`. -/
def files_refuse (files : files_t) (key : List Nat) : Except Fault (files_t × Int) :=
  match file_find files key with
  | .error e => .error e
  | .ok none => .ok (files_print files (bytes "File transfer refused.\n"), 0)
  | .ok (some ptr) =>
    match file_delete files ptr with
    | .error e => .error e
    | .ok (f1, _) => .ok (files_print f1 (bytes "File transfer refused.\n"), 0)

/-! ## client/cltcmd.c -/

/-- The `iobuffer_t` pointers handed to the callbacks of the participant: `cltcmd_exec` passes
the console buffer both as `console` and as `buffer`. -/
inductive cltref where
  | console
deriving DecidableEq, Repr

/-- The objects that the commands of the participant act on: the file handler (with the
console buffer and the server handler it points to), the allocated `nick_t` structures and
the system calls made so far. -/
structure participant_t where
  files : files_t
  nicks : List nick_t
  calls : List syscall_t

/-- Commands of the participant; the callback data `cltcmd_data_t` points into the state. -/
abbrev clt_command := command_t participant_t cltref Unit

/-- Call `iobuffer_put_data(r, data, |data|)` in the participant. -/
def clt_put (_r : cltref) (data : List Nat) (w : participant_t) : participant_t :=
  { w with files := files_print w.files data }

/-- Call `iobuffer_put_data(&data->server->buffer, data, |data|)`. -/
def srv_buffer_put (w : participant_t) (data : List Nat) : participant_t :=
  let files := w.files
  let server := files.server
  { w with files :=
      { files with server := { server with buffer := iobuffer_put_data server.buffer data } } }

/-- The outcome of a file transfer request as the outcome of a callback. -/
def clt_request (w : participant_t) (r : Except Fault (files_t × Int × List syscall_t)) :
    Except Fault (participant_t × Int) :=
  match r with
  | .error e => .error e
  | .ok (files, res, calls) => .ok ({ w with files := files, calls := w.calls ++ calls }, res)

/-- The loop over the arguments in `cmd_cns_server`. -/
def cns_server_args : List (List Nat) → participant_t → participant_t
  | [], w => w
  | arg :: rest, w => cns_server_args rest (srv_buffer_put (srv_buffer_put w (bytes " ")) arg)

/-- Console commands `/connect`, `/quit` and `/who` (`cmd_cns_server`). -/
def cmd_cns_server (_host : host_t) (arg_count : Int) (args : List (List Nat))
    (_console : cltref) (_buffer : Option cltref) (_data : Unit) (w : participant_t) :
    Except Fault (participant_t × Int) :=
  if ¬ (arg_count > 0) then .error Fault.assertion
  else
    let w1 := srv_buffer_put (srv_buffer_put w (bytes "/")) (args.getD 0 [])
    let w2 := cns_server_args ((args.take arg_count.toNat).drop 1) w1
    .ok (srv_buffer_put w2 (bytes "\n"), 0)

/-- Console command `/forbid` (`cmd_cns_forbid`). -/
def cmd_cns_forbid (host : host_t) (arg_count : Int) (args : List (List Nat))
    (_console : cltref) (_buffer : Option cltref) (_data : Unit) (w : participant_t) :
    Except Fault (participant_t × Int) :=
  if arg_count ≠ 2 then .error Fault.assertion
  else
    match files_forbid w.files w.nicks host.ptr (args.getD 1 []) with
    | .error e => .error e
    | .ok (files, nicks, res) =>
      .ok ({ w with files := files, nicks := nicks }, if res = 0 then 0 else 2)

/-- Console command `/allow` (`cmd_cns_allow`). -/
def cmd_cns_allow (_host : host_t) (arg_count : Int) (args : List (List Nat))
    (_console : cltref) (_buffer : Option cltref) (_data : Unit) (w : participant_t) :
    Except Fault (participant_t × Int) :=
  if arg_count ≠ 2 then .error Fault.assertion
  else
    match files_allow w.files w.nicks (args.getD 1 []) with
    | .error e => .error e
    | .ok (files, nicks) => .ok ({ w with files := files, nicks := nicks }, 0)

/-- Console command `/mode` (`cmd_cns_mode`). -/
def cmd_cns_mode (_host : host_t) (arg_count : Int) (args : List (List Nat))
    (console : cltref) (_buffer : Option cltref) (_data : Unit) (w : participant_t) :
    Except Fault (participant_t × Int) :=
  if arg_count ≠ 2 then .error Fault.assertion
  else if strcmp (args.getD 1 []) (bytes "secure") = 0 then
    .ok ({ w with files := files_set_mode w.files .FILES_MODE_SECURE }, 0)
  else if strcmp (args.getD 1 []) (bytes "fast") = 0 then
    .ok ({ w with files := files_set_mode w.files .FILES_MODE_FAST }, 0)
  else .ok (clt_put console (bytes "Invalid mode.  Valid ones are `secure' and `fast'.\n") w, 0)

/-- Console command `/transfer` (`cmd_cns_transfer`). `strchr(args[i], ':')` finds the first
colon; the nickname is the string before it (the colon is overwritten with NUL) and the remote
name the string after it. -/
def cmd_cns_transfer (host : host_t) (arg_count : Int) (args : List (List Nat))
    (console : cltref) (_buffer : Option cltref) (_data : Unit) (w : participant_t) :
    Except Fault (participant_t × Int) :=
  if arg_count ≠ 3 then .error Fault.assertion
  else
    let a := args.getD 1 []
    let b := args.getD 2 []
    if 58 ∈ a then
      if 58 ∉ b then
        if a.takeWhile (· ≠ 58) = [] then
          .ok (clt_put console (bytes "No nickname specified.\n") w, 0)
        else if b = [] then .ok (clt_put console (bytes "No local file specified.\n") w, 0)
        else if (a.dropWhile (· ≠ 58)).drop 1 = [] then
          .ok (clt_put console (bytes "No remote file specified.\n") w, 0)
        else
          clt_request w (files_req_receive host.env w.files (a.takeWhile (· ≠ 58))
            ((a.dropWhile (· ≠ 58)).drop 1) b host.ptr host.fds host.rand host.pos host.fuel)
      else
        .ok (clt_put console
          (bytes "There must be only and at most one local file and one remote file.\n") w, 0)
    else if 58 ∈ b then
      if b.takeWhile (· ≠ 58) = [] then
        .ok (clt_put console (bytes "No nickname specified.\n") w, 0)
      else if a = [] then .ok (clt_put console (bytes "No local file specified.\n") w, 0)
      else if (b.dropWhile (· ≠ 58)).drop 1 = [] then
        .ok (clt_put console (bytes "No remote file specified.\n") w, 0)
      else
        clt_request w (files_req_send host.env w.files (b.takeWhile (· ≠ 58)) a
          ((b.dropWhile (· ≠ 58)).drop 1) host.ptr host.fds host.rand host.pos host.fuel)
    else
      .ok (clt_put console
        (bytes "There must be only and at most one local file and one remote file.\n") w, 0)

/-- Console command `/help` (`cmd_cns_help`). -/
def cmd_cns_help (_host : host_t) (arg_count : Int) (_args : List (List Nat))
    (console : cltref) (_buffer : Option cltref) (_data : Unit) (w : participant_t) :
    Except Fault (participant_t × Int) :=
  if arg_count ≠ 1 then .error Fault.assertion
  else .ok (clt_put console
    (bytes ("/connect <nickname>: choose nickname once connected to a server.\n" ++
      "/who: get the currently connected user list.\n" ++
      "/allow <nickname>: allow a user to transfer files.\n" ++
      "/forbid <nickname>: forbid a user to transfer files.\n" ++
      "/mode \x7bsecure|fast\x7d: select file transfer mode.\n" ++
      "/transfer <[user:]from> <[user:]to>: transfer a file from/to another user.\n" ++
      "/quit: disconnect from the server or quit the program.\n" ++
      "/help: get the command list.\n")) w, 0)

/-- Server command `/receive` (`cmd_srv_receive` of cltcmd.c). -/
def cmd_srv_receive (host : host_t) (arg_count : Int) (args : List (List Nat))
    (_console : cltref) (_buffer : Option cltref) (_data : Unit) (w : participant_t) :
    Except Fault (participant_t × Int) :=
  if arg_count ≠ 5 then .error Fault.assertion
  else
    match clt_request w (files_exec_receive host.env w.files (args.getD 1 []) (args.getD 2 [])
        (args.getD 3 []) (args.getD 4 []) host.ptr host.fds host.rand host.pos host.fuel) with
    | .error e => .error e
    | .ok (w1, _) => .ok (w1, 0)

/-- Server command `/send` (`cmd_srv_send` of cltcmd.c). -/
def cmd_srv_send (host : host_t) (arg_count : Int) (args : List (List Nat))
    (_console : cltref) (_buffer : Option cltref) (_data : Unit) (w : participant_t) :
    Except Fault (participant_t × Int) :=
  if arg_count ≠ 5 then .error Fault.assertion
  else
    match clt_request w (files_exec_send host.env w.files (args.getD 1 []) (args.getD 2 [])
        (args.getD 3 []) (args.getD 4 []) host.ptr host.fds host.rand host.pos host.fuel) with
    | .error e => .error e
    | .ok (w1, _) => .ok (w1, 0)

/-- Server command `/accept` (`cmd_srv_accept` of cltcmd.c). -/
def cmd_srv_accept (host : host_t) (arg_count : Int) (args : List (List Nat))
    (_console : cltref) (_buffer : Option cltref) (_data : Unit) (w : participant_t) :
    Except Fault (participant_t × Int) :=
  if arg_count ≠ 6 then .error Fault.assertion
  else
    match files_accept host w.files (args.getD 1 []) (args.getD 2 []) (args.getD 3 [])
        (args.getD 4 []) (args.getD 5 []) with
    | .error e => .error e
    | .ok (files, _) => .ok ({ w with files := files }, 0)

/-- Table `reasons` of `cmd_srv_refuse`: name, full text and length. -/
def reasons : List (List Nat × List Nat × Nat) :=
  [ (bytes "open", bytes "File cannot be opened on the other side.\n", 41),
    (bytes "create", bytes "File cannot be created on the other side.\n", 42),
    (bytes "name", bytes "Invalid character in filename.\n", 31),
    (bytes "nick", bytes "No such nickname.\n", 18),
    (bytes "forbid", bytes "User is forbidden.\n", 19),
    (bytes "id", bytes "File ID error.\n", 15),
    (bytes "connect", bytes "Cannot connect.\n", 16),
    (bytes "host", bytes "Host address error.\n", 20),
    (bytes "intern", bytes "Internal error on the other side.\n", 34) ]

/-- The loop of `cmd_srv_refuse` that prints the full reason. -/
def refuse_reason (console : cltref) (reason : List Nat) :
    List (List Nat × List Nat × Nat) → participant_t → participant_t
  | [], w => w
  | (name, full, length) :: rest, w =>
    if strcmp name reason = 0 then clt_put console (full.take length) w
    else refuse_reason console reason rest w

/-- Server command `/refuse` (`cmd_srv_refuse` of cltcmd.c). -/
def cmd_srv_refuse (_host : host_t) (arg_count : Int) (args : List (List Nat))
    (console : cltref) (_buffer : Option cltref) (_data : Unit) (w : participant_t) :
    Except Fault (participant_t × Int) :=
  if arg_count ≠ 4 then .error Fault.assertion
  else
    let w1 := refuse_reason console (args.getD 3 []) reasons w
    match files_refuse w1.files (args.getD 2 []) with
    | .error e => .error e
    | .ok (files, _) => .ok ({ w1 with files := files }, 0)

/-- Table `console_commands` of cltcmd.c (commands executed from the console). -/
def console_commands (host : host_t) : List clt_command :=
  [ ⟨bytes "allow", 1, some (bytes "<nickname>"), cmd_cns_allow host⟩,
    ⟨bytes "connect", 1, some (bytes "<nickname>"), cmd_cns_server host⟩,
    ⟨bytes "forbid", 1, some (bytes "<nickname>"), cmd_cns_forbid host⟩,
    ⟨bytes "help", 0, none, cmd_cns_help host⟩,
    ⟨bytes "mode", 1, some (bytes "\x7bsecure|fast\x7d"), cmd_cns_mode host⟩,
    ⟨bytes "quit", 0, none, cmd_cns_server host⟩,
    ⟨bytes "transfer", 2, some (bytes "<[user:]from> <[user:]to>"), cmd_cns_transfer host⟩,
    ⟨bytes "who", 0, none, cmd_cns_server host⟩ ]

/-- Table `server_commands` of cltcmd.c (commands executed from the server); the table of the
same name of srvcmd.c is `server_commands`. -/
def cltcmd_server_commands (host : host_t) : List clt_command :=
  [ ⟨bytes "accept", 5, some (bytes "<nickname> <id1> <id2> <address> <port>"),
      cmd_srv_accept host⟩,
    ⟨bytes "receive", 4, some (bytes "<nickname> <id> <mode> <filename>"),
      cmd_srv_receive host⟩,
    ⟨bytes "refuse", 3, some (bytes "<nickname> <id> <reason>"), cmd_srv_refuse host⟩,
    ⟨bytes "send", 4, some (bytes "<nickname> <id> <mode> <filename>"), cmd_srv_send host⟩ ]

/-- Command type `cltcmd_type_t`. -/
inductive cltcmd_type_t where
  | CLTCMD_TYPE_CONSOLE
  | CLTCMD_TYPE_SERVER
deriving DecidableEq, Repr

/-- Function `cltcmd_exec`; `console`, `server` and `files` are the objects of the state. -/
def cltcmd_exec (host : host_t) (command : List Nat) (type : cltcmd_type_t)
    (w : participant_t) : Except Fault (participant_t × Int) :=
  match type with
  | .CLTCMD_TYPE_CONSOLE =>
    command_exec clt_put command (console_commands host) (console_commands host).length
      .console (some .console) () w
  | .CLTCMD_TYPE_SERVER =>
    command_exec clt_put command (cltcmd_server_commands host)
      (cltcmd_server_commands host).length .console (some .console) () w

/-- Example: every system call succeeds (`socket` returns descriptor 9), `malloc` returns the
address 1000 and `rand()` returns 0, 1, 2, .. -/
def host_fresh : host_t :=
  { env := env_fresh, gethostbyname := fun _ => true, socket := fun _ => 9,
    connect := fun _ => 0, ptr := 1000, fds := (-1, -1, -1), rand := fun i => i, pos := 0,
    fuel := 1 }

/-- Example: the memory of a `files_t` that nothing has initialised, holding the value 1
(`FILES_MODE_FAST`) in the `mode` field. -/
def files_stack : files_t := { files_empty with mode := .FILES_MODE_FAST }

/-- Example: the participant as `main` sets it up (`files_init`, then `files_set_server`) on
the memory `files`, connected to a hub on descriptor 3. -/
def participant_init (files : files_t) : participant_t :=
  { files := files_set_server (files_init files (iobuffer_init 0 1 (some 0) (some 1) 10))
      files_empty.server,
    nicks := [], calls := [] }

/-- The bytes queued for the hub after a command of the participant; `none` when the run
ended with a fault. -/
def clt_sent (r : Except Fault (participant_t × Int)) : Option (List Nat) :=
  match r with
  | .ok (w, _) => some (dbuffer_contents w.files.server.buffer.output)
  | .error _ => none

/-- The bytes printed on the console after a command of the participant. -/
def clt_printed (r : Except Fault (participant_t × Int)) : Option (List Nat) :=
  match r with
  | .ok (w, _) => some (dbuffer_contents w.files.console.output)
  | .error _ => none

/-! ## strlib/dbuffer.c: reading and writing the descriptor -/

/-- The `while (1)` loop of `dbuffer_read`. `front` holds the chunks before the current one
`ibuffer`, `has_prev` tells whether `prev` is set, `total` counts the bytes read so far.
Returns the chunk list, `total` and the descriptors. Every iteration but the last one takes a
result of `read` that is not empty. -/
def read_loop (fd : Int) : Nat → List ibuffer_t → ibuffer_t → Bool → Int → sysio_t →
    Except Fault (List ibuffer_t × Int × sysio_t)
  | 0, _, _, _, _, _ => .error Fault.fuel
  | fuel + 1, front, ibuffer, has_prev, total, io =>
    let empty := BUFFER_SIZE - ibuffer.end_
    let r := sys_read io fd empty
    match r.2 with
    | none => .ok (front ++ [ibuffer], total, r.1)
    | some d =>
      if d.length = 0 then
        if ibuffer.end_ = 0 ∧ has_prev = true then .ok (front, total, r.1)
        else .ok (front ++ [ibuffer], total, r.1)
      else
        let ib : ibuffer_t :=
          { ibuffer with data := memcpy ibuffer.data ibuffer.end_ d,
                         end_ := ibuffer.end_ + d.length }
        if empty - d.length ≠ 0 then .ok (front ++ [ib], total + d.length, r.1)
        else read_loop fd fuel (front ++ [ib]) ibuffer_new true (total + d.length) r.1

/-- Function `dbuffer_read`. `fds` is the content of the descriptor set that `buffer->fds`
points to (not looked at when `buffer->fds` is `NULL`) and `io` gives the results of the
`read` calls. Returns the buffer, the set, the descriptors and the return value. -/
def dbuffer_read (buffer : dbuffer_t) (fds : List Int) (io : sysio_t) :
    Except Fault (dbuffer_t × List Int × sysio_t × Int) :=
  if buffer.fds ≠ none ∧ buffer.fd ∉ fds then .ok (buffer, FD_SET buffer.fd fds, io, -2)
  else
    let ibuffer := match buffer.chunks.getLast? with
      | some l => l
      | none => ibuffer_new
    match read_loop buffer.fd (io.reads.length + 1) buffer.chunks.dropLast ibuffer false 0
        io with
    | .error e => .error e
    | .ok (chunks, total, io1) =>
      .ok ({ buffer with chunks := chunks, size := buffer.size + total }, fds, io1, total)

/-- Function `dbuffer_write`, read as `dbuffer_read`; `io` gives the result of the `write`
call. The array `data` of `size` bytes is filled by `dbuffer_get_data`. After a `write` that
returns -1 the call `dbuffer_put_data(buffer, data + len, size - len)` reads the byte before
the array. -/
def dbuffer_write (buffer : dbuffer_t) (fds : List Int) (io : sysio_t) :
    Except Fault (dbuffer_t × List Int × sysio_t × Int) :=
  if buffer.fds ≠ none ∧ buffer.fd ∉ fds then
    .ok (buffer, if buffer.size ≠ 0 then FD_SET buffer.fd fds else fds, io, -2)
  else if buffer.size = 0 ∨ buffer.chunks = [] then
    .ok (buffer, if buffer.fds ≠ none then FD_CLR buffer.fd fds else fds, io, 0)
  else
    let size := buffer.size.toNat
    let r := dbuffer_get_data buffer size
    let data := memcpy (List.replicate size 0) 0 (r.2.2.take size)
    let w := sys_write io buffer.fd data
    match w.2 with
    | none => .error Fault.bounds
    | some len =>
      if len = size then
        .ok (r.1, if buffer.fds ≠ none then FD_CLR buffer.fd fds else fds, w.1, len)
      else .ok ((dbuffer_put_data r.1 (data.drop len)).1, fds, w.1, len)

/-- Descriptors on which the `read` and `write` calls have the listed results, with no call
made yet. -/
def io_of (reads : List (Option (List Nat))) (writes : List (Option Nat)) : sysio_t :=
  { reads := reads, writes := writes, accepts := [], recvs := [], connects := [], log := [] }

/-- Example: the output queue of descriptor 4 after `hello` was put into it. -/
def queue_hello : dbuffer_t := (dbuffer_put_data (dbuffer_init 4 (some 1) 10) (bytes "hello")).1

/-- Consistency of the forbidden users: the table has `HASH_SIZE` lists, the allocated
`nick_t` structures have pairwise distinct addresses, and every element of the table is under
its key, designates its own structure and is the element of an allocated structure. -/
def forbid_inv (files : files_t) (heap : List nick_t) : Prop :=
  files.forbid.table.length = HASH_SIZE ∧
  (heap.map (fun n => n.addr)).Nodup ∧
  (∀ k, ∀ e ∈ bucket files.forbid k,
    e.key = k ∧ e.object = e.addr ∧ ∃ n ∈ heap, n.addr = e.addr ∧ n.element = e)

/-- The forbidden users of the participant: from an empty table (`files_init`) without any
structure allocated, by `files_forbid` (with a fresh address), by `files_allow`, and by
changes of the other fields of the handler. -/
inductive forbid_reachable : files_t → List nick_t → Prop
  | init (files : files_t) : files.forbid = hash_init → forbid_reachable files []
  | forbid (files files' : files_t) (heap heap' : List nick_t) (ptr : Nat) (nick : List Nat)
      (res : Int) :
      forbid_reachable files heap → ptr ∉ heap.map (fun n => n.addr) →
      files_forbid files heap ptr nick = .ok (files', heap', res) →
      forbid_reachable files' heap'
  | allow (files files' : files_t) (heap heap' : List nick_t) (nick : List Nat) :
      forbid_reachable files heap → files_allow files heap nick = .ok (files', heap') →
      forbid_reachable files' heap'
  | frame (files files' : files_t) (heap : List nick_t) :
      forbid_reachable files heap → files'.forbid = files.forbid →
      forbid_reachable files' heap

/-- Example: the handler `files_empty` after `/forbid bob`, with the structure allocated at
address 500. -/
def forbid_bob : files_t × List nick_t :=
  match files_forbid files_empty [] 500 (bytes "bob") with
  | .ok r => (r.1, r.2.1)
  | .error _ => (files_empty, [])


/-- The count of connected clients: `number` is the length of the client list. -/
def hub_count (s : clients_t) : Prop := s.number = (s.list.length : Int)

/-- The fault that ended a run, if any. -/
def fault_of {α : Type} (r : Except Fault α) : Option Fault :=
  match r with
  | .ok _ => none
  | .error e => some e

/-! ## client/files.c: the loop of `files_transfer` -/

/-- The end of a transfer in `files_transfer`: `msg_success` is printed and the structure is
deleted. -/
def transfer_end (files : files_t) (ptr : Nat) : Except Fault files_t :=
  match file_delete (files_print files msg_success) ptr with
  | .error e => .error e
  | .ok r => .ok r.1

/-- The body of the `for` loop of `files_transfer` for the transfer `file` (the structure as
it is when the iteration starts). Returns the handler, the descriptors, the array `buffer` and
the value returned from inside the loop, if any. -/
def transfer_step (files : files_t) (file : file_t) (io : sysio_t) (buffer : List Nat) :
    Except Fault (files_t × sysio_t × List Nat × Option Int) :=
  let server := files.server
  if file.mode = .FILES_MODE_FAST ∧ file.dir = .FILE_DIR_RECEIVE ∧ file.sock_fd ≠ -1 then
    let w := sys_write io file.sock_fd msg_data
    let files1 := { files with
      server := { server with read_fds := FD_SET file.sock_fd server.read_fds,
                              write_fds := FD_CLR file.sock_fd server.write_fds } }
    .ok (file_update files1 file.addr (fun f => { f with sock_fd := -1 }), w.1, buffer, none)
  else if (file.from_fd ≠ -1 ∧ file.from_fd ∈ server.read_fds) ∨
      (file.to_fd ≠ -1 ∧ file.to_fd ∈ server.write_fds) then
    match file.mode with
    | .FILES_MODE_SECURE =>
      match transfer_secure file io buffer with
      | .error e => .error e
      | .ok (io1, buffer1, .ret code) => .ok (files, io1, buffer1, some code)
      | .ok (io1, buffer1, .more) => .ok (files, io1, buffer1, none)
      | .ok (io1, buffer1, .done) =>
        match transfer_end files file.addr with
        | .error e => .error e
        | .ok files1 => .ok (files1, io1, buffer1, none)
    | .FILES_MODE_FAST =>
      match file.dir with
      | .FILE_DIR_RECEIVE =>
        match transfer_fast_receive file io buffer with
        | .error e => .error e
        | .ok (io1, buffer1, .ret code) => .ok (files, io1, buffer1, some code)
        | .ok (io1, buffer1, .more) => .ok (files, io1, buffer1, none)
        | .ok (io1, buffer1, .done) =>
          match transfer_end files file.addr with
          | .error e => .error e
          | .ok files1 => .ok (files1, io1, buffer1, none)
      | .FILE_DIR_SEND =>
        match transfer_fast_send file io buffer with
        | .error e => .error e
        | .ok (io1, buffer1, .ret code, _) => .ok (files, io1, buffer1, some code)
        | .ok (io1, buffer1, .more, sock_fd) =>
          .ok (file_update files file.addr (fun f => { f with sock_fd := sock_fd }), io1,
            buffer1, none)
        | .ok (io1, buffer1, .done, sock_fd) =>
          match transfer_end
              (file_update files file.addr (fun f => { f with sock_fd := sock_fd }))
              file.addr with
          | .error e => .error e
          | .ok files1 => .ok (files1, io1, buffer1, none)
  else if file.sock_fd ≠ -1 ∧ file.sock_fd ≠ -2 ∧ (file.from_fd = -1 ∨ file.to_fd = -1) then
    if file.sock_fd ∈ server.read_fds then
      if file.mode = .FILES_MODE_SECURE then
        let a := sys_accept io file.sock_fd
        let sock := a.2
        if sock = -1 then .ok (files, a.1, buffer, some 1)
        else
          let num_fds := if sock ≥ server.num_fds then sock + 1 else server.num_fds
          let rd := FD_CLR file.sock_fd server.read_fds
          match file.dir with
          | .FILE_DIR_RECEIVE =>
            let files1 := { files with
              server := { server with num_fds := num_fds, read_fds := FD_SET sock rd } }
            .ok (file_update files1 file.addr (fun f => { f with from_fd := sock }), a.1,
              buffer, none)
          | .FILE_DIR_SEND =>
            let files1 := { files with
              server := { server with num_fds := num_fds, read_fds := rd,
                                      write_fds := FD_SET sock server.write_fds } }
            .ok (file_update files1 file.addr (fun f => { f with to_fd := sock }), a.1,
              buffer, none)
      else
        let r := sys_recvfrom io file.sock_fd 1024
        match r.2 with
        | none => .ok (files, r.1, buffer, some (-1))
        | some d =>
          let buffer1 := memcpy buffer 0 d
          let c := sys_connect r.1 file.sock_fd
          if c.2 ≠ 0 then .ok (files, c.1, buffer1, some 1)
          else
            let files1 := { files with
              server := { server with read_fds := FD_CLR file.sock_fd server.read_fds,
                                      write_fds := FD_SET file.sock_fd server.write_fds } }
            .ok (file_update files1 file.addr
              (fun f => { f with to_fd := file.sock_fd, sock_fd := -1 }), c.1, buffer1, none)
    else
      .ok ({ files with
        server := { server with read_fds := FD_SET file.sock_fd server.read_fds } }, io,
        buffer, none)
  else
    match file.dir with
    | .FILE_DIR_RECEIVE =>
      let rd := if file.from_fd ≠ -1 then FD_SET file.from_fd server.read_fds
        else server.read_fds
      let wr := if file.mode = .FILES_MODE_FAST ∧ file.sock_fd ≠ -1 ∧ file.sock_fd ≠ -2 then
          FD_SET file.from_fd server.write_fds
        else server.write_fds
      .ok ({ files with server := { server with read_fds := rd, write_fds := wr } }, io,
        buffer, none)
    | .FILE_DIR_SEND =>
      let wr := if file.to_fd ≠ -1 then FD_SET file.to_fd server.write_fds
        else server.write_fds
      .ok ({ files with server := { server with write_fds := wr } }, io, buffer, none)

/-- The loop `for (file = files->files; file != NULL; file = next)` of `files_transfer`; `file`
is the current pointer. Reading `file->next` through a pointer that designates no allocated
structure is a bounds fault. -/
def files_transfer_loop : Nat → files_t → Option Nat → sysio_t → List Nat →
    Except Fault (files_t × sysio_t × Int)
  | 0, _, _, _, _ => .error Fault.fuel
  | _ + 1, files, none, io, _ => .ok (files, io, 0)
  | fuel + 1, files, some ptr, io, buffer =>
    match file_lookup files ptr with
    | none => .error Fault.bounds
    | some file =>
      let next := file.next
      match transfer_step files file io buffer with
      | .error e => .error e
      | .ok (files1, io1, _, some code) => .ok (files1, io1, code)
      | .ok (files1, io1, buffer1, none) => files_transfer_loop fuel files1 next io1 buffer1

/-- Function `files_transfer`; `buffer` is the content of the local array when the function
is entered. The loop visits each structure of the list once, so the number of allocated
structures plus one bounds its iterations. -/
def files_transfer (files : files_t) (io : sysio_t) (buffer : List Nat) :
    Except Fault (files_t × sysio_t × Int) :=
  files_transfer_loop (files.heap.length + 1) files files.files io buffer

/-- Example: the memory of a `files_t` that nothing has initialised, holding the address 4096
in the `files` field, where no `file_t` is allocated. -/
def files_garbage : files_t := { files_empty with files := some 4096 }

/-- Well-formed hash table: `HASH_SIZE` lists, every element is in the list of its key, which
is the key of its string, and the elements of one list have pairwise distinct addresses. -/
def hash_wf (hash : hash_t) : Prop :=
  hash.table.length = HASH_SIZE ∧
  (∀ k, ∀ e ∈ bucket hash k, e.key = k ∧ hash_function e.str = k) ∧
  (∀ k, ((bucket hash k).map (fun e => e.addr)).Nodup)

/-- The hash tables of the program: from `hash_init`, by `hash_add` of an element whose address
is not linked in the table, and by `hash_remove` of an element that is linked in it. -/
inductive hash_reachable : hash_t → Prop
  | init : hash_reachable hash_init
  | add (hash hash' : hash_t) (str : List Nat) (object addr : Nat) (element : hash_element_t) :
      hash_reachable hash → (∀ k, ∀ e ∈ bucket hash k, e.addr ≠ addr) →
      hash_add hash str object addr = .ok (hash', element) → hash_reachable hash'
  | remove (hash hash' : hash_t) (element : hash_element_t) :
      hash_reachable hash → element ∈ bucket hash element.key →
      hash_remove hash element = .ok hash' → hash_reachable hash'

/-- Example: a table that holds the string `da`, bound to the object 1 by the element at
address 10. -/
def hash_da : hash_t :=
  match hash_add hash_init (bytes "da") 1 10 with
  | .ok r => r.1
  | .error _ => hash_init

/-- Only the last chunk of a list may be partially filled: every chunk before the last one
has `end = BUFFER_SIZE`. -/
def chunks_full (l : List ibuffer_t) : Prop := ∀ c ∈ l.dropLast, c.end_ = BUFFER_SIZE

/-- Queue states reached from `dbuffer_init` by `dbuffer_put_data`, by `dbuffer_get_data` with
`n ≤ size`, by `dbuffer_read`, by `dbuffer_write` and by `dbuffer_input_line`, with any
descriptor set and any results of the `read` and `write` calls. -/
inductive queue_reachable : dbuffer_t → Prop
  | init (fd : Int) (fds : Option Nat) (separator : Nat) :
      queue_reachable (dbuffer_init fd fds separator)
  | put (b : dbuffer_t) (xs : List Nat) :
      queue_reachable b → queue_reachable (dbuffer_put_data b xs).1
  | get (b : dbuffer_t) (n : Nat) :
      queue_reachable b → (n : Int) ≤ b.size → queue_reachable (dbuffer_get_data b n).1
  | read (b b' : dbuffer_t) (fds fds' : List Int) (io io' : sysio_t) (r : Int) :
      queue_reachable b → dbuffer_read b fds io = .ok (b', fds', io', r) → queue_reachable b'
  | write (b b' : dbuffer_t) (fds fds' : List Int) (io io' : sysio_t) (r : Int) :
      queue_reachable b → dbuffer_write b fds io = .ok (b', fds', io', r) → queue_reachable b'
  | input_line (b b' : dbuffer_t) (space : Nat) (line : Option line_t) :
      queue_reachable b → dbuffer_input_line b space = .ok (line, b') → queue_reachable b'

/-- Example: 300 bytes arrive on a fresh queue in two `read` calls of 256 and 44 bytes, then
100 bytes are taken. -/
def queue_read_300 : dbuffer_t :=
  match dbuffer_read (dbuffer_init 4 (some 0) 10) [4]
      (io_of [some (List.replicate 256 7), some (List.replicate 44 8)] []) with
  | .ok r => (dbuffer_get_data r.1 100).1
  | .error _ => dbuffer_init 4 (some 0) 10

/-- A chunk whose `start` has moved holds bytes: `start < end` or `start = 0`. -/
def chunks_live (l : List ibuffer_t) : Prop := ∀ c ∈ l, c.start < c.end_ ∨ c.start = 0

/-! ## Further example states and outcomes of the participant's commands -/

/-- Example: a registry of four clients: `bob` at 100 and `alice` at 200 are authenticated,
the client at 300 has authenticated as `carol` and then sent `/quit` (it is draining), and the
client at 400 has not authenticated. -/
def hub_four : clients_t :=
  hub_after (hub_after (clients_add (clients_add hub_bob_alice 300 6 (bytes "1.2.3.6:7"))
    400 7 (bytes "1.2.3.7:8")) 300 (bytes "/connect carol\n")) 300 (bytes "/quit\n")

/-- The outcome of a call that only prints: the bytes `msg` are appended to the output queue
of the console, and the input queue of the console, the forbidden users, the transfers, the
key table, the transfer mode and the server handler with its queue are unchanged. -/
def printed_only (files files' : files_t) (msg : List Nat) : Prop :=
  files'.nicks = files.nicks ∧ files'.forbid = files.forbid ∧ files'.files = files.files ∧
  files'.heap = files.heap ∧ files'.file_keys = files.file_keys ∧ files'.mode = files.mode ∧
  files'.server = files.server ∧ files'.console.input = files.console.input ∧
  dbuffer_wf files'.console.output ∧
  dbuffer_contents files'.console.output = dbuffer_contents files.console.output ++ msg

/-- The command that `send_transfer_init` writes for a direction, with the space after it. -/
def request_word (dir : file_dir_t) : List Nat :=
  match dir with
  | .FILE_DIR_RECEIVE => bytes "/receive "
  | .FILE_DIR_SEND => bytes "/send "

/-- The mode that `send_transfer_init` writes, between spaces. -/
def mode_word (mode : files_mode_t) : List Nat :=
  match mode with
  | .FILES_MODE_SECURE => bytes " secure "
  | .FILES_MODE_FAST => bytes " fast "

/-- The outcome of a command of the participant that only prints: the bytes `msg` are appended
to the output queue of the console and nothing else changes in the handler (no transfer is
created, nothing is queued for the hub), no `nick_t` structure is touched, and the system
calls made are `calls`. -/
def clt_printed_only (w w' : participant_t) (msg : List Nat) (calls : List syscall_t) : Prop :=
  printed_only w.files w'.files msg ∧ w'.nicks = w.nicks ∧ w'.calls = w.calls ++ calls

/-- The outcome of a transfer request that goes through: one transfer is added at the head of
the list, at address `ptr`, with the direction `dir`, the peer `peer`, the file name `name`,
the current mode, an id of `FILE_KEY_LENGTH` characters that no other transfer has, and the
descriptors `from_fd` and `to_fd` (no socket); exactly the line `/receive` or `/send` with
the peer, the id, the mode and the name is queued for the hub; nothing is printed, and the
system calls made are `calls`. -/
def transfer_requested (w w' : participant_t) (ptr : Nat) (dir : file_dir_t)
    (peer name : List Nat) (from_fd to_fd : Int) (calls : List syscall_t) : Prop :=
  ∃ fl, w'.files.heap = fl :: w.files.heap ∧ w'.files.files = some ptr ∧ fl.addr = ptr ∧
    fl.dir = dir ∧ fl.mode = w.files.mode ∧ fl.nick = peer ∧ fl.name = name ∧
    fl.from_fd = from_fd ∧ fl.to_fd = to_fd ∧ fl.sock_fd = -1 ∧
    fl.key.length = FILE_KEY_LENGTH ∧ (∀ g ∈ w.files.heap, g.key ≠ fl.key) ∧
    dbuffer_contents w'.files.server.buffer.output =
      dbuffer_contents w.files.server.buffer.output ++
        (request_word dir ++ peer ++ bytes " " ++ fl.key ++ mode_word w.files.mode ++ name ++
          bytes "\n") ∧
    w'.files.server.buffer.input = w.files.server.buffer.input ∧
    w'.files.server.sock = w.files.server.sock ∧
    w'.files.server.read_fds = w.files.server.read_fds ∧
    w'.files.server.write_fds = w.files.server.write_fds ∧
    w'.files.server.num_fds = w.files.server.num_fds ∧
    w'.files.console = w.files.console ∧ w'.files.forbid = w.files.forbid ∧
    w'.files.nicks = w.files.nicks ∧ w'.files.mode = w.files.mode ∧
    w'.nicks = w.nicks ∧ w'.calls = w.calls ++ calls

/-! ## Theorems: strlib/dbuffer.c -/


theorem memcpy_length (dst src : List Nat) (off : Nat) (h : off + src.length ≤ dst.length) :
    (memcpy dst off src).length = dst.length := by
  simp [memcpy]; omega

theorem memcpy_live (dst src : List Nat) (off s : Nat) (hs : s ≤ off) (h : off ≤ dst.length) :
    ((memcpy dst off src).take (off + src.length)).drop s = (dst.take off).drop s ++ src := by
  have h1 : (dst.take off).length = off := by simp; omega
  have h2 : (dst.take off ++ src).length = off + src.length := by simp [h1]
  have h3 : (memcpy dst off src).take (off + src.length) = dst.take off ++ src := by
    unfold memcpy
    rw [← h2, List.take_left]
  rw [h3, List.drop_append_of_le_length (by omega)]

theorem ibuffer_new_wf : ibuffer_wf ibuffer_new :=
  ⟨Nat.le_refl _, Nat.zero_le _, List.length_replicate _ _⟩

theorem ibuffer_new_live : ibuffer_live ibuffer_new = [] := by
  show (List.take 0 _).drop 0 = []
  rfl

/-- Appending `src` at `end` of a well-formed chunk with enough room keeps it well-formed and
appends `src` to its live bytes. -/
theorem ibuffer_append (ib : ibuffer_t) (src : List Nat) (hwf : ibuffer_wf ib)
    (h : ib.end_ + src.length ≤ BUFFER_SIZE) :
    ibuffer_wf ⟨ib.start, ib.end_ + src.length, memcpy ib.data ib.end_ src⟩ ∧
    ibuffer_live ⟨ib.start, ib.end_ + src.length, memcpy ib.data ib.end_ src⟩ =
      ibuffer_live ib ++ src := by
  obtain ⟨hse, he, hd⟩ := hwf
  refine ⟨⟨?_, h, ?_⟩, ?_⟩
  · show ib.start ≤ ib.end_ + src.length
    omega
  · show (memcpy ib.data ib.end_ src).length = BUFFER_SIZE
    rw [memcpy_length _ _ _ (by omega)]; exact hd
  · exact memcpy_live _ _ _ _ hse (by omega)

theorem put_loop_spec (fuel : Nat) : ∀ (ib : ibuffer_t) (data : List Nat), ibuffer_wf ib →
    data.length + (if ib.end_ = BUFFER_SIZE then 2 else 1) ≤ fuel →
    ∃ c0 cs, put_loop fuel ib data = some (c0 :: cs, data.length) ∧
      (∀ c ∈ c0 :: cs, ibuffer_wf c) ∧ c0.start = ib.start ∧ (∀ c ∈ cs, c.start = 0) ∧
      ((c0 :: cs).map ibuffer_live).flatten = ibuffer_live ib ++ data := by
  induction fuel with
  | zero => intro ib data _ h; split at h <;> omega
  | succ fuel ih =>
    intro ib data hwf hf
    have he := hwf.2.1
    unfold put_loop
    simp only []
    by_cases hlt : data.length < BUFFER_SIZE - ib.end_
    · rw [if_pos hlt]
      obtain ⟨h1, h2⟩ := ibuffer_append ib data hwf (by omega)
      refine ⟨⟨ib.start, ib.end_ + data.length, memcpy ib.data ib.end_ data⟩, [], rfl, ?_, rfl,
        by simp, ?_⟩
      · intro c hc
        rw [List.mem_singleton] at hc
        rw [hc]; exact h1
      · simpa using h2
    · rw [if_neg hlt]
      have hlen : (data.take (BUFFER_SIZE - ib.end_)).length = BUFFER_SIZE - ib.end_ := by
        rw [List.length_take]; omega
      obtain ⟨h1, h2⟩ := ibuffer_append ib (data.take (BUFFER_SIZE - ib.end_)) hwf (by omega)
      rw [hlen] at h1 h2
      by_cases hrest : (data.drop (BUFFER_SIZE - ib.end_)).length ≠ 0
      · rw [if_pos hrest]
        have hfn : (data.drop (BUFFER_SIZE - ib.end_)).length +
            (if ibuffer_new.end_ = BUFFER_SIZE then 2 else 1) ≤ fuel := by
          have : ibuffer_new.end_ ≠ BUFFER_SIZE := by
            show (0 : Nat) ≠ 256
            decide
          rw [if_neg this]
          rw [List.length_drop] at hrest ⊢
          split at hf <;> omega
        obtain ⟨c0, cs, heq, hwfs, hst, hst', hfl⟩ := ih ibuffer_new _ ibuffer_new_wf hfn
        rw [heq]
        refine ⟨⟨ib.start, ib.end_ + (BUFFER_SIZE - ib.end_),
          memcpy ib.data ib.end_ (data.take (BUFFER_SIZE - ib.end_))⟩, c0 :: cs, ?_, ?_, rfl, ?_, ?_⟩
        · simp only [List.length_drop, Option.some.injEq, Prod.mk.injEq, true_and]
          omega
        · intro c hc
          rcases List.mem_cons.1 hc with h | h
          · rw [h]; exact h1
          · exact hwfs c h
        · intro c hc
          rcases List.mem_cons.1 hc with h | h
          · rw [h, hst]; rfl
          · exact hst' c h
        · rw [List.map_cons, List.flatten_cons, hfl, h2, ibuffer_new_live, List.nil_append,
            List.append_assoc, List.take_append_drop]
      · rw [if_neg hrest]
        have hz : (data.drop (BUFFER_SIZE - ib.end_)).length = 0 := by omega
        have hnil : data.drop (BUFFER_SIZE - ib.end_) = [] := List.length_eq_zero.1 hz
        refine ⟨⟨ib.start, ib.end_ + (BUFFER_SIZE - ib.end_),
          memcpy ib.data ib.end_ (data.take (BUFFER_SIZE - ib.end_))⟩, [], ?_, ?_, rfl, by simp, ?_⟩
        · rw [List.length_drop] at hz
          simp only [Option.some.injEq, Prod.mk.injEq, true_and]
          omega
        · intro c hc
          rw [List.mem_singleton] at hc
          rw [hc]; exact h1
        · simp only [List.map, List.flatten, List.append_nil]
          rw [h2]
          have := List.take_append_drop (BUFFER_SIZE - ib.end_) data
          rw [hnil, List.append_nil] at this
          rw [this]

/-- What `dbuffer_put_data` does on a well-formed queue. -/
theorem dbuffer_put_data_spec (b : dbuffer_t) (xs : List Nat) (hwf : dbuffer_wf b) :
    (dbuffer_put_data b xs).2 = xs.length ∧ dbuffer_wf (dbuffer_put_data b xs).1 ∧
    dbuffer_contents (dbuffer_put_data b xs).1 = dbuffer_contents b ++ xs ∧
    (dbuffer_put_data b xs).1.fd = b.fd ∧ (dbuffer_put_data b xs).1.fds = b.fds ∧
    (dbuffer_put_data b xs).1.separator = b.separator := by
  obtain ⟨hc, ht, hs⟩ := hwf
  have key : ∀ (front : List ibuffer_t) (l : ibuffer_t), ibuffer_wf l →
      (∀ c ∈ front, ibuffer_wf c) → (∀ c ∈ (front ++ [l]).tail, c.start = 0) →
      (b.size : Int) = ((front.map ibuffer_live).flatten ++ ibuffer_live l).length →
      ∀ r, (match put_loop (xs.length + 2) l xs with
        | some (cs, total) =>
          ((⟨front ++ cs, b.size + total, b.fd, b.fds, b.separator⟩ : dbuffer_t), (total : Int))
        | none => (b, -1)) = r →
      r.2 = (xs.length : Int) ∧ dbuffer_wf r.1 ∧
      dbuffer_contents r.1 = ((front.map ibuffer_live).flatten ++ ibuffer_live l) ++ xs ∧
      r.1.fd = b.fd ∧ r.1.fds = b.fds ∧ r.1.separator = b.separator := by
    intro front l hl hf htl hsz r hr
    obtain ⟨c0, cs, heq, hwfs, hst, hst', hfl⟩ :=
      put_loop_spec (xs.length + 2) l xs hl (by split <;> omega)
    rw [heq] at hr
    subst hr
    have hcont : dbuffer_contents
        (⟨front ++ c0 :: cs, b.size + xs.length, b.fd, b.fds, b.separator⟩ : dbuffer_t) =
        ((front.map ibuffer_live).flatten ++ ibuffer_live l) ++ xs := by
      simp only [dbuffer_contents, List.map_append, List.flatten_append]
      rw [hfl, List.append_assoc]
    refine ⟨rfl, ⟨?_, ?_, ?_⟩, hcont, rfl, rfl, rfl⟩
    · intro c hc
      rcases List.mem_append.1 hc with h | h
      · exact hf c h
      · exact hwfs c h
    · intro c hc
      cases front with
      | nil =>
        simp only [List.nil_append, List.tail_cons] at hc
        exact hst' c hc
      | cons f front' =>
        simp only [List.cons_append, List.tail_cons] at hc htl
        rcases List.mem_append.1 hc with h | h
        · exact htl c (List.mem_append_left _ h)
        · rcases List.mem_cons.1 h with h | h
          · rw [h, hst]; exact htl l (List.mem_append_right _ (List.mem_singleton.2 rfl))
          · exact hst' c h
    · rw [hcont]
      simp only []
      rw [hsz]
      simp only [List.length_append]
      push_cast
      ring
  unfold dbuffer_put_data
  simp only []
  rcases List.eq_nil_or_concat b.chunks with hnil | ⟨front, l, hfl⟩
  · have hcb : dbuffer_contents b = [] := by simp [dbuffer_contents, hnil]
    have := key [] ibuffer_new ibuffer_new_wf (by simp) (by simp)
      (by rw [hs, hcb]; simp [ibuffer_new_live]) _ rfl
    rw [hnil]
    simpa [hcb, ibuffer_new_live] using this
  · have hgl : b.chunks.getLast? = some l := by rw [hfl]; simp
    have hdl : b.chunks.dropLast = front := by rw [hfl]; simp
    have hcb : dbuffer_contents b = (front.map ibuffer_live).flatten ++ ibuffer_live l := by
      simp [dbuffer_contents, hfl]
    have := key front l (hc l (by rw [hfl]; simp)) (fun c h => hc c (by rw [hfl]; simp [h]))
      (by rw [← List.concat_eq_append, ← hfl]; exact ht) (by rw [hs, hcb]) _ rfl
    rw [hcb, hgl, hdl]
    exact this

theorem ibuffer_live_length (c : ibuffer_t) (h : ibuffer_wf c) :
    (ibuffer_live c).length = c.end_ - c.start := by
  obtain ⟨_, he, hd⟩ := h
  simp only [ibuffer_live, List.length_drop, List.length_take]
  omega

theorem ibuffer_live_advance (c : ibuffer_t) (k : Nat) :
    ibuffer_live ⟨c.start + k, c.end_, c.data⟩ = (ibuffer_live c).drop k := by
  simp only [ibuffer_live, List.drop_drop]

theorem ibuffer_live_start_zero (c : ibuffer_t) (h : c.start = 0) :
    ibuffer_live c = c.data.take c.end_ := by
  simp [ibuffer_live, h]

/-- Loop invariant of `dbuffer_get_data`: with `L` the live bytes of `ibuffer :: rest`, of which
`copy_size` were already copied, the loop copies the next `size` bytes and leaves the others. -/
theorem get_loop_spec : ∀ (rest : List ibuffer_t) (ib : ibuffer_t)
    (size copy_size buffer_size done : Nat) (out : List Nat),
    ibuffer_wf ib → (∀ c ∈ rest, ibuffer_wf c ∧ c.start = 0) →
    buffer_size = ib.end_ - ib.start → copy_size ≤ buffer_size →
    (copy_size ≠ buffer_size → size = 0) →
    size + copy_size ≤ (ibuffer_live ib ++ (rest.map ibuffer_live).flatten).length →
    (get_loop ib rest size copy_size buffer_size done out).2.1 = done + size ∧
    (get_loop ib rest size copy_size buffer_size done out).2.2 =
      out ++ ((ibuffer_live ib ++ (rest.map ibuffer_live).flatten).drop copy_size).take size ∧
    ((get_loop ib rest size copy_size buffer_size done out).1.map ibuffer_live).flatten =
      (ibuffer_live ib ++ (rest.map ibuffer_live).flatten).drop (copy_size + size) ∧
    (∀ c ∈ (get_loop ib rest size copy_size buffer_size done out).1, ibuffer_wf c) ∧
    (∀ c ∈ (get_loop ib rest size copy_size buffer_size done out).1.tail, c.start = 0) := by
  intro rest
  induction rest with
  | nil =>
    intro ib size copy_size buffer_size done out hwf _ hbs hle hz hsz
    have hl := ibuffer_live_length ib hwf
    unfold get_loop
    by_cases hne : copy_size ≠ buffer_size
    · rw [if_pos hne]
      have hs0 := hz hne
      subst hs0
      refine ⟨rfl, by simp, ?_, ?_, by simp⟩
      · simp [ibuffer_live_advance]
      · intro c hc
        rw [List.mem_singleton] at hc
        rw [hc]
        exact ⟨by show ib.start + copy_size ≤ ib.end_; omega, hwf.2.1, hwf.2.2⟩
    · rw [if_neg hne]
      have heq : copy_size = buffer_size := by omega
      simp only [List.map_nil, List.flatten_nil, List.append_nil] at hsz ⊢
      have hs0 : size = 0 := by omega
      subst hs0
      refine ⟨rfl, by simp, ?_, by simp, by simp⟩
      simp only [List.map_nil, List.flatten_nil, Nat.add_zero]
      rw [List.drop_of_length_le (by omega)]
  | cons nxt rest' ih =>
    intro ib size copy_size buffer_size done out hwf hrest hbs hle hz hsz
    have hl := ibuffer_live_length ib hwf
    unfold get_loop
    by_cases hne : copy_size ≠ buffer_size
    · rw [if_pos hne]
      have hs0 := hz hne
      subst hs0
      refine ⟨rfl, by simp, ?_, ?_, ?_⟩
      · simp only [List.map_cons, List.flatten_cons, ibuffer_live_advance, Nat.add_zero]
        rw [List.drop_append_of_le_length (by omega)]
      · intro c hc
        rcases List.mem_cons.1 hc with h | h
        · rw [h]
          exact ⟨by show ib.start + copy_size ≤ ib.end_; omega, hwf.2.1, hwf.2.2⟩
        · exact (hrest c h).1
      · intro c hc
        exact (hrest c hc).2
    · rw [if_neg hne]
      have heq : copy_size = buffer_size := by omega
      have hdrop : ∀ k, (ibuffer_live ib ++ ((nxt :: rest').map ibuffer_live).flatten).drop
          (copy_size + k) = (((nxt :: rest').map ibuffer_live).flatten).drop k := by
        intro k
        rw [List.drop_append_eq_append_drop, List.drop_of_length_le (by omega), List.nil_append]
        congr 1
        omega
      simp only []
      by_cases hs0 : size = 0
      · rw [if_pos hs0]
        subst hs0
        refine ⟨rfl, by simp, ?_, ?_, ?_⟩
        · rw [hdrop 0]; rfl
        · intro c hc; exact (hrest c hc).1
        · intro c hc; exact (hrest c (List.mem_cons_of_mem _ hc)).2
      · rw [if_neg hs0]
        have hnw := (hrest nxt (List.mem_cons_self _ _)).1
        have hn0 := (hrest nxt (List.mem_cons_self _ _)).2
        have hnl := ibuffer_live_length nxt hnw
        have hsz' : size ≤ (ibuffer_live nxt ++ (rest'.map ibuffer_live).flatten).length := by
          simp only [List.length_append, List.map_cons, List.flatten_cons] at hsz ⊢
          omega
        obtain ⟨h1, h2, h3, h4, h5⟩ := ih nxt
          (size - (if size ≤ nxt.end_ then size else nxt.end_))
          (if size ≤ nxt.end_ then size else nxt.end_) nxt.end_
          (done + (if size ≤ nxt.end_ then size else nxt.end_))
          (out ++ nxt.data.take (if size ≤ nxt.end_ then size else nxt.end_))
          hnw (fun c h => hrest c (List.mem_cons_of_mem _ h)) (by omega)
          (by split <;> omega) (by split <;> omega) (by split <;> omega)
        refine ⟨by rw [h1]; split <;> omega, ?_, ?_, h4, h5⟩
        · rw [h2]
          have := hdrop 0
          rw [Nat.add_zero] at this
          rw [this, List.drop_zero, List.map_cons, List.flatten_cons, List.append_assoc]
          congr 1
          generalize hk : (if size ≤ nxt.end_ then size else nxt.end_) = k
          have hk1 : k ≤ (ibuffer_live nxt).length := by rw [← hk]; split <;> omega
          have hk2 : k ≤ size := by rw [← hk]; split <;> omega
          have e1 : nxt.data.take k = (ibuffer_live nxt ++ (rest'.map ibuffer_live).flatten).take k := by
            rw [List.take_append_of_le_length hk1, ibuffer_live_start_zero nxt hn0, List.take_take]
            congr 1
            omega
          rw [e1]
          have e2 : size = k + (size - k) := by omega
          conv_rhs => rw [e2]
          rw [List.take_add]
        · rw [h3, hdrop size, List.map_cons, List.flatten_cons]
          congr 1
          split <;> omega

/-- What `dbuffer_get_data` does on a well-formed queue when `data_size ≤ size`. -/
theorem dbuffer_get_data_spec (b : dbuffer_t) (n : Nat) (hwf : dbuffer_wf b)
    (hn : (n : Int) ≤ b.size) :
    (dbuffer_get_data b n).2.1 = n ∧
    (dbuffer_get_data b n).2.2 = (dbuffer_contents b).take n ∧
    dbuffer_wf (dbuffer_get_data b n).1 ∧
    dbuffer_contents (dbuffer_get_data b n).1 = (dbuffer_contents b).drop n ∧
    (dbuffer_get_data b n).1.fd = b.fd ∧ (dbuffer_get_data b n).1.fds = b.fds ∧
    (dbuffer_get_data b n).1.separator = b.separator := by
  obtain ⟨hc, ht, hs⟩ := hwf
  unfold dbuffer_get_data
  simp only []
  by_cases h0 : n = 0
  · rw [if_pos h0]
    subst h0
    exact ⟨rfl, by simp, ⟨hc, ht, hs⟩, by simp, rfl, rfl, rfl⟩
  · rw [if_neg h0]
    cases hch : b.chunks with
    | nil =>
      have : dbuffer_contents b = [] := by simp [dbuffer_contents, hch]
      rw [this] at hs
      simp only [List.length_nil] at hs
      omega
    | cons ib rest =>
      simp only []
      have hcb : dbuffer_contents b = ibuffer_live ib ++ (rest.map ibuffer_live).flatten := by
        simp [dbuffer_contents, hch]
      have hib : ibuffer_wf ib := hc ib (by rw [hch]; simp)
      have hl := ibuffer_live_length ib hib
      have hrest : ∀ c ∈ rest, ibuffer_wf c ∧ c.start = 0 := fun c h =>
        ⟨hc c (by rw [hch]; simp [h]), ht c (by rw [hch]; simpa using h)⟩
      have hlen : n ≤ (ibuffer_live ib ++ (rest.map ibuffer_live).flatten).length := by
        rw [← hcb]; omega
      generalize hk : (if n ≤ ib.end_ - ib.start then n else ib.end_ - ib.start) = k
      have hk1 : k ≤ ib.end_ - ib.start := by rw [← hk]; split <;> omega
      have hk2 : k ≤ n := by rw [← hk]; split <;> omega
      obtain ⟨h1, h2, h3, h4, h5⟩ := get_loop_spec rest ib (n - k) k (ib.end_ - ib.start) k
        ((ibuffer_live ib).take k) hib hrest rfl hk1
        (by intro hne; split at hk <;> omega) (by omega)
      have hdone : (get_loop ib rest (n - k) k (ib.end_ - ib.start) k
          ((ibuffer_live ib).take k)).2.1 = n := by rw [h1]; omega
      have hout : (get_loop ib rest (n - k) k (ib.end_ - ib.start) k
          ((ibuffer_live ib).take k)).2.2 = (dbuffer_contents b).take n := by
        rw [h2, hcb]
        have e1 : (ibuffer_live ib).take k =
            (ibuffer_live ib ++ (rest.map ibuffer_live).flatten).take k := by
          rw [List.take_append_of_le_length (by omega)]
        have e2 : n = k + (n - k) := by omega
        rw [e1]
        conv_rhs => rw [e2]
        rw [List.take_add]
      have hcont : dbuffer_contents ⟨(get_loop ib rest (n - k) k (ib.end_ - ib.start) k
          ((ibuffer_live ib).take k)).1, b.size - (get_loop ib rest (n - k) k
          (ib.end_ - ib.start) k ((ibuffer_live ib).take k)).2.1, b.fd, b.fds, b.separator⟩ =
          (dbuffer_contents b).drop n := by
        simp only [dbuffer_contents] at hcb ⊢
        rw [h3, hcb]
        congr 1
        omega
      have hlive : (ib.data.drop ib.start).take k = (ibuffer_live ib).take k := by
        simp only [ibuffer_live]
        rw [List.drop_take, List.take_take]
        congr 1
        omega
      rw [hlive]
      have hsize : b.size - ((get_loop ib rest (n - k) k (ib.end_ - ib.start) k
          ((ibuffer_live ib).take k)).2.1 : Int) = (((dbuffer_contents b).drop n).length : Int) := by
        rw [hdone, hs, List.length_drop]
        omega
      refine ⟨hdone, hout, ⟨h4, h5, ?_⟩, hcont, ?_⟩
      · rw [hcont]; exact hsize
      · simp

theorem dbuffer_init_wf (fd : Int) (fds : Option Nat) (separator : Nat) :
    dbuffer_wf (dbuffer_init fd fds separator) := by
  refine ⟨?_, ?_, ?_⟩ <;> simp [dbuffer_init, dbuffer_contents]

theorem dbuffer_reachable_wf (b : dbuffer_t) (h : dbuffer_reachable b) : dbuffer_wf b := by
  induction h with
  | init fd fds separator => exact dbuffer_init_wf fd fds separator
  | put b xs _ ih => exact (dbuffer_put_data_spec b xs ih).2.1
  | get b n _ hn ih => exact (dbuffer_get_data_spec b n ih hn).2.2.1

/-- Successive takes whose sizes sum to at most the number of queued bytes return consecutive
pieces of the queue's byte sequence. -/
theorem dbuffer_takes_spec : ∀ (ns : List Nat) (b : dbuffer_t), dbuffer_wf b →
    (ns.sum : Int) ≤ b.size →
    (dbuffer_takes b ns).2.map List.length = ns ∧
    (dbuffer_takes b ns).2.flatten = (dbuffer_contents b).take ns.sum ∧
    dbuffer_wf (dbuffer_takes b ns).1 ∧
    dbuffer_contents (dbuffer_takes b ns).1 = (dbuffer_contents b).drop ns.sum := by
  intro ns
  induction ns with
  | nil => intro b hwf _; exact ⟨rfl, by simp [dbuffer_takes], hwf, by simp [dbuffer_takes]⟩
  | cons n ns ih =>
    intro b hwf hsum
    rw [List.sum_cons, Nat.cast_add] at hsum
    have hsz := hwf.2.2
    obtain ⟨g1, g2, g3, g4, _⟩ := dbuffer_get_data_spec b n hwf (by omega)
    have hsz' := g3.2.2
    rw [g4, List.length_drop] at hsz'
    obtain ⟨i1, i2, i3, i4⟩ := ih (dbuffer_get_data b n).1 g3 (by omega)
    simp only [dbuffer_takes, List.map_cons, List.flatten_cons, List.sum_cons]
    refine ⟨?_, ?_, i3, ?_⟩
    · rw [i1, g2, List.length_take]
      congr 1
      omega
    · rw [i2, g2, g4, List.take_add]
    · rw [i4, g4, List.drop_drop]

/-- C1: in every queue state reached by puts and takes, `size` counts the queued bytes,
`dbuffer_put_data(xs)` returns `|xs|` and appends `xs` to the logical byte sequence, and
`dbuffer_get_data(n)` with `n ≤ size` returns `n` and exactly the first `n` bytes and removes
them; in particular, after a put of `xs` on an empty queue, successive takes whose sizes sum to
`|xs|` return the consecutive pieces of `xs` and leave the queue empty with size 0. -/
theorem dbuffer_put_get_fifo (b : dbuffer_t) (hb : dbuffer_reachable b) (xs : List Nat) :
    b.size = ((dbuffer_contents b).length : Int) ∧
    ((dbuffer_put_data b xs).2 = (xs.length : Int) ∧
      dbuffer_contents (dbuffer_put_data b xs).1 = dbuffer_contents b ++ xs) ∧
    (∀ n : Nat, (n : Int) ≤ b.size →
      (dbuffer_get_data b n).2.1 = n ∧
      (dbuffer_get_data b n).2.2 = (dbuffer_contents b).take n ∧
      dbuffer_contents (dbuffer_get_data b n).1 = (dbuffer_contents b).drop n) ∧
    (∀ (fd : Int) (fds : Option Nat) (sep : Nat) (ns : List Nat), ns.sum = xs.length →
      (dbuffer_takes (dbuffer_put_data (dbuffer_init fd fds sep) xs).1 ns).2.map List.length = ns ∧
      (dbuffer_takes (dbuffer_put_data (dbuffer_init fd fds sep) xs).1 ns).2.flatten = xs ∧
      dbuffer_contents (dbuffer_takes (dbuffer_put_data (dbuffer_init fd fds sep) xs).1 ns).1 = [] ∧
      (dbuffer_takes (dbuffer_put_data (dbuffer_init fd fds sep) xs).1 ns).1.size = 0) := by
  have hwf := dbuffer_reachable_wf b hb
  obtain ⟨p1, _, p3, _⟩ := dbuffer_put_data_spec b xs hwf
  refine ⟨hwf.2.2, ⟨p1, p3⟩, ?_, ?_⟩
  · intro n hn
    obtain ⟨g1, g2, _, g4, _⟩ := dbuffer_get_data_spec b n hwf hn
    exact ⟨g1, g2, g4⟩
  · intro fd fds sep ns hsum
    obtain ⟨_, q2, q3, _⟩ := dbuffer_put_data_spec (dbuffer_init fd fds sep) xs
      (dbuffer_init_wf fd fds sep)
    have hc0 : dbuffer_contents (dbuffer_init fd fds sep) = [] := rfl
    rw [hc0, List.nil_append] at q3
    have hsz := q2.2.2
    rw [q3] at hsz
    obtain ⟨t1, t2, t3, t4⟩ := dbuffer_takes_spec ns _ q2 (by rw [hsz, hsum])
    rw [q3, hsum] at t2 t4
    rw [List.take_length] at t2
    rw [List.drop_length] at t4
    refine ⟨t1, t2, t4, ?_⟩
    rw [t3.2.2, t4]
    rfl

/-- Witness for C1: 600 bytes put on a fresh queue span three chunks and come back in order
through takes of 256, 300 and 44 bytes. -/
theorem dbuffer_put_get_fifo_witness :
    dbuffer_reachable (dbuffer_init 0 none 10) ∧
    dbuffer_contents (dbuffer_put_data (dbuffer_init 0 none 10) (List.range 600)).1 =
      dbuffer_contents (dbuffer_init 0 none 10) ++ List.range 600 ∧
    (dbuffer_takes (dbuffer_put_data (dbuffer_init 0 none 10) (List.range 600)).1
      [256, 300, 44]).2.flatten = List.range 600 :=
  ⟨dbuffer_reachable.init 0 none 10,
   (dbuffer_put_get_fifo _ (dbuffer_reachable.init 0 none 10) (List.range 600)).2.1.2,
   ((dbuffer_put_get_fifo _ (dbuffer_reachable.init 0 none 10) (List.range 600)).2.2.2
      0 none 10 [256, 300, 44] (by simp)).2.1⟩

theorem token_scan_loop (separator : Nat) (rest : List ibuffer_t)
    (ih : ∀ size chr, chr ≠ separator → token_loop separator rest size chr =
      first_token_size separator ((rest.map ibuffer_live).flatten) size) :
    ∀ (l : List Nat) (size chr : Nat), chr ≠ separator →
    (if (token_scan separator l size chr).2 = separator
      then some (token_scan separator l size chr).1
      else token_loop separator rest (token_scan separator l size chr).1
        (token_scan separator l size chr).2) =
    first_token_size separator (l ++ (rest.map ibuffer_live).flatten) size := by
  intro l
  induction l with
  | nil =>
    intro size chr hchr
    simp only [token_scan, List.nil_append]
    rw [if_neg hchr]
    exact ih size chr hchr
  | cons c cs ihl =>
    intro size chr _
    simp only [token_scan, List.cons_append, first_token_size]
    by_cases hc : c = separator
    · simp [hc]
    · rw [if_neg hc, if_neg hc]
      exact ihl (size + 1) c hc

theorem token_loop_eq (separator : Nat) : ∀ (chunks : List ibuffer_t) (size chr : Nat),
    chr ≠ separator → token_loop separator chunks size chr =
      first_token_size separator ((chunks.map ibuffer_live).flatten) size := by
  intro chunks
  induction chunks with
  | nil => intro size chr _; rfl
  | cons ib rest ih =>
    intro size chr hchr
    simp only [token_loop, List.map_cons, List.flatten_cons]
    exact token_scan_loop separator rest ih (ibuffer_live ib) size chr hchr

theorem first_token_size_found (separator : Nat) : ∀ (body tl : List Nat) (size : Nat),
    separator ∉ body →
    first_token_size separator (body ++ separator :: tl) size = some (size + body.length + 1) := by
  intro body
  induction body with
  | nil => intro tl size _; simp [first_token_size]
  | cons c cs ih =>
    intro tl size hn
    have hc : c ≠ separator := fun h => hn (by simp [h])
    have hcs : separator ∉ cs := fun h => hn (by simp [h])
    rw [List.cons_append, first_token_size, if_neg hc, ih tl (size + 1) hcs, List.length_cons]
    congr 1
    omega

theorem first_token_size_none (separator : Nat) : ∀ (l : List Nat) (size : Nat),
    separator ∉ l → first_token_size separator l size = none := by
  intro l
  induction l with
  | nil => intro size _; rfl
  | cons c cs ih =>
    intro size hn
    have hc : c ≠ separator := fun h => hn (by simp [h])
    have hcs : separator ∉ cs := fun h => hn (by simp [h])
    rw [first_token_size, if_neg hc, ih (size + 1) hcs]

/-- On a queue whose separator is not NUL, `dbuffer_token_size` is the length of the first
token of the logical byte sequence, and 0 when there is no separator. -/
theorem dbuffer_token_size_eq (b : dbuffer_t) (hsep : b.separator ≠ 0) :
    dbuffer_token_size b = match first_token_size b.separator (dbuffer_contents b) 0 with
      | some size => size
      | none => 0 := by
  unfold dbuffer_token_size
  rw [token_loop_eq b.separator b.chunks 0 0 (fun h => hsep h.symm)]
  rfl

theorem line_area (space : Nat) (ln : List Nat) :
    memcpy (List.replicate (space + ln.length) 0) space ln = List.replicate space 0 ++ ln := by
  unfold memcpy
  rw [List.drop_of_length_le (by simp), List.append_nil]
  congr 1
  rw [List.take_replicate]
  congr 1
  omega

theorem area_getD (space k : Nat) (ln : List Nat) :
    (List.replicate space 0 ++ ln).getD (space + k) 0 = ln.getD k 0 := by
  rw [List.getD_append_right _ _ _ _ (by simp)]
  simp

theorem area_set (space k v : Nat) (ln : List Nat) :
    (List.replicate space 0 ++ ln).set (space + k) v = List.replicate space 0 ++ ln.set k v := by
  rw [List.set_append_right _ _ (by simp)]
  simp

theorem area_bytes (space n : Nat) (ln : List Nat) :
    line_bytes ⟨n, List.replicate space 0 ++ ln, space⟩ = ln.take n := by
  unfold line_bytes
  simp only []
  rw [List.drop_append_eq_append_drop, List.drop_of_length_le (by simp)]
  simp
theorem tail2_getD (body : List Nat) (x y : Nat) :
    (body ++ [x, y]).getD body.length 0 = x := by
  rw [List.getD_append_right _ _ _ _ (Nat.le_refl _)]
  simp

theorem tail2_drop (body : List Nat) (x y : Nat) :
    (body ++ [x, y]).drop (body.length + 2 - 2) = [x, y] := by
  simp

theorem tail2_take (body : List Nat) (x y : Nat) :
    (body ++ [x, y]).take (body.length + 2 - 2) = body := by
  simp

theorem tail2_set_take (body : List Nat) (x y v : Nat) :
    ((body ++ [x, y]).set (body.length + 2 - 2) v).take (body.length + 2 - 1) = body ++ [v] := by
  have : body.length + 2 - 2 = body.length := by omega
  rw [this, List.set_append_right _ _ (Nat.le_refl _)]
  simp
  rw [List.take_append_eq_append_take]
  simp

theorem dbuffer_get_line (b : dbuffer_t) (ln tl : List Nat) (hwf : dbuffer_wf b)
    (hc : dbuffer_contents b = ln ++ tl) :
    (dbuffer_get_data b ln.length).2.2 = ln ∧ dbuffer_wf (dbuffer_get_data b ln.length).1 ∧
    dbuffer_contents (dbuffer_get_data b ln.length).1 = tl ∧
    (dbuffer_get_data b ln.length).1.separator = b.separator := by
  have hsz := hwf.2.2
  obtain ⟨_, g2, g3, g4, _, _, g7⟩ := dbuffer_get_data_spec b ln.length hwf
    (by rw [hsz, hc, List.length_append]; omega)
  rw [hc] at g2 g4
  rw [List.take_left] at g2
  rw [List.drop_left] at g4
  exact ⟨g2, g3, g4, g7⟩

theorem dbuffer_token_size_line (b : dbuffer_t) (body tl : List Nat) (hsep : b.separator = 10)
    (hb : 10 ∉ body) (hc : dbuffer_contents b = (body ++ [10]) ++ tl) :
    dbuffer_token_size b = (body ++ [10]).length := by
  rw [dbuffer_token_size_eq b (by rw [hsep]; decide), hc, hsep, List.append_assoc,
    List.singleton_append, first_token_size_found 10 body tl 0 hb]
  simp

theorem dbuffer_token_size_none (b : dbuffer_t) (hsep : b.separator = 10)
    (hc : 10 ∉ dbuffer_contents b) : dbuffer_token_size b = 0 := by
  rw [dbuffer_token_size_eq b (by rw [hsep]; decide), hsep, first_token_size_none 10 _ 0 hc]

/-- One call of the `dbuffer_input_line` loop on a stream of lines: the blank lines at the
front are dropped and the first other line is returned, normalised. -/
theorem input_line_loop_spec (space : Nat) (rem : List Nat) (hrem : 10 ∉ rem) :
    ∀ (lines : List (List Nat)) (fuel : Nat) (b : dbuffer_t), dbuffer_wf b →
    b.separator = 10 → (∀ ln ∈ lines, is_line 10 ln) →
    dbuffer_contents b = lines.flatten ++ rem → lines.length + 1 ≤ fuel →
    ∃ b', dbuffer_wf b' ∧ b'.separator = 10 ∧
      match lines.dropWhile is_blank with
      | [] => input_line_loop fuel b space = .ok (none, b') ∧ dbuffer_contents b' = rem
      | ln :: lines' => ∃ line, input_line_loop fuel b space = .ok (some line, b') ∧
          line_bytes line = normalize_line ln ∧ line.length = (normalize_line ln).length ∧
          line.data = space ∧ dbuffer_contents b' = lines'.flatten ++ rem := by
  intro lines
  induction lines with
  | nil =>
    intro fuel b hwf hsep _ hc hf
    obtain ⟨f, rfl⟩ : ∃ f, fuel = f + 1 := ⟨fuel - 1, by omega⟩
    refine ⟨b, hwf, hsep, ?_⟩
    simp only [List.flatten_nil, List.nil_append] at hc
    have ht := dbuffer_token_size_none b hsep (by rw [hc]; exact hrem)
    simp only [List.dropWhile_nil, input_line_loop, ht]
    exact ⟨by simp, hc⟩
  | cons ln lines ih =>
    intro fuel b hwf hsep hl hc hf
    obtain ⟨f, rfl⟩ : ∃ f, fuel = f + 1 := ⟨fuel - 1, by simp at hf; omega⟩
    have hf' : lines.length + 1 ≤ f := by simp at hf; omega
    obtain ⟨body, hln, hbody⟩ := hl ln (List.mem_cons_self _ _)
    have hl' : ∀ l ∈ lines, is_line 10 l := fun l h => hl l (List.mem_cons_of_mem _ h)
    rw [List.flatten_cons, List.append_assoc] at hc
    have ht : dbuffer_token_size b = ln.length := by
      rw [hln]; rw [hln] at hc
      exact dbuffer_token_size_line b body _ hsep hbody hc
    obtain ⟨g1, g2, g3, g4⟩ := dbuffer_get_line b ln _ hwf hc
    rw [hsep] at g4
    rcases List.eq_nil_or_concat body with hnil | ⟨body', x, hcat⟩
    · -- the line is LF alone
      subst hnil
      have hln1 : ln = [10] := by simpa using hln
      subst hln1
      obtain ⟨b', h1, h2, h3⟩ := ih f _ g2 g4 hl' g3 hf'
      refine ⟨b', h1, h2, ?_⟩
      have hblank : is_blank [10] = true := by decide
      rw [List.dropWhile_cons_of_pos hblank]
      have e : input_line_loop (f + 1) b space =
          input_line_loop f (dbuffer_get_data b 1).1 space := by
        rw [input_line_loop]
        simp only [ht]
        simp
      rw [e]
      exact h3
    · have hln2 : ln = body' ++ [x, 10] := by rw [hln, hcat]; simp
      have hlen : ln.length = body'.length + 2 := by rw [hln2]; simp
      have harea : memcpy (List.replicate (space + ln.length) 0) space
          (dbuffer_get_data b ln.length).2.2 = List.replicate space 0 ++ ln := by
        rw [g1]; exact line_area space ln
      have hg0 : (List.replicate space 0 ++ ln).getD space 0 = ln.getD 0 0 := by
        have := area_getD space 0 ln
        simpa using this
      have hgl : (List.replicate space 0 ++ ln).getD (space + (ln.length - 2)) 0 = x := by
        rw [area_getD, hlen, hln2]
        exact tail2_getD body' x 10
      have hunf : input_line_loop (f + 1) b space =
          if ln.length ≠ 2 ∨ ln.getD 0 0 ≠ 13 then
            if x = 13 then
              .ok (some ⟨ln.length - 1, List.replicate space 0 ++ ln.set (ln.length - 2) 10,
                space⟩, (dbuffer_get_data b ln.length).1)
            else .ok (some ⟨ln.length, List.replicate space 0 ++ ln, space⟩,
                (dbuffer_get_data b ln.length).1)
          else input_line_loop f (dbuffer_get_data b ln.length).1 space := by
        rw [input_line_loop]
        simp only [ht, harea, hg0, hgl, area_set]
        have h0 : ln.length ≠ 0 := by omega
        have h1 : ln.length ≠ 1 := by omega
        simp only [h0, h1, ne_eq, not_false_eq_true, if_true]
      rw [hunf]
      by_cases hblank : is_blank ln = true
      · -- the line is CR LF
        have h13 : ln = [13, 10] := by
          have : ln ≠ [10] := fun h => by rw [h] at hlen; simp at hlen
          simpa [is_blank, this] using hblank
        obtain ⟨b', h1, h2, h3⟩ := ih f _ g2 g4 hl' g3 hf'
        refine ⟨b', h1, h2, ?_⟩
        rw [List.dropWhile_cons_of_pos hblank]
        rw [if_neg (by rw [h13]; simp)]
        exact h3
      · rw [List.dropWhile_cons_of_neg hblank]
        refine ⟨_, g2, g4, ?_⟩
        have hnb : ln.length ≠ 2 ∨ ln.getD 0 0 ≠ 13 := by
          by_contra hcon
          push_neg at hcon
          apply hblank
          have hb0 : body' = [] := by
            apply List.length_eq_zero.1; omega
          rw [hln2, hb0] at hcon ⊢
          simp at hcon
          simp [is_blank, hcon]
        rw [if_pos hnb]
        by_cases hx : x = 13
        · rw [if_pos hx]
          have hnorm : normalize_line ln = body' ++ [10] := by
            unfold normalize_line
            rw [hln2, List.length_append, List.length_cons, List.length_singleton,
              tail2_drop, tail2_take, hx]
            simp
          refine ⟨_, rfl, ?_, ?_, rfl, g3⟩
          · rw [area_bytes, hnorm, hlen, hln2]
            exact tail2_set_take body' x 10 10
          · rw [hnorm, hlen]; simp
        · rw [if_neg hx]
          have hnorm : normalize_line ln = ln := by
            unfold normalize_line
            rw [hln2, List.length_append, List.length_cons, List.length_singleton,
              tail2_drop]
            simp [hx]
          refine ⟨_, rfl, ?_, ?_, rfl, g3⟩
          · rw [area_bytes, hnorm]; simp
          · rw [hnorm]

theorem lines_length_le (lines : List (List Nat)) (h : ∀ ln ∈ lines, is_line 10 ln) :
    lines.length ≤ lines.flatten.length := by
  induction lines with
  | nil => simp
  | cons ln lines ih =>
    obtain ⟨body, hln, _⟩ := h ln (List.mem_cons_self _ _)
    have := ih (fun l hl => h l (List.mem_cons_of_mem _ hl))
    rw [List.flatten_cons, List.length_append, List.length_cons, hln, List.length_append,
      List.length_singleton]
    omega

theorem filter_dropWhile_blank (lines : List (List Nat)) :
    lines.filter (fun ln => !is_blank ln) =
      (lines.dropWhile is_blank).filter (fun ln => !is_blank ln) := by
  induction lines with
  | nil => rfl
  | cons ln lines ih =>
    by_cases hb : is_blank ln = true
    · rw [List.dropWhile_cons_of_pos hb, List.filter_cons_of_neg (by simp [hb]), ih]
    · rw [List.dropWhile_cons_of_neg hb]

/-- A queue without a complete line: `dbuffer_input_line` returns `NULL` and leaves the queue
as it is. -/
theorem dbuffer_input_line_none (b : dbuffer_t) (space : Nat) (hsep : b.separator = 10)
    (hc : 10 ∉ dbuffer_contents b) : dbuffer_input_line b space = .ok (none, b) := by
  unfold dbuffer_input_line
  rw [input_line_loop]
  simp [dbuffer_token_size_none b hsep hc]

/-- Repeated calls of `dbuffer_input_line` on a stream of lines. -/
theorem input_lines_loop_spec (space : Nat) (rem : List Nat) (hrem : 10 ∉ rem) :
    ∀ (n : Nat) (lines : List (List Nat)), lines.length ≤ n →
    ∀ (fuel : Nat) (b : dbuffer_t), dbuffer_wf b → b.separator = 10 →
    (∀ ln ∈ lines, is_line 10 ln) → dbuffer_contents b = lines.flatten ++ rem →
    lines.length + 1 ≤ fuel →
    ∃ ls b', input_lines_loop fuel b space = .ok (ls, b') ∧
      ls.map line_bytes = (lines.filter (fun ln => !is_blank ln)).map normalize_line ∧
      ls.map line_t.length =
        (lines.filter (fun ln => !is_blank ln)).map (fun ln => (normalize_line ln).length) ∧
      (∀ l ∈ ls, l.data = space) ∧ b'.separator = 10 ∧ dbuffer_contents b' = rem := by
  intro n
  induction n with
  | zero =>
    intro lines hn fuel b hwf hsep _ hc hf
    have hnil : lines = [] := List.length_eq_zero.1 (by omega)
    subst hnil
    obtain ⟨f, rfl⟩ : ∃ f, fuel = f + 1 := ⟨fuel - 1, by omega⟩
    simp only [List.flatten_nil, List.nil_append] at hc
    refine ⟨[], b, ?_, rfl, rfl, by simp, hsep, hc⟩
    rw [input_lines_loop, dbuffer_input_line_none b space hsep (by rw [hc]; exact hrem)]
  | succ n ih =>
    intro lines hn fuel b hwf hsep hl hc hf
    obtain ⟨f, rfl⟩ : ∃ f, fuel = f + 1 := ⟨fuel - 1, by omega⟩
    have hlen := lines_length_le lines hl
    obtain ⟨b1, hwf1, hsep1, hm⟩ := input_line_loop_spec space rem hrem lines
      ((dbuffer_contents b).length + 1) b hwf hsep hl hc
      (by rw [hc, List.length_append]; omega)
    rw [filter_dropWhile_blank lines]
    have hsuf : lines.dropWhile is_blank <:+ lines := List.dropWhile_suffix _
    cases hd : lines.dropWhile is_blank with
    | nil =>
      rw [hd] at hm
      obtain ⟨h1, h2⟩ := hm
      refine ⟨[], b1, ?_, rfl, rfl, by simp, hsep1, h2⟩
      rw [input_lines_loop]
      unfold dbuffer_input_line
      rw [h1]
    | cons ln lines' =>
      rw [hd] at hm hsuf
      obtain ⟨line, h1, h2, h3, h4, h5⟩ := hm
      have hl1 : (ln :: lines').length ≤ lines.length := hsuf.length_le
      rw [List.length_cons] at hl1
      have hnb : is_blank ln = false := by
        have := List.head_dropWhile_not is_blank lines (by rw [hd]; simp)
        simpa [hd] using this
      have hl' : ∀ l ∈ lines', is_line 10 l := fun l h =>
        hl l (hsuf.subset (List.mem_cons_of_mem _ h))
      obtain ⟨ls, b2, i1, i2, i3, i4, i5, i6⟩ := ih lines' (by omega) f b1 hwf1 hsep1 hl' h5
        (by omega)
      refine ⟨line :: ls, b2, ?_, ?_, ?_, ?_, i5, i6⟩
      · rw [input_lines_loop]
        unfold dbuffer_input_line
        rw [h1]
        simp only []
        rw [i1]
      · rw [List.filter_cons_of_pos (by simp [hnb]), List.map_cons, List.map_cons, h2, i2]
      · rw [List.filter_cons_of_pos (by simp [hnb]), List.map_cons, List.map_cons, h3, i3]
      · intro l hl
        rcases List.mem_cons.1 hl with h | h
        · rw [h]; exact h4
        · exact i4 l h

/-- C2: on a well-formed queue with separator LF whose content is a sequence of LF-terminated
lines followed by a remainder without LF, the repeated `dbuffer_input_line` calls return, in
order, exactly the lines other than "\n" and "\r\n", each with a trailing "\r\n" replaced by
"\n" and the length reported accordingly (placed after the `space` reserved bytes); the queue
then holds exactly the remainder, and a further call returns nothing and leaves it unchanged. -/
theorem dbuffer_input_line_stream (b : dbuffer_t) (space : Nat) (lines : List (List Nat))
    (rem : List Nat) (hwf : dbuffer_wf b) (hsep : b.separator = 10)
    (hl : ∀ ln ∈ lines, is_line 10 ln) (hrem : 10 ∉ rem)
    (hc : dbuffer_contents b = lines.flatten ++ rem) :
    ∃ ls b', dbuffer_input_lines b space = .ok (ls, b') ∧
      ls.map line_bytes = (lines.filter (fun ln => !is_blank ln)).map normalize_line ∧
      ls.map line_t.length =
        (lines.filter (fun ln => !is_blank ln)).map (fun ln => (normalize_line ln).length) ∧
      (∀ l ∈ ls, l.data = space) ∧ dbuffer_contents b' = rem ∧
      dbuffer_input_line b' space = .ok (none, b') := by
  have hlen := lines_length_le lines hl
  obtain ⟨ls, b', h1, h2, h3, h4, h5, h6⟩ := input_lines_loop_spec space rem hrem lines.length
    lines (Nat.le_refl _) ((dbuffer_contents b).length + 1) b hwf hsep hl hc
    (by rw [hc, List.length_append]; omega)
  exact ⟨ls, b', h1, h2, h3, h4, h6,
    dbuffer_input_line_none b' space h5 (by rw [h6]; exact hrem)⟩

/-- Witness for C2: the stream "hi\r\n", "\n", "\r\n", "yo\n" followed by the remainder "z". -/
theorem dbuffer_input_line_stream_witness :
    ∃ ls b', dbuffer_input_lines
        (dbuffer_put_data (dbuffer_init 0 none 10)
          [104, 105, 13, 10, 10, 13, 10, 121, 111, 10, 122]).1 2 = .ok (ls, b') ∧
      ls.map line_bytes = [[104, 105, 10], [121, 111, 10]] ∧
      dbuffer_contents b' = [122] := by
  have hput := dbuffer_put_data_spec (dbuffer_init 0 none 10)
    [104, 105, 13, 10, 10, 13, 10, 121, 111, 10, 122] (dbuffer_init_wf 0 none 10)
  obtain ⟨ls, b', h1, h2, _, _, h5, _⟩ := dbuffer_input_line_stream
    (dbuffer_put_data (dbuffer_init 0 none 10)
      [104, 105, 13, 10, 10, 13, 10, 121, 111, 10, 122]).1 2
    [[104, 105, 13, 10], [10], [13, 10], [121, 111, 10]] [122]
    hput.2.1 hput.2.2.2.2.2
    (by
      intro ln h
      simp only [List.mem_cons, List.mem_singleton, List.not_mem_nil, or_false] at h
      rcases h with h | h | h | h
      · exact ⟨[104, 105, 13], h, by decide⟩
      · exact ⟨[], h, by decide⟩
      · exact ⟨[13], h, by decide⟩
      · exact ⟨[121, 111], h, by decide⟩)
    (by decide) hput.2.2.1
  exact ⟨ls, b', h1, h2.trans (by decide), h5⟩

/-! ## Theorems: strlib/command.c -/

theorem token_runs_offset_ge : ∀ (l : List Nat) (i : Nat), ∀ p ∈ token_runs l i, i ≤ p.1 := by
  intro l
  induction l with
  | nil => intro i p hp; simp [token_runs] at hp
  | cons c cs ih =>
    intro i p hp
    rw [token_runs] at hp
    split at hp
    · exact Nat.le_of_succ_le (ih (i + 1) p hp)
    · cases hR : token_runs cs (i + 1) with
      | nil =>
        rw [hR] at hp
        simp only [List.mem_singleton] at hp
        rw [hp]
      | cons q rs =>
        obtain ⟨o, r⟩ := q
        rw [hR] at hp
        simp only [] at hp
        have hrs : ∀ p' ∈ rs, i ≤ p'.1 := fun p' h =>
          Nat.le_of_succ_le (ih (i + 1) p' (by rw [hR]; exact List.mem_cons_of_mem _ h))
        have ho : i ≤ o := Nat.le_of_succ_le (ih (i + 1) (o, r) (by rw [hR]; simp))
        split at hp
        · rcases List.mem_cons.1 hp with h | h
          · rw [h]
          · exact hrs p h
        · rcases List.mem_cons.1 hp with h | h
          · rw [h]
          · rcases List.mem_cons.1 h with h | h
            · rw [h]; exact ho
            · exact hrs p h

theorem token_runs_cons_blank (c : Nat) (cs : List Nat) (i : Nat) (h : c = 32 ∨ c = 9) :
    token_runs (c :: cs) i = token_runs cs (i + 1) := by
  rw [token_runs, if_pos (by rcases h with h | h <;> simp [is_space_tab, h])]

theorem token_runs_cons_other (c : Nat) (cs : List Nat) (i : Nat) (h : ¬(c = 32 ∨ c = 9)) :
    token_runs (c :: cs) i =
      match token_runs cs (i + 1) with
      | (o, r) :: rs => if o = i + 1 then (i, c :: r) :: rs else (i, [c]) :: (o, r) :: rs
      | [] => [(i, [c])] := by
  rw [token_runs, if_neg (by simpa [is_space_tab] using h)]

/-- Both loop states of the filling pass against the runs of the line that starts at `chr`. -/
theorem fill_tokens_spec : ∀ (rest : List Nat) (chr i : Nat) (args cmd : List Nat),
    10 ∈ chr :: rest →
    fill_tokens rest chr i false args cmd =
      .ok (args ++ (token_runs ((chr :: rest).takeWhile (· ≠ 10)) i).map Prod.fst,
           write_sentinels (token_runs ((chr :: rest).takeWhile (· ≠ 10)) i) cmd) ∧
    fill_tokens rest chr i true args cmd =
      (match token_runs ((chr :: rest).takeWhile (· ≠ 10)) i with
       | (o, r) :: rs =>
         if o = i then .ok (args ++ rs.map Prod.fst, write_sentinels rs (cmd.set (i + r.length) 0))
         else .ok (args ++ o :: rs.map Prod.fst, write_sentinels ((o, r) :: rs) (cmd.set i 0))
       | [] => .ok (args, cmd.set i 0)) := by
  intro rest
  induction rest with
  | nil =>
    intro chr i args cmd h
    have hc : chr = 10 := by simpa [eq_comm] using h
    subst hc
    constructor <;> simp [fill_tokens, token_runs, write_sentinels]
  | cons c rest' ih =>
    intro chr i args cmd h
    by_cases hc : chr = 10
    · subst hc
      constructor <;> simp [fill_tokens, token_runs, write_sentinels]
    · have h' : 10 ∈ c :: rest' := by
        rcases List.mem_cons.1 h with h | h
        · exact absurd h.symm hc
        · exact h
      have htw : (chr :: c :: rest').takeWhile (· ≠ 10) =
          chr :: (c :: rest').takeWhile (· ≠ 10) := by
        rw [List.takeWhile_cons_of_pos (by simpa using hc)]
      rw [htw]
      by_cases hb : chr = 32 ∨ chr = 9
      · rw [token_runs_cons_blank chr _ i hb]
        constructor
        · rw [fill_tokens, if_neg hc, if_pos hb]
          exact (ih c (i + 1) args cmd h').1
        · have hcond : ¬(chr ≠ 32 ∧ chr ≠ 9 ∧ chr ≠ 10) := by tauto
          rw [fill_tokens, if_neg hcond, if_neg hc]
          rw [(ih c (i + 1) args (cmd.set i 0) h').1]
          cases hR : token_runs ((c :: rest').takeWhile (· ≠ 10)) (i + 1) with
          | nil => simp [write_sentinels]
          | cons q rs =>
            obtain ⟨o, r⟩ := q
            have ho := token_runs_offset_ge _ _ (o, r) (by rw [hR]; simp)
            simp only [] at ho
            have hoi : o ≠ i := by omega
            simp only [List.map_cons, if_neg hoi]
      · rw [token_runs_cons_other chr _ i hb]
        have hcond : chr ≠ 32 ∧ chr ≠ 9 ∧ chr ≠ 10 := by tauto
        constructor
        · rw [fill_tokens, if_neg hc, if_neg hb]
          rw [(ih c (i + 1) (args ++ [i]) cmd h').2]
          cases hR : token_runs ((c :: rest').takeWhile (· ≠ 10)) (i + 1) with
          | nil => simp [write_sentinels]
          | cons q rs =>
            obtain ⟨o, r⟩ := q
            simp only []
            by_cases ho : o = i + 1
            · simp only [if_pos ho, List.map_cons, write_sentinels, List.foldl_cons,
                List.length_cons, List.append_assoc, List.singleton_append]
              rw [show i + 1 + r.length = i + (r.length + 1) by omega]
            · simp only [if_neg ho, List.map_cons, write_sentinels, List.foldl_cons,
                List.length_cons, List.append_assoc, List.singleton_append, List.length_nil]
        · rw [fill_tokens, if_pos hcond]
          rw [(ih c (i + 1) args cmd h').2]
          cases hR : token_runs ((c :: rest').takeWhile (· ≠ 10)) (i + 1) with
          | nil => simp [write_sentinels]
          | cons q rs =>
            obtain ⟨o, r⟩ := q
            simp only []
            by_cases ho : o = i + 1
            · simp only [if_pos ho, if_true, List.length_cons]
              rw [show i + 1 + r.length = i + (r.length + 1) by omega]
            · simp only [if_neg ho, if_true, List.map_cons, write_sentinels, List.foldl_cons,
                List.length_cons, List.length_nil]

/-- Both loop states of the counting pass against the runs of the line that starts at `chr`. -/
theorem count_tokens_spec : ∀ (rest : List Nat) (chr i count : Nat),
    10 ∈ chr :: rest →
    count_tokens rest chr false count =
      .ok (count + (token_runs ((chr :: rest).takeWhile (· ≠ 10)) i).length) ∧
    count_tokens rest chr true count =
      (match token_runs ((chr :: rest).takeWhile (· ≠ 10)) i with
       | (o, _) :: rs => if o = i then .ok (count + rs.length) else .ok (count + (rs.length + 1))
       | [] => .ok count) := by
  intro rest
  induction rest with
  | nil =>
    intro chr i count h
    have hc : chr = 10 := by simpa [eq_comm] using h
    subst hc
    constructor <;> simp [count_tokens, token_runs]
  | cons c rest' ih =>
    intro chr i count h
    by_cases hc : chr = 10
    · subst hc
      constructor <;> simp [count_tokens, token_runs]
    · have h' : 10 ∈ c :: rest' := by
        rcases List.mem_cons.1 h with h | h
        · exact absurd h.symm hc
        · exact h
      have htw : (chr :: c :: rest').takeWhile (· ≠ 10) =
          chr :: (c :: rest').takeWhile (· ≠ 10) := by
        rw [List.takeWhile_cons_of_pos (by simpa using hc)]
      rw [htw]
      by_cases hb : chr = 32 ∨ chr = 9
      · rw [token_runs_cons_blank chr _ i hb]
        constructor
        · rw [count_tokens, if_neg hc, if_pos hb]
          exact (ih c (i + 1) count h').1
        · have hcond : ¬(chr ≠ 32 ∧ chr ≠ 9 ∧ chr ≠ 10) := by tauto
          rw [count_tokens, if_neg hcond, if_neg hc]
          rw [(ih c (i + 1) count h').1]
          cases hR : token_runs ((c :: rest').takeWhile (· ≠ 10)) (i + 1) with
          | nil => simp
          | cons q rs =>
            obtain ⟨o, r⟩ := q
            have ho := token_runs_offset_ge _ _ (o, r) (by rw [hR]; simp)
            simp only [] at ho
            have hoi : o ≠ i := by omega
            simp only [List.length_cons, if_neg hoi]
      · rw [token_runs_cons_other chr _ i hb]
        have hcond : chr ≠ 32 ∧ chr ≠ 9 ∧ chr ≠ 10 := by tauto
        constructor
        · rw [count_tokens, if_neg hc, if_neg hb]
          rw [(ih c (i + 1) (count + 1) h').2]
          cases hR : token_runs ((c :: rest').takeWhile (· ≠ 10)) (i + 1) with
          | nil => simp
          | cons q rs =>
            obtain ⟨o, r⟩ := q
            simp only []
            by_cases ho : o = i + 1
            · simp only [if_pos ho, List.length_cons]
              rw [show count + 1 + rs.length = count + (rs.length + 1) by omega]
            · simp only [if_neg ho, List.length_cons]
              rw [show count + 1 + (rs.length + 1) = count + (rs.length + 1 + 1) by omega]
        · rw [count_tokens, if_pos hcond]
          rw [(ih c (i + 1) count h').2]
          cases hR : token_runs ((c :: rest').takeWhile (· ≠ 10)) (i + 1) with
          | nil => simp
          | cons q rs =>
            obtain ⟨o, r⟩ := q
            simp only []
            by_cases ho : o = i + 1
            · simp only [if_pos ho, if_true]
            · simp only [if_neg ho, if_true, List.length_cons]

theorem token_runs_head (d : Nat) (l : List Nat) (j : Nat) (hd : is_space_tab d = false) :
    ∃ r rs, token_runs (d :: l) j = (j, r) :: rs := by
  rw [token_runs, if_neg (by simp [hd])]
  cases hR : token_runs l (j + 1) with
  | nil => exact ⟨_, _, rfl⟩
  | cons q rs =>
    obtain ⟨o, r⟩ := q
    simp only []
    split
    · exact ⟨_, _, rfl⟩
    · exact ⟨_, _, rfl⟩

/-- A list that is empty or starts with a space or tab has no run at its first offset. -/
theorem token_runs_no_head (l : List Nat) (j : Nat)
    (h : l = [] ∨ ∃ b l', l = b :: l' ∧ is_space_tab b = true) :
    ∀ p ∈ token_runs l j, p.1 ≠ j := by
  intro p hp
  rcases h with h | ⟨b, l', h, hb⟩
  · rw [h] at hp; simp [token_runs] at hp
  · rw [h, token_runs, if_pos hb] at hp
    have := token_runs_offset_ge l' (j + 1) p hp
    omega

theorem token_runs_tail_blank (l : List Nat) (j : Nat)
    (h : ∀ p ∈ token_runs l j, p.1 ≠ j) :
    l = [] ∨ ∃ b l', l = b :: l' ∧ is_space_tab b = true := by
  cases l with
  | nil => exact Or.inl rfl
  | cons d l' =>
    right
    by_cases hd : is_space_tab d = true
    · exact ⟨d, l', rfl, hd⟩
    · obtain ⟨r, rs, heq⟩ := token_runs_head d l' j (by simpa using hd)
      exact absurd rfl (h (j, r) (by rw [heq]; simp))

/-- Every element of `token_runs` is a run of the line at its offset: it consists of bytes other
than space and tab, is not empty, and is followed by a space, a tab or the end of the line. -/
theorem token_runs_sound : ∀ (l : List Nat) (i : Nat), ∀ p ∈ token_runs l i,
    ∃ pre post, l = pre ++ p.2 ++ post ∧ p.1 = i + pre.length ∧
      (∀ x ∈ p.2, is_space_tab x = false) ∧ p.2 ≠ [] ∧
      (post = [] ∨ ∃ b post', post = b :: post' ∧ is_space_tab b = true) := by
  intro l
  induction l with
  | nil => intro i p hp; simp [token_runs] at hp
  | cons c cs ih =>
    intro i p hp
    have lift : ∀ q ∈ token_runs cs (i + 1), ∃ pre post, c :: cs = pre ++ q.2 ++ post ∧
        q.1 = i + pre.length ∧ (∀ x ∈ q.2, is_space_tab x = false) ∧ q.2 ≠ [] ∧
        (post = [] ∨ ∃ b post', post = b :: post' ∧ is_space_tab b = true) := by
      intro q hq
      obtain ⟨pre, post, h1, h2, h3, h4, h5⟩ := ih (i + 1) q hq
      refine ⟨c :: pre, post, by rw [h1]; simp, by rw [h2, List.length_cons]; omega, h3, h4, h5⟩
    by_cases hb : is_space_tab c = true
    · rw [token_runs, if_pos hb] at hp
      exact lift p hp
    · have hbf : is_space_tab c = false := by simpa using hb
      rw [token_runs, if_neg hb] at hp
      cases hR : token_runs cs (i + 1) with
      | nil =>
        rw [hR] at hp
        simp only [List.mem_singleton] at hp
        subst hp
        refine ⟨[], cs, by simp, by simp, by simpa using hbf, by simp, ?_⟩
        exact token_runs_tail_blank cs (i + 1) (by rw [hR]; simp)
      | cons q rs =>
        obtain ⟨o, r⟩ := q
        rw [hR] at hp
        simp only [] at hp
        by_cases ho : o = i + 1
        · rw [if_pos ho] at hp
          rcases List.mem_cons.1 hp with h | h
          · subst h
            obtain ⟨pre, post, h1, h2, h3, h4, h5⟩ := ih (i + 1) (o, r) (by rw [hR]; simp)
            simp only [] at h1 h2 h3
            have hpre : pre = [] := List.length_eq_zero.1 (by omega)
            subst hpre
            refine ⟨[], post, by rw [h1]; simp, by simp, ?_, by simp, h5⟩
            intro x hx
            rcases List.mem_cons.1 hx with h | h
            · rw [h]; exact hbf
            · exact h3 x h
          · exact lift p (by rw [hR]; exact List.mem_cons_of_mem _ h)
        · rw [if_neg ho] at hp
          rcases List.mem_cons.1 hp with h | h
          · subst h
            refine ⟨[], cs, by simp, by simp, by simpa using hbf, by simp, ?_⟩
            cases cs with
            | nil => exact Or.inl rfl
            | cons d cs' =>
              right
              by_cases hd : is_space_tab d = true
              · exact ⟨d, cs', rfl, hd⟩
              · obtain ⟨r', rs', heq⟩ := token_runs_head d cs' (i + 1) (by simpa using hd)
                rw [heq] at hR
                simp only [List.cons.injEq, Prod.mk.injEq] at hR
                exact absurd hR.1.1.symm ho
          · exact lift p (by rw [hR]; exact h)

/-- The runs found by `token_runs` are the non-empty pieces of the line split at spaces and
tabs, in order. -/
theorem token_runs_eq_split : ∀ (l : List Nat) (i : Nat),
    (token_runs l i).map Prod.snd = (l.splitOnP is_space_tab).filter (· ≠ []) := by
  intro l
  induction l with
  | nil => intro i; simp [token_runs]
  | cons c cs ih =>
    intro i
    rw [List.splitOnP_cons]
    by_cases hb : is_space_tab c = true
    · rw [token_runs, if_pos hb, if_pos hb, ih (i + 1)]
      simp
    · have hbf : is_space_tab c = false := by simpa using hb
      rw [token_runs, if_neg hb, if_neg hb]
      have ihc := ih (i + 1)
      cases cs with
      | nil => simp [token_runs]
      | cons d cs' =>
        rw [List.splitOnP_cons] at ihc ⊢
        by_cases hd : is_space_tab d = true
        · rw [if_pos hd] at ihc ⊢
          have hno := token_runs_no_head (d :: cs') (i + 1) (Or.inr ⟨d, cs', rfl, hd⟩)
          have hfil : ([] :: List.splitOnP is_space_tab cs').filter (· ≠ []) =
              (List.splitOnP is_space_tab cs').filter (· ≠ []) :=
            List.filter_cons_of_neg (by simp)
          rw [hfil] at ihc
          rw [List.modifyHead, List.filter_cons_of_pos (by simp), ← ihc]
          cases hR : token_runs (d :: cs') (i + 1) with
          | nil => rfl
          | cons q rs =>
            obtain ⟨o, r⟩ := q
            have ho : o ≠ i + 1 := hno (o, r) (by rw [hR]; simp)
            simp only [if_neg ho, List.map_cons]
        · have hdf : is_space_tab d = false := by simpa using hd
          rw [if_neg hd] at ihc ⊢
          obtain ⟨r, rs, heq⟩ := token_runs_head d cs' (i + 1) hdf
          rw [heq] at ihc ⊢
          simp only [if_true, List.map_cons]
          simp only [List.map_cons] at ihc
          cases hsp : List.splitOnP is_space_tab cs' with
          | nil => exact absurd hsp (List.splitOnP_ne_nil _ _)
          | cons h t =>
            rw [hsp] at ihc
            simp only [List.modifyHead] at ihc ⊢
            rw [List.filter_cons_of_pos (by simp)] at ihc ⊢
            simp only [List.cons.injEq] at ihc
            rw [ihc.1, ihc.2]

theorem write_sentinels_length : ∀ (runs : List (Nat × List Nat)) (cmd : List Nat),
    (write_sentinels runs cmd).length = cmd.length := by
  intro runs
  induction runs with
  | nil => intro cmd; rfl
  | cons p rs ih =>
    intro cmd
    simp only [write_sentinels, List.foldl_cons] at ih ⊢
    rw [ih]
    simp

theorem write_sentinels_miss : ∀ (runs : List (Nat × List Nat)) (cmd : List Nat) (k : Nat),
    (∀ p ∈ runs, p.1 + p.2.length ≠ k) → (write_sentinels runs cmd)[k]? = cmd[k]? := by
  intro runs
  induction runs with
  | nil => intro cmd k _; rfl
  | cons p rs ih =>
    intro cmd k h
    simp only [write_sentinels, List.foldl_cons] at ih ⊢
    rw [ih _ k (fun q hq => h q (List.mem_cons_of_mem _ hq))]
    rw [List.getElem?_set_ne (h p (List.mem_cons_self _ _))]

theorem write_sentinels_hit : ∀ (runs : List (Nat × List Nat)) (cmd : List Nat) (k : Nat),
    (∃ p ∈ runs, p.1 + p.2.length = k) → k < cmd.length →
    (write_sentinels runs cmd)[k]? = some 0 := by
  intro runs
  induction runs with
  | nil => intro cmd k h; simp at h
  | cons p rs ih =>
    intro cmd k h hk
    simp only [write_sentinels, List.foldl_cons] at ih ⊢
    by_cases hrs : ∃ q ∈ rs, q.1 + q.2.length = k
    · exact ih _ k hrs (by simpa using hk)
    · push_neg at hrs
      have hp : p.1 + p.2.length = k := by
        obtain ⟨q, hq, hqk⟩ := h
        rcases List.mem_cons.1 hq with h1 | h1
        · rw [← h1]; exact hqk
        · exact absurd hqk (hrs q h1)
      have := write_sentinels_miss rs (cmd.set (p.1 + p.2.length) 0) k hrs
      simp only [write_sentinels] at this
      rw [this, hp, List.getElem?_set_self hk]

theorem getElem?_mid (pre r post : List Nat) (j : Nat) (hj : j < r.length) :
    (pre ++ r ++ post)[pre.length + j]? = r[j]? := by
  rw [List.append_assoc, List.getElem?_append_right (by omega),
    List.getElem?_append_left (by omega)]
  congr 1
  omega

theorem getElem?_after (pre r post : List Nat) :
    (pre ++ r ++ post)[pre.length + r.length]? = post[0]? := by
  rw [List.getElem?_append_right (by simp)]
  simp

/-- In the buffer `l ++ 10 :: tail`, after the sentinels are written, every run of the line `l`
stands at its offset followed by NUL; it stood at that offset in the buffer before. -/
theorem sentinel_run (l tail : List Nat) (p : Nat × List Nat) (hp : p ∈ token_runs l 0) :
    ((write_sentinels (token_runs l 0) (l ++ 10 :: tail)).drop p.1).take (p.2.length + 1) =
      p.2 ++ [0] ∧
    ((l ++ 10 :: tail).drop p.1).take p.2.length = p.2 := by
  obtain ⟨pre, post, h1, h2, h3, _, _⟩ := token_runs_sound l 0 p hp
  rw [Nat.zero_add] at h2
  have hmid : ∀ j, j < p.2.length → (l ++ 10 :: tail)[p.1 + j]? = p.2[j]? := by
    intro j hj
    rw [List.getElem?_append_left (by rw [h1]; simp; omega), h2]
    conv_lhs => rw [h1]
    exact getElem?_mid pre p.2 post j hj
  constructor
  · apply List.ext_getElem?
    intro j
    rw [List.getElem?_take, List.getElem?_drop]
    by_cases hj : j < p.2.length
    · rw [if_pos (by omega), List.getElem?_append_left hj, ← hmid j hj]
      apply write_sentinels_miss
      intro q hq heq
      obtain ⟨pre', post', g1, g2, _, _, g5⟩ := token_runs_sound l 0 q hq
      rw [Nat.zero_add] at g2
      have e1 : l[p.1 + j]? = p.2[j]? := by
        rw [h2]; conv_lhs => rw [h1]
        exact getElem?_mid pre p.2 post j hj
      have e2 : l[q.1 + q.2.length]? = post'[0]? := by
        rw [g2]; conv_lhs => rw [g1]
        exact getElem?_after pre' q.2 post'
      rw [heq, e1, List.getElem?_eq_getElem hj] at e2
      rcases g5 with g5 | ⟨b, post'', g5, hb⟩
      · rw [g5] at e2; simp at e2
      · rw [g5] at e2
        simp only [List.getElem?_cons_zero, Option.some.injEq] at e2
        have := h3 _ (List.getElem_mem hj)
        rw [e2, hb] at this
        exact absurd this (by simp)
    · by_cases hj' : j = p.2.length
      · subst hj'
        rw [if_pos (by omega), List.getElem?_append_right (Nat.le_refl _)]
        simp only [Nat.sub_self, List.getElem?_cons_zero]
        apply write_sentinels_hit _ _ _ ⟨p, hp, rfl⟩
        have : l.length = pre.length + p.2.length + post.length := by
          conv_lhs => rw [h1]
          simp only [List.length_append]
        rw [List.length_append, List.length_cons]
        omega
      · rw [if_neg (by omega), List.getElem?_eq_none (by simp; omega)]
  · rw [h2]
    conv_lhs => rw [h1]
    simp

/-- The result of `command_get_tokens` in terms of the runs of the line. -/
theorem command_get_tokens_spec (command : List Nat) (h : 10 ∈ command) :
    ∃ args command',
      command_get_tokens command =
        .ok ((((command.takeWhile (· ≠ 10)).splitOnP is_space_tab).filter (· ≠ [])).length,
          args, command') ∧
      (∃ chr rest, command = chr :: rest ∧
        count_tokens rest chr false 0 =
          .ok (((command.takeWhile (· ≠ 10)).splitOnP is_space_tab).filter (· ≠ [])).length ∧
        ∃ r, fill_tokens rest chr 0 false [] command = .ok r ∧
          r.1.length =
            (((command.takeWhile (· ≠ 10)).splitOnP is_space_tab).filter (· ≠ [])).length) ∧
      command'.length = command.length ∧
      List.Forall₂ (fun o r => (command'.drop o).take (r.length + 1) = r ++ [0] ∧
          (command.drop o).take r.length = r)
        args (((command.takeWhile (· ≠ 10)).splitOnP is_space_tab).filter (· ≠ [])) ∧
      ((((command.takeWhile (· ≠ 10)).splitOnP is_space_tab).filter (· ≠ [])) = [] →
        command_get_tokens command = .ok (0, [], command)) := by
  cases command with
  | nil => simp at h
  | cons chr rest =>
    obtain ⟨hf, _⟩ := fill_tokens_spec rest chr 0 [] (chr :: rest) h
    obtain ⟨hcnt, _⟩ := count_tokens_spec rest chr 0 0 h
    have hsplit := token_runs_eq_split ((chr :: rest).takeWhile (· ≠ 10)) 0
    rw [← hsplit]
    generalize hR : token_runs ((chr :: rest).takeWhile (· ≠ 10)) 0 = R at hf hcnt
    rw [Nat.zero_add] at hcnt
    rw [List.nil_append] at hf
    have hcmd : (chr :: rest) = (chr :: rest).takeWhile (· ≠ 10) ++
        10 :: ((chr :: rest).dropWhile (· ≠ 10)).tail := by
      have hdw : (chr :: rest).dropWhile (· ≠ 10) ≠ [] := by
        intro hnil
        rw [List.dropWhile_eq_nil_iff] at hnil
        have := hnil 10 h
        simp at this
      have hhead := List.head_dropWhile_not (· ≠ 10) (chr :: rest) hdw
      have h10 : ((chr :: rest).dropWhile (· ≠ 10)).head hdw = 10 := by simpa using hhead
      have htail := (List.head_cons_tail _ hdw).symm
      rw [h10] at htail
      conv_lhs => rw [← List.takeWhile_append_dropWhile (· ≠ 10) (chr :: rest)]
      congr 1
    have hforall : List.Forall₂ (fun o r =>
        ((write_sentinels R (chr :: rest)).drop o).take (r.length + 1) = r ++ [0] ∧
        ((chr :: rest).drop o).take r.length = r) (R.map Prod.fst) (R.map Prod.snd) := by
      rw [List.forall₂_map_left_iff, List.forall₂_map_right_iff, List.forall₂_same]
      intro p hp
      have := sentinel_run ((chr :: rest).takeWhile (· ≠ 10))
        ((chr :: rest).dropWhile (· ≠ 10)).tail p (by rw [hR]; exact hp)
      rw [hR, ← hcmd] at this
      exact this
    by_cases hz : R.length = 0
    · have hnil : R = [] := List.length_eq_zero.1 hz
      subst hnil
      refine ⟨[], chr :: rest, ?_, ⟨chr, rest, rfl, ?_, _, hf, rfl⟩, rfl, ?_, ?_⟩
      · simp [command_get_tokens, hcnt]
      · simpa using hcnt
      · simp
      · intro _
        simp [command_get_tokens, hcnt]
    · refine ⟨R.map Prod.fst, write_sentinels R (chr :: rest), ?_,
        ⟨chr, rest, rfl, ?_, _, hf, by simp⟩, write_sentinels_length _ _, hforall, ?_⟩
      · simp [command_get_tokens, hcnt, hf, hz]
      · simpa using hcnt
      · intro hnil
        rw [List.map_eq_nil_iff] at hnil
        rw [hnil] at hz
        exact absurd rfl hz

/-- C3: on a buffer that contains LF, with `line` the bytes before the first LF and `runs` the
maximal runs of bytes other than space and tab of `line` (its non-empty pieces when split at
spaces and tabs), `command_get_tokens` returns `|runs|`; the counting pass yields `|runs|`
and the filling pass writes exactly `|runs|` pointers; `args[j]` is the offset at which the
`j`-th run stood in the buffer, and in the buffer afterwards that run stands there followed by
a NUL sentinel; the buffer keeps its length; without any run the return value is 0 and the
buffer is unchanged. -/
theorem command_get_tokens_runs (command : List Nat) (h : 10 ∈ command) :
    ∃ args command',
      command_get_tokens command =
        .ok ((((command.takeWhile (· ≠ 10)).splitOnP is_space_tab).filter (· ≠ [])).length,
          args, command') ∧
      (∃ chr rest, command = chr :: rest ∧
        count_tokens rest chr false 0 =
          .ok (((command.takeWhile (· ≠ 10)).splitOnP is_space_tab).filter (· ≠ [])).length ∧
        ∃ r, fill_tokens rest chr 0 false [] command = .ok r ∧
          r.1.length =
            (((command.takeWhile (· ≠ 10)).splitOnP is_space_tab).filter (· ≠ [])).length) ∧
      command'.length = command.length ∧
      List.Forall₂ (fun o r => (command'.drop o).take (r.length + 1) = r ++ [0] ∧
          (command.drop o).take r.length = r)
        args (((command.takeWhile (· ≠ 10)).splitOnP is_space_tab).filter (· ≠ [])) ∧
      ((((command.takeWhile (· ≠ 10)).splitOnP is_space_tab).filter (· ≠ [])) = [] →
        command_get_tokens command = .ok (0, [], command)) :=
  command_get_tokens_spec command h

/-- Witness for C3: the buffer "a b\n" holds the two runs "a" and "b". -/
theorem command_get_tokens_runs_witness :
    10 ∈ [97, 32, 98, 10] ∧
    ∃ args command', command_get_tokens [97, 32, 98, 10] = .ok (2, args, command') ∧
      command'.length = 4 ∧
      List.Forall₂ (fun o r => (command'.drop o).take (r.length + 1) = r ++ [0] ∧
        ([97, 32, 98, 10].drop o).take r.length = r) args [[97], [98]] := by
  refine ⟨by decide, ?_⟩
  obtain ⟨args, command', h1, _, h3, h4, _⟩ := command_get_tokens_runs [97, 32, 98, 10] (by decide)
  have hruns : (([97, 32, 98, 10].takeWhile (· ≠ 10)).splitOnP is_space_tab).filter (· ≠ []) =
      [[97], [98]] := by decide
  rw [hruns] at h1 h4
  exact ⟨args, command', h1, h3, h4⟩

theorem strcmp_eq_zero : ∀ (a b : List Nat), strcmp a b = 0 ↔ a = b := by
  intro a
  induction a with
  | nil => intro b; cases b <;> simp [strcmp]
  | cons x xs ih =>
    intro b
    cases b with
    | nil => simp [strcmp]
    | cons y ys =>
      rw [strcmp]
      by_cases h1 : x < y
      · rw [if_pos h1]
        constructor
        · intro h; exact absurd h (by decide)
        · intro h; simp only [List.cons.injEq] at h; omega
      · rw [if_neg h1]
        by_cases h2 : y < x
        · rw [if_pos h2]
          constructor
          · intro h; exact absurd h (by decide)
          · intro h; simp only [List.cons.injEq] at h; omega
        · rw [if_neg h2, ih ys]
          have : x = y := by omega
          simp [this]

theorem strcmp_antisymm : ∀ (a b : List Nat), strcmp b a = - strcmp a b := by
  intro a
  induction a with
  | nil => intro b; cases b <;> simp [strcmp]
  | cons x xs ih =>
    intro b
    cases b with
    | nil => simp [strcmp]
    | cons y ys =>
      rw [strcmp, strcmp]
      by_cases h1 : x < y
      · have h2 : ¬ y < x := by omega
        simp [h1, h2]
      · by_cases h2 : y < x
        · simp [h1, h2]
        · simp [h1, h2, ih ys]

theorem tdiv_two_mid (start end_ : Int) (h0 : 0 ≤ start) (h1 : start ≤ end_ + 1) :
    (start ≤ end_ → start ≤ (start + end_).tdiv 2 ∧ (start + end_).tdiv 2 ≤ end_) ∧
    0 ≤ (start + end_).tdiv 2 ∧ ((start + end_).tdiv 2 ≤ end_ ∨ (start + end_).tdiv 2 = 0) ∧
    (start = end_ + 1 → 0 ≤ end_ → (start + end_).tdiv 2 = end_) := by
  by_cases hneg : 0 ≤ start + end_
  · rw [Int.tdiv_eq_ediv hneg (by decide)]
    omega
  · have h2 : start = 0 := by omega
    have h3 : end_ = -1 := by omega
    subst h2 h3
    refine ⟨by omega, by decide, Or.inr (by decide), by omega⟩

/-- Loop invariant of `command_find` on a table in strictly increasing order: an entry named
`command` can only lie in `start .. end`, and `pos` is the middle of that interval. -/
theorem find_loop_spec {W R D : Type} (command : List Nat) (commands : List (command_t W R D))
    (hs : commands.Pairwise (fun a b => strcmp a.name b.name < 0)) :
    ∀ (fuel : Nat) (start end_ : Int), 0 ≤ start → end_ < commands.length →
    start ≤ end_ + 1 → commands ≠ [] → (end_ - start).toNat + 1 ≤ fuel →
    (∀ (k : Nat) (hk : k < commands.length), commands[k].name = command →
      start ≤ k ∧ (k : Int) ≤ end_) →
    (∀ (k : Nat) (hk : k < commands.length), commands[k].name = command →
      find_loop command commands fuel start end_ ((start + end_).tdiv 2) = .ok (some k)) ∧
    ((∀ e ∈ commands, e.name ≠ command) →
      find_loop command commands fuel start end_ ((start + end_).tdiv 2) = .ok none) := by
  intro fuel
  induction fuel with
  | zero => intro start end_ _ _ _ _ hf; omega
  | succ fuel ih =>
    intro start end_ h0 he hse hne hf hinv
    have hlen : 0 < commands.length := List.length_pos.2 hne
    obtain ⟨hmid, hp0, hpe, hpeq⟩ := tdiv_two_mid start end_ h0 hse
    generalize hpos : (start + end_).tdiv 2 = pos at hmid hp0 hpe hpeq ⊢
    have hplt : pos.toNat < commands.length := by omega
    have hpn : (pos.toNat : Int) = pos := Int.toNat_of_nonneg hp0
    rw [List.pairwise_iff_getElem] at hs
    have hunf : find_loop command commands (fuel + 1) start end_ pos =
        if strcmp command commands[pos.toNat].name ≠ 0 ∧ start < end_ then
          if strcmp command commands[pos.toNat].name < 0 then
            find_loop command commands fuel start (pos - 1) ((start + (pos - 1)).tdiv 2)
          else find_loop command commands fuel (pos + 1) end_ ((pos + 1 + end_).tdiv 2)
        else if strcmp command commands[pos.toNat].name = 0 then .ok (some pos.toNat)
        else .ok none := by
      rw [find_loop, if_neg (by omega), List.getElem?_eq_getElem hplt]
    rw [hunf]
    by_cases hcont : strcmp command commands[pos.toNat].name ≠ 0 ∧ start < end_
    · rw [if_pos hcont]
      obtain ⟨hcmp, hlt⟩ := hcont
      obtain ⟨hm1, hm2⟩ := hmid (by omega)
      by_cases hneg : strcmp command commands[pos.toNat].name < 0
      · rw [if_pos hneg]
        apply ih start (pos - 1) h0 (by omega) (by omega) hne (by omega)
        intro k hk hname
        obtain ⟨hk1, hk2⟩ := hinv k hk hname
        refine ⟨hk1, ?_⟩
        by_contra hcon
        have hge : pos.toNat ≤ k := by omega
        rcases Nat.lt_or_eq_of_le hge with hlt' | heq
        · have := hs pos.toNat k hplt hk hlt'
          rw [hname, strcmp_antisymm] at this
          omega
        · subst heq
          rw [hname] at hcmp
          exact hcmp ((strcmp_eq_zero _ _).2 rfl)
      · rw [if_neg hneg]
        apply ih (pos + 1) end_ (by omega) he (by omega) hne (by omega)
        intro k hk hname
        obtain ⟨hk1, hk2⟩ := hinv k hk hname
        refine ⟨?_, hk2⟩
        by_contra hcon
        have hge : k ≤ pos.toNat := by omega
        rcases Nat.lt_or_eq_of_le hge with hlt' | heq
        · have := hs k pos.toNat hk hplt hlt'
          rw [hname] at this
          exact hneg this
        · subst heq
          rw [hname] at hcmp
          exact hcmp ((strcmp_eq_zero _ _).2 rfl)
    · rw [if_neg hcont]
      constructor
      · intro k hk hname
        obtain ⟨hk1, hk2⟩ := hinv k hk hname
        have hkp : k = pos.toNat := by
          by_cases hz : strcmp command commands[pos.toNat].name = 0
          · have hnm := (strcmp_eq_zero _ _).1 hz
            by_contra hne'
            rcases Nat.lt_or_gt_of_ne hne' with hlt' | hgt'
            · have := hs k pos.toNat hk hplt hlt'
              rw [hname, hnm, (strcmp_eq_zero _ _).2 rfl] at this
              exact absurd this (by decide)
            · have := hs pos.toNat k hplt hk hgt'
              rw [hname, ← hnm, (strcmp_eq_zero _ _).2 rfl] at this
              exact absurd this (by decide)
          · have hse' : ¬ start < end_ := fun h => hcont ⟨hz, h⟩
            have : start = end_ := by omega
            obtain ⟨hm1, hm2⟩ := hmid (by omega)
            omega
        subst hkp
        rw [if_pos ((strcmp_eq_zero _ _).2 hname.symm)]
      · intro hnone
        have := hnone commands[pos.toNat] (List.getElem_mem hplt)
        rw [if_neg (fun h => this ((strcmp_eq_zero _ _).1 h).symm)]

/-- The result of `command_find` on a sorted table. -/
theorem command_find_spec {W R D : Type} (command : List Nat)
    (commands : List (command_t W R D)) (hne : commands ≠ [])
    (hs : commands.Pairwise (fun a b => strcmp a.name b.name < 0)) :
    (∀ (k : Nat) (hk : k < commands.length), commands[k].name = command →
      command_find command commands commands.length = .ok (some k)) ∧
    ((∀ e ∈ commands, e.name ≠ command) →
      command_find command commands commands.length = .ok none) := by
  have hlen : 0 < commands.length := List.length_pos.2 hne
  have h := find_loop_spec command commands hs ((commands.length : Int).toNat + 1) 0
    (commands.length - 1) (by omega) (by omega) (by omega) hne (by omega)
    (by intro k hk _; omega)
  rw [Int.zero_add] at h
  exact h

/-- C4: on a table of `count ≥ 1` entries whose names are strictly increasing in `strcmp`
order, `command_find` returns the entry named `command` when there is one, and `NULL`
otherwise. -/
theorem command_find_sorted {W R D : Type} (command : List Nat)
    (commands : List (command_t W R D)) (hne : commands ≠ [])
    (hs : commands.Pairwise (fun a b => strcmp a.name b.name < 0)) :
    (∀ (k : Nat) (hk : k < commands.length), commands[k].name = command →
      command_find command commands commands.length = .ok (some k)) ∧
    ((∀ e ∈ commands, e.name ≠ command) →
      command_find command commands commands.length = .ok none) :=
  command_find_spec command commands hne hs

theorem cstr_of_sentinel (l r : List Nat) (o : Nat) (h : (l.drop o).take (r.length + 1) = r ++ [0])
    (h0 : 0 ∉ r) : cstr l o = r := by
  unfold cstr
  have hsplit := List.take_append_drop (r.length + 1) (l.drop o)
  rw [h] at hsplit
  rw [← hsplit, List.append_assoc, List.takeWhile_append_of_pos (by
    intro x hx
    have : x ≠ 0 := fun hx0 => h0 (hx0 ▸ hx)
    simpa using this)]
  simp

theorem cstr_map_of_sentinels (command command' : List Nat) (h0 : 0 ∉ command)
    (args : List Nat) (runs : List (List Nat))
    (hfa : List.Forall₂ (fun o r => (command'.drop o).take (r.length + 1) = r ++ [0] ∧
      (command.drop o).take r.length = r) args runs) :
    args.map (cstr command') = runs := by
  induction hfa with
  | nil => rfl
  | cons hh _ ih =>
    rw [List.map_cons, ih]
    congr 1
    apply cstr_of_sentinel _ _ _ hh.1
    intro hmem
    rw [← hh.2] at hmem
    exact h0 (List.drop_subset _ _ (List.take_subset _ _ hmem))

/-- The result of `command_exec` on a sorted table, by cases on the tokens of the line. -/
theorem command_exec_spec {W R D : Type} [DecidableEq R] (put : R → List Nat → W → W)
    (command : List Nat) (commands : List (command_t W R D)) (console buffer : R) (data : D)
    (w : W) (h10 : 10 ∈ command) (hne : commands ≠ [])
    (hs : commands.Pairwise (fun a b => strcmp a.name b.name < 0)) :
    ∃ args command',
      command_get_tokens command =
        .ok ((((command.takeWhile (· ≠ 10)).splitOnP is_space_tab).filter (· ≠ [])).length,
          args, command') ∧
      (0 ∉ command → args.map (cstr command') =
        ((command.takeWhile (· ≠ 10)).splitOnP is_space_tab).filter (· ≠ [])) ∧
      (args = [] →
        command_exec put command commands commands.length console (some buffer) data w =
          .ok (put buffer msg_no_cmd w, 0)) ∧
      (args ≠ [] → (∀ e ∈ commands, e.name ≠ (args.map (cstr command')).headD []) →
        command_exec put command commands commands.length console (some buffer) data w =
          .ok (put buffer msg_unknown w, 0)) ∧
      (args ≠ [] → ∀ e ∈ commands, e.name = (args.map (cstr command')).headD [] →
        (((args.length : Int) = e.arg_count + 1 →
          command_exec put command commands commands.length console (some buffer) data w =
            match e.function args.length (args.map (cstr command')) console (some buffer)
              data w with
            | .error err => .error err
            | .ok (w', res) =>
              if res = 2 then
                .ok (if console ≠ buffer then put console msg_mem (put buffer msg_mem w')
                  else put buffer msg_mem w', res)
              else .ok (w', res)) ∧
         ((args.length : Int) ≠ e.arg_count + 1 → e.arg_count = 0 →
          command_exec put command commands commands.length console (some buffer) data w =
            .ok (put buffer msg_none (put buffer msg_count w), 0)) ∧
         ((args.length : Int) ≠ e.arg_count + 1 → e.arg_count ≠ 0 → ∀ syn,
          e.syntax_ = some syn →
          command_exec put command commands commands.length console (some buffer) data w =
            .ok (put buffer (bytes "\n") (put buffer syn (put buffer (bytes " ")
              (put buffer ((args.map (cstr command')).headD [])
                (put buffer (bytes ".  Syntax: /") (put buffer msg_count w))))), 0)))) := by
  obtain ⟨args, command', htok, ⟨_, _, _, _, r, _, _⟩, _, hfa, _⟩ :=
    command_get_tokens_spec command h10
  have hlen : args.length =
      (((command.takeWhile (· ≠ 10)).splitOnP is_space_tab).filter (· ≠ [])).length :=
    hfa.length_eq
  obtain ⟨hfound, hnone⟩ := command_find_spec ((args.map (cstr command')).headD [])
    commands hne hs
  have htok' : command_get_tokens command = .ok ((args.length : Int), args, command') := by
    rw [htok, hlen]
  refine ⟨args, command', htok, ?_, ?_, ?_, ?_⟩
  · intro h0
    exact cstr_map_of_sentinels command command' h0 args _ hfa
  · intro hnil
    rw [command_exec, htok', hnil]
    simp [put_if]
  · intro hargs hno
    have hk : (args.length : Int) ≠ 0 := by
      have := List.length_pos.2 hargs
      omega
    rw [command_exec, htok']
    simp only [if_neg hk, hnone hno, put_if]
  · intro hargs e he hname
    have hk : (args.length : Int) ≠ 0 := by
      have := List.length_pos.2 hargs
      omega
    obtain ⟨k, hk', hek⟩ := List.getElem_of_mem he
    have hfk := hfound k hk' (by rw [hek]; exact hname)
    have hget : commands[k]? = some e := by rw [List.getElem?_eq_getElem hk', hek]
    refine ⟨?_, ?_, ?_⟩
    · intro harity
      rw [command_exec, htok']
      simp only [if_neg hk, hfk, hget, if_pos harity, put_if]
      cases e.function args.length (args.map (cstr command')) console (some buffer) data w with
      | error err => rfl
      | ok p =>
        obtain ⟨w', res⟩ := p
        simp only []
        by_cases hres : res = 2
        · simp only [if_pos hres]
          by_cases hcb : console = buffer
          · simp [hcb]
          · simp [hcb]
        · simp only [if_neg hres]
    · intro harity hzero
      rw [command_exec, htok']
      simp only [if_neg hk, hfk, hget, if_neg harity]
      simp [hzero]
    · intro harity hnz syn hsyn
      rw [command_exec, htok']
      simp only [if_neg hk, hfk, hget, if_neg harity, hsyn]
      simp [hnz]

/-- C5: for a table in strictly increasing order and an LF-terminated line, with `k` tokens
and the first token read as the C string `args[0]`: without any token `command_exec` enqueues
`msg_no_cmd` on the caller's buffer and returns 0; when no entry is named `args[0]` it
enqueues `msg_unknown` and returns 0; when an entry is named `args[0]` and `k` differs from
its `arg_count + 1` it enqueues the wrong argument count message and returns 0; in these
cases the result does not depend on any handler. When an entry is named `args[0]` and
`k = arg_count + 1`, the result is that of this entry's handler applied once to the arguments
and the state, with its return code (after a return code 2 the memory message is enqueued).
On a line without NUL byte the argument strings are the tokens themselves. -/
theorem command_exec_dispatch {W R D : Type} [DecidableEq R] (put : R → List Nat → W → W)
    (command : List Nat) (commands : List (command_t W R D)) (console buffer : R) (data : D)
    (w : W) (h10 : 10 ∈ command) (hne : commands ≠ [])
    (hs : commands.Pairwise (fun a b => strcmp a.name b.name < 0)) :
    ∃ args command',
      command_get_tokens command =
        .ok ((((command.takeWhile (· ≠ 10)).splitOnP is_space_tab).filter (· ≠ [])).length,
          args, command') ∧
      (0 ∉ command → args.map (cstr command') =
        ((command.takeWhile (· ≠ 10)).splitOnP is_space_tab).filter (· ≠ [])) ∧
      (args = [] →
        command_exec put command commands commands.length console (some buffer) data w =
          .ok (put buffer msg_no_cmd w, 0)) ∧
      (args ≠ [] → (∀ e ∈ commands, e.name ≠ (args.map (cstr command')).headD []) →
        command_exec put command commands commands.length console (some buffer) data w =
          .ok (put buffer msg_unknown w, 0)) ∧
      (args ≠ [] → ∀ e ∈ commands, e.name = (args.map (cstr command')).headD [] →
        (((args.length : Int) = e.arg_count + 1 →
          command_exec put command commands commands.length console (some buffer) data w =
            match e.function args.length (args.map (cstr command')) console (some buffer)
              data w with
            | .error err => .error err
            | .ok (w', res) =>
              if res = 2 then
                .ok (if console ≠ buffer then put console msg_mem (put buffer msg_mem w')
                  else put buffer msg_mem w', res)
              else .ok (w', res)) ∧
         ((args.length : Int) ≠ e.arg_count + 1 → e.arg_count = 0 →
          command_exec put command commands commands.length console (some buffer) data w =
            .ok (put buffer msg_none (put buffer msg_count w), 0)) ∧
         ((args.length : Int) ≠ e.arg_count + 1 → e.arg_count ≠ 0 → ∀ syn,
          e.syntax_ = some syn →
          command_exec put command commands commands.length console (some buffer) data w =
            .ok (put buffer (bytes "\n") (put buffer syn (put buffer (bytes " ")
              (put buffer ((args.map (cstr command')).headD [])
                (put buffer (bytes ".  Syntax: /") (put buffer msg_count w))))), 0)))) :=
  command_exec_spec put command commands console buffer data w h10 hne hs

/-- Witness for C4: the console table of the hub and the command `kill`. -/
theorem command_find_sorted_witness :
    server_commands ≠ [] ∧
    server_commands.Pairwise (fun a b => strcmp a.name b.name < 0) ∧
    command_find (bytes "kill") server_commands server_commands.length = .ok (some 1) :=
  ⟨List.cons_ne_nil _ _, by decide,
   (command_find_sorted (bytes "kill") server_commands (List.cons_ne_nil _ _) (by decide)).1 1
     (by decide) (by decide)⟩

/-- Witness for C5: the line `help` on the console table of the hub. -/
theorem command_exec_dispatch_witness :
    10 ∈ bytes "help\n" ∧ server_commands ≠ [] ∧
    server_commands.Pairwise (fun a b => strcmp a.name b.name < 0) ∧
    ∃ args command',
      command_get_tokens (bytes "help\n") = .ok (1, args, command') ∧
      (0 ∉ bytes "help\n" → args.map (cstr command') = [bytes "help"]) := by
  refine ⟨by decide, List.cons_ne_nil _ _, by decide, ?_⟩
  obtain ⟨args, command', h1, h2, _⟩ := command_exec_dispatch hub_put (bytes "help\n")
    server_commands bufref.console bufref.console none
    (clients_init (iobuffer_init 0 1 (some 0) (some 1) 10) 3) (by decide)
    (List.cons_ne_nil _ _) (by decide)
  have hruns : (((bytes "help\n").takeWhile (· ≠ 10)).splitOnP is_space_tab).filter (· ≠ []) =
      [bytes "help"] := by decide
  rw [hruns] at h1 h2
  exact ⟨args, command', h1, h2⟩

/-! ## Theorems: server/clients.c -/

/-- What `iobuffer_put_data` does on a buffer with a well-formed output queue. -/
theorem iobuffer_put_data_spec (b : iobuffer_t) (d : List Nat) (hwf : dbuffer_wf b.output) :
    (iobuffer_put_data b d).input = b.input ∧ dbuffer_wf (iobuffer_put_data b d).output ∧
    dbuffer_contents (iobuffer_put_data b d).output = dbuffer_contents b.output ++ d := by
  obtain ⟨_, h2, h3, _⟩ := dbuffer_put_data_spec b.output d hwf
  exact ⟨rfl, h2, h3⟩

/-- C9: `clients_send` appends exactly `d` to the output queue of every client other than
`except` whose `nick_len` is positive and changes nothing else: every other client (the
excluded one, the unauthenticated and the draining ones) is left as it is, every client keeps
its input queue, identity, nickname and address, and the client list, the count, the nickname
index, the console and the descriptor sets are unchanged. -/
theorem clients_send_frame (clients : clients_t) (d : List Nat) (e : Option Nat)
    (hwf : ∀ c ∈ clients.list, dbuffer_wf c.buffer.output) :
    (clients_send clients d e).number = clients.number ∧
    (clients_send clients d e).hash = clients.hash ∧
    (clients_send clients d e).console = clients.console ∧
    (clients_send clients d e).read_fds = clients.read_fds ∧
    (clients_send clients d e).write_fds = clients.write_fds ∧
    (clients_send clients d e).srv_sock = clients.srv_sock ∧
    List.Forall₂ (fun c c' =>
        c'.ptr = c.ptr ∧ c'.nick = c.nick ∧ c'.nick_len = c.nick_len ∧ c'.addr = c.addr ∧
        c'.addr_len = c.addr_len ∧ c'.hash_elm = c.hash_elm ∧
        c'.buffer.input = c.buffer.input ∧
        (some c.ptr ≠ e → c.nick_len > 0 →
          dbuffer_contents c'.buffer.output = dbuffer_contents c.buffer.output ++ d ∧
          dbuffer_wf c'.buffer.output) ∧
        ((some c.ptr = e ∨ c.nick_len ≤ 0) → c' = c))
      clients.list (clients_send clients d e).list := by
  refine ⟨rfl, rfl, rfl, rfl, rfl, rfl, ?_⟩
  show List.Forall₂ _ clients.list (clients.list.map _)
  rw [List.forall₂_map_right_iff, List.forall₂_same]
  intro c hc
  by_cases hcond : some c.ptr ≠ e ∧ c.nick_len > 0
  · rw [if_pos hcond]
    obtain ⟨h1, h2, h3⟩ := iobuffer_put_data_spec c.buffer d (hwf c hc)
    refine ⟨rfl, rfl, rfl, rfl, rfl, rfl, h1, fun _ _ => ⟨h3, h2⟩, ?_⟩
    intro h
    rcases h with h | h
    · exact absurd h hcond.1
    · have := hcond.2; omega
  · rw [if_neg hcond]
    refine ⟨rfl, rfl, rfl, rfl, rfl, rfl, rfl, ?_, fun _ => rfl⟩
    intro h1 h2
    exact absurd ⟨h1, h2⟩ hcond

theorem bucket_set_self (hash : hash_t) (k : Nat) (v : List hash_element_t)
    (hk : k < hash.table.length) : bucket ⟨hash.table.set k v⟩ k = v := by
  simp [bucket, List.getD_eq_getElem?_getD, List.getElem?_set_self hk]

theorem bucket_set_other (hash : hash_t) (k j : Nat) (v : List hash_element_t) (h : k ≠ j) :
    bucket ⟨hash.table.set k v⟩ j = bucket hash j := by
  simp [bucket, List.getD_eq_getElem?_getD, List.getElem?_set_ne h]

theorem bucket_out_of_range (hash : hash_t) (k : Nat) (hk : hash.table.length ≤ k) :
    bucket hash k = [] := by
  simp [bucket, List.getD_eq_getElem?_getD, List.getElem?_eq_none hk]

theorem hash_function_lt (str : List Nat) : hash_function str < HASH_SIZE := by
  unfold hash_function HASH_SIZE
  apply Nat.or_lt_two_pow (n := 10)
  · have := Nat.mod_lt (hash_loop str 0 0).1 (show 0 < 4 by decide)
    omega
  · have := Nat.mod_lt (hash_loop str 0 0).2 (show 0 < 256 by decide)
    omega

theorem hash_find_loop_none (str : List Nat) : ∀ (l : List hash_element_t),
    hash_find_loop str l = none ↔ ∀ e ∈ l, e.str ≠ str := by
  intro l
  induction l with
  | nil => simp [hash_find_loop]
  | cons e rest ih =>
    rw [hash_find_loop]
    by_cases h : strcmp str e.str = 0
    · rw [if_pos h]
      have := (strcmp_eq_zero _ _).1 h
      simp [this]
    · rw [if_neg h, ih]
      have : e.str ≠ str := fun h' => h ((strcmp_eq_zero _ _).2 h'.symm)
      simp [this]

theorem hash_find_loop_some (str : List Nat) : ∀ (l : List hash_element_t) (e : hash_element_t),
    hash_find_loop str l = some e → e ∈ l ∧ e.str = str := by
  intro l
  induction l with
  | nil => intro e h; simp [hash_find_loop] at h
  | cons x rest ih =>
    intro e h
    rw [hash_find_loop] at h
    by_cases hx : strcmp str x.str = 0
    · rw [if_pos hx] at h
      simp only [Option.some.injEq] at h
      subst h
      exact ⟨List.mem_cons_self _ _, ((strcmp_eq_zero _ _).1 hx).symm⟩
    · rw [if_neg hx] at h
      obtain ⟨h1, h2⟩ := ih e h
      exact ⟨List.mem_cons_of_mem _ h1, h2⟩

theorem verify_nick_loop_spec : ∀ (l : List Nat) (i : Nat),
    (58 ∉ l → verify_nick_loop l i = i + l.length) ∧ (58 ∈ l → verify_nick_loop l i = 0) := by
  intro l
  induction l with
  | nil => intro i; simp [verify_nick_loop]
  | cons c rest ih =>
    intro i
    rw [verify_nick_loop]
    by_cases hc : c = 58
    · subst hc
      simp
    · rw [if_neg hc]
      obtain ⟨h1, h2⟩ := ih (i + 1)
      constructor
      · intro hn
        rw [h1 (fun h => hn (List.mem_cons_of_mem _ h)), List.length_cons]
        omega
      · intro hm
        rcases List.mem_cons.1 hm with h | h
        · exact absurd h.symm hc
        · exact h2 h

/-- Function `verify_nick`: 0 for an empty nickname or one with a colon, its length otherwise. -/
theorem verify_nick_spec (nick : List Nat) :
    (verify_nick nick ≠ 0 → nick ≠ [] ∧ 58 ∉ nick ∧ verify_nick nick = nick.length) ∧
    (58 ∈ nick → verify_nick nick = 0) ∧ (nick = [] → verify_nick nick = 0) := by
  obtain ⟨h1, h2⟩ := verify_nick_loop_spec nick 0
  refine ⟨?_, h2, ?_⟩
  · intro hne
    have h58 : 58 ∉ nick := fun h => hne (h2 h)
    have hlen := h1 h58
    rw [Nat.zero_add] at hlen
    refine ⟨?_, h58, hlen⟩
    intro hnil
    unfold verify_nick at hne
    rw [hlen, hnil] at hne
    exact hne rfl
  · intro hnil
    rw [hnil]
    rfl

/-- The registry consistency only depends on the table and on the address, nickname and
element of every client: it is kept by an assignment to other fields of the clients, under
which `nick_len` stays or becomes -1. -/
theorem hub_inv_map (s s' : clients_t) (f : client_t → client_t)
    (hf : ∀ c, (f c).ptr = c.ptr ∧ (f c).nick = c.nick ∧ (f c).hash_elm = c.hash_elm ∧
      ((f c).nick_len = c.nick_len ∨ (f c).nick_len = -1))
    (hhash : s'.hash = s.hash) (hlist : s'.list = s.list.map f) (h : hub_inv s) :
    hub_inv s' := by
  obtain ⟨h1, h2, h3, h4, h5, h6⟩ := h
  have hptr : s'.list.map (fun c => c.ptr) = s.list.map (fun c => c.ptr) := by
    rw [hlist, List.map_map]
    apply List.map_congr_left
    intro c _
    exact (hf c).1
  refine ⟨by rw [hhash]; exact h1, by rw [hptr]; exact h2, ?_, ?_, ?_, by rw [hhash]; exact h6⟩
  · intro c' hc' hn
    rw [hlist] at hc'
    obtain ⟨c, hc, rfl⟩ := List.mem_map.1 hc'
    rw [(hf c).2.1] at hn
    have := h3 c hc hn
    rcases (hf c).2.2.2 with h | h <;> omega
  · intro c' hc' n hn
    rw [hlist] at hc'
    obtain ⟨c, hc, rfl⟩ := List.mem_map.1 hc'
    rw [(hf c).2.1] at hn
    rw [(hf c).2.2.1, (hf c).1, hhash]
    exact h4 c hc n hn
  · intro k e he
    rw [hhash] at he
    obtain ⟨g1, g2, g3, g4, g5, c, hc, g6, g7, g8⟩ := h5 k e he
    refine ⟨g1, g2, g3, g4, g5, f c, ?_, ?_, ?_, ?_⟩
    · rw [hlist]; exact List.mem_map_of_mem _ hc
    · rw [(hf c).1]; exact g6
    · rw [(hf c).2.1]; exact g7
    · rw [(hf c).2.2.1]; exact g8

theorem hub_inv_client_update (s : clients_t) (ptr : Nat) (g : client_t → client_t)
    (hg : ∀ c, (g c).ptr = c.ptr ∧ (g c).nick = c.nick ∧ (g c).hash_elm = c.hash_elm ∧
      ((g c).nick_len = c.nick_len ∨ (g c).nick_len = -1))
    (h : hub_inv s) : hub_inv (client_update s ptr g) := by
  apply hub_inv_map s (client_update s ptr g) (fun c => if c.ptr = ptr then g c else c) _
    rfl rfl h
  intro c
  by_cases hc : c.ptr = ptr
  · simp only [if_pos hc]; exact hg c
  · simp [hc]

theorem hub_inv_hub_put (r : bufref) (d : List Nat) (s : clients_t) (h : hub_inv s) :
    hub_inv (hub_put r d s) := by
  cases r with
  | console =>
    exact hub_inv_map s (hub_put .console d s) id (fun c => ⟨rfl, rfl, rfl, Or.inl rfl⟩) rfl
      (by simp [hub_put]) h
  | client ptr =>
    exact hub_inv_client_update s ptr _ (fun c => ⟨rfl, rfl, rfl, Or.inl rfl⟩) h

theorem hub_inv_put_if (b : Option bufref) (d : List Nat) (s : clients_t) (h : hub_inv s) :
    hub_inv (put_if hub_put b d s) := by
  cases b with
  | none => exact h
  | some r => exact hub_inv_hub_put r d s h

theorem hub_inv_clients_send (s : clients_t) (d : List Nat) (e : Option Nat) (h : hub_inv s) :
    hub_inv (clients_send s d e) := by
  apply hub_inv_map s (clients_send s d e) (fun client =>
      if some client.ptr ≠ e ∧ client.nick_len > 0 then
        { client with buffer := iobuffer_put_data client.buffer d }
      else client) _ rfl rfl h
  intro c
  by_cases hc : some c.ptr ≠ e ∧ c.nick_len > 0
  · simp [hc]
  · simp [hc]

theorem hub_inv_clients_disconnect (s s' : clients_t) (ptr : Nat) (h : hub_inv s)
    (hd : clients_disconnect s ptr = .ok s') : hub_inv s' := by
  unfold clients_disconnect at hd
  split at hd
  · exact absurd hd (by simp)
  · simp only [Except.ok.injEq] at hd
    subst hd
    refine hub_inv_map s _ (fun c => if c.ptr = ptr then { c with nick_len := -1 } else c) ?_
      (show clients_t.hash _ = s.hash from rfl) (show clients_t.list _ = _ from rfl) h
    intro c
    by_cases hc : c.ptr = ptr
    · simp [hc]
    · simp [hc]

theorem hub_inv_hub_io (s : clients_t) (console : iobuffer_t) (buffers : Nat → iobuffer_t)
    (read_fds write_fds : List Int) (h : hub_inv s) :
    hub_inv (hub_io s console buffers read_fds write_fds) :=
  hub_inv_map s (hub_io s console buffers read_fds write_fds)
    (fun c => { c with buffer := buffers c.ptr }) (fun _ => ⟨rfl, rfl, rfl, Or.inl rfl⟩) rfl rfl h

theorem hub_inv_p2p_params (b : bufref) : ∀ (args : List (List Nat)) (s : clients_t),
    hub_inv s → hub_inv (p2p_params b args s) := by
  intro args
  induction args with
  | nil => intro s h; exact h
  | cons a rest ih =>
    intro s h
    exact ih _ (hub_inv_hub_put _ _ _ (hub_inv_hub_put _ _ _ h))

/-- A property of the state that `put` and every handler of the table keep is kept by
`command_exec`. -/
theorem command_exec_preserves {W R D : Type} [DecidableEq R] (P : W → Prop)
    (put : R → List Nat → W → W) (command : List Nat) (commands : List (command_t W R D))
    (count : Int) (console : R) (buffer : Option R) (data : D) (w w' : W) (res : Int)
    (hput : ∀ r d w, P w → P (put r d w))
    (hh : ∀ cmd ∈ commands, ∀ ac args w w' res, P w →
      cmd.function ac args console buffer data w = .ok (w', res) → P w')
    (hw : P w)
    (h : command_exec put command commands count console buffer data w = .ok (w', res)) :
    P w' := by
  have hpi : ∀ d w, P w → P (put_if put buffer d w) := by
    intro d w hw
    unfold put_if
    cases buffer with
    | none => exact hw
    | some b => exact hput b d w hw
  unfold command_exec at h
  split at h
  · exact absurd h (by simp)
  · rename_i arg_count args command' _
    split at h
    · simp only [Except.ok.injEq, Prod.mk.injEq] at h
      rw [← h.1]; exact hpi _ _ hw
    · simp only [] at h
      split at h
      · exact absurd h (by simp)
      · simp only [Except.ok.injEq, Prod.mk.injEq] at h
        rw [← h.1]; exact hpi _ _ hw
      · rename_i pos _
        split at h
        · exact absurd h (by simp)
        · rename_i cmd hcmd
          have hmem : cmd ∈ commands := List.getElem?_mem hcmd
          split at h
          · split at h
            · exact absurd h (by simp)
            · rename_i w1 res1 hfun
              have hw1 := hh cmd hmem _ _ _ _ _ hw hfun
              split at h
              · simp only [Except.ok.injEq, Prod.mk.injEq] at h
                rw [← h.1]
                split
                · exact hput _ _ _ (hpi _ _ hw1)
                · exact hpi _ _ hw1
              · simp only [Except.ok.injEq, Prod.mk.injEq] at h
                rw [← h.1]; exact hw1
          · split at h
            · simp only [Except.ok.injEq, Prod.mk.injEq] at h
              rw [← h.1]; exact hw
            · rename_i b
              split at h
              · split at h
                · exact absurd h (by simp)
                · simp only [Except.ok.injEq, Prod.mk.injEq] at h
                  rw [← h.1]
                  exact hput _ _ _ (hput _ _ _ (hput _ _ _ (hput _ _ _ (hput _ _ _
                    (hput _ _ _ hw)))))
              · simp only [Except.ok.injEq, Prod.mk.injEq] at h
                rw [← h.1]
                exact hput _ _ _ (hput _ _ _ hw)

theorem cmd_srv_who_inv (ac : Int) (args : List (List Nat)) (c : bufref) (b : Option bufref)
    (d : Option Nat) (w w' : clients_t) (res : Int) (hw : hub_inv w)
    (h : cmd_srv_who ac args c b d w = .ok (w', res)) : hub_inv w' := by
  unfold cmd_srv_who at h
  split at h
  · exact absurd h (by simp)
  · simp only [] at h
    split at h
    · simp only [Except.ok.injEq, Prod.mk.injEq] at h
      rw [← h.1]; exact hub_inv_put_if _ _ _ hw
    · split at h
      · exact absurd h (by simp)
      · simp only [Except.ok.injEq, Prod.mk.injEq] at h
        rw [← h.1]; exact hub_inv_put_if _ _ _ hw

theorem cmd_srv_kill_inv (ac : Int) (args : List (List Nat)) (c : bufref) (b : Option bufref)
    (d : Option Nat) (w w' : clients_t) (res : Int) (hw : hub_inv w)
    (h : cmd_srv_kill ac args c b d w = .ok (w', res)) : hub_inv w' := by
  unfold cmd_srv_kill at h
  split at h
  · exact absurd h (by simp)
  · split at h
    · exact absurd h (by simp)
    · simp only [Except.ok.injEq, Prod.mk.injEq] at h
      rw [← h.1]; exact hub_inv_hub_put _ _ _ hw
    · split at h
      · exact absurd h (by simp)
      · simp only [] at h
        split at h
        · exact absurd h (by simp)
        · rename_i w4 hdis
          simp only [Except.ok.injEq, Prod.mk.injEq] at h
          rw [← h.1]
          exact hub_inv_clients_disconnect _ _ _ (hub_inv_hub_put _ _ _
            (hub_inv_clients_send _ _ _ (hub_inv_hub_put _ _ _ hw))) hdis

theorem cmd_srv_shutdown_inv (ac : Int) (args : List (List Nat)) (c : bufref)
    (b : Option bufref) (d : Option Nat) (w w' : clients_t) (res : Int) (hw : hub_inv w)
    (h : cmd_srv_shutdown ac args c b d w = .ok (w', res)) : hub_inv w' := by
  unfold cmd_srv_shutdown at h
  split at h
  · exact absurd h (by simp)
  · simp only [Except.ok.injEq, Prod.mk.injEq] at h
    rw [← h.1]; exact hub_inv_clients_send _ _ _ hw

theorem cmd_srv_help_inv (ac : Int) (args : List (List Nat)) (c : bufref) (b : Option bufref)
    (d : Option Nat) (w w' : clients_t) (res : Int) (hw : hub_inv w)
    (h : cmd_srv_help ac args c b d w = .ok (w', res)) : hub_inv w' := by
  unfold cmd_srv_help at h
  split at h
  · exact absurd h (by simp)
  · split at h
    · exact absurd h (by simp)
    · simp only [Except.ok.injEq, Prod.mk.injEq] at h
      rw [← h.1]; exact hub_inv_hub_put _ _ _ hw

theorem cmd_clt_connect_inv (ac : Int) (args : List (List Nat)) (c : bufref)
    (b : Option bufref) (d : Option Nat) (w w' : clients_t) (res : Int) (hw : hub_inv w)
    (h : cmd_clt_connect ac args c b d w = .ok (w', res)) : hub_inv w' := by
  unfold cmd_clt_connect at h
  split at h
  · exact absurd h (by simp)
  · split at h
    · exact absurd h (by simp)
    · simp only [Except.ok.injEq, Prod.mk.injEq] at h
      rw [← h.1]; exact hub_inv_hub_put _ _ _ hw

theorem cmd_clt_help_inv (ac : Int) (args : List (List Nat)) (c : bufref) (b : Option bufref)
    (d : Option Nat) (w w' : clients_t) (res : Int) (hw : hub_inv w)
    (h : cmd_clt_help ac args c b d w = .ok (w', res)) : hub_inv w' := by
  unfold cmd_clt_help at h
  split at h
  · exact absurd h (by simp)
  · split at h
    · exact absurd h (by simp)
    · simp only [Except.ok.injEq, Prod.mk.injEq] at h
      rw [← h.1]; exact hub_inv_hub_put _ _ _ hw

theorem cmd_clt_quit_inv (ac : Int) (args : List (List Nat)) (c : bufref) (b : Option bufref)
    (d : Option Nat) (w w' : clients_t) (res : Int) (hw : hub_inv w)
    (h : cmd_clt_quit ac args c b d w = .ok (w', res)) : hub_inv w' := by
  unfold cmd_clt_quit at h
  split at h
  · exact absurd h (by simp)
  · split at h
    · exact absurd h (by simp)
    · split at h
      · exact absurd h (by simp)
      · simp only [] at h
        split at h
        · exact absurd h (by simp)
        · rename_i w4 hdis
          simp only [Except.ok.injEq, Prod.mk.injEq] at h
          rw [← h.1]
          exact hub_inv_clients_disconnect _ _ _ (hub_inv_hub_put _ _ _
            (hub_inv_clients_send _ _ _ (hub_inv_hub_put _ _ _ hw))) hdis

theorem p2p_refuse_inv (b : Option bufref) (id : List Nat) (w w' : clients_t) (res : Int)
    (hw : hub_inv w) (h : p2p_refuse b id w = .ok (w', res)) : hub_inv w' := by
  unfold p2p_refuse at h
  split at h
  · exact absurd h (by simp)
  · simp only [Except.ok.injEq, Prod.mk.injEq] at h
    rw [← h.1]
    exact hub_inv_hub_put _ _ _ (hub_inv_hub_put _ _ _ (hub_inv_hub_put _ _ _ hw))

theorem cmd_clt_p2p_inv (ac : Int) (args : List (List Nat)) (c : bufref) (b : Option bufref)
    (d : Option Nat) (w w' : clients_t) (res : Int) (hw : hub_inv w)
    (h : cmd_clt_p2p ac args c b d w = .ok (w', res)) : hub_inv w' := by
  unfold cmd_clt_p2p at h
  split at h
  · exact absurd h (by simp)
  · split at h
    · exact absurd h (by simp)
    · exact p2p_refuse_inv _ _ _ _ _ hw h
    · split at h
      · exact absurd h (by simp)
      · simp only [Except.ok.injEq, Prod.mk.injEq] at h
        rw [← h.1]
        exact hub_inv_hub_put _ _ _ (hub_inv_p2p_params _ _ _ (hub_inv_hub_put _ _ _
          (hub_inv_hub_put _ _ _ (hub_inv_hub_put _ _ _ (hub_inv_hub_put _ _ _ hw)))))

theorem cmd_clt_accept_inv (ac : Int) (args : List (List Nat)) (c : bufref)
    (b : Option bufref) (d : Option Nat) (w w' : clients_t) (res : Int) (hw : hub_inv w)
    (h : cmd_clt_accept ac args c b d w = .ok (w', res)) : hub_inv w' := by
  unfold cmd_clt_accept at h
  split at h
  · exact absurd h (by simp)
  · split at h
    · exact absurd h (by simp)
    · exact p2p_refuse_inv _ _ _ _ _ hw h
    · split at h
      · exact absurd h (by simp)
      · simp only [] at h
        split at h
        · simp only [Except.ok.injEq, Prod.mk.injEq] at h
          rw [← h.1]
          repeat apply hub_inv_hub_put
          exact hw
        · exact absurd h (by simp)

/-- Every command of the hub, from the console or from a client, keeps the registry
consistent. -/
theorem srvcmd_exec_inv (command : List Nat) (type : srvcmd_type_t) (console : bufref)
    (buffer : Option bufref) (w w' : clients_t) (client : Option Nat) (res : Int)
    (hw : hub_inv w) (h : srvcmd_exec command type console buffer w client = .ok (w', res)) :
    hub_inv w' := by
  unfold srvcmd_exec at h
  split at h
  · exact absurd h (by simp)
  · split at h
    · apply command_exec_preserves hub_inv hub_put _ _ _ _ _ _ _ _ _
        (fun r d w hw => hub_inv_hub_put r d w hw) _ hw h
      intro cmd hcmd ac args w1 w2 r hw1 hf
      simp only [server_commands, List.mem_cons, List.mem_singleton, List.not_mem_nil,
        or_false] at hcmd
      rcases hcmd with rfl | rfl | rfl | rfl
      · exact cmd_srv_help_inv ac args console buffer client w1 w2 r hw1 hf
      · exact cmd_srv_kill_inv ac args console buffer client w1 w2 r hw1 hf
      · exact cmd_srv_shutdown_inv ac args console buffer client w1 w2 r hw1 hf
      · exact cmd_srv_who_inv ac args console buffer client w1 w2 r hw1 hf
    · apply command_exec_preserves hub_inv hub_put _ _ _ _ _ _ _ _ _
        (fun r d w hw => hub_inv_hub_put r d w hw) _ hw h
      intro cmd hcmd ac args w1 w2 r hw1 hf
      simp only [client_commands, List.mem_cons, List.mem_singleton, List.not_mem_nil,
        or_false] at hcmd
      rcases hcmd with rfl | rfl | rfl | rfl | rfl | rfl | rfl | rfl
      · exact cmd_clt_accept_inv ac args console buffer client w1 w2 r hw1 hf
      · exact cmd_clt_connect_inv ac args console buffer client w1 w2 r hw1 hf
      · exact cmd_clt_help_inv ac args console buffer client w1 w2 r hw1 hf
      · exact cmd_clt_quit_inv ac args console buffer client w1 w2 r hw1 hf
      · exact cmd_clt_p2p_inv ac args console buffer client w1 w2 r hw1 hf
      · exact cmd_clt_p2p_inv ac args console buffer client w1 w2 r hw1 hf
      · exact cmd_clt_p2p_inv ac args console buffer client w1 w2 r hw1 hf
      · exact cmd_srv_who_inv ac args console buffer client w1 w2 r hw1 hf

theorem client_lookup_some (s : clients_t) (ptr : Nat) (client : client_t)
    (h : client_lookup s ptr = some client) : client ∈ s.list ∧ client.ptr = ptr := by
  unfold client_lookup at h
  have h1 := List.mem_of_find?_eq_some h
  have h2 := List.find?_some h
  exact ⟨h1, by simpa using h2⟩

theorem client_ptr_inj (s : clients_t) (h : (s.list.map (fun c => c.ptr)).Nodup)
    (c1 c2 : client_t) (h1 : c1 ∈ s.list) (h2 : c2 ∈ s.list) (he : c1.ptr = c2.ptr) :
    c1 = c2 :=
  List.inj_on_of_nodup_map h h1 h2 he

/-- The registry stays consistent when a client without nickname takes a valid nickname that
is not in the list of its key: this is the assignment part of a successful `/connect`. -/
theorem hub_inv_auth (s : clients_t) (ptr : Nat) (client : client_t) (nick : List Nat)
    (len : Int) (hash : hash_t) (element : hash_element_t)
    (hs : hub_inv s) (hl : client_lookup s ptr = some client)
    (hnone : client.nick = none) (hne : nick ≠ []) (h58 : 58 ∉ nick)
    (hfree : ∀ e ∈ bucket s.hash (hash_function nick), e.str ≠ nick)
    (hadd : hash_add s.hash nick ptr ptr = .ok (hash, element)) :
    hub_inv (client_set_nick s ptr nick len hash element) := by
  obtain ⟨h1, h2, h3, h4, h5, h6⟩ := hs
  obtain ⟨hmem, hptr⟩ := client_lookup_some s ptr client hl
  have hklt : hash_function nick < s.hash.table.length := by
    rw [h1]; exact hash_function_lt nick
  unfold hash_add at hadd
  simp only [if_pos (hash_function_lt nick), Except.ok.injEq, Prod.mk.injEq] at hadd
  obtain ⟨hh, hel⟩ := hadd
  have hbk : ∀ k, bucket hash k =
      if k = hash_function nick then element :: bucket s.hash k else bucket s.hash k := by
    intro k
    rw [← hh]
    by_cases hk : k = hash_function nick
    · rw [if_pos hk, hk, bucket_set_self _ _ _ hklt, hel]; rfl
    · rw [if_neg hk, bucket_set_other _ _ _ _ (fun h => hk h.symm)]
  have hlist : (client_set_nick s ptr nick len hash element).list =
      s.list.map (fun c => if c.ptr = ptr then
        ({ c with nick := some nick, nick_len := len, hash_elm := element } : client_t)
        else c) := rfl
  have hhash : (client_set_nick s ptr nick len hash element).hash = hash := rfl
  have hes : element.str = nick := by rw [← hel]
  have hea : element.addr = ptr := by rw [← hel]
  have heo : element.object = ptr := by rw [← hel]
  have hek : element.key = hash_function nick := by rw [← hel]
  refine ⟨?_, ?_, ?_, ?_, ?_, ?_⟩
  · rw [hhash, ← hh]; simpa using h1
  · have : (client_set_nick s ptr nick len hash element).list.map (fun c => c.ptr) =
        s.list.map (fun c => c.ptr) := by
      rw [hlist, List.map_map]
      apply List.map_congr_left
      intro c _
      by_cases hc : c.ptr = ptr <;> simp [hc]
    rw [this]; exact h2
  · intro c' hc' hn
    rw [hlist, List.mem_map] at hc'
    obtain ⟨c, hc, rfl⟩ := hc'
    by_cases hcp : c.ptr = ptr
    · simp [hcp] at hn
    · simp only [if_neg hcp] at hn ⊢
      exact h3 c hc hn
  · intro c' hc' n hn
    rw [hlist, List.mem_map] at hc'
    obtain ⟨c, hc, rfl⟩ := hc'
    rw [hhash, hbk]
    by_cases hcp : c.ptr = ptr
    · simp only [if_pos hcp] at hn ⊢
      simp only [Option.some.injEq] at hn
      simp [hn, hcp, hek, hes, hea]
    · simp only [if_neg hcp] at hn ⊢
      obtain ⟨g1, g2, g3⟩ := h4 c hc n hn
      refine ⟨?_, g2, g3⟩
      split
      · exact List.mem_cons_of_mem _ g1
      · exact g1
  · intro k e he
    rw [hhash, hbk k] at he
    have hold : e ∈ bucket s.hash k → hash_function e.str = k ∧ e.key = k ∧ e.str ≠ [] ∧
        58 ∉ e.str ∧ e.object = e.addr ∧
        ∃ c ∈ (client_set_nick s ptr nick len hash element).list,
          c.ptr = e.addr ∧ c.nick = some e.str ∧ c.hash_elm = e := by
      intro heo
      obtain ⟨g1, g2, g3, g4, g5, c, hc, g6, g7, g8⟩ := h5 k e heo
      refine ⟨g1, g2, g3, g4, g5, c, ?_, g6, g7, g8⟩
      have hcp : c.ptr ≠ ptr := by
        intro hcp
        have := client_ptr_inj s h2 c client hc hmem (by rw [hcp, hptr])
        rw [this, hnone] at g7
        exact absurd g7 (by simp)
      rw [hlist, List.mem_map]
      exact ⟨c, hc, by simp [hcp]⟩
    by_cases hk : k = hash_function nick
    · rw [if_pos hk] at he
      rcases List.mem_cons.1 he with h | h
      · subst h
        refine ⟨by rw [hes, hk], by rw [hek, hk], by rw [hes]; exact hne,
          by rw [hes]; exact h58, by rw [heo, hea], ?_⟩
        rw [hlist]
        refine ⟨_, List.mem_map.2 ⟨client, hmem, rfl⟩, ?_, ?_, ?_⟩
        · simp [hptr, hea]
        · simp [hptr, hes]
        · simp [hptr]
      · exact hold h
    · rw [if_neg hk] at he
      exact hold he
  · intro k
    rw [hhash, hbk]
    by_cases hk : k = hash_function nick
    · rw [if_pos hk, List.map_cons, List.nodup_cons]
      refine ⟨?_, h6 k⟩
      intro hin
      obtain ⟨e, he, hee⟩ := List.mem_map.1 hin
      rw [hk] at he
      exact hfree e he (by rw [hee, hes])
    · rw [if_neg hk]; exact h6 k

theorem hash_find_none_free (hash : hash_t) (nick : List Nat)
    (h : hash_find hash nick = .ok none) :
    ∀ e ∈ bucket hash (hash_function nick), e.str ≠ nick := by
  unfold hash_find at h
  simp only [if_pos (hash_function_lt nick), Except.ok.injEq] at h
  exact (hash_find_loop_none nick _).1 h

theorem client_auth_command_inv (ptr : Nat) (s s' : clients_t) (ac : Int)
    (args : List (List Nat)) (res : Int) (hs : hub_inv s)
    (h : client_auth_command ptr s ac args = .ok (s', res)) : hub_inv s' := by
  unfold client_auth_command at h
  split at h
  · exact absurd h (by simp)
  · rename_i client hl
    split at h
    · exact absurd h (by simp)
    · rename_i hpre
      have hnone : client.nick = none := by
        by_contra hc
        exact hpre (Or.inl hc)
      split at h
      · simp only [Except.ok.injEq, Prod.mk.injEq] at h
        rw [← h.1]; exact hs
      · split at h
        · simp only [Except.ok.injEq, Prod.mk.injEq] at h
          rw [← h.1]; exact hub_inv_hub_put _ _ _ hs
        · simp only [] at h
          split at h
          · simp only [Except.ok.injEq, Prod.mk.injEq] at h
            rw [← h.1]; exact hub_inv_hub_put _ _ _ hs
          · rename_i hlen
            obtain ⟨hne, h58, _⟩ := (verify_nick_spec _).1 hlen
            split at h
            · exact absurd h (by simp)
            · simp only [Except.ok.injEq, Prod.mk.injEq] at h
              rw [← h.1]; exact hub_inv_hub_put _ _ _ hs
            · rename_i hfind
              split at h
              · exact absurd h (by simp)
              · rename_i hash element hadd
                simp only [Except.ok.injEq, Prod.mk.injEq] at h
                rw [← h.1]
                apply hub_inv_hub_put
                apply hub_inv_hub_put
                apply hub_inv_clients_send
                exact hub_inv_auth s ptr client _ _ hash element hs hl hnone hne h58
                  (hash_find_none_free _ _ hfind) hadd

theorem client_input_line_inv (ptr : Nat) (len : Int) (line : line_t) (s s' : clients_t)
    (hs : hub_inv s) (h : client_input_line ptr len line s = .ok s') : hub_inv s' := by
  unfold client_input_line at h
  split at h
  · exact absurd h (by simp)
  · split at h
    · split at h
      · simp only [Except.ok.injEq] at h
        rw [← h]; exact hub_inv_clients_send _ _ _ hs
      · simp only [Except.ok.injEq] at h
        rw [← h]; exact hub_inv_hub_put _ _ _ hs
    · simp only [] at h
      split at h
      · split at h
        · exact absurd h (by simp)
        · rename_i w r hexec
          simp only [Except.ok.injEq] at h
          rw [← h]
          exact srvcmd_exec_inv _ _ _ _ _ _ _ _ hs hexec
      · split at h
        · exact absurd h (by simp)
        · split at h
          · exact absurd h (by simp)
          · rename_i w r hauth
            have hw := client_auth_command_inv _ _ _ _ _ _ hs hauth
            split at h
            · simp only [Except.ok.injEq] at h
              rw [← h]; exact hub_inv_hub_put _ _ _ hw
            · simp only [Except.ok.injEq] at h
              rw [← h]; exact hw

theorem client_input_loop_inv (ptr : Nat) (len : Int) : ∀ (fuel : Nat) (s s' : clients_t),
    hub_inv s → client_input_loop ptr len fuel s = .ok s' → hub_inv s' := by
  intro fuel
  induction fuel with
  | zero => intro s s' _ h; simp [client_input_loop] at h
  | succ fuel ih =>
    intro s s' hs h
    rw [client_input_loop] at h
    split at h
    · exact absurd h (by simp)
    · split at h
      · exact absurd h (by simp)
      · simp only [Except.ok.injEq] at h
        rw [← h]
        exact hub_inv_client_update s ptr _ (fun c => ⟨rfl, rfl, rfl, Or.inl rfl⟩) hs
      · split at h
        · exact absurd h (by simp)
        · rename_i w hline
          refine ih w s' (client_input_line_inv _ _ _ _ _ ?_ hline) h
          exact hub_inv_client_update s ptr _ (fun c => ⟨rfl, rfl, rfl, Or.inl rfl⟩) hs

theorem client_input_lines_inv (ptr : Nat) (s s' : clients_t) (hs : hub_inv s)
    (h : client_input_lines ptr s = .ok s') : hub_inv s' := by
  unfold client_input_lines at h
  split at h
  · exact absurd h (by simp)
  · exact client_input_loop_inv _ _ _ _ _ hs h

theorem clients_init_inv (console : iobuffer_t) (srv_sock : Int) :
    hub_inv (clients_init console srv_sock) := by
  have hb : ∀ k, bucket (clients_init console srv_sock).hash k = [] := by
    intro k
    simp only [bucket, clients_init, hash_init, List.getD_eq_getElem?_getD]
    by_cases hk : k < HASH_SIZE
    · rw [List.getElem?_eq_getElem (by simpa using hk)]
      simp
    · rw [List.getElem?_eq_none (by simpa using hk)]
      rfl
  refine ⟨by simp [clients_init, hash_init], by simp [clients_init],
    by simp [clients_init], by simp [clients_init], ?_, ?_⟩
  · intro k e he
    rw [hb k] at he
    simp at he
  · intro k
    rw [hb k]
    simp

theorem clients_add_inv (s : clients_t) (ptr : Nat) (sock : Int) (addr : List Nat)
    (hs : hub_inv s) (hfresh : ptr ∉ s.list.map (fun c => c.ptr)) :
    hub_inv (clients_add s ptr sock addr) := by
  obtain ⟨h1, h2, h3, h4, h5, h6⟩ := hs
  have hlist : ∃ c : client_t, c.ptr = ptr ∧ c.nick = none ∧ c.nick_len = 0 ∧
      (clients_add s ptr sock addr).list = s.list ++ [c] := by
    exact ⟨⟨ptr, iobuffer_init sock sock (some 0) (some 1) 10, none, 0, addr, addr.length,
      ⟨ptr, 0, 0, [], 0⟩⟩, rfl, rfl, rfl, rfl⟩
  obtain ⟨c0, hc1, hc2, hc3, hl⟩ := hlist
  have hhash : (clients_add s ptr sock addr).hash = s.hash := rfl
  refine ⟨by rw [hhash]; exact h1, ?_, ?_, ?_, ?_, by rw [hhash]; exact h6⟩
  · rw [hl, List.map_append, List.nodup_append]
    refine ⟨h2, by simp, ?_⟩
    intro a ha hb
    simp only [List.map_cons, List.map_nil, List.mem_singleton] at hb
    rw [hb, hc1] at ha
    exact hfresh ha
  · intro c hc hn
    rw [hl] at hc
    rcases List.mem_append.1 hc with h | h
    · exact h3 c h hn
    · rw [List.mem_singleton] at h
      rw [h, hc3]
  · intro c hc n hn
    rw [hl] at hc
    rcases List.mem_append.1 hc with h | h
    · rw [hhash]; exact h4 c h n hn
    · rw [List.mem_singleton] at h
      rw [h, hc2] at hn
      exact absurd hn (by simp)
  · intro k e he
    rw [hhash] at he
    obtain ⟨g1, g2, g3, g4, g5, c, hc, g6⟩ := h5 k e he
    exact ⟨g1, g2, g3, g4, g5, c, by rw [hl]; exact List.mem_append_left _ hc, g6⟩

/-- The registry stays consistent when a client is unlinked from the list and, if it has a
nickname, its element is removed from the table. -/
theorem hub_inv_remove (t : clients_t) (ptr : Nat) (nick : Option (List Nat))
    (elm : hash_element_t) (hash' : hash_t) (number : Int) (ht : hub_inv t)
    (hex : ∃ c ∈ t.list, c.ptr = ptr)
    (hc : ∀ c ∈ t.list, c.ptr = ptr → c.nick = nick ∧ c.hash_elm = elm)
    (hr : (match nick with
      | some _ => hash_remove t.hash elm
      | none => .ok t.hash) = .ok hash') :
    hub_inv ⟨number, t.list.filter (fun c => c.ptr ≠ ptr), t.read_fds, t.write_fds, t.console,
      t.srv_sock, hash'⟩ := by
  obtain ⟨h1, h2, h3, h4, h5, h6⟩ := ht
  have hother : ∀ k, ∀ e ∈ bucket t.hash k, e.addr = ptr → nick ≠ none ∧ e = elm := by
    intro k e he hea
    obtain ⟨_, _, _, _, _, c, hcm, g6, g7, g8⟩ := h5 k e he
    obtain ⟨hn, hel⟩ := hc c hcm (by rw [g6, hea])
    refine ⟨?_, by rw [← g8, hel]⟩
    rw [← hn, g7]
    simp
  -- the lists of the new table
  have hbk : hash'.table.length = HASH_SIZE ∧
      (∀ k, ∀ e ∈ bucket hash' k, e ∈ bucket t.hash k ∧ e.addr ≠ ptr) ∧
      (∀ k, ∀ e ∈ bucket t.hash k, e.addr ≠ ptr → e ∈ bucket hash' k) ∧
      (∀ k, (bucket hash' k).Sublist (bucket t.hash k)) := by
    cases nick with
    | none =>
      simp only [Except.ok.injEq] at hr
      subst hr
      refine ⟨h1, ?_, fun k e he _ => he, fun k => List.Sublist.refl _⟩
      intro k e he
      exact ⟨he, fun hea => (hother k e he hea).1 rfl⟩
    | some n =>
      simp only [hash_remove] at hr
      split at hr
      · rename_i hkey
        simp only [Except.ok.injEq] at hr
        subst hr
        have hklt : elm.key < t.hash.table.length := by rw [h1]; exact hkey
        have hb : ∀ k, bucket ⟨t.hash.table.set elm.key
            ((t.hash.table.getD elm.key []).filter (fun e => e.addr ≠ elm.addr))⟩ k =
            if k = elm.key then (bucket t.hash k).filter (fun e => e.addr ≠ elm.addr)
            else bucket t.hash k := by
          intro k
          by_cases hk : k = elm.key
          · rw [if_pos hk, hk, bucket_set_self _ _ _ hklt]; rfl
          · rw [if_neg hk, bucket_set_other _ _ _ _ (fun h => hk h.symm)]
        have hea : elm.addr = ptr := by
          obtain ⟨c, hcm, hcp⟩ := hex
          obtain ⟨hn, hel⟩ := hc c hcm hcp
          obtain ⟨_, _, g3⟩ := h4 c hcm n hn
          rw [hel] at g3
          rw [g3, hcp]
        refine ⟨by simpa using h1, ?_, ?_, ?_⟩
        · intro k e he
          rw [hb k] at he
          by_cases hk : k = elm.key
          · rw [if_pos hk] at he
            obtain ⟨he1, he2⟩ := List.mem_filter.1 he
            refine ⟨he1, ?_⟩
            rw [hea] at he2
            simpa using he2
          · rw [if_neg hk] at he
            refine ⟨he, ?_⟩
            intro hea'
            obtain ⟨_, hee⟩ := hother k e he hea'
            obtain ⟨_, g2, _⟩ := h5 k e he
            rw [hee] at g2
            exact hk g2.symm
        · intro k e he hne
          rw [hb k]
          split
          · apply List.mem_filter.2
            refine ⟨he, ?_⟩
            rw [hea]
            simpa using hne
          · exact he
        · intro k
          rw [hb k]
          split
          · exact List.filter_sublist _
          · exact List.Sublist.refl _
      · exact absurd hr (by simp)
  obtain ⟨b1, b2, b3, b4⟩ := hbk
  refine ⟨b1, ?_, ?_, ?_, ?_, ?_⟩
  · exact h2.sublist ((List.filter_sublist _).map _)
  · intro c hcm hn
    exact h3 c (List.mem_filter.1 hcm).1 hn
  · intro c hcm n hn
    obtain ⟨hc1, hc2⟩ := List.mem_filter.1 hcm
    obtain ⟨g1, g2, g3⟩ := h4 c hc1 n hn
    refine ⟨b3 _ _ g1 ?_, g2, g3⟩
    rw [g3]
    simpa using hc2
  · intro k e he
    obtain ⟨he1, he2⟩ := b2 k e he
    obtain ⟨g1, g2, g3, g4, g5, c, hcm, g6, g7, g8⟩ := h5 k e he1
    refine ⟨g1, g2, g3, g4, g5, c, ?_, g6, g7, g8⟩
    apply List.mem_filter.2
    refine ⟨hcm, ?_⟩
    rw [← g6] at he2
    simpa using he2
  · intro k
    exact (h6 k).sublist ((b4 k).map _)

theorem clients_remove_inv (s s' : clients_t) (ptr : Nat) (hs : hub_inv s)
    (h : clients_remove s ptr = .ok s') : hub_inv s' := by
  unfold clients_remove at h
  split at h
  · exact absurd h (by simp)
  · rename_i client hl
    obtain ⟨hmem, hptr⟩ := client_lookup_some s ptr client hl
    split at h
    · exact absurd h (by simp)
    · simp only [] at h
      split at h
      · exact absurd h (by simp)
      · rename_i hash' hrem
        simp only [Except.ok.injEq] at h
        rw [← h]
        -- the state before the element and the client are unlinked
        generalize ht : (if client.nick_len > 0 then
            clients_send (hub_put bufref.console _ (client_update
              { s with read_fds := FD_CLR (iobuffer_get_input_fd client.buffer) s.read_fds }
              ptr (fun c => { c with buffer := iobuffer_free c.buffer }))) _ (some ptr)
          else hub_put bufref.console _ (client_update
              { s with read_fds := FD_CLR (iobuffer_get_input_fd client.buffer) s.read_fds }
              ptr (fun c => { c with buffer := iobuffer_free c.buffer }))) = t at hrem ⊢
        have hview : hub_inv t ∧ t.list.map (fun c => (c.ptr, c.nick, c.hash_elm)) =
            s.list.map (fun c => (c.ptr, c.nick, c.hash_elm)) := by
          have h0 : hub_inv (client_update
              { s with read_fds := FD_CLR (iobuffer_get_input_fd client.buffer) s.read_fds }
              ptr (fun c => { c with buffer := iobuffer_free c.buffer })) := by
            refine hub_inv_client_update _ ptr
              (fun c => { c with buffer := iobuffer_free c.buffer })
              (fun c => ⟨rfl, rfl, rfl, Or.inl rfl⟩) ?_
            exact hub_inv_map s _ id (fun c => ⟨rfl, rfl, rfl, Or.inl rfl⟩) rfl (by simp) hs
          have hv0 : (client_update
              { s with read_fds := FD_CLR (iobuffer_get_input_fd client.buffer) s.read_fds }
              ptr (fun c => { c with buffer := iobuffer_free c.buffer })).list.map
                (fun c => (c.ptr, c.nick, c.hash_elm)) =
              s.list.map (fun c => (c.ptr, c.nick, c.hash_elm)) := by
            simp only [client_update, List.map_map]
            apply List.map_congr_left
            intro c _
            by_cases hcp : c.ptr = ptr <;> simp [hcp]
          rw [← ht]
          split
          · refine ⟨hub_inv_clients_send _ _ _ (hub_inv_hub_put _ _ _ h0), ?_⟩
            rw [← hv0]
            simp only [clients_send, hub_put, List.map_map]
            apply List.map_congr_left
            intro c _
            simp only [Function.comp]
            split <;> rfl
          · refine ⟨hub_inv_hub_put _ _ _ h0, ?_⟩
            rw [← hv0]
            rfl
        obtain ⟨hti, htv⟩ := hview
        have hcl : ∀ c ∈ t.list, c.ptr = ptr → c.nick = client.nick ∧
            c.hash_elm = client.hash_elm := by
          intro c hc hcp
          have hm : (c.ptr, c.nick, c.hash_elm) ∈
              s.list.map (fun c => (c.ptr, c.nick, c.hash_elm)) := by
            rw [← htv]; exact List.mem_map_of_mem _ hc
          obtain ⟨c0, hc0, heq⟩ := List.mem_map.1 hm
          simp only [Prod.mk.injEq] at heq
          have := client_ptr_inj s hs.2.1 c0 client hc0 hmem (by rw [heq.1, hcp, hptr])
          rw [← this]
          exact ⟨heq.2.1.symm, heq.2.2.symm⟩
        have hex : ∃ c ∈ t.list, c.ptr = ptr := by
          have hm : (client.ptr, client.nick, client.hash_elm) ∈
              t.list.map (fun c => (c.ptr, c.nick, c.hash_elm)) := by
            rw [htv]; exact List.mem_map_of_mem _ hmem
          obtain ⟨c, hc, heq⟩ := List.mem_map.1 hm
          simp only [Prod.mk.injEq] at heq
          exact ⟨c, hc, by rw [heq.1, hptr]⟩
        exact hub_inv_remove t ptr client.nick client.hash_elm hash' _ hti hex hcl hrem

/-- Every state of the hub has a consistent registry. -/
theorem hub_reachable_inv (s : clients_t) (h : hub_reachable s) : hub_inv s := by
  induction h with
  | init console srv_sock => exact clients_init_inv console srv_sock
  | add s ptr sock addr _ hfresh ih => exact clients_add_inv s ptr sock addr ih hfresh
  | io s console buffers read_fds write_fds _ ih =>
    exact hub_inv_hub_io s console buffers read_fds write_fds ih
  | input s s' client _ _ _ hstep ih => exact client_input_lines_inv _ s s' ih hstep
  | console_command s s' command res _ hstep ih =>
    exact srvcmd_exec_inv _ _ _ _ _ _ _ _ ih hstep
  | console_message s data _ ih => exact hub_inv_clients_send s data none ih
  | remove s s' ptr _ hstep ih => exact clients_remove_inv s s' ptr ih hstep

theorem bucket_eq_getElem (hash : hash_t) (k : Nat) (hk : k < hash.table.length) :
    bucket hash k = hash.table[k] := by
  simp [bucket, List.getD_eq_getElem?_getD, List.getElem?_eq_getElem hk]

theorem mem_table_bucket (hash : hash_t) (e : hash_element_t)
    (he : e ∈ hash.table.flatten) : ∃ k, e ∈ bucket hash k := by
  obtain ⟨l, hl, hel⟩ := List.mem_flatten.1 he
  obtain ⟨k, hk, hlk⟩ := List.getElem_of_mem hl
  exact ⟨k, by rw [bucket_eq_getElem hash k hk, hlk]; exact hel⟩

/-- In a consistent registry the nicknames of the index are pairwise distinct, non-empty and
without colon. -/
theorem hub_inv_index (s : clients_t) (h : hub_inv s) :
    (index_nicks s).Nodup ∧ ∀ n ∈ index_nicks s, n ≠ [] ∧ 58 ∉ n := by
  obtain ⟨h1, h2, h3, h4, h5, h6⟩ := h
  constructor
  · unfold index_nicks
    rw [List.map_flatten, List.nodup_flatten]
    constructor
    · intro l hl
      obtain ⟨b, hb, rfl⟩ := List.mem_map.1 hl
      obtain ⟨k, hk, hbk⟩ := List.getElem_of_mem hb
      rw [← hbk, ← bucket_eq_getElem s.hash k hk]
      exact h6 k
    · rw [List.pairwise_iff_getElem]
      intro i j hi hj hij
      rw [List.length_map] at hi hj
      rw [List.getElem_map, List.getElem_map, ← bucket_eq_getElem s.hash i hi,
        ← bucket_eq_getElem s.hash j hj]
      intro n hni hnj
      obtain ⟨e1, he1, hs1⟩ := List.mem_map.1 hni
      obtain ⟨e2, he2, hs2⟩ := List.mem_map.1 hnj
      have g1 := (h5 i e1 he1).1
      have g2 := (h5 j e2 he2).1
      rw [hs1] at g1
      rw [hs2] at g2
      omega
  · intro n hn
    obtain ⟨e, he, hes⟩ := List.mem_map.1 hn
    obtain ⟨k, hk⟩ := mem_table_bucket s.hash e he
    obtain ⟨_, _, g3, g4, _⟩ := h5 k e hk
    rw [← hes]
    exact ⟨g3, g4⟩

/-- C6: in every state of the hub reached through `clients_add`, input and output, client
input processing, console commands and messages and `clients_remove`, the nicknames held in
the nickname index are pairwise distinct, non-empty and contain no colon. -/
theorem nickname_index_valid (s : clients_t) (h : hub_reachable s) :
    (index_nicks s).Nodup ∧ ∀ n ∈ index_nicks s, n ≠ [] ∧ 58 ∉ n :=
  hub_inv_index s (hub_reachable_inv s h)

set_option maxRecDepth 100000

theorem ok_result_or (s : clients_t) (r : Except Fault clients_t) (h : is_ok r = true) :
    r = .ok (result_or s r) := by
  cases r with
  | ok s' => rfl
  | error e => simp [is_ok] at h

theorem hub_two_reachable : hub_reachable hub_two := by
  unfold hub_two
  apply hub_reachable.add
  · apply hub_reachable.add
    · exact hub_reachable.init _ _
    · decide!
  · decide!

theorem hub_receive_reachable (s : clients_t) (ptr : Nat) (data : List Nat)
    (h : hub_reachable s) : hub_reachable (hub_receive s ptr data) :=
  hub_reachable.io s _ _ _ _ h

theorem hub_bob_reachable : hub_reachable hub_bob := by
  obtain ⟨c, hc, hp, hn⟩ : ∃ c ∈ (hub_receive hub_two 100 (bytes "/connect bob\n")).list,
      c.ptr = 100 ∧ c.nick_len ≠ -1 := by decide!
  refine hub_reachable.input _ _ c (hub_receive_reachable _ _ _ hub_two_reachable) hc hn ?_
  rw [hp]
  exact ok_result_or _ _ (by decide!)

theorem hub_bob_quit_reachable : hub_reachable hub_bob_quit := by
  obtain ⟨c, hc, hp, hn⟩ : ∃ c ∈ (hub_receive hub_bob 100 (bytes "/quit\n")).list,
      c.ptr = 100 ∧ c.nick_len ≠ -1 := by decide!
  refine hub_reachable.input _ _ c (hub_receive_reachable _ _ _ hub_bob_reachable) hc hn ?_
  rw [hp]
  exact ok_result_or _ _ (by decide!)

/-- Witness for C6: the hub in which client 100 has authenticated as `bob`. -/
theorem nickname_index_valid_witness :
    hub_reachable hub_bob ∧ index_nicks hub_bob = [bytes "bob"] ∧
    (index_nicks hub_bob).Nodup ∧ ∀ n ∈ index_nicks hub_bob, n ≠ [] ∧ 58 ∉ n :=
  ⟨hub_bob_reachable, by decide!, (nickname_index_valid hub_bob hub_bob_reachable).1,
    (nickname_index_valid hub_bob hub_bob_reachable).2⟩

theorem client_lookup_mem (s : clients_t) (h : hub_inv s) (c : client_t) (hc : c ∈ s.list) :
    client_lookup s c.ptr = some c := by
  unfold client_lookup
  cases hf : s.list.find? (fun c' => c'.ptr = c.ptr) with
  | none =>
    rw [List.find?_eq_none] at hf
    exact absurd (hf c hc) (by simp)
  | some c' =>
    have h1 := List.mem_of_find?_eq_some hf
    have h2 := List.find?_some hf
    rw [client_ptr_inj s h.2.1 c' c h1 hc (by simpa using h2)]

/-- In a consistent registry, looking a name up in the index finds the client whose stored
nickname is that name, and no other. -/
theorem hub_inv_lookup (s : clients_t) (h : hub_inv s) (c : client_t) (hc : c ∈ s.list)
    (name : List Nat) :
    clients_get_client_from_name s name = .ok (some c.ptr) ↔ c.nick = some name := by
  obtain ⟨h1, h2, h3, h4, h5, h6⟩ := h
  unfold clients_get_client_from_name hash_find
  simp only [if_pos (hash_function_lt name)]
  constructor
  · intro hfound
    cases hfl : hash_find_loop name (s.hash.table.getD (hash_function name) []) with
    | none => rw [hfl] at hfound; simp at hfound
    | some e =>
      rw [hfl] at hfound
      simp only [Except.ok.injEq, Option.some.injEq] at hfound
      obtain ⟨hmem, hstr⟩ := hash_find_loop_some name _ e hfl
      obtain ⟨_, _, _, _, g5, c', hc', g6, g7, _⟩ := h5 (hash_function name) e hmem
      have := client_ptr_inj s h2 c' c hc' hc (by rw [g6, ← g5, hfound])
      rw [← this, g7, hstr]
  · intro hnick
    obtain ⟨g1, g2, g3⟩ := h4 c hc name hnick
    obtain ⟨k1, k2, _, _, k5, _⟩ := h5 _ _ g1
    rw [g2] at k1
    rw [← k1] at g1
    cases hfl : hash_find_loop name (s.hash.table.getD (hash_function name) []) with
    | none =>
      have := (hash_find_loop_none name _).1 hfl c.hash_elm g1
      exact absurd g2 this
    | some e =>
      obtain ⟨hmem, hstr⟩ := hash_find_loop_some name _ e hfl
      have heq : e = c.hash_elm :=
        List.inj_on_of_nodup_map (h6 (hash_function name)) hmem g1 (by rw [hstr, g2])
      simp only [Except.ok.injEq, Option.some.injEq]
      rw [heq, k5, g3]

/-- C7 as amended: in every state of the hub, a client is found through the nickname index
under a name exactly when that name is its stored nickname (`nick` is set); a client with
`nick_len > 0` has a nickname, a client without nickname is found under no name, and the
lookup never faults. A draining client that had authenticated thus stays in the index. -/
theorem index_lookup_iff_nick (s : clients_t) (hs : hub_reachable s) (c : client_t)
    (hc : c ∈ s.list) :
    (∀ name, clients_get_client_from_name s name = .ok (some c.ptr) ↔ c.nick = some name) ∧
    (c.nick_len > 0 → ∃ n, c.nick = some n ∧
      clients_get_client_from_name s n = .ok (some c.ptr)) ∧
    (c.nick = none → ∀ name, clients_get_client_from_name s name ≠ .ok (some c.ptr)) := by
  have hinv := hub_reachable_inv s hs
  have hiff := hub_inv_lookup s hinv c hc
  refine ⟨hiff, ?_, ?_⟩
  · intro hlen
    cases hn : c.nick with
    | none =>
      have := hinv.2.2.1 c hc hn
      omega
    | some n => exact ⟨n, rfl, (hiff n).2 hn⟩
  · intro hn name hfound
    rw [(hiff name).1 hfound] at hn
    exact absurd hn (by simp)

/-- Witness for C7 as amended: `bob` at address 100. -/
theorem index_lookup_iff_nick_witness :
    hub_reachable hub_bob ∧
    ∃ c ∈ hub_bob.list, c.ptr = 100 ∧
      (∀ name, clients_get_client_from_name hub_bob name = .ok (some c.ptr) ↔
        c.nick = some name) := by
  obtain ⟨c, hc, hp⟩ : ∃ c ∈ hub_bob.list, c.ptr = 100 := by decide
  exact ⟨hub_bob_reachable, c, hc, hp, (index_lookup_iff_nick hub_bob hub_bob_reachable c hc).1⟩

/-- Counterexample to C7 as stated: after `/connect bob` and `/quit`, client 100 is draining
(`nick_len = -1`), hence not authenticated, and is still found through the index. -/
theorem index_lookup_draining :
    hub_reachable hub_bob_quit ∧
    ¬ (∀ c ∈ hub_bob_quit.list,
        (∃ name, clients_get_client_from_name hub_bob_quit name = .ok (some c.ptr)) ↔
          c.nick_len > 0) := by
  refine ⟨hub_bob_quit_reachable, ?_⟩
  intro hall
  obtain ⟨c, hc, hp, hn⟩ : ∃ c ∈ hub_bob_quit.list, c.ptr = 100 ∧ c.nick_len = -1 := by
    decide!
  have hfound : clients_get_client_from_name hub_bob_quit (bytes "bob") = .ok (some 100) := by
    have hv : (match clients_get_client_from_name hub_bob_quit (bytes "bob") with
      | .ok r => r
      | .error _ => none) = some 100 := by decide!
    cases hr : clients_get_client_from_name hub_bob_quit (bytes "bob") with
    | error e => rw [hr] at hv; simp at hv
    | ok r => rw [hr] at hv; simp only [] at hv; rw [hv]
  have := (hall c hc).1 ⟨bytes "bob", by rw [hp]; exact hfound⟩
  omega

/-- C8 at the failing input: `bob` is authenticated, client 200 sends `/connect alice` and
`hello` in one batch. The run ends without fault, and the output queue of `bob` then ends with
": hello" instead of "alice: hello"; nothing of the message comes back to the sender. -/
theorem message_prefix_stale :
    is_ok (client_input_lines 200
      (hub_receive hub_bob 200 (bytes "/connect alice\nhello\n"))) = true ∧
    hub_alice_hello.list.map (fun c => (c.ptr, c.nick, dbuffer_contents c.buffer.output)) =
      [(100, some (bytes "bob"), bytes "** Hello, bob!\n** alice connected.\n: hello\n"),
       (200, some (bytes "alice"), bytes "** Hello, alice!\n")] := by
  decide!

theorem hub_put_rejected (s : clients_t) (hs : hub_inv s) (client : client_t)
    (hc : client ∈ s.list) (hn : client.nick = none) (hl : client.nick_len = 0)
    (hwf : dbuffer_wf client.buffer.output) (msg : List Nat) :
    connect_rejected_with s (hub_put (.client client.ptr) msg s) client.ptr msg := by
  refine ⟨rfl, rfl, rfl, rfl, rfl, rfl, ?_⟩
  show List.Forall₂ _ s.list (s.list.map _)
  rw [List.forall₂_map_right_iff, List.forall₂_same]
  intro c hcm
  constructor
  · intro hne
    rw [if_neg hne]
  · intro heq
    have hcc := client_ptr_inj s hs.2.1 c client hcm hc heq
    rw [if_pos heq, hcc]
    obtain ⟨h1, _, h3⟩ := iobuffer_put_data_spec client.buffer msg hwf
    exact ⟨rfl, hn, hl, rfl, rfl, rfl, h1, h3⟩

theorem hash_find_of_index (s : clients_t) (hs : hub_inv s) (nick : List Nat)
    (h : nick ∈ index_nicks s) : ∃ e, hash_find s.hash nick = .ok (some e) := by
  obtain ⟨e, he, hes⟩ := List.mem_map.1 h
  obtain ⟨k, hk⟩ := mem_table_bucket s.hash e he
  obtain ⟨g1, _⟩ := hs.2.2.2.2.1 k e hk
  rw [hes] at g1
  rw [← g1] at hk
  unfold hash_find
  simp only [if_pos (hash_function_lt nick)]
  cases hfl : hash_find_loop nick (s.hash.table.getD (hash_function nick) []) with
  | none => exact absurd hes ((hash_find_loop_none nick _).1 hfl e hk)
  | some e' => exact ⟨e', rfl⟩

/-- C10: for a client without nickname (`nick == NULL`, `nick_len == 0`) and a `/connect`
command (first argument string `connect`): with a token count other than 2 the syntax message,
with a nickname that holds a colon (or is empty) the invalid nickname message, with a nickname
that is in the index the taken message is appended to the output queue of that client, and
nothing else changes: the client stays without nickname, the index, the console and every other
client are unchanged. `client_auth_command` returns 2, 3 and 4 respectively, and
`client_input_line` does nothing more for such a line. -/
theorem connect_rejected (s : clients_t) (hs : hub_reachable s) (client : client_t)
    (hc : client ∈ s.list) (hn : client.nick = none) (hl : client.nick_len = 0)
    (hwf : dbuffer_wf client.buffer.output) (arg_count : Int) (args : List (List Nat))
    (hcmd : args.getD 0 [] = bytes "connect") (hac : 1 ≤ arg_count) :
    ∃ s' res, client_auth_command client.ptr s arg_count args = .ok (s', res) ∧
      (arg_count ≠ 2 → res = 2 ∧ connect_rejected_with s s' client.ptr msg_syntax) ∧
      (arg_count = 2 → (58 ∈ args.getD 1 [] ∨ args.getD 1 [] = []) →
        res = 3 ∧ connect_rejected_with s s' client.ptr msg_nick) ∧
      (arg_count = 2 → 58 ∉ args.getD 1 [] → args.getD 1 [] ≠ [] →
        args.getD 1 [] ∈ index_nicks s →
        res = 4 ∧ connect_rejected_with s s' client.ptr msg_taken) ∧
      (∀ (len : Int) (line : line_t) (offs command' : List Nat),
        line.start.getD line.data 0 = 47 →
        command_get_tokens (line.start.drop (line.data + 1)) = .ok (arg_count, offs, command') →
        args = offs.map (cstr command') → res ≠ 0 →
        client_input_line client.ptr len line s = .ok s') := by
  have hinv := hub_reachable_inv s hs
  have hlook := client_lookup_mem s hinv client hc
  have hpre : ¬ (client.nick ≠ none ∨ client.nick_len ≠ 0) := by
    rw [hn, hl]; simp
  have hcon : ¬ (arg_count < 1 ∨ strcmp (args.getD 0 []) (bytes "connect") ≠ 0) := by
    rw [hcmd, (strcmp_eq_zero _ _).2 rfl]
    simp only [ne_eq, not_true_eq_false, or_false, not_lt]
    exact hac
  have hline : ∀ (s' : clients_t) (res : Int),
      client_auth_command client.ptr s arg_count args = .ok (s', res) → res ≠ 0 → res ≠ 1 →
      ∀ (len : Int) (line : line_t) (offs command' : List Nat),
        line.start.getD line.data 0 = 47 →
        command_get_tokens (line.start.drop (line.data + 1)) = .ok (arg_count, offs, command') →
        args = offs.map (cstr command') → res ≠ 0 →
        client_input_line client.ptr len line s = .ok s' := by
    intro s' res hauth _ h1 len line offs command' h47 htok hargs _
    unfold client_input_line
    rw [hlook]
    simp only [h47, ne_eq, not_true_eq_false, if_false, hl, gt_iff_lt, lt_self_iff_false, htok,
      ← hargs, hauth, if_neg h1]
  by_cases h2 : arg_count = 2
  · by_cases hv : verify_nick (args.getD 1 []) = 0
    · have hauth : client_auth_command client.ptr s arg_count args =
          .ok (hub_put (.client client.ptr) msg_nick s, 3) := by
        unfold client_auth_command
        rw [hlook]
        dsimp only
        rw [if_neg hpre, if_neg hcon, if_neg (not_not.2 h2)]
        simp only [ne_eq, not_true_eq_false, if_false, hv, if_true]
      refine ⟨_, 3, hauth, fun h => absurd h2 h, fun _ _ =>
        ⟨rfl, hub_put_rejected s hinv client hc hn hl hwf _⟩, ?_,
        hline _ 3 hauth (by decide) (by decide)⟩
      intro _ h58 hne _
      have hlen : verify_nick (args.getD 1 []) = (args.getD 1 []).length := by
        have := (verify_nick_loop_spec (args.getD 1 []) 0).1 h58
        rw [Nat.zero_add] at this
        exact this
      rw [hlen] at hv
      exact absurd (List.length_eq_zero.1 hv) hne
    · obtain ⟨hne, h58, _⟩ := (verify_nick_spec (args.getD 1 [])).1 hv
      cases hfind : hash_find s.hash (args.getD 1 []) with
      | error e =>
        unfold hash_find at hfind
        simp [hash_function_lt] at hfind
      | ok r =>
        cases r with
        | some e =>
          have hauth : client_auth_command client.ptr s arg_count args =
              .ok (hub_put (.client client.ptr) msg_taken s, 4) := by
            unfold client_auth_command
            rw [hlook]
            dsimp only
            rw [if_neg hpre, if_neg hcon, if_neg (not_not.2 h2)]
            simp only [ne_eq, not_true_eq_false, if_false, hv, hfind]
          refine ⟨_, 4, hauth, fun h => absurd h2 h, ?_, fun _ _ _ _ =>
            ⟨rfl, hub_put_rejected s hinv client hc hn hl hwf _⟩,
            hline _ 4 hauth (by decide) (by decide)⟩
          intro _ hbad
          rcases hbad with h | h
          · exact absurd h h58
          · exact absurd h hne
        | none =>
          -- the nickname is free: the command succeeds with code 0
          cases hadd : hash_add s.hash (args.getD 1 []) client.ptr client.ptr with
          | error e =>
            unfold hash_add at hadd
            simp [hash_function_lt] at hadd
          | ok r =>
            obtain ⟨hash, element⟩ := r
            have hauth : ∃ s', client_auth_command client.ptr s arg_count args =
                .ok (s', 0) := by
              unfold client_auth_command
              rw [hlook]
              dsimp only
              rw [if_neg hpre, if_neg hcon, if_neg (not_not.2 h2)]
              simp only [ne_eq, not_true_eq_false, if_false, hv, hfind, hadd]
              exact ⟨_, rfl⟩
            obtain ⟨s', hs'⟩ := hauth
            refine ⟨s', 0, hs', fun h => absurd h2 h, ?_, ?_, ?_⟩
            · intro _ hbad
              rcases hbad with h | h
              · exact absurd h h58
              · exact absurd h hne
            · intro _ _ _ hidx
              obtain ⟨e, he⟩ := hash_find_of_index s hinv _ hidx
              rw [hfind] at he
              simp at he
            · intro _ _ _ _ _ _ _ h0
              exact absurd rfl h0
  · have hauth : client_auth_command client.ptr s arg_count args =
        .ok (hub_put (.client client.ptr) msg_syntax s, 2) := by
      unfold client_auth_command
      rw [hlook]
      dsimp only
      rw [if_neg hpre, if_neg hcon, if_pos h2]
    exact ⟨_, 2, hauth, fun _ => ⟨rfl, hub_put_rejected s hinv client hc hn hl hwf _⟩,
      fun h => absurd h h2, fun h => absurd h h2, hline _ 2 hauth (by decide) (by decide)⟩

/-- Witness for C10: with `bob` authenticated at address 100, the client at address 200 sends
`/connect bob` and is told that the nickname is taken. -/
theorem connect_rejected_witness :
    hub_reachable hub_bob ∧ bytes "bob" ∈ index_nicks hub_bob ∧
    ∃ s', client_auth_command 200 hub_bob 2 [bytes "connect", bytes "bob"] = .ok (s', 4) ∧
      connect_rejected_with hub_bob s' 200 msg_taken := by
  obtain ⟨c, hc, hp, hn, hl, hout⟩ : ∃ c ∈ hub_bob.list, c.ptr = 200 ∧ c.nick = none ∧
      c.nick_len = 0 ∧ c.buffer.output = dbuffer_init 5 (some 1) 10 := by decide!
  have hwf : dbuffer_wf c.buffer.output := by
    rw [hout]
    exact dbuffer_init_wf _ _ _
  have hidx : bytes "bob" ∈ index_nicks hub_bob := by decide!
  obtain ⟨s', res, hauth, _, _, htaken, _⟩ :=
    connect_rejected hub_bob hub_bob_reachable c hc hn hl hwf 2
      [bytes "connect", bytes "bob"] rfl (by decide)
  obtain ⟨hres, hrej⟩ := htaken rfl (by decide) (by decide) hidx
  rw [hp] at hauth hrej
  rw [hres] at hauth
  exact ⟨hub_bob_reachable, hidx, s', hauth, hrej⟩

theorem hub_fields_map (s s' : clients_t) (f : client_t → client_t)
    (hf : ∀ c, (f c).addr = c.addr ∧ (f c).addr_len = c.addr_len ∧ (f c).nick = c.nick ∧
      ((f c).nick_len = c.nick_len ∨ (f c).nick_len = -1))
    (hlist : s'.list = s.list.map f) (h : hub_fields s) : hub_fields s' := by
  intro c' hc'
  rw [hlist] at hc'
  obtain ⟨c, hc, rfl⟩ := List.mem_map.1 hc'
  obtain ⟨g1, g2⟩ := h c hc
  obtain ⟨f1, f2, f3, f4⟩ := hf c
  refine ⟨by rw [f1, f2]; exact g1, ?_⟩
  intro n hn
  rw [f3] at hn
  obtain ⟨k1, k2⟩ := g2 n hn
  refine ⟨?_, k2⟩
  rcases f4 with h4 | h4
  · rw [h4]; exact k1
  · exact Or.inr h4

theorem hub_fields_client_update (s : clients_t) (ptr : Nat) (g : client_t → client_t)
    (hg : ∀ c, (g c).addr = c.addr ∧ (g c).addr_len = c.addr_len ∧ (g c).nick = c.nick ∧
      ((g c).nick_len = c.nick_len ∨ (g c).nick_len = -1))
    (h : hub_fields s) : hub_fields (client_update s ptr g) := by
  apply hub_fields_map s (client_update s ptr g) (fun c => if c.ptr = ptr then g c else c) _
    rfl h
  intro c
  by_cases hc : c.ptr = ptr
  · simp only [if_pos hc]; exact hg c
  · simp [hc]

theorem hub_fields_hub_put (r : bufref) (d : List Nat) (s : clients_t) (h : hub_fields s) :
    hub_fields (hub_put r d s) := by
  cases r with
  | console =>
    exact hub_fields_map s (hub_put .console d s) id (fun c => ⟨rfl, rfl, rfl, Or.inl rfl⟩)
      (by simp [hub_put]) h
  | client ptr =>
    exact hub_fields_client_update s ptr _ (fun c => ⟨rfl, rfl, rfl, Or.inl rfl⟩) h

theorem hub_fields_put_if (b : Option bufref) (d : List Nat) (s : clients_t)
    (h : hub_fields s) : hub_fields (put_if hub_put b d s) := by
  cases b with
  | none => exact h
  | some r => exact hub_fields_hub_put r d s h

theorem hub_fields_clients_send (s : clients_t) (d : List Nat) (e : Option Nat)
    (h : hub_fields s) : hub_fields (clients_send s d e) := by
  apply hub_fields_map s (clients_send s d e) (fun client =>
      if some client.ptr ≠ e ∧ client.nick_len > 0 then
        { client with buffer := iobuffer_put_data client.buffer d }
      else client) _ rfl h
  intro c
  by_cases hc : some c.ptr ≠ e ∧ c.nick_len > 0
  · simp [hc]
  · simp [hc]

theorem hub_fields_clients_disconnect (s s' : clients_t) (ptr : Nat) (h : hub_fields s)
    (hd : clients_disconnect s ptr = .ok s') : hub_fields s' := by
  unfold clients_disconnect at hd
  split at hd
  · exact absurd hd (by simp)
  · simp only [Except.ok.injEq] at hd
    subst hd
    refine hub_fields_map s _ (fun c => if c.ptr = ptr then { c with nick_len := -1 } else c) ?_
      (show clients_t.list _ = _ from rfl) h
    intro c
    by_cases hc : c.ptr = ptr
    · simp [hc]
    · simp [hc]

theorem hub_fields_hub_io (s : clients_t) (console : iobuffer_t) (buffers : Nat → iobuffer_t)
    (read_fds write_fds : List Int) (h : hub_fields s) :
    hub_fields (hub_io s console buffers read_fds write_fds) :=
  hub_fields_map s (hub_io s console buffers read_fds write_fds)
    (fun c => { c with buffer := buffers c.ptr }) (fun _ => ⟨rfl, rfl, rfl, Or.inl rfl⟩) rfl h

theorem hub_fields_p2p_params (b : bufref) : ∀ (args : List (List Nat)) (s : clients_t),
    hub_fields s → hub_fields (p2p_params b args s) := by
  intro args
  induction args with
  | nil => intro s h; exact h
  | cons a rest ih =>
    intro s h
    exact ih _ (hub_fields_hub_put _ _ _ (hub_fields_hub_put _ _ _ h))

theorem cmd_srv_who_fields (ac : Int) (args : List (List Nat)) (c : bufref) (b : Option bufref)
    (d : Option Nat) (w w' : clients_t) (res : Int) (hw : hub_fields w)
    (h : cmd_srv_who ac args c b d w = .ok (w', res)) : hub_fields w' := by
  unfold cmd_srv_who at h
  split at h
  · exact absurd h (by simp)
  · simp only [] at h
    split at h
    · simp only [Except.ok.injEq, Prod.mk.injEq] at h
      rw [← h.1]; exact hub_fields_put_if _ _ _ hw
    · split at h
      · exact absurd h (by simp)
      · simp only [Except.ok.injEq, Prod.mk.injEq] at h
        rw [← h.1]; exact hub_fields_put_if _ _ _ hw

theorem cmd_srv_kill_fields (ac : Int) (args : List (List Nat)) (c : bufref) (b : Option bufref)
    (d : Option Nat) (w w' : clients_t) (res : Int) (hw : hub_fields w)
    (h : cmd_srv_kill ac args c b d w = .ok (w', res)) : hub_fields w' := by
  unfold cmd_srv_kill at h
  split at h
  · exact absurd h (by simp)
  · split at h
    · exact absurd h (by simp)
    · simp only [Except.ok.injEq, Prod.mk.injEq] at h
      rw [← h.1]; exact hub_fields_hub_put _ _ _ hw
    · split at h
      · exact absurd h (by simp)
      · simp only [] at h
        split at h
        · exact absurd h (by simp)
        · rename_i w4 hdis
          simp only [Except.ok.injEq, Prod.mk.injEq] at h
          rw [← h.1]
          exact hub_fields_clients_disconnect _ _ _ (hub_fields_hub_put _ _ _
            (hub_fields_clients_send _ _ _ (hub_fields_hub_put _ _ _ hw))) hdis

theorem cmd_srv_shutdown_fields (ac : Int) (args : List (List Nat)) (c : bufref)
    (b : Option bufref) (d : Option Nat) (w w' : clients_t) (res : Int) (hw : hub_fields w)
    (h : cmd_srv_shutdown ac args c b d w = .ok (w', res)) : hub_fields w' := by
  unfold cmd_srv_shutdown at h
  split at h
  · exact absurd h (by simp)
  · simp only [Except.ok.injEq, Prod.mk.injEq] at h
    rw [← h.1]; exact hub_fields_clients_send _ _ _ hw

theorem cmd_srv_help_fields (ac : Int) (args : List (List Nat)) (c : bufref) (b : Option bufref)
    (d : Option Nat) (w w' : clients_t) (res : Int) (hw : hub_fields w)
    (h : cmd_srv_help ac args c b d w = .ok (w', res)) : hub_fields w' := by
  unfold cmd_srv_help at h
  split at h
  · exact absurd h (by simp)
  · split at h
    · exact absurd h (by simp)
    · simp only [Except.ok.injEq, Prod.mk.injEq] at h
      rw [← h.1]; exact hub_fields_hub_put _ _ _ hw

theorem cmd_clt_connect_fields (ac : Int) (args : List (List Nat)) (c : bufref)
    (b : Option bufref) (d : Option Nat) (w w' : clients_t) (res : Int) (hw : hub_fields w)
    (h : cmd_clt_connect ac args c b d w = .ok (w', res)) : hub_fields w' := by
  unfold cmd_clt_connect at h
  split at h
  · exact absurd h (by simp)
  · split at h
    · exact absurd h (by simp)
    · simp only [Except.ok.injEq, Prod.mk.injEq] at h
      rw [← h.1]; exact hub_fields_hub_put _ _ _ hw

theorem cmd_clt_help_fields (ac : Int) (args : List (List Nat)) (c : bufref) (b : Option bufref)
    (d : Option Nat) (w w' : clients_t) (res : Int) (hw : hub_fields w)
    (h : cmd_clt_help ac args c b d w = .ok (w', res)) : hub_fields w' := by
  unfold cmd_clt_help at h
  split at h
  · exact absurd h (by simp)
  · split at h
    · exact absurd h (by simp)
    · simp only [Except.ok.injEq, Prod.mk.injEq] at h
      rw [← h.1]; exact hub_fields_hub_put _ _ _ hw

theorem cmd_clt_quit_fields (ac : Int) (args : List (List Nat)) (c : bufref) (b : Option bufref)
    (d : Option Nat) (w w' : clients_t) (res : Int) (hw : hub_fields w)
    (h : cmd_clt_quit ac args c b d w = .ok (w', res)) : hub_fields w' := by
  unfold cmd_clt_quit at h
  split at h
  · exact absurd h (by simp)
  · split at h
    · exact absurd h (by simp)
    · split at h
      · exact absurd h (by simp)
      · simp only [] at h
        split at h
        · exact absurd h (by simp)
        · rename_i w4 hdis
          simp only [Except.ok.injEq, Prod.mk.injEq] at h
          rw [← h.1]
          exact hub_fields_clients_disconnect _ _ _ (hub_fields_hub_put _ _ _
            (hub_fields_clients_send _ _ _ (hub_fields_hub_put _ _ _ hw))) hdis

theorem p2p_refuse_fields (b : Option bufref) (id : List Nat) (w w' : clients_t) (res : Int)
    (hw : hub_fields w) (h : p2p_refuse b id w = .ok (w', res)) : hub_fields w' := by
  unfold p2p_refuse at h
  split at h
  · exact absurd h (by simp)
  · simp only [Except.ok.injEq, Prod.mk.injEq] at h
    rw [← h.1]
    exact hub_fields_hub_put _ _ _ (hub_fields_hub_put _ _ _ (hub_fields_hub_put _ _ _ hw))

theorem cmd_clt_p2p_fields (ac : Int) (args : List (List Nat)) (c : bufref) (b : Option bufref)
    (d : Option Nat) (w w' : clients_t) (res : Int) (hw : hub_fields w)
    (h : cmd_clt_p2p ac args c b d w = .ok (w', res)) : hub_fields w' := by
  unfold cmd_clt_p2p at h
  split at h
  · exact absurd h (by simp)
  · split at h
    · exact absurd h (by simp)
    · exact p2p_refuse_fields _ _ _ _ _ hw h
    · split at h
      · exact absurd h (by simp)
      · simp only [Except.ok.injEq, Prod.mk.injEq] at h
        rw [← h.1]
        exact hub_fields_hub_put _ _ _ (hub_fields_p2p_params _ _ _ (hub_fields_hub_put _ _ _
          (hub_fields_hub_put _ _ _ (hub_fields_hub_put _ _ _ (hub_fields_hub_put _ _ _ hw)))))

theorem cmd_clt_accept_fields (ac : Int) (args : List (List Nat)) (c : bufref)
    (b : Option bufref) (d : Option Nat) (w w' : clients_t) (res : Int) (hw : hub_fields w)
    (h : cmd_clt_accept ac args c b d w = .ok (w', res)) : hub_fields w' := by
  unfold cmd_clt_accept at h
  split at h
  · exact absurd h (by simp)
  · split at h
    · exact absurd h (by simp)
    · exact p2p_refuse_fields _ _ _ _ _ hw h
    · split at h
      · exact absurd h (by simp)
      · simp only [] at h
        split at h
        · simp only [Except.ok.injEq, Prod.mk.injEq] at h
          rw [← h.1]
          repeat apply hub_fields_hub_put
          exact hw
        · exact absurd h (by simp)

/-- Every command of the hub, from the console or from a client, keeps the written-once
fields of the clients. -/
theorem srvcmd_exec_fields (command : List Nat) (type : srvcmd_type_t) (console : bufref)
    (buffer : Option bufref) (w w' : clients_t) (client : Option Nat) (res : Int)
    (hw : hub_fields w) (h : srvcmd_exec command type console buffer w client = .ok (w', res)) :
    hub_fields w' := by
  unfold srvcmd_exec at h
  split at h
  · exact absurd h (by simp)
  · split at h
    · apply command_exec_preserves hub_fields hub_put _ _ _ _ _ _ _ _ _
        (fun r d w hw => hub_fields_hub_put r d w hw) _ hw h
      intro cmd hcmd ac args w1 w2 r hw1 hf
      simp only [server_commands, List.mem_cons, List.mem_singleton, List.not_mem_nil,
        or_false] at hcmd
      rcases hcmd with rfl | rfl | rfl | rfl
      · exact cmd_srv_help_fields ac args console buffer client w1 w2 r hw1 hf
      · exact cmd_srv_kill_fields ac args console buffer client w1 w2 r hw1 hf
      · exact cmd_srv_shutdown_fields ac args console buffer client w1 w2 r hw1 hf
      · exact cmd_srv_who_fields ac args console buffer client w1 w2 r hw1 hf
    · apply command_exec_preserves hub_fields hub_put _ _ _ _ _ _ _ _ _
        (fun r d w hw => hub_fields_hub_put r d w hw) _ hw h
      intro cmd hcmd ac args w1 w2 r hw1 hf
      simp only [client_commands, List.mem_cons, List.mem_singleton, List.not_mem_nil,
        or_false] at hcmd
      rcases hcmd with rfl | rfl | rfl | rfl | rfl | rfl | rfl | rfl
      · exact cmd_clt_accept_fields ac args console buffer client w1 w2 r hw1 hf
      · exact cmd_clt_connect_fields ac args console buffer client w1 w2 r hw1 hf
      · exact cmd_clt_help_fields ac args console buffer client w1 w2 r hw1 hf
      · exact cmd_clt_quit_fields ac args console buffer client w1 w2 r hw1 hf
      · exact cmd_clt_p2p_fields ac args console buffer client w1 w2 r hw1 hf
      · exact cmd_clt_p2p_fields ac args console buffer client w1 w2 r hw1 hf
      · exact cmd_clt_p2p_fields ac args console buffer client w1 w2 r hw1 hf
      · exact cmd_srv_who_fields ac args console buffer client w1 w2 r hw1 hf


theorem count_tokens_ok_lf : ∀ (rest : List Nat) (chr : Nat) (b : Bool) (count n : Nat),
    count_tokens rest chr b count = .ok n → 10 ∈ chr :: rest := by
  intro rest
  induction rest with
  | nil =>
    intro chr b count n h
    by_cases hc : chr = 10
    · simp [hc]
    · cases b
      · rw [count_tokens, if_neg hc] at h
        split at h <;> simp at h
      · rw [count_tokens] at h
        split at h <;> simp at h
  | cons c rest' ih =>
    intro chr b count n h
    by_cases hc : chr = 10
    · simp [hc]
    · apply List.mem_cons_of_mem
      cases b
      · rw [count_tokens, if_neg hc] at h
        split at h
        · exact ih _ _ _ _ h
        · exact ih _ _ _ _ h
      · rw [count_tokens] at h
        split at h
        · exact ih _ _ _ _ h
        · exact ih _ _ _ _ h

theorem command_get_tokens_ok_lf (command : List Nat) (r : Int × List Nat × List Nat)
    (h : command_get_tokens command = .ok r) : 10 ∈ command := by
  unfold command_get_tokens at h
  split at h
  · simp at h
  · rename_i chr rest
    split at h
    · simp at h
    · rename_i count hcount
      exact count_tokens_ok_lf _ _ _ _ _ hcount

/-- The argument strings that `command_get_tokens` yields hold no NUL, tab, LF or space. -/
theorem command_get_tokens_tokens (command : List Nat) (ac : Int) (offs command' : List Nat)
    (h : command_get_tokens command = .ok (ac, offs, command')) :
    ∀ a ∈ offs.map (cstr command'), ∀ x ∈ a, is_token_byte x := by
  have h10 := command_get_tokens_ok_lf command _ h
  obtain ⟨args, cmd2, htok, _, _, hfa, _⟩ := command_get_tokens_spec command h10
  rw [h] at htok
  simp only [Except.ok.injEq, Prod.mk.injEq] at htok
  obtain ⟨_, ho, hc⟩ := htok
  subst ho
  subst hc
  intro a ha x hx
  obtain ⟨o, hoff, rfl⟩ := List.mem_map.1 ha
  -- the run that stands at this offset
  have hrun : ∀ (as : List Nat) (rs : List (List Nat)),
      List.Forall₂ (fun o r => (command'.drop o).take (r.length + 1) = r ++ [0] ∧
        (command.drop o).take r.length = r) as rs → o ∈ as →
      ∃ r ∈ rs, (command'.drop o).take (r.length + 1) = r ++ [0] := by
    intro as rs hf
    induction hf with
    | nil => intro hm; simp at hm
    | cons hab _ ih =>
      intro hm
      rcases List.mem_cons.1 hm with hm | hm
      · subst hm
        exact ⟨_, List.mem_cons_self _ _, hab.1⟩
      · obtain ⟨r, hr, hspec⟩ := ih hm
        exact ⟨r, List.mem_cons_of_mem _ hr, hspec⟩
  obtain ⟨r, hr, hspec⟩ := hrun _ _ hfa hoff
  have hx0 : x ≠ 0 := by
    have := List.mem_takeWhile_imp hx
    simpa using this
  -- the C string is a prefix of the run
  have hxr : x ∈ r := by
    have hsplit : command'.drop o = (r ++ [0]) ++ (command'.drop o).drop (r.length + 1) := by
      rw [← hspec, List.take_append_drop]
    unfold cstr at hx
    rw [hsplit, List.append_assoc, List.takeWhile_append] at hx
    split at hx
    · rw [List.mem_append] at hx
      rcases hx with hx | hx
      · exact hx
      · simp at hx
    · exact (List.takeWhile_sublist _).subset hx
  rw [← token_runs_eq_split _ 0] at hr
  obtain ⟨p, hp, rfl⟩ := List.mem_map.1 hr
  obtain ⟨pre, post, hl, _, hnb, _, _⟩ := token_runs_sound _ 0 p hp
  have hb := hnb x hxr
  have hxl : x ∈ command.takeWhile (· ≠ 10) := by
    rw [hl]
    simp [hxr]
  have hx10 : x ≠ 10 := by
    have := List.mem_takeWhile_imp hxl
    simpa using this
  simp only [is_space_tab, Bool.or_eq_false_iff, beq_eq_false_iff_ne, ne_eq] at hb
  exact ⟨hx0, hb.2, hx10, hb.1⟩


theorem hub_fields_auth (s : clients_t) (ptr : Nat) (nick : List Nat) (hash : hash_t)
    (element : hash_element_t) (hs : hub_fields s) (htok : ∀ x ∈ nick, is_token_byte x) :
    hub_fields (client_set_nick s ptr nick nick.length hash element) := by
  intro c' hc'
  have hlist : (client_set_nick s ptr nick nick.length hash element).list =
      s.list.map (fun c => if c.ptr = ptr then
        ({ c with nick := some nick, nick_len := nick.length, hash_elm := element } : client_t)
        else c) := rfl
  rw [hlist] at hc'
  obtain ⟨c, hc, rfl⟩ := List.mem_map.1 hc'
  by_cases hcp : c.ptr = ptr
  · rw [if_pos hcp]
    refine ⟨(hs c hc).1, ?_⟩
    intro n hn
    simp only [Option.some.injEq] at hn
    subst hn
    exact ⟨Or.inl rfl, htok⟩
  · rw [if_neg hcp]
    exact hs c hc

theorem client_auth_command_fields (ptr : Nat) (s s' : clients_t) (ac : Int)
    (args : List (List Nat)) (res : Int) (hs : hub_fields s)
    (htok : ∀ x ∈ args.getD 1 [], is_token_byte x)
    (h : client_auth_command ptr s ac args = .ok (s', res)) : hub_fields s' := by
  unfold client_auth_command at h
  split at h
  · exact absurd h (by simp)
  · rename_i client hl
    split at h
    · exact absurd h (by simp)
    · split at h
      · simp only [Except.ok.injEq, Prod.mk.injEq] at h
        rw [← h.1]; exact hs
      · split at h
        · simp only [Except.ok.injEq, Prod.mk.injEq] at h
          rw [← h.1]; exact hub_fields_hub_put _ _ _ hs
        · simp only [] at h
          split at h
          · simp only [Except.ok.injEq, Prod.mk.injEq] at h
            rw [← h.1]; exact hub_fields_hub_put _ _ _ hs
          · rename_i hlen
            obtain ⟨_, _, hvl⟩ := (verify_nick_spec _).1 hlen
            split at h
            · exact absurd h (by simp)
            · simp only [Except.ok.injEq, Prod.mk.injEq] at h
              rw [← h.1]; exact hub_fields_hub_put _ _ _ hs
            · split at h
              · exact absurd h (by simp)
              · rename_i hash element hadd
                simp only [Except.ok.injEq, Prod.mk.injEq] at h
                rw [← h.1]
                apply hub_fields_hub_put
                apply hub_fields_hub_put
                apply hub_fields_clients_send
                rw [hvl]
                exact hub_fields_auth s ptr _ hash element hs htok

theorem client_input_line_fields (ptr : Nat) (len : Int) (line : line_t) (s s' : clients_t)
    (hs : hub_fields s) (h : client_input_line ptr len line s = .ok s') : hub_fields s' := by
  unfold client_input_line at h
  split at h
  · exact absurd h (by simp)
  · split at h
    · split at h
      · simp only [Except.ok.injEq] at h
        rw [← h]; exact hub_fields_clients_send _ _ _ hs
      · simp only [Except.ok.injEq] at h
        rw [← h]; exact hub_fields_hub_put _ _ _ hs
    · simp only [] at h
      split at h
      · split at h
        · exact absurd h (by simp)
        · rename_i w r hexec
          simp only [Except.ok.injEq] at h
          rw [← h]
          exact srvcmd_exec_fields _ _ _ _ _ _ _ _ hs hexec
      · split at h
        · exact absurd h (by simp)
        · rename_i ac offs command' htokens
          split at h
          · exact absurd h (by simp)
          · rename_i w r hauth
            have htok : ∀ x ∈ (offs.map (cstr command')).getD 1 [], is_token_byte x := by
              intro x hx
              rw [List.getD_eq_getElem?_getD] at hx
              cases hg : (offs.map (cstr command'))[1]? with
              | none => rw [hg] at hx; simp at hx
              | some a =>
                rw [hg] at hx
                exact command_get_tokens_tokens _ _ _ _ htokens a (List.getElem?_mem hg) x hx
            have hw := client_auth_command_fields _ _ _ _ _ _ hs htok hauth
            split at h
            · simp only [Except.ok.injEq] at h
              rw [← h]; exact hub_fields_hub_put _ _ _ hw
            · simp only [Except.ok.injEq] at h
              rw [← h]; exact hw

theorem client_input_loop_fields (ptr : Nat) (len : Int) : ∀ (fuel : Nat) (s s' : clients_t),
    hub_fields s → client_input_loop ptr len fuel s = .ok s' → hub_fields s' := by
  intro fuel
  induction fuel with
  | zero => intro s s' _ h; simp [client_input_loop] at h
  | succ fuel ih =>
    intro s s' hs h
    rw [client_input_loop] at h
    split at h
    · exact absurd h (by simp)
    · split at h
      · exact absurd h (by simp)
      · simp only [Except.ok.injEq] at h
        rw [← h]
        exact hub_fields_client_update s ptr _ (fun c => ⟨rfl, rfl, rfl, Or.inl rfl⟩) hs
      · split at h
        · exact absurd h (by simp)
        · rename_i w hline
          refine ih w s' (client_input_line_fields _ _ _ _ _ ?_ hline) h
          exact hub_fields_client_update s ptr _ (fun c => ⟨rfl, rfl, rfl, Or.inl rfl⟩) hs

theorem client_input_lines_fields (ptr : Nat) (s s' : clients_t) (hs : hub_fields s)
    (h : client_input_lines ptr s = .ok s') : hub_fields s' := by
  unfold client_input_lines at h
  split at h
  · exact absurd h (by simp)
  · exact client_input_loop_fields _ _ _ _ _ hs h

theorem clients_add_fields (s : clients_t) (ptr : Nat) (sock : Int) (addr : List Nat)
    (hs : hub_fields s) : hub_fields (clients_add s ptr sock addr) := by
  intro c hc
  have hl : (clients_add s ptr sock addr).list = s.list ++
      [⟨ptr, iobuffer_init sock sock (some 0) (some 1) 10, none, 0, addr, addr.length,
        ⟨ptr, 0, 0, [], 0⟩⟩] := rfl
  rw [hl] at hc
  rcases List.mem_append.1 hc with h | h
  · exact hs c h
  · rw [List.mem_singleton] at h
    subst h
    exact ⟨rfl, fun n hn => absurd hn (by simp)⟩

theorem clients_remove_fields (s s' : clients_t) (ptr : Nat) (hs : hub_fields s)
    (h : clients_remove s ptr = .ok s') : hub_fields s' := by
  unfold clients_remove at h
  split at h
  · exact absurd h (by simp)
  · rename_i client hl
    split at h
    · exact absurd h (by simp)
    · simp only [] at h
      split at h
      · exact absurd h (by simp)
      · rename_i hash' hrem
        simp only [Except.ok.injEq] at h
        rw [← h]
        have h0 : hub_fields (client_update
            { s with read_fds := FD_CLR (iobuffer_get_input_fd client.buffer) s.read_fds }
            ptr (fun c => { c with buffer := iobuffer_free c.buffer })) := by
          refine hub_fields_client_update _ ptr
            (fun c => { c with buffer := iobuffer_free c.buffer })
            (fun c => ⟨rfl, rfl, rfl, Or.inl rfl⟩) ?_
          exact hub_fields_map s _ id (fun c => ⟨rfl, rfl, rfl, Or.inl rfl⟩) (by simp) hs
        intro c hc
        have hc1 := (List.mem_filter.1 hc).1
        revert hc1
        split
        · intro hc1
          exact hub_fields_clients_send _ _ _ (hub_fields_hub_put _ _ _ h0) c hc1
        · intro hc1
          exact hub_fields_hub_put _ _ _ h0 c hc1

/-- In every state of the hub, `addr_len` is the length of the address of each client and a
stored nickname is an argument string of length `nick_len` (unless the client is draining). -/
theorem hub_reachable_fields (s : clients_t) (h : hub_reachable s) : hub_fields s := by
  induction h with
  | init console srv_sock => intro c hc; simp [clients_init] at hc
  | add s ptr sock addr _ hfresh ih => exact clients_add_fields s ptr sock addr ih
  | io s console buffers read_fds write_fds _ ih =>
    exact hub_fields_hub_io s console buffers read_fds write_fds ih
  | input s s' client _ _ _ hstep ih => exact client_input_lines_fields _ s s' ih hstep
  | console_command s s' command res _ hstep ih =>
    exact srvcmd_exec_fields _ _ _ _ _ _ _ _ ih hstep
  | console_message s data _ ih => exact hub_fields_clients_send s data none ih
  | remove s s' ptr _ hstep ih => exact clients_remove_fields s s' ptr ih hstep


theorem sprintf_take (buffer s : List Nat) (n : Nat) (h : n = s.length) :
    (sprintf buffer s).take n = s := by
  subst h
  simp [sprintf, memcpy]

theorem bucket_mem_table (hash : hash_t) (k : Nat) (e : hash_element_t)
    (he : e ∈ bucket hash k) : e ∈ hash.table.flatten := by
  unfold bucket at he
  rw [List.getD_eq_getElem?_getD] at he
  cases hg : hash.table[k]? with
  | none => rw [hg] at he; simp at he
  | some l =>
    rw [hg] at he
    exact List.mem_flatten.2 ⟨l, List.getElem?_mem hg, he⟩

/-- The value of `client_auth_command` on a valid and free nickname. -/
theorem client_auth_command_ok (s : clients_t) (hinv : hub_inv s) (hfl : hub_fields s)
    (client : client_t) (hc : client ∈ s.list) (hn : client.nick = none)
    (hl : client.nick_len = 0) (args : List (List Nat))
    (hcmd : args.getD 0 [] = bytes "connect") (N : List Nat) (hN : args.getD 1 [] = N)
    (hne : N ≠ []) (h58 : 58 ∉ N) (hfree : N ∉ index_nicks s) :
    client_auth_command client.ptr s 2 args =
      .ok (hub_put (.client client.ptr) (bytes "** Hello, " ++ N ++ bytes "!\n")
        (hub_put .console
          (bytes "Client `" ++ client.addr ++ bytes "' authenticated as `" ++ N ++ bytes "'.\n")
          (clients_send
            (client_set_nick s client.ptr N N.length
              ⟨s.hash.table.set (hash_function N)
                (⟨client.ptr, 0, client.ptr, N, hash_function N⟩ ::
                  s.hash.table.getD (hash_function N) [])⟩
              ⟨client.ptr, 0, client.ptr, N, hash_function N⟩)
            (bytes "** " ++ N ++ bytes " connected.\n") (some client.ptr))), 0) := by
  have hlook := client_lookup_mem s hinv client hc
  have hpre : ¬ (client.nick ≠ none ∨ client.nick_len ≠ 0) := by
    rw [hn, hl]; simp
  have hcon : ¬ ((2 : Int) < 1 ∨ strcmp (args.getD 0 []) (bytes "connect") ≠ 0) := by
    rw [hcmd, (strcmp_eq_zero _ _).2 rfl]
    simp
  have hvl : verify_nick N = N.length := by
    have := (verify_nick_loop_spec N 0).1 h58
    rw [Nat.zero_add] at this
    exact this
  have hv : ¬ verify_nick N = 0 := by
    rw [hvl]
    exact fun h => hne (List.length_eq_zero.1 h)
  have hfind : hash_find s.hash N = .ok none := by
    unfold hash_find
    simp only [if_pos (hash_function_lt N)]
    cases hfl : hash_find_loop N (s.hash.table.getD (hash_function N) []) with
    | none => rfl
    | some e =>
      obtain ⟨hmem, hstr⟩ := hash_find_loop_some N _ e hfl
      exact absurd (List.mem_map.2 ⟨e, bucket_mem_table s.hash _ e hmem, hstr⟩) hfree
  have hadd : hash_add s.hash N client.ptr client.ptr =
      .ok (⟨s.hash.table.set (hash_function N)
        (⟨client.ptr, 0, client.ptr, N, hash_function N⟩ ::
          s.hash.table.getD (hash_function N) [])⟩,
        ⟨client.ptr, 0, client.ptr, N, hash_function N⟩) := by
    unfold hash_add
    simp only [if_pos (hash_function_lt N)]
  have hal : client.addr_len.toNat = client.addr.length := by
    rw [(hfl client hc).1]
    rfl
  unfold client_auth_command
  rw [hlook]
  dsimp only
  rw [if_neg hpre, if_neg hcon, if_neg (not_not.2 rfl), hN, if_neg hv, hfind]
  dsimp only
  rw [hadd]
  dsimp only
  rw [hvl, hal]
  rw [sprintf_take _ _ (N.length + 15) (by simp [bytes]),
    sprintf_take _ _ (client.addr.length + N.length + 31) (by simp [bytes]; omega),
    sprintf_take _ _ (N.length + 12) (by simp [bytes])]


theorem hash_find_added (hash : hash_t) (hlen : hash.table.length = HASH_SIZE) (N : List Nat)
    (e : hash_element_t) (hes : e.str = N) :
    hash_find ⟨hash.table.set (hash_function N) (e :: hash.table.getD (hash_function N) [])⟩ N =
      .ok (some e) ∧
    ∀ M, M ≠ N →
      hash_find ⟨hash.table.set (hash_function N) (e :: hash.table.getD (hash_function N) [])⟩
        M = hash_find hash M := by
  have hklt : hash_function N < hash.table.length := by
    rw [hlen]; exact hash_function_lt N
  constructor
  · unfold hash_find
    simp only [if_pos (hash_function_lt N)]
    have := bucket_set_self hash (hash_function N)
      (e :: hash.table.getD (hash_function N) []) hklt
    unfold bucket at this
    rw [this, hash_find_loop, hes, (strcmp_eq_zero N N).2 rfl]
    simp
  · intro M hM
    unfold hash_find
    simp only [if_pos (hash_function_lt M)]
    by_cases hk : hash_function N = hash_function M
    · have := bucket_set_self hash (hash_function N)
        (e :: hash.table.getD (hash_function N) []) hklt
      unfold bucket at this
      rw [← hk, this, hash_find_loop, hes, if_neg (fun h => hM ((strcmp_eq_zero M N).1 h))]
    · have := bucket_set_other hash (hash_function N) (hash_function M)
        (e :: hash.table.getD (hash_function N) []) hk
      unfold bucket at this
      rw [this]

/-- C11: in every state of the hub, for a client without nickname at address `A` and a
nickname `N` that is non-empty, holds no colon and is not in the index, `/connect N` succeeds
(`client_auth_command` returns 0): the client holds `N` with `nick_len = |N|`, the index maps
`N` to the client and every other name as before, each other client with `nick_len > 0`
receives the connect announcement, the console the authentication note and the client the
greeting, and nothing else is enqueued; the lengths `len + 15`, `addr_len + len + 31` and
`len + 12` are the lengths of these three strings. -/
theorem connect_accepted (s : clients_t) (hs : hub_reachable s) (client : client_t)
    (hc : client ∈ s.list) (hn : client.nick = none) (hl : client.nick_len = 0)
    (hwf : ∀ c ∈ s.list, dbuffer_wf c.buffer.output) (hwfc : dbuffer_wf s.console.output)
    (args : List (List Nat)) (hcmd : args.getD 0 [] = bytes "connect") (N : List Nat)
    (hN : args.getD 1 [] = N) (hne : N ≠ []) (h58 : 58 ∉ N) (hfree : N ∉ index_nicks s) :
    ∃ s', client_auth_command client.ptr s 2 args = .ok (s', 0) ∧
      clients_get_client_from_name s' N = .ok (some client.ptr) ∧
      (∀ M, M ≠ N → clients_get_client_from_name s' M = clients_get_client_from_name s M) ∧
      dbuffer_contents s'.console.output = dbuffer_contents s.console.output ++
        (bytes "Client `" ++ client.addr ++ bytes "' authenticated as `" ++ N ++ bytes "'.\n") ∧
      s'.console.input = s.console.input ∧ s'.number = s.number ∧
      s'.read_fds = s.read_fds ∧ s'.write_fds = s.write_fds ∧
      List.Forall₂ (fun c c' =>
          c'.ptr = c.ptr ∧ c'.addr = c.addr ∧ c'.buffer.input = c.buffer.input ∧
          (c.ptr = client.ptr → c'.nick = some N ∧ c'.nick_len = (N.length : Int) ∧
            dbuffer_contents c'.buffer.output =
              dbuffer_contents c.buffer.output ++ (bytes "** Hello, " ++ N ++ bytes "!\n")) ∧
          (c.ptr ≠ client.ptr → c'.nick = c.nick ∧ c'.nick_len = c.nick_len ∧
            (c.nick_len > 0 → dbuffer_contents c'.buffer.output =
              dbuffer_contents c.buffer.output ++ (bytes "** " ++ N ++ bytes " connected.\n")) ∧
            (¬ c.nick_len > 0 → c' = c)))
        s.list s'.list ∧
      ((bytes "** " ++ N ++ bytes " connected.\n").length = verify_nick N + 15 ∧
       ((bytes "Client `" ++ client.addr ++ bytes "' authenticated as `" ++ N ++
          bytes "'.\n").length : Int) = client.addr_len + verify_nick N + 31 ∧
       (bytes "** Hello, " ++ N ++ bytes "!\n").length = verify_nick N + 12) := by
  have hinv := hub_reachable_inv s hs
  have hfl := hub_reachable_fields s hs
  have hvl : verify_nick N = N.length := by
    have := (verify_nick_loop_spec N 0).1 h58
    rw [Nat.zero_add] at this
    exact this
  refine ⟨_, client_auth_command_ok s hinv hfl client hc hn hl args hcmd N hN hne h58 hfree,
    ?_, ?_, ?_, rfl, rfl, rfl, rfl, ?_, ?_⟩
  · show (match hash_find ⟨s.hash.table.set (hash_function N) _⟩ N with
      | Except.error e => Except.error e
      | Except.ok (some element) => Except.ok (some element.object)
      | Except.ok none => Except.ok none) = _
    rw [(hash_find_added s.hash hinv.1 N ⟨client.ptr, 0, client.ptr, N, hash_function N⟩ rfl).1]
  · intro M hM
    show (match hash_find ⟨s.hash.table.set (hash_function N) _⟩ M with
      | Except.error e => Except.error e
      | Except.ok (some element) => Except.ok (some element.object)
      | Except.ok none => Except.ok none) = _
    rw [(hash_find_added s.hash hinv.1 N ⟨client.ptr, 0, client.ptr, N, hash_function N⟩
      rfl).2 M hM]
    rfl
  · exact (iobuffer_put_data_spec s.console _ hwfc).2.2
  · show List.Forall₂ _ s.list (((s.list.map _).map _).map _)
    rw [List.map_map, List.map_map, List.forall₂_map_right_iff, List.forall₂_same]
    intro c hcm
    have hcwf := hwf c hcm
    have hsome : ∀ (a b : Nat), (some a ≠ some b) = (a ≠ b) := by
      intro a b
      simp
    simp only [Function.comp, hsome]
    by_cases hcp : c.ptr = client.ptr
    · have h2 : ¬ (c.ptr ≠ client.ptr ∧ (N.length : Int) > 0) := fun h => h.1 hcp
      rw [if_pos hcp]
      dsimp only
      rw [if_neg h2]
      dsimp only
      rw [if_pos hcp]
      exact ⟨rfl, rfl, (iobuffer_put_data_spec c.buffer _ hcwf).1, fun _ => ⟨rfl, rfl,
        (iobuffer_put_data_spec c.buffer _ hcwf).2.2⟩, fun h => absurd hcp h⟩
    · rw [if_neg hcp]
      by_cases hlen : c.nick_len > 0
      · have h2 : c.ptr ≠ client.ptr ∧ c.nick_len > 0 := ⟨hcp, hlen⟩
        rw [if_pos h2]
        dsimp only
        rw [if_neg hcp]
        exact ⟨rfl, rfl, (iobuffer_put_data_spec c.buffer _ hcwf).1, fun h => absurd h hcp,
          fun _ => ⟨rfl, rfl, fun _ => (iobuffer_put_data_spec c.buffer _ hcwf).2.2,
            fun h => absurd hlen h⟩⟩
      · have h2 : ¬ (c.ptr ≠ client.ptr ∧ c.nick_len > 0) := fun h => hlen h.2
        rw [if_neg h2, if_neg hcp]
        exact ⟨rfl, rfl, rfl, fun h => absurd h hcp,
          fun _ => ⟨rfl, rfl, fun h => absurd h hlen, fun _ => rfl⟩⟩
  · rw [hvl, (hfl client hc).1]
    refine ⟨?_, ?_, ?_⟩
    · simp [bytes]
    · simp [bytes]; omega
    · simp [bytes]


theorem hub_two_wf : (∀ c ∈ hub_two.list, dbuffer_wf c.buffer.output) ∧
    dbuffer_wf hub_two.console.output := by
  constructor
  · intro c hc
    simp only [hub_two, clients_add, clients_init, hub_put, List.nil_append, List.cons_append,
      List.mem_cons, List.mem_singleton, List.not_mem_nil, or_false] at hc
    rcases hc with h | h <;> rw [h] <;> exact dbuffer_init_wf _ _ _
  · exact (iobuffer_put_data_spec _ _ (iobuffer_put_data_spec _ _
      (dbuffer_init_wf _ _ _)).2.1).2.1

/-- Witness for C11: in the hub with two fresh clients, the client at address 100 sends
`/connect bob`. -/
theorem connect_accepted_witness :
    hub_reachable hub_two ∧
    ∃ s', client_auth_command 100 hub_two 2 [bytes "connect", bytes "bob"] = .ok (s', 0) ∧
      clients_get_client_from_name s' (bytes "bob") = .ok (some 100) ∧
      dbuffer_contents s'.console.output = dbuffer_contents hub_two.console.output ++
        bytes "Client `1.2.3.4:5' authenticated as `bob'.\n" := by
  obtain ⟨c, hc, hp, hn, hl, ha⟩ : ∃ c ∈ hub_two.list, c.ptr = 100 ∧ c.nick = none ∧
      c.nick_len = 0 ∧ c.addr = bytes "1.2.3.4:5" := by decide!
  have hidx : bytes "bob" ∉ index_nicks hub_two := by decide!
  obtain ⟨s', hauth, hfind, _, hcons, _⟩ :=
    connect_accepted hub_two hub_two_reachable c hc hn hl hub_two_wf.1 hub_two_wf.2
      [bytes "connect", bytes "bob"] rfl (bytes "bob") rfl (by decide) (by decide) hidx
  rw [hp] at hauth hfind
  rw [ha] at hcons
  exact ⟨hub_two_reachable, s', hauth, hfind, hcons⟩

/-- C12: with `bob` authenticated at address 100 and the batch `/quit`, `hello` read at once,
the line after `/quit` is answered: `msg_auth` is appended to the output queue of the draining
client, where the batch `/quit` alone leaves the queue without it; and a command line after
`/quit` in the same batch stops at the assertion of `client_auth_command`. -/
theorem draining_input_answered :
    hub_bob_quit.list.map (fun c => (c.ptr, c.nick_len, dbuffer_contents c.buffer.output)) =
      [(100, -1, bytes "** Hello, bob!\n** Goodbye!\n"), (200, 0, [])] ∧
    is_ok (client_input_lines 100 (hub_receive hub_bob 100 (bytes "/quit\nhello\n"))) = true ∧
    hub_bob_quit_hello.list.map
        (fun c => (c.ptr, c.nick_len, dbuffer_contents c.buffer.output)) =
      [(100, -1, bytes "** Hello, bob!\n** Goodbye!\n" ++ msg_auth), (200, 0, [])] ∧
    is_ok (client_input_lines 100 (hub_receive hub_bob 100 (bytes "/quit\n/who\n"))) = false := by
  decide!

theorem enqueued_on_refl (s : clients_t) (t : Nat)
    (hwf : ∀ c ∈ s.list, c.ptr = t → dbuffer_wf c.buffer.output) : enqueued_on s s t [] := by
  refine ⟨rfl, rfl, rfl, rfl, rfl, rfl, ?_⟩
  rw [List.forall₂_same]
  intro c hc
  exact ⟨fun _ => rfl, fun h => ⟨rfl, rfl, rfl, rfl, rfl, rfl, rfl, hwf c hc h, by simp⟩⟩

theorem enqueued_on_put (s s1 : clients_t) (t : Nat) (d1 d2 : List Nat)
    (h : enqueued_on s s1 t d1) : enqueued_on s (hub_put (.client t) d2 s1) t (d1 ++ d2) := by
  obtain ⟨h1, h2, h3, h4, h5, h6, hF⟩ := h
  refine ⟨h1, h2, h3, h4, h5, h6, ?_⟩
  show List.Forall₂ _ s.list (s1.list.map _)
  rw [List.forall₂_map_right_iff]
  refine hF.imp ?_
  intro c c1 hR
  by_cases hcp : c.ptr = t
  · obtain ⟨g1, g2, g3, g4, g5, g6, g7, g8, g9⟩ := hR.2 hcp
    have hc1 : c1.ptr = t := by rw [g1, hcp]
    rw [if_pos hc1]
    obtain ⟨k1, k2, k3⟩ := iobuffer_put_data_spec c1.buffer d2 g8
    refine ⟨fun h => absurd hcp h, fun _ => ⟨g1, g2, g3, g4, g5, g6, ?_, k2, ?_⟩⟩
    · show (iobuffer_put_data c1.buffer d2).input = _
      rw [k1, g7]
    · show dbuffer_contents (iobuffer_put_data c1.buffer d2).output = _
      rw [k3, g9, List.append_assoc]
  · have hc1 := hR.1 hcp
    subst hc1
    rw [if_neg hcp]
    exact ⟨fun _ => rfl, fun h => absurd h hcp⟩

theorem enqueued_on_p2p_params (s : clients_t) (t : Nat) :
    ∀ (args : List (List Nat)) (s1 : clients_t) (d : List Nat), enqueued_on s s1 t d →
    enqueued_on s (p2p_params (.client t) args s1) t
      (d ++ (args.map (fun a => bytes " " ++ a)).flatten) := by
  intro args
  induction args with
  | nil => intro s1 d h; simpa [p2p_params] using h
  | cons a rest ih =>
    intro s1 d h
    have h2 := ih _ _ (enqueued_on_put s _ t _ a (enqueued_on_put s s1 t d (bytes " ") h))
    simp only [List.map_cons, List.flatten_cons]
    rw [p2p_params]
    simpa [List.append_assoc] using h2

theorem intercalate_space_cons (a : List Nat) (rest : List (List Nat)) (h : rest ≠ []) :
    List.intercalate (bytes " ") (a :: rest) =
      a ++ bytes " " ++ List.intercalate (bytes " ") rest := by
  cases rest with
  | nil => exact absurd rfl h
  | cons b l => simp [List.intercalate, List.intersperse]

theorem flatten_space_intercalate (rest : List (List Nat)) (h : rest ≠ []) :
    (rest.map (fun a => bytes " " ++ a)).flatten =
      bytes " " ++ List.intercalate (bytes " ") rest := by
  induction rest with
  | nil => exact absurd rfl h
  | cons a l ih =>
    cases l with
    | nil => simp [List.intercalate]
    | cons b l' =>
      rw [List.map_cons, List.flatten_cons, ih (List.cons_ne_nil _ _),
        intercalate_space_cons a _ (List.cons_ne_nil _ _)]
      simp [List.append_assoc]


/-- The relay branch of `cmd_clt_p2p`: the line is enqueued on the channel of the target. -/
theorem cmd_clt_p2p_relay (s : clients_t) (hinv : hub_inv s) (hfl : hub_fields s)
    (o : client_t) (ho : o ∈ s.list) (O : List Nat) (hO : o.nick = some O)
    (hlen : o.nick_len > 0) (cmd T : List Nat) (rest : List (List Nat)) (hrest : rest ≠ [])
    (t : Nat) (hT : clients_get_client_from_name s T = .ok (some t))
    (hwf : ∀ c ∈ s.list, c.ptr = t → dbuffer_wf c.buffer.output)
    (console : bufref) (buffer : Option bufref) :
    ∃ s', cmd_clt_p2p ((cmd :: T :: rest).length : Nat) (cmd :: T :: rest) console buffer
        (some o.ptr) s = .ok (s', 0) ∧
      enqueued_on s s' t (bytes "/" ++ cmd ++ bytes " " ++ O ++ bytes " " ++
        List.intercalate (bytes " ") rest ++ bytes "\n") := by
  have hlook := client_lookup_mem s hinv o ho
  have hnl : o.nick_len.toNat = O.length := by
    rcases ((hfl o ho).2 O hO).1 with h | h
    · rw [h]; rfl
    · omega
  have hac : ¬ ¬ (((cmd :: T :: rest).length : Nat) : Int) > 2 := by
    have : 0 < rest.length := List.length_pos.2 hrest
    simp only [List.length_cons, not_not]
    omega
  have hdrop : ((cmd :: T :: rest).take (((cmd :: T :: rest).length : Nat) : Int).toNat).drop 2
      = rest := by
    have : (((cmd :: T :: rest).length : Nat) : Int).toNat = rest.length + 2 := by
      simp only [List.length_cons]
      omega
    rw [this]
    simp
  unfold cmd_clt_p2p
  rw [if_neg hac]
  simp only [List.getD_cons_succ, List.getD_cons_zero, hT, Option.bind, hlook, hO,
    Option.getD_some, hnl, List.take_length, hdrop]
  refine ⟨_, rfl, ?_⟩
  have h0 := enqueued_on_refl s t hwf
  have h1 := enqueued_on_put s _ t _ cmd (enqueued_on_put s _ t _ (bytes "/") h0)
  have h2 := enqueued_on_put s _ t _ O (enqueued_on_put s _ t _ (bytes " ") h1)
  have h3 := enqueued_on_put s _ t _ (bytes "\n") (enqueued_on_p2p_params s t rest _ _ h2)
  rw [flatten_space_intercalate rest hrest] at h3
  simpa [List.append_assoc] using h3

theorem splitOnP_intercalate_space : ∀ (ts : List (List Nat)), ts ≠ [] →
    (∀ t ∈ ts, ∀ x ∈ t, is_space_tab x = false) →
    (List.intercalate (bytes " ") ts).splitOnP is_space_tab = ts := by
  intro ts
  induction ts with
  | nil => intro h; exact absurd rfl h
  | cons a l ih =>
    intro _ hts
    have ha : ∀ x ∈ a, ¬ is_space_tab x = true := by
      intro x hx
      rw [hts a (List.mem_cons_self _ _) x hx]
      simp
    cases l with
    | nil =>
      have : List.intercalate (bytes " ") [a] = a := by simp [List.intercalate]
      rw [this]
      exact List.splitOnP_eq_single _ _ ha
    | cons b l' =>
      rw [intercalate_space_cons a _ (List.cons_ne_nil _ _)]
      have hsp : a ++ bytes " " ++ List.intercalate (bytes " ") (b :: l') =
          a ++ 32 :: List.intercalate (bytes " ") (b :: l') := by
        simp [bytes]
      rw [hsp, List.splitOnP_first _ _ ha 32 (by decide) _,
        ih (List.cons_ne_nil _ _) (fun t ht => hts t (List.mem_cons_of_mem _ ht))]

theorem mem_intercalate_space : ∀ (ts : List (List Nat)) (x : Nat),
    x ∈ List.intercalate (bytes " ") ts → x = 32 ∨ ∃ t ∈ ts, x ∈ t := by
  intro ts
  induction ts with
  | nil => intro x hx; simp [List.intercalate] at hx
  | cons a l ih =>
    intro x hx
    cases l with
    | nil =>
      have : List.intercalate (bytes " ") [a] = a := by simp [List.intercalate]
      rw [this] at hx
      exact Or.inr ⟨a, List.mem_cons_self _ _, hx⟩
    | cons b l' =>
      rw [intercalate_space_cons a _ (List.cons_ne_nil _ _), List.mem_append,
        List.mem_append] at hx
      rcases hx with (hx | hx) | hx
      · exact Or.inr ⟨a, List.mem_cons_self _ _, hx⟩
      · left
        simpa [bytes] using hx
      · rcases ih x hx with h | ⟨t, ht, hxt⟩
        · exact Or.inl h
        · exact Or.inr ⟨t, List.mem_cons_of_mem _ ht, hxt⟩

/-- Tokenizing a line made of argument strings joined by single spaces gives these strings
back. -/
theorem command_get_tokens_join (ts : List (List Nat)) (hne : ts ≠ [])
    (hts : ∀ t ∈ ts, t ≠ [] ∧ ∀ x ∈ t, is_token_byte x) :
    ∃ offs command', command_get_tokens (List.intercalate (bytes " ") ts ++ bytes "\n") =
        .ok ((ts.length : Nat), offs, command') ∧
      offs.map (cstr command') = ts := by
  have hmem : ∀ x ∈ List.intercalate (bytes " ") ts, x ≠ 0 ∧ x ≠ 10 := by
    intro x hx
    rcases mem_intercalate_space ts x hx with h | ⟨l, hl, hxl⟩
    · subst h
      decide
    · obtain ⟨_, h9⟩ := hts l hl
      exact ⟨(h9 x hxl).1, (h9 x hxl).2.2.1⟩
  have h10 : 10 ∈ List.intercalate (bytes " ") ts ++ bytes "\n" := by
    simp [bytes]
  have h0 : 0 ∉ List.intercalate (bytes " ") ts ++ bytes "\n" := by
    intro h
    rcases List.mem_append.1 h with h | h
    · exact (hmem 0 h).1 rfl
    · simp [bytes] at h
  have htw : (List.intercalate (bytes " ") ts ++ bytes "\n").takeWhile (· ≠ 10) =
      List.intercalate (bytes " ") ts := by
    have hb : bytes "\n" = [10] := by decide
    rw [hb, List.takeWhile_append_of_pos (fun x hx => by simpa using (hmem x hx).2)]
    simp
  have hsplit : (((List.intercalate (bytes " ") ts ++ bytes "\n").takeWhile
      (· ≠ 10)).splitOnP is_space_tab).filter (· ≠ []) = ts := by
    rw [htw, splitOnP_intercalate_space ts hne]
    · rw [List.filter_eq_self]
      intro t ht
      simpa using (hts t ht).1
    · intro t ht x hx
      obtain ⟨_, h9, _, h32⟩ := (hts t ht).2 x hx
      simp [is_space_tab, h9, h32]
  obtain ⟨args, command', htok, _, _, hfa, _⟩ := command_get_tokens_spec _ h10
  rw [hsplit] at htok hfa
  exact ⟨args, command', htok, cstr_map_of_sentinels _ _ h0 args ts hfa⟩


theorem hub_inv_lookup_exists (s : clients_t) (h : hub_inv s) (name : List Nat) (t : Nat)
    (hT : clients_get_client_from_name s name = .ok (some t)) :
    ∃ c ∈ s.list, c.ptr = t ∧ c.nick = some name := by
  obtain ⟨h1, h2, h3, h4, h5, h6⟩ := h
  unfold clients_get_client_from_name hash_find at hT
  simp only [if_pos (hash_function_lt name)] at hT
  cases hfl : hash_find_loop name (s.hash.table.getD (hash_function name) []) with
  | none => rw [hfl] at hT; simp at hT
  | some e =>
    rw [hfl] at hT
    simp only [Except.ok.injEq, Option.some.injEq] at hT
    obtain ⟨hmem, hstr⟩ := hash_find_loop_some name _ e hfl
    obtain ⟨_, _, _, _, g5, c', hc', g6, g7, _⟩ := h5 (hash_function name) e hmem
    exact ⟨c', hc', by rw [g6, ← g5, hT], by rw [g7, hstr]⟩

/-- The runs of a line without NUL are non-empty argument strings. -/
theorem runs_tokens (command : List Nat) (h0 : 0 ∉ command) :
    ∀ r ∈ ((command.takeWhile (· ≠ 10)).splitOnP is_space_tab).filter (· ≠ []),
      r ≠ [] ∧ ∀ x ∈ r, is_token_byte x := by
  intro r hr
  rw [← token_runs_eq_split _ 0] at hr
  obtain ⟨p, hp, rfl⟩ := List.mem_map.1 hr
  obtain ⟨pre, post, hl, _, hnb, hne, _⟩ := token_runs_sound _ 0 p hp
  refine ⟨hne, ?_⟩
  intro x hx
  have hb := hnb x hx
  have hxl : x ∈ command.takeWhile (· ≠ 10) := by
    rw [hl]
    simp [hx]
  have hx10 : x ≠ 10 := by
    have := List.mem_takeWhile_imp hxl
    simpa using this
  have hx0 : x ≠ 0 := by
    intro h
    rw [h] at hxl
    exact h0 ((List.takeWhile_sublist _).subset hxl)
  simp only [is_space_tab, Bool.or_eq_false_iff, beq_eq_false_iff_ne, ne_eq] at hb
  exact ⟨hx0, hb.2, hx10, hb.1⟩

theorem client_commands_sorted :
    client_commands.Pairwise (fun a b => strcmp a.name b.name < 0) := by
  decide

theorem hub_bob_alice_reachable : hub_reachable hub_bob_alice := by
  obtain ⟨c, hc, hp, hn⟩ : ∃ c ∈ (hub_receive hub_bob 200 (bytes "/connect alice\n")).list,
      c.ptr = 200 ∧ c.nick_len ≠ -1 := by decide!
  refine hub_reachable.input _ _ c (hub_receive_reachable _ _ _ hub_bob_reachable) hc hn ?_
  rw [hp]
  exact ok_result_or _ _ (by decide!)

/-- C13: `verify_filename` accepts the name `/x`, which holds a slash at position 0: the loop
that looks for a slash starts at index 1. A slash at a later position and a leading dot are
rejected. -/
theorem verify_filename_leading_slash :
    verify_filename (bytes "/x") = 0 ∧ (bytes "/x")[0]? = some 47 ∧
    verify_filename (bytes "a/x") = 2 ∧ verify_filename (bytes ".x") = 1 ∧
    verify_filename [] = 1 := by
  decide

/-- C18: in the table built by two calls of `file_new` (addresses 1000, then 2000), the list
holds both transfers and both are found by their keys; `file_delete` of the older one leaves
`files->files` empty, so that the transfer at 2000 is no more visited by the loop of
`files_transfer`, although it is still allocated and still found by its key. -/
theorem file_delete_drops_newer :
    files_list table_two = [2000, 1000] ∧
    (match file_find table_two (bytes "0123456789ABCDEF") with
      | .ok r => r
      | .error _ => none) = some 1000 ∧
    (match file_find table_two (bytes "GHIJKLMNOPQRSTUV") with
      | .ok r => r
      | .error _ => none) = some 2000 ∧
    is_ok (file_delete table_two 1000) = true ∧
    files_list table_two_deleted = [] ∧
    table_two_deleted.heap.map (fun f => f.addr) = [2000] ∧
    (match file_find table_two_deleted (bytes "GHIJKLMNOPQRSTUV") with
      | .ok r => r
      | .error _ => none) = some 2000 ∧
    (match file_find table_two_deleted (bytes "0123456789ABCDEF") with
      | .ok r => r
      | .error _ => none) = none := by
  decide!

theorem generate_key_loop_spec (rand : Nat → Nat) (pos : Nat) : ∀ (n i : Nat),
    ∃ cs, generate_key_loop rand pos n i = .ok cs ∧ cs.length = n ∧ ∀ c ∈ cs, c ∈ pool := by
  intro n
  induction n with
  | zero => intro i; exact ⟨[], rfl, rfl, by simp⟩
  | succ n ih =>
    intro i
    have hlt : rand (pos + i) % pool.length < pool.length :=
      Nat.mod_lt _ (by decide)
    obtain ⟨cs, hcs, hlen, hmem⟩ := ih (i + 1)
    refine ⟨pool[rand (pos + i) % pool.length] :: cs, ?_, by simp [hlen], ?_⟩
    · rw [generate_key_loop, List.getElem?_eq_getElem hlt, hcs]
    · intro c hc
      rcases List.mem_cons.1 hc with h | h
      · rw [h]; exact List.getElem_mem hlt
      · exact hmem c h

theorem generate_key_spec (rand : Nat → Nat) (pos n : Nat) :
    ∃ key, generate_key rand pos n = .ok key ∧ key.length = n ∧ ∀ c ∈ key, c ∈ pool :=
  generate_key_loop_spec rand pos n 0

theorem file_new_key_spec (rand : Nat → Nat) (keys : hash_t) : ∀ (fuel pos : Nat)
    (key : List Nat) (pos' : Nat), file_new_key rand keys fuel pos = .ok (key, pos') →
    key.length = FILE_KEY_LENGTH ∧ (∀ c ∈ key, c ∈ pool) ∧ hash_find keys key = .ok none := by
  intro fuel
  induction fuel with
  | zero => intro pos key pos' h; simp [file_new_key] at h
  | succ fuel ih =>
    intro pos key pos' h
    rw [file_new_key] at h
    obtain ⟨k0, hk0, hlen, hmem⟩ := generate_key_spec rand pos FILE_KEY_LENGTH
    rw [hk0] at h
    simp only [] at h
    split at h
    · exact absurd h (by simp)
    · exact ih _ _ _ h
    · rename_i hfind
      simp only [Except.ok.injEq, Prod.mk.injEq] at h
      rw [← h.1]
      exact ⟨hlen, hmem, hfind⟩

/-- The consistency of the transfer table depends on the key table and on the addresses, ids
and elements of the allocated structures only. -/
theorem files_inv_of_view (files files' : files_t) (hk : files'.file_keys = files.file_keys)
    (hv : files'.heap.map (fun f => (f.addr, f.key, f.element)) =
      files.heap.map (fun f => (f.addr, f.key, f.element)))
    (h : files_inv files) : files_inv files' := by
  obtain ⟨h1, h2, h3, h4, h5, h6⟩ := h
  have hto : ∀ f' ∈ files'.heap, ∃ f ∈ files.heap, f'.addr = f.addr ∧ f'.key = f.key ∧
      f'.element = f.element := by
    intro f' hf'
    have hm : (f'.addr, f'.key, f'.element) ∈
        files.heap.map (fun f => (f.addr, f.key, f.element)) := by
      rw [← hv]; exact List.mem_map_of_mem _ hf'
    obtain ⟨f, hf, heq⟩ := List.mem_map.1 hm
    simp only [Prod.mk.injEq] at heq
    exact ⟨f, hf, heq.1.symm, heq.2.1.symm, heq.2.2.symm⟩
  have hfrom : ∀ f ∈ files.heap, ∃ f' ∈ files'.heap, f'.addr = f.addr ∧ f'.key = f.key ∧
      f'.element = f.element := by
    intro f hf
    have hm : (f.addr, f.key, f.element) ∈
        files'.heap.map (fun f => (f.addr, f.key, f.element)) := by
      rw [hv]; exact List.mem_map_of_mem _ hf
    obtain ⟨f', hf', heq⟩ := List.mem_map.1 hm
    simp only [Prod.mk.injEq] at heq
    exact ⟨f', hf', heq.1, heq.2.1, heq.2.2⟩
  have ha : files'.heap.map (fun f => f.addr) = files.heap.map (fun f => f.addr) := by
    have := congrArg (List.map Prod.fst) hv
    simpa [List.map_map, Function.comp] using this
  have hkeys : files'.heap.map (fun f => f.key) = files.heap.map (fun f => f.key) := by
    have := congrArg (List.map (fun p => p.2.1)) hv
    simpa [List.map_map, Function.comp] using this
  refine ⟨by rw [hk]; exact h1, by rw [ha]; exact h2, ?_, ?_, by rw [hkeys]; exact h5, ?_⟩
  · intro f' hf'
    obtain ⟨f, hf, e1, e2, e3⟩ := hto f' hf'
    rw [hk, e1, e2, e3]
    exact h3 f hf
  · intro k e he
    rw [hk] at he
    obtain ⟨g1, f, hf, g2⟩ := h4 k e he
    obtain ⟨f', hf', _, _, e3⟩ := hfrom f hf
    exact ⟨g1, f', hf', by rw [e3, g2]⟩
  · intro f' hf'
    obtain ⟨f, hf, _, e2, _⟩ := hto f' hf'
    rw [e2]
    exact h6 f hf

theorem files_inv_file_update (files : files_t) (ptr : Nat) (g : file_t → file_t)
    (hg : ∀ f, (g f).addr = f.addr ∧ (g f).key = f.key ∧ (g f).element = f.element)
    (h : files_inv files) : files_inv (file_update files ptr g) := by
  refine files_inv_of_view files _ rfl ?_ h
  simp only [file_update, List.map_map]
  apply List.map_congr_left
  intro f _
  by_cases hf : f.addr = ptr
  · simp [hf, hg f]
  · simp [hf]

/-- A new transfer with a valid id that the key table does not hold keeps the table
consistent. -/
theorem files_inv_new (files : files_t) (h : files_inv files) (ptr : Nat)
    (hfresh : ptr ∉ files.heap.map (fun f => f.addr)) (key : List Nat)
    (hlen : key.length = FILE_KEY_LENGTH) (hpool : ∀ c ∈ key, c ∈ pool)
    (hfree : hash_find files.file_keys key = .ok none) (file : file_t)
    (ha : file.addr = ptr) (hkey : file.key = key)
    (he : file.element = ⟨ptr, 0, ptr, key, hash_function key⟩) (head : Option Nat) :
    (∀ g ∈ files.heap, g.key ≠ key) ∧
    files_inv { files with
      file_keys := ⟨files.file_keys.table.set (hash_function key)
        (⟨ptr, 0, ptr, key, hash_function key⟩ ::
          files.file_keys.table.getD (hash_function key) [])⟩,
      files := head, heap := file :: files.heap } := by
  obtain ⟨h1, h2, h3, h4, h5, h6⟩ := h
  have hklt : hash_function key < files.file_keys.table.length := by
    rw [h1]; exact hash_function_lt key
  have hnone := hash_find_none_free _ _ hfree
  have hdiff : ∀ g ∈ files.heap, g.key ≠ key := by
    intro g hg hgk
    obtain ⟨g1, g2, _, g4, _⟩ := h3 g hg
    rw [g4, hgk] at g1
    exact hnone _ g1 (by rw [g2, hgk])
  refine ⟨hdiff, ?_⟩
  have hbk : ∀ k, bucket ⟨files.file_keys.table.set (hash_function key)
      (⟨ptr, 0, ptr, key, hash_function key⟩ ::
        files.file_keys.table.getD (hash_function key) [])⟩ k =
      if k = hash_function key then
        ⟨ptr, 0, ptr, key, hash_function key⟩ :: bucket files.file_keys k
      else bucket files.file_keys k := by
    intro k
    by_cases hk : k = hash_function key
    · rw [if_pos hk, hk, bucket_set_self _ _ _ hklt]; rfl
    · rw [if_neg hk, bucket_set_other _ _ _ _ (fun h => hk h.symm)]
  refine ⟨by simpa using h1, ?_, ?_, ?_, ?_, ?_⟩
  · show ((file :: files.heap).map (fun f => f.addr)).Nodup
    rw [List.map_cons, List.nodup_cons, ha]
    exact ⟨hfresh, h2⟩
  · intro f hf
    show f.element ∈ bucket _ f.element.key ∧ _
    rw [hbk]
    rcases List.mem_cons.1 hf with hf | hf
    · subst hf
      rw [he, hkey, ha]
      simp
    · obtain ⟨g1, g2, g3, g4, g5⟩ := h3 f hf
      refine ⟨?_, g2, g3, g4, g5⟩
      split
      · exact List.mem_cons_of_mem _ g1
      · exact g1
  · intro k e hek
    have hek' : e ∈ (if k = hash_function key then
        ⟨ptr, 0, ptr, key, hash_function key⟩ :: bucket files.file_keys k
      else bucket files.file_keys k) := by
      rw [← hbk]; exact hek
    have hold : e ∈ bucket files.file_keys k → e.key = k ∧
        ∃ f ∈ file :: files.heap, f.element = e := by
      intro hin
      obtain ⟨g1, f, hf, g2⟩ := h4 k e hin
      exact ⟨g1, f, List.mem_cons_of_mem _ hf, g2⟩
    by_cases hk : k = hash_function key
    · rw [if_pos hk] at hek'
      rcases List.mem_cons.1 hek' with h | h
      · subst h
        exact ⟨hk.symm, file, List.mem_cons_self _ _, he⟩
      · exact hold h
    · rw [if_neg hk] at hek'
      exact hold hek'
  · show ((file :: files.heap).map (fun f => f.key)).Nodup
    rw [List.map_cons, List.nodup_cons, hkey]
    refine ⟨?_, h5⟩
    intro hin
    obtain ⟨g, hg, hgk⟩ := List.mem_map.1 hin
    exact hdiff g hg hgk
  · intro f hf
    rcases List.mem_cons.1 hf with hf | hf
    · subst hf
      rw [hkey]
      exact ⟨hlen, hpool⟩
    · exact h6 f hf


theorem file_lookup_some (files : files_t) (ptr : Nat) (file : file_t)
    (h : file_lookup files ptr = some file) : file ∈ files.heap ∧ file.addr = ptr := by
  unfold file_lookup at h
  have h1 := List.mem_of_find?_eq_some h
  have h2 := List.find?_some h
  exact ⟨h1, by simpa using h2⟩

/-- Unlinking a transfer and removing its element keeps the table consistent. -/
theorem files_inv_remove (files : files_t) (h : files_inv files) (file : file_t)
    (hf : file ∈ files.heap) (keys' : hash_t)
    (hrem : hash_remove files.file_keys file.element = .ok keys') :
    files_inv { files with file_keys := keys',
                           heap := files.heap.filter (fun f => f.addr ≠ file.addr) } := by
  obtain ⟨h1, h2, h3, h4, h5, h6⟩ := h
  obtain ⟨e1, e2, e3, e4, e5⟩ := h3 file hf
  simp only [hash_remove] at hrem
  split at hrem
  · rename_i hkey
    simp only [Except.ok.injEq] at hrem
    subst hrem
    have hklt : file.element.key < files.file_keys.table.length := by rw [h1]; exact hkey
    have hbk : ∀ k, bucket ⟨files.file_keys.table.set file.element.key
        ((files.file_keys.table.getD file.element.key []).filter
          (fun e => e.addr ≠ file.element.addr))⟩ k =
        if k = file.element.key then
          (bucket files.file_keys k).filter (fun e => e.addr ≠ file.addr)
        else bucket files.file_keys k := by
      intro k
      by_cases hk : k = file.element.key
      · rw [if_pos hk, hk, bucket_set_self _ _ _ hklt, e3]; rfl
      · rw [if_neg hk, bucket_set_other _ _ _ _ (fun h => hk h.symm)]
    refine ⟨by simpa using h1, ?_, ?_, ?_, ?_, ?_⟩
    · exact h2.sublist ((List.filter_sublist _).map _)
    · intro f hfm
      obtain ⟨hfh, hfa⟩ := List.mem_filter.1 hfm
      obtain ⟨g1, g2, g3, g4, g5⟩ := h3 f hfh
      refine ⟨?_, g2, g3, g4, g5⟩
      show f.element ∈ bucket _ f.element.key
      rw [hbk]
      split
      · apply List.mem_filter.2
        refine ⟨g1, ?_⟩
        rw [g3]
        exact hfa
      · exact g1
    · intro k e hek
      have hek' : e ∈ (if k = file.element.key then
          (bucket files.file_keys k).filter (fun e => e.addr ≠ file.addr)
        else bucket files.file_keys k) := by
        rw [← hbk]; exact hek
      have hin : e ∈ bucket files.file_keys k := by
        split at hek'
        · exact (List.mem_filter.1 hek').1
        · exact hek'
      obtain ⟨g1, f, hfh, g2⟩ := h4 k e hin
      refine ⟨g1, f, ?_, g2⟩
      apply List.mem_filter.2
      refine ⟨hfh, ?_⟩
      simp only [ne_eq, decide_not, Bool.not_eq_true', decide_eq_false_iff_not]
      intro hfa
      have hff : f = file := List.inj_on_of_nodup_map h2 hfh hf hfa
      rw [hff] at g2
      have hk : k = file.element.key := by rw [← g1, ← g2]
      rw [if_pos hk] at hek'
      have := (List.mem_filter.1 hek').2
      rw [← g2, e3] at this
      simp at this
    · exact h5.sublist ((List.filter_sublist _).map _)
    · intro f hfm
      exact h6 f (List.mem_filter.1 hfm).1
  · exact absurd hrem (by simp)

theorem filter_view (ptr : Nat) (l l0 : List file_t)
    (h : l.map (fun f => (f.addr, f.key, f.element)) =
      l0.map (fun f => (f.addr, f.key, f.element))) :
    (l.filter (fun f => f.addr ≠ ptr)).map (fun f => (f.addr, f.key, f.element)) =
      (l0.filter (fun f => f.addr ≠ ptr)).map (fun f => (f.addr, f.key, f.element)) := by
  have hc : ∀ (m : List file_t),
      (m.filter (fun f => f.addr ≠ ptr)).map (fun f => (f.addr, f.key, f.element)) =
      (m.map (fun f => (f.addr, f.key, f.element))).filter
        (fun p : Nat × List Nat × hash_element_t => p.1 ≠ ptr) := by
    intro m
    rw [List.filter_map]
    rfl
  rw [hc l, hc l0, h]

theorem file_delete_inv (files files' : files_t) (ptr : Nat) (closed : List Int)
    (h : files_inv files) (hd : file_delete files ptr = .ok (files', closed)) :
    files_inv files' := by
  unfold file_delete at hd
  split at hd
  · exact absurd hd (by simp)
  · rename_i file hl
    obtain ⟨hmem, haddr⟩ := file_lookup_some files ptr file hl
    split at hd
    · exact absurd hd (by simp)
    · rename_i keys' hrem
      simp only [Except.ok.injEq, Prod.mk.injEq] at hd
      rw [← hd.1]
      have hcore := files_inv_remove files h file hmem keys' hrem
      rw [haddr] at hcore
      refine files_inv_of_view _ _ ?_ ?_ hcore
      · show files_t.file_keys (match file.next with
          | some n => _
          | none => _) = keys'
        cases file.next <;> cases file.prev <;> rfl
      · apply filter_view
        cases file.next <;> cases file.prev <;>
          simp only [file_update, List.map_map] <;>
          first
          | rfl
          | (apply List.map_congr_left
             intro f _
             simp only [Function.comp]
             repeat' split
             all_goals rfl)

theorem file_new_inv (files files' : files_t) (ptr : Nat) (fds : Int × Int × Int)
    (nick name : List Nat) (mode : files_mode_t) (dir : file_dir_t) (rand : Nat → Nat)
    (pos fuel p pos' : Nat) (h : files_inv files)
    (hfresh : ptr ∉ files.heap.map (fun f => f.addr))
    (hn : file_new files ptr fds nick name mode dir rand pos fuel = .ok (files', p, pos')) :
    files_inv files' ∧ p = ptr ∧
    ∃ f, files'.heap = f :: files.heap ∧ f.addr = ptr ∧ f.key.length = FILE_KEY_LENGTH ∧
      (∀ c ∈ f.key, c ∈ pool) ∧ (∀ g ∈ files.heap, g.key ≠ f.key) ∧
      f.nick = nick ∧ f.name = name ∧ f.mode = mode ∧ f.dir = dir ∧ f.prev = none ∧
      f.next = files.files ∧ files'.files = some ptr := by
  unfold file_new at hn
  simp only [] at hn
  split at hn
  · exact absurd hn (by simp)
  · rename_i key pos1 hkey
    obtain ⟨hlen, hpool, hfree⟩ := file_new_key_spec _ _ _ _ _ _ hkey
    unfold hash_add at hn
    simp only [if_pos (hash_function_lt key), Except.ok.injEq, Prod.mk.injEq] at hn
    obtain ⟨hf', hp, _⟩ := hn
    rw [← hf']
    obtain ⟨hdiff, hinv⟩ := files_inv_new files h ptr hfresh key hlen hpool hfree
      ⟨ptr, none, files.files, mode, dir, fds.1, fds.2.1, fds.2.2, (nick.length : Int) + 1 - 1,
        (name.length : Int) + 1 - 1, key, nick, name, ⟨ptr, 0, ptr, key, hash_function key⟩⟩
      rfl rfl rfl (some ptr)
    exact ⟨hinv, hp.symm, _, rfl, rfl, hlen, hpool, hdiff, rfl, rfl, rfl, rfl, rfl, rfl, rfl⟩

/-- Every transfer table of the participant is consistent. -/
theorem files_reachable_inv (files : files_t) (h : files_reachable files) : files_inv files := by
  induction h with
  | init files hheap hkeys =>
    have hb : ∀ k, bucket files.file_keys k = [] := by
      intro k
      rw [hkeys]
      simp only [bucket, hash_init, List.getD_eq_getElem?_getD]
      by_cases hk : k < HASH_SIZE
      · rw [List.getElem?_eq_getElem (by simpa using hk)]
        simp
      · rw [List.getElem?_eq_none (by simpa using hk)]
        rfl
    refine ⟨by rw [hkeys]; simp [hash_init], by rw [hheap]; simp, by rw [hheap]; simp, ?_,
      by rw [hheap]; simp, by rw [hheap]; simp⟩
    intro k e he
    rw [hb k] at he
    simp at he
  | new files files' ptr fds nick name mode dir rand pos fuel p pos' _ hfresh hn ih =>
    exact (file_new_inv _ _ _ _ _ _ _ _ _ _ _ _ _ ih hfresh hn).1
  | delete files files' ptr closed _ hd ih => exact file_delete_inv _ _ _ _ ih hd
  | set_fds files ptr from_fd to_fd sock_fd _ ih =>
    exact files_inv_file_update files ptr _ (fun f => ⟨rfl, rfl, rfl⟩) ih
  | frame files nicks console server mode forbid _ ih =>
    exact files_inv_of_view files _ rfl rfl ih


/-- C14: an inbound `/send bob K secure .profile`, whose name fails `verify_filename`, with
no such file present: `files_exec_send` calls `creat` on the name, adds a transfer with role
Receiving and replies `/accept`, not `/refuse bob K name`; `files_exec_receive` refuses the
same name without any system call. -/
theorem exec_send_unchecked_name :
    verify_filename (bytes ".profile") = 1 ∧
    request_view (files_exec_send env_fresh files_empty (bytes "bob") (bytes "K")
        (bytes "secure") (bytes ".profile") 1000 (0, 0, 0) (fun i => i) 0 1) =
      some ⟨0, [.stat (bytes ".profile"), .creat (bytes ".profile"),
          .create_socket .FILES_MODE_SECURE],
        [⟨bytes ".profile", .FILE_DIR_RECEIVE, -1, 7, 8⟩],
        bytes "/accept bob K 0123456789ABCDEF 5000\n"⟩ ∧
    request_view (files_exec_receive env_fresh files_empty (bytes "bob") (bytes "K")
        (bytes "secure") (bytes ".profile") 1000 (0, 0, 0) (fun i => i) 0 1) =
      some ⟨0, [], [], bytes "/refuse bob K name\n"⟩ := by
  decide!

/-- The effect of `server_send` while connected: the bytes are appended to the queue for the
hub and nothing else changes. -/
theorem files_send_spec (files : files_t) (d : List Nat) (hsock : files.server.sock ≠ -1)
    (hwf : dbuffer_wf files.server.buffer.output) :
    (files_send files d).heap = files.heap ∧ (files_send files d).files = files.files ∧
    (files_send files d).file_keys = files.file_keys ∧
    (files_send files d).forbid = files.forbid ∧ (files_send files d).mode = files.mode ∧
    (files_send files d).nicks = files.nicks ∧ (files_send files d).console = files.console ∧
    (files_send files d).server.sock = files.server.sock ∧
    (files_send files d).server.read_fds = files.server.read_fds ∧
    (files_send files d).server.write_fds = files.server.write_fds ∧
    (files_send files d).server.num_fds = files.server.num_fds ∧
    (files_send files d).server.buffer.input = files.server.buffer.input ∧
    dbuffer_wf (files_send files d).server.buffer.output ∧
    dbuffer_contents (files_send files d).server.buffer.output =
      dbuffer_contents files.server.buffer.output ++ d := by
  obtain ⟨k1, k2, k3⟩ := iobuffer_put_data_spec files.server.buffer d hwf
  unfold files_send server_send
  rw [if_pos hsock]
  exact ⟨rfl, rfl, rfl, rfl, rfl, rfl, rfl, rfl, rfl, rfl, rfl, k1, k2, k3⟩

/-- A sequence of `server_send` calls appends the concatenation of the data. -/
theorem files_send_all_spec : ∀ (ds : List (List Nat)) (files : files_t),
    files.server.sock ≠ -1 → dbuffer_wf files.server.buffer.output →
    (ds.foldl files_send files).heap = files.heap ∧
    (ds.foldl files_send files).files = files.files ∧
    (ds.foldl files_send files).file_keys = files.file_keys ∧
    (ds.foldl files_send files).forbid = files.forbid ∧
    (ds.foldl files_send files).mode = files.mode ∧
    (ds.foldl files_send files).nicks = files.nicks ∧
    (ds.foldl files_send files).console = files.console ∧
    (ds.foldl files_send files).server.sock = files.server.sock ∧
    (ds.foldl files_send files).server.read_fds = files.server.read_fds ∧
    (ds.foldl files_send files).server.write_fds = files.server.write_fds ∧
    (ds.foldl files_send files).server.num_fds = files.server.num_fds ∧
    (ds.foldl files_send files).server.buffer.input = files.server.buffer.input ∧
    dbuffer_wf (ds.foldl files_send files).server.buffer.output ∧
    dbuffer_contents (ds.foldl files_send files).server.buffer.output =
      dbuffer_contents files.server.buffer.output ++ ds.flatten := by
  intro ds
  induction ds with
  | nil =>
    intro files _ hwf
    exact ⟨rfl, rfl, rfl, rfl, rfl, rfl, rfl, rfl, rfl, rfl, rfl, rfl, hwf, by simp⟩
  | cons d rest ih =>
    intro files hsock hwf
    obtain ⟨a1, a2, a3, a4, a5, a6, a7, a8, a9, a10, a11, a12, a13, a14⟩ :=
      files_send_spec files d hsock hwf
    obtain ⟨b1, b2, b3, b4, b5, b6, b7, b8, b9, b10, b11, b12, b13, b14⟩ :=
      ih (files_send files d) (by rw [a8]; exact hsock) a13
    simp only [List.foldl_cons, List.flatten_cons]
    refine ⟨b1.trans a1, b2.trans a2, b3.trans a3, b4.trans a4, b5.trans a5, b6.trans a6,
      b7.trans a7, b8.trans a8, b9.trans a9, b10.trans a10, b11.trans a11, b12.trans a12, b13,
      ?_⟩
    rw [b14, a14, List.append_assoc]

theorem file_new_frame (files files' : files_t) (ptr : Nat) (fds : Int × Int × Int)
    (nick name : List Nat) (mode : files_mode_t) (dir : file_dir_t) (rand : Nat → Nat)
    (pos fuel p pos' : Nat)
    (hn : file_new files ptr fds nick name mode dir rand pos fuel = .ok (files', p, pos')) :
    files'.server = files.server ∧ files'.console = files.console ∧
    files'.forbid = files.forbid ∧ files'.mode = files.mode ∧ files'.nicks = files.nicks ∧
    ∀ f rest, files'.heap = f :: rest → f.nick_len = nick.length ∧ f.name_len = name.length ∧
      f.from_fd = fds.1 ∧ f.to_fd = fds.2.1 ∧ f.sock_fd = fds.2.2 := by
  unfold file_new at hn
  simp only [] at hn
  split at hn
  · exact absurd hn (by simp)
  · split at hn
    · exact absurd hn (by simp)
    · simp only [Except.ok.injEq, Prod.mk.injEq] at hn
      rw [← hn.1]
      refine ⟨rfl, rfl, rfl, rfl, rfl, ?_⟩
      intro f rest hh
      simp only [List.cons.injEq] at hh
      rw [← hh.1]
      simp

theorem accepted_by_append (fd : Int) (l1 l2 : List sysevent_t) :
    accepted_by fd (l1 ++ l2) = accepted_by fd l1 ++ accepted_by fd l2 := by
  induction l1 with
  | nil => rfl
  | cons e l1 ih =>
    cases e with
    | write fd' data r =>
      cases r with
      | none => simpa [accepted_by] using ih
      | some k =>
        by_cases h : fd' = fd
        · simp [accepted_by, h, ih]
        · simp [accepted_by, h, ih]
    | _ => simpa [accepted_by] using ih

theorem sent_to_append (fd : Int) (l1 l2 : List sysevent_t) :
    sent_to fd (l1 ++ l2) = sent_to fd l1 ++ sent_to fd l2 := by
  induction l1 with
  | nil => rfl
  | cons e l1 ih =>
    cases e with
    | write fd' data r =>
      by_cases h : fd' = fd
      · simp [sent_to, h, ih]
      · simp [sent_to, h, ih]
    | _ => simpa [sent_to] using ih

/-- A pass of the fast-mode sender whose `read` fills the 1023 bytes asked for sends them
after a zero byte and keeps the transfer. -/
theorem transfer_fast_send_full (file : file_t) (io : sysio_t) (bs p : List Nat)
    (rest : List (Option (List Nat))) (hs : file.sock_fd ≠ -2) (hb : bs.length = 1024)
    (hp : p.length = 1023) (hr : io.reads = some p :: rest) (hw : io.writes = []) :
    ∃ io1 b1, transfer_fast_send file io bs = .ok (io1, b1, .more, file.sock_fd) ∧
      b1.length = 1024 ∧ io1.reads = rest ∧ io1.writes = [] ∧
      io1.log = io.log ++ [.read file.from_fd 1023 (some p),
        .write file.to_fd (0 :: p) (some 1024)] := by
  have htake : p.take 1023 = p := List.take_of_length_le (by omega)
  obtain ⟨b0, bt, rfl⟩ : ∃ b0 bt, bs = b0 :: bt := by
    cases bs with
    | nil => simp at hb
    | cons b0 bt => exact ⟨b0, bt, rfl⟩
  have hbt : bt.length = 1023 := by simpa using hb
  have hm : memcpy (b0 :: bt) 1 p = b0 :: p := by
    simp [memcpy, hp, List.drop_of_length_le, hbt]
  unfold transfer_fast_send
  rw [if_neg hs]
  simp only [sys_read, sys_write, hr, hw, List.head?_cons, List.tail_cons, htake, hm, hp,
    List.head?_nil, List.tail_nil, if_true, List.set_cons_zero]
  refine ⟨_, _, rfl, by simp [hp], rfl, rfl, ?_⟩
  simp [hp, List.take_of_length_le]

/-- A pass of the fast-mode sender whose `read` gets less than the 1023 bytes asked for sends
them after a byte 1 and sets the descriptor field to -2. -/
theorem transfer_fast_send_last (file : file_t) (io : sysio_t) (bs p : List Nat)
    (rest : List (Option (List Nat))) (hs : file.sock_fd ≠ -2) (hb : bs.length = 1024)
    (hp : p.length < 1023) (hr : io.reads = some p :: rest) (hw : io.writes = []) :
    ∃ io1 b1, transfer_fast_send file io bs = .ok (io1, b1, .more, -2) ∧
      b1.length = 1024 ∧ io1.reads = rest ∧ io1.writes = [] ∧
      io1.log = io.log ++ [.read file.from_fd 1023 (some p),
        .write file.to_fd (1 :: p) (some (p.length + 1))] := by
  have htake : p.take 1023 = p := List.take_of_length_le (by omega)
  obtain ⟨b0, bt, rfl⟩ : ∃ b0 bt, bs = b0 :: bt := by
    cases bs with
    | nil => simp at hb
    | cons b0 bt => exact ⟨b0, bt, rfl⟩
  have hbt : bt.length = 1023 := by simpa using hb
  have hm : memcpy (b0 :: bt) 1 p = b0 :: (p ++ bt.drop p.length) := by
    simp [memcpy, Nat.add_comm]
  have hne : ¬ p.length = 1023 := by omega
  unfold transfer_fast_send
  rw [if_neg hs]
  simp only [sys_read, sys_write, hr, hw, List.head?_cons, List.tail_cons, htake, hm,
    List.head?_nil, List.tail_nil, if_neg hne, List.set_cons_zero]
  refine ⟨_, _, rfl, ?_, rfl, rfl, ?_⟩
  · simp [hbt]; omega
  · simp [List.take_append_of_le_length]

/-- A pass of the fast-mode receiver on a datagram of 1024 bytes that starts with a zero byte
writes the 1023 bytes that follow and keeps the transfer. -/
theorem transfer_fast_receive_full (file : file_t) (io : sysio_t) (br p : List Nat)
    (rest : List (Option (List Nat))) (hb : br.length = 1024) (hp : p.length = 1023)
    (hr : io.reads = some (0 :: p) :: rest) (hw : io.writes = []) :
    ∃ io1 b1, transfer_fast_receive file io br = .ok (io1, b1, .more) ∧
      b1.length = 1024 ∧ io1.reads = rest ∧ io1.writes = [] ∧
      io1.log = io.log ++ [.read file.from_fd 1024 (some (0 :: p)),
        .write file.to_fd p (some 1023)] := by
  have htake : (0 :: p).take 1024 = 0 :: p := List.take_of_length_le (by simp; omega)
  have hm : memcpy br 0 (0 :: p) = 0 :: p := by
    simp [memcpy, hp, List.drop_of_length_le, hb]
  unfold transfer_fast_receive
  simp only [sys_read, sys_write, hr, hw, List.head?_cons, List.tail_cons, htake, hm,
    List.head?_nil, List.tail_nil, List.length_cons, hp]
  have h5 : List.take (1023 + 1 - 1) (List.drop 1 (0 :: p)) = p := by
    simp [hp, List.take_of_length_le]
  rw [h5]
  simp only [hp, List.getD_cons_zero, ne_eq, not_true_eq_false, or_self, if_false,
    Nat.reduceAdd, Nat.reduceEqDiff, not_false_eq_true, if_true, reduceCtorEq,
    List.append_assoc, List.singleton_append]
  exact ⟨_, _, rfl, by simp [hp], rfl, rfl, rfl⟩

/-- A pass of the fast-mode receiver on a datagram of less than 1024 bytes that starts with a
byte 1 writes the bytes that follow, if any, and ends the transfer with success. -/
theorem transfer_fast_receive_last (file : file_t) (io : sysio_t) (br p : List Nat)
    (rest : List (Option (List Nat))) (hb : br.length = 1024) (hp : p.length < 1023)
    (hr : io.reads = some (1 :: p) :: rest) (hw : io.writes = []) :
    ∃ io1 b1, transfer_fast_receive file io br = .ok (io1, b1, .done) ∧
      io1.reads = rest ∧
      accepted_by file.to_fd io1.log = accepted_by file.to_fd io.log ++ p ∧
      (sent_to file.to_fd io1.log).flatten = (sent_to file.to_fd io.log).flatten ++ p := by
  have htake : (1 :: p).take 1024 = 1 :: p := List.take_of_length_le (by simp; omega)
  have hm : memcpy br 0 (1 :: p) = 1 :: (p ++ br.drop (p.length + 1)) := by
    simp [memcpy]
  unfold transfer_fast_receive
  simp only [sys_read, sys_write, hr, hw, List.head?_cons, List.tail_cons, htake, hm,
    List.head?_nil, List.tail_nil, List.length_cons]
  by_cases h0 : p = []
  · subst h0
    simp [accepted_by_append, sent_to_append, accepted_by, sent_to]
  · have h1 : p.length ≠ 0 := fun h => h0 (List.length_eq_zero.1 h)
    have h2 : ¬ p.length + 1 = 1 := by omega
    have h3 : ¬ p.length + 1 = 0 := by omega
    have h4 : p.length + 1 ≠ 1024 := by omega
    simp [h1, h2, h3, h4, accepted_by_append, sent_to_append, accepted_by, sent_to,
      List.take_append_of_le_length]

/-- The fast-mode sender on a regular file that holds `f`: it sends the successive pieces of
1023 bytes after a zero byte, then the shorter rest after a byte 1, and ends with success on
the pass after that one. -/
theorem fast_send_run_spec : ∀ (fuel : Nat) (f : List Nat) (file : file_t) (io : sysio_t)
    (bs : List Nat), f.length < fuel → file.sock_fd ≠ -2 → bs.length = 1024 →
    io.reads = (file_reads 1023 fuel f).map some → io.writes = [] →
    ∃ (pieces : List (List Nat)) (last : List Nat) (io1 : sysio_t) (b1 : List Nat),
      (∀ p ∈ pieces, p.length = 1023) ∧ last.length < 1023 ∧
      pieces.flatten ++ last = f ∧
      fast_send_run file (pieces.length + 2) io bs = .ok (io1, b1, .done) ∧
      sent_to file.to_fd io1.log
        = sent_to file.to_fd io.log ++ (pieces.map (fun p => 0 :: p) ++ [1 :: last]) := by
  intro fuel
  induction fuel with
  | zero => intro f file io bs h; omega
  | succ fuel ih =>
    intro f file io bs hf hs hb hr hw
    by_cases hlt : f.length < 1023
    · have hr1 : io.reads = some f :: [] := by
        rw [hr]; simp [file_reads, hlt]
      obtain ⟨io1, b1, h1, hb1, -, -, hlog⟩ :=
        transfer_fast_send_last file io bs f [] hs hb hlt hr1 hw
      refine ⟨[], f, io1, b1, by simp, hlt, by simp, ?_, ?_⟩
      · show fast_send_run file 2 io bs = _
        simp only [fast_send_run, h1]
        simp [transfer_fast_send]
      · rw [hlog, sent_to_append]
        simp [sent_to]
    · have hp : (f.take 1023).length = 1023 := by simp; omega
      have hr1 : io.reads = some (f.take 1023) :: (file_reads 1023 fuel (f.drop 1023)).map some := by
        rw [hr]; simp [file_reads, hlt]
      obtain ⟨io1, b1, h1, hb1, hreads, hw1, hlog⟩ :=
        transfer_fast_send_full file io bs (f.take 1023) _ hs hb hp hr1 hw
      have hlen : (f.drop 1023).length < fuel := by simp; omega
      obtain ⟨pieces, last, io2, b2, hall, hlast, hcat, hrun, hsent⟩ :=
        ih (f.drop 1023) file io1 b1 hlen hs hb1 hreads hw1
      refine ⟨f.take 1023 :: pieces, last, io2, b2, ?_, hlast, ?_, ?_, ?_⟩
      · intro p hp'
        rcases List.mem_cons.1 hp' with rfl | h
        · exact hp
        · exact hall p h
      · simp only [List.flatten_cons, List.append_assoc, hcat, List.take_append_drop]
      · show fast_send_run file (pieces.length + 2 + 1) io bs = _
        rw [fast_send_run, h1]
        exact hrun
      · rw [hsent, hlog, sent_to_append]
        simp [sent_to]

/-- The fast-mode receiver on the datagrams of a file cut in pieces: it keeps the transfer on
each datagram before the last one, ends it with success on the last one and has then written
the pieces in order. -/
theorem fast_receive_run_spec (file : file_t) (last : List Nat) (hlast : last.length < 1023) :
    ∀ (pieces : List (List Nat)) (io : sysio_t) (br : List Nat), br.length = 1024 →
    io.writes = [] →
    io.reads = (pieces.map (fun p => 0 :: p) ++ [1 :: last]).map some →
    (∀ p ∈ pieces, p.length = 1023) →
    (∀ k, k ≤ pieces.length →
      ∃ io1 b1, fast_receive_run file k io br = .ok (io1, b1, .more)) ∧
    ∃ io1 b1, fast_receive_run file (pieces.length + 1) io br = .ok (io1, b1, .done) ∧
      io1.reads = [] ∧
      accepted_by file.to_fd io1.log
        = accepted_by file.to_fd io.log ++ (pieces.flatten ++ last) ∧
      (sent_to file.to_fd io1.log).flatten
        = (sent_to file.to_fd io.log).flatten ++ (pieces.flatten ++ last) := by
  intro pieces
  induction pieces with
  | nil =>
    intro io br hb hw hr _
    have hr1 : io.reads = some (1 :: last) :: [] := by rw [hr]; rfl
    obtain ⟨io1, b1, h1, hreads, hacc, hsent⟩ :=
      transfer_fast_receive_last file io br last [] hb hlast hr1 hw
    refine ⟨?_, io1, b1, ?_, hreads, by simpa using hacc, by simpa using hsent⟩
    · intro k hk
      have : k = 0 := by simpa using hk
      subst this
      exact ⟨io, br, rfl⟩
    · show fast_receive_run file 1 io br = _
      simp only [fast_receive_run, h1]
  | cons p pieces ih =>
    intro io br hb hw hr hall
    have hp : p.length = 1023 := hall p (List.mem_cons_self _ _)
    have hr1 : io.reads
        = some (0 :: p) :: (pieces.map (fun p => 0 :: p) ++ [1 :: last]).map some := by
      rw [hr]; rfl
    obtain ⟨io1, b1, h1, hb1, hreads, hw1, hlog⟩ :=
      transfer_fast_receive_full file io br p _ hb hp hr1 hw
    obtain ⟨hmore, io2, b2, hrun, hreads2, hacc, hsent⟩ :=
      ih io1 b1 hb1 hw1 hreads (fun q hq => hall q (List.mem_cons_of_mem _ hq))
    refine ⟨?_, io2, b2, ?_, hreads2, ?_, ?_⟩
    · intro k hk
      cases k with
      | zero => exact ⟨io, br, rfl⟩
      | succ k =>
        obtain ⟨io3, b3, h3⟩ := hmore k (by simpa using hk)
        refine ⟨io3, b3, ?_⟩
        rw [fast_receive_run, h1]
        exact h3
    · show fast_receive_run file (pieces.length + 1 + 1) io br = _
      rw [fast_receive_run, h1]
      exact hrun
    · rw [hacc, hlog, accepted_by_append]
      simp [accepted_by, hp, List.take_of_length_le]
    · rw [hsent, hlog, sent_to_append]
      simp [sent_to]

/-- C16: for every file content `f`, the fast-mode sender of `files_transfer` reading `f`
sends the successive pieces of 1023 bytes of `f`, each after a zero byte, then one last
shorter piece (possibly empty) after a byte 1, and then ends with success; the fast-mode
receiver of `files_transfer` reading these datagrams in order keeps the transfer on every
datagram before the last one, ends it with success on the last one, and the bytes it wrote,
all accepted, are exactly `f`. -/
theorem datagram_roundtrip (f bs br : List Nat) (snd rcv : file_t)
    (hs : snd.sock_fd ≠ -2) (hbs : bs.length = 1024) (hbr : br.length = 1024) :
    ∃ (pieces : List (List Nat)) (last : List Nat) (ios : sysio_t) (b1 : List Nat),
      (∀ p ∈ pieces, p.length = 1023) ∧ last.length < 1023 ∧ pieces.flatten ++ last = f ∧
      fast_send_run snd (pieces.length + 2) (io_reads (file_reads 1023 (f.length + 1) f)) bs
        = .ok (ios, b1, .done) ∧
      sent_to snd.to_fd ios.log = pieces.map (fun p => 0 :: p) ++ [1 :: last] ∧
      (∀ k, k < (sent_to snd.to_fd ios.log).length →
        ∃ io b, fast_receive_run rcv k (io_reads (sent_to snd.to_fd ios.log)) br
          = .ok (io, b, .more)) ∧
      ∃ ior b2, fast_receive_run rcv (sent_to snd.to_fd ios.log).length
          (io_reads (sent_to snd.to_fd ios.log)) br = .ok (ior, b2, .done) ∧
        ior.reads = [] ∧ (sent_to rcv.to_fd ior.log).flatten = f ∧
        accepted_by rcv.to_fd ior.log = f := by
  obtain ⟨pieces, last, ios, b1, hall, hlast, hcat, hrun, hsent⟩ :=
    fast_send_run_spec (f.length + 1) f snd (io_reads (file_reads 1023 (f.length + 1) f)) bs
      (Nat.lt_succ_self _) hs hbs rfl rfl
  have hsent1 : sent_to snd.to_fd ios.log = pieces.map (fun p => 0 :: p) ++ [1 :: last] := by
    rw [hsent]; rfl
  obtain ⟨hmore, ior, b2, hrcv, hreads, hacc, hoff⟩ :=
    fast_receive_run_spec rcv last hlast pieces
      (io_reads (pieces.map (fun p => 0 :: p) ++ [1 :: last])) br hbr rfl rfl hall
  have hlen : (pieces.map (fun p => 0 :: p) ++ [1 :: last]).length = pieces.length + 1 := by
    simp
  refine ⟨pieces, last, ios, b1, hall, hlast, hcat, hrun, hsent1, ?_, ?_⟩
  · rw [hsent1, hlen]
    intro k hk
    exact hmore k (by omega)
  · rw [hsent1, hlen]
    refine ⟨ior, b2, hrcv, hreads, ?_, ?_⟩
    · rw [hoff, hcat]; rfl
    · rw [hacc, hcat]; rfl

/-- C16 at a concrete input: the file `abc`, buffers of 1024 zero bytes, a sender and a
receiver that read the descriptor 5 and write the descriptor 6. -/
theorem datagram_roundtrip_witness :
    (file_5_6 .FILES_MODE_FAST .FILE_DIR_SEND).sock_fd ≠ -2 ∧
    (List.replicate 1024 0).length = 1024 ∧
    ∃ (pieces : List (List Nat)) (last : List Nat) (ios : sysio_t) (b1 : List Nat),
      (∀ p ∈ pieces, p.length = 1023) ∧ last.length < 1023 ∧
      pieces.flatten ++ last = bytes "abc" ∧
      fast_send_run (file_5_6 .FILES_MODE_FAST .FILE_DIR_SEND) (pieces.length + 2)
          (io_reads (file_reads 1023 ((bytes "abc").length + 1) (bytes "abc")))
          (List.replicate 1024 0)
        = .ok (ios, b1, .done) ∧
      sent_to (file_5_6 .FILES_MODE_FAST .FILE_DIR_SEND).to_fd ios.log
        = pieces.map (fun p => 0 :: p) ++ [1 :: last] ∧
      (∀ k, k < (sent_to (file_5_6 .FILES_MODE_FAST .FILE_DIR_SEND).to_fd ios.log).length →
        ∃ io b, fast_receive_run (file_5_6 .FILES_MODE_FAST .FILE_DIR_RECEIVE) k
            (io_reads (sent_to (file_5_6 .FILES_MODE_FAST .FILE_DIR_SEND).to_fd ios.log))
            (List.replicate 1024 0)
          = .ok (io, b, .more)) ∧
      ∃ ior b2, fast_receive_run (file_5_6 .FILES_MODE_FAST .FILE_DIR_RECEIVE)
          (sent_to (file_5_6 .FILES_MODE_FAST .FILE_DIR_SEND).to_fd ios.log).length
          (io_reads (sent_to (file_5_6 .FILES_MODE_FAST .FILE_DIR_SEND).to_fd ios.log))
          (List.replicate 1024 0) = .ok (ior, b2, .done) ∧
        ior.reads = [] ∧
        (sent_to (file_5_6 .FILES_MODE_FAST .FILE_DIR_RECEIVE).to_fd ior.log).flatten
          = bytes "abc" ∧
        accepted_by (file_5_6 .FILES_MODE_FAST .FILE_DIR_RECEIVE).to_fd ior.log
          = bytes "abc" :=
  ⟨by decide, List.length_replicate _ _,
    datagram_roundtrip (bytes "abc") (List.replicate 1024 0) (List.replicate 1024 0)
      (file_5_6 .FILES_MODE_FAST .FILE_DIR_SEND) (file_5_6 .FILES_MODE_FAST .FILE_DIR_RECEIVE)
      (by decide) (List.length_replicate _ _) (List.length_replicate _ _)⟩

/-- C17 (evaluation at the failing input): in either role, the secure mode of
`files_transfer` with the reads `abcd`, `ef`, end of file, where the first `write` accepts its
4 bytes and the last `write` of the first pass accepts 1 byte of the 2 offered, reaches the
success state on the second pass; the source gave `abcdef` and the sink accepted `abcde`. -/
theorem secure_short_write_lost (dir : file_dir_t) :
    (secure_run (file_5_6 .FILES_MODE_SECURE dir) 2 io_short_write
        (List.replicate 1024 0)).toOption.map
      (fun r => (r.2.2, read_from 5 r.1.log, accepted_by 6 r.1.log))
      = some (.done, bytes "abcdef", bytes "abcde") := by
  cases dir <;> decide!

/-- C22 (evaluation at the failing input): with `bob` (address 100) and `alice` (address 200)
authenticated and nobody named `carol`, `alice` sends `/send carol K secure f`, and in a second
run `/accept carol K1 K2 5000`. Both runs end without fault; the bytes enqueued on the channel
of `alice` are `/refusK nick` resp. `/refusK1 nick` followed by `No such nickname.`: only the
first 6 bytes of `/refuse ` are there. Nothing is enqueued for `bob`. -/
theorem refuse_unknown_truncated :
    hub_queues hub_bob_alice =
      [(100, 3, bytes "** Hello, bob!\n** alice connected.\n"),
       (200, 5, bytes "** Hello, alice!\n")] ∧
    is_ok (client_input_lines 200
      (hub_receive hub_bob_alice 200 (bytes "/send carol K secure f\n"))) = true ∧
    hub_queues (hub_after hub_bob_alice 200 (bytes "/send carol K secure f\n")) =
      [(100, 3, bytes "** Hello, bob!\n** alice connected.\n"),
       (200, 5, bytes "** Hello, alice!\n" ++ bytes "/refusK nick\nNo such nickname.\n")] ∧
    is_ok (client_input_lines 200
      (hub_receive hub_bob_alice 200 (bytes "/accept carol K1 K2 5000\n"))) = true ∧
    hub_queues (hub_after hub_bob_alice 200 (bytes "/accept carol K1 K2 5000\n")) =
      [(100, 3, bytes "** Hello, bob!\n** alice connected.\n"),
       (200, 5, bytes "** Hello, alice!\n" ++ bytes "/refusK1 nick\nNo such nickname.\n")] := by
  decide!

/-- C23 (evaluation at the failing input): with `bob` (address 100, descriptor 4) and `alice`
authenticated and all descriptors in the read set, `bob` sends `/quit`. The run ends without fault, `bob` receives `** Goodbye!`,
is marked draining (`nick_len = -1`) and its descriptor leaves the read set; the bytes
enqueued on the channel of `alice` are `** bob has left server.` with its line feed followed
by a NUL byte: `|N| + 22` bytes. -/
theorem quit_broadcast_trailing_nul :
    is_ok (client_input_lines 100 (hub_receive hub_bob_alice_fds 100 (bytes "/quit\n"))) = true ∧
    hub_queues (hub_after hub_bob_alice_fds 100 (bytes "/quit\n")) =
      [(100, -1, bytes "** Hello, bob!\n** alice connected.\n" ++ bytes "** Goodbye!\n"),
       (200, 5, bytes "** Hello, alice!\n" ++ (bytes "** bob has left server.\n" ++ [0]))] ∧
    (hub_after hub_bob_alice_fds 100 (bytes "/quit\n")).read_fds = [0, 3, 5] ∧
    (bytes "** bob has left server.\n" ++ [0]).length = (bytes "bob").length + 22 := by
  decide!

/-- C24 (evaluation at the failing input): in the hub with two connected clients of which only
`bob` is authenticated, the console command `/who` prints the header
`There are 2 client(s) connected:` followed by the single nickname `bob`: the header holds
`clients->number`, the count of all connected clients. With two connected clients and none
authenticated the same command prints `No client connected.` -/
theorem who_header_counts_all :
    hub_bob.number = 2 ∧
    (hub_bob.list.filter (fun c => c.nick_len > 0)).map (fun c => c.nick) =
      [some (bytes "bob")] ∧
    dbuffer_contents (hub_console hub_bob (bytes "who\n")).console.output =
      dbuffer_contents hub_bob.console.output ++
        bytes "There are 2 client(s) connected:\nbob\n" ∧
    hub_two.number = 2 ∧
    dbuffer_contents (hub_console hub_two (bytes "who\n")).console.output =
      dbuffer_contents hub_two.console.output ++ bytes "No client connected.\n" := by
  decide!

/-- C27 (evaluation at the failing input): `files_init` assigns `nicks`, `console` and the two
hash tables and leaves the `mode` field as the memory handed over holds it. On the memory
`files_stack`, which holds `FILES_MODE_FAST` there, the first `/transfer a.txt bob:b.txt`
after `files_init` and `files_set_server`, without any `/mode` command, queues
`/send bob <id> fast b.txt` for the hub; on a memory that holds `FILES_MODE_SECURE` the same
command queues the mode token `secure`. -/
theorem mode_not_initialised :
    (∀ (files : files_t) (console : iobuffer_t),
      (files_init files console).mode = files.mode ∧
      (files_init files console).files = files.files) ∧
    (participant_init files_stack).files.mode = .FILES_MODE_FAST ∧
    clt_sent (cltcmd_exec host_fresh (bytes "transfer a.txt bob:b.txt\n") .CLTCMD_TYPE_CONSOLE
      (participant_init files_stack)) = some (bytes "/send bob 0123456789ABCDEF fast b.txt\n") ∧
    clt_sent (cltcmd_exec host_fresh (bytes "transfer a.txt bob:b.txt\n") .CLTCMD_TYPE_CONSOLE
      (participant_init files_empty)) =
        some (bytes "/send bob 0123456789ABCDEF secure b.txt\n") := by
  refine ⟨fun _ _ => ⟨rfl, rfl⟩, rfl, ?_, ?_⟩
  · decide!
  · decide!

/-- An error message printed on the console changes nothing but the console. -/
theorem clt_put_frame (console : cltref) (msg : List Nat) (w : participant_t) :
    (clt_put console msg w).files.heap = w.files.heap ∧
    (clt_put console msg w).files.files = w.files.files ∧
    (clt_put console msg w).files.file_keys = w.files.file_keys ∧
    (clt_put console msg w).files.server = w.files.server ∧
    (clt_put console msg w).files.forbid = w.files.forbid ∧
    (clt_put console msg w).nicks = w.nicks ∧ (clt_put console msg w).calls = w.calls ∧
    (clt_put console msg w).files.console = iobuffer_put_data w.files.console msg :=
  ⟨rfl, rfl, rfl, rfl, rfl, rfl, rfl, rfl⟩

theorem takeWhile_before_colon (ip port0 : List Nat) (h : 58 ∉ ip) :
    (ip ++ 58 :: port0).takeWhile (· ≠ 58) = ip := by
  rw [List.takeWhile_append_of_pos (fun x hx => by
    have : x ≠ 58 := fun hx58 => h (hx58 ▸ hx)
    simpa using this)]
  simp

/-- The relay branch of `cmd_clt_accept`: the line is enqueued on the channel of the target,
with the originator's address up to its first colon as the fourth argument. -/
theorem cmd_clt_accept_relay (s : clients_t) (hinv : hub_inv s) (hfl : hub_fields s)
    (o : client_t) (ho : o ∈ s.list) (O : List Nat) (hO : o.nick = some O)
    (hlen : o.nick_len > 0) (cmd T id1 id2 port ip port0 : List Nat)
    (haddr : o.addr = ip ++ 58 :: port0) (hip : 58 ∉ ip)
    (t : Nat) (hT : clients_get_client_from_name s T = .ok (some t))
    (hwf : ∀ c ∈ s.list, c.ptr = t → dbuffer_wf c.buffer.output)
    (console : bufref) (buffer : Option bufref) :
    ∃ s', cmd_clt_accept 5 [cmd, T, id1, id2, port] console buffer (some o.ptr) s = .ok (s', 0) ∧
      enqueued_on s s' t (bytes "/accept " ++ O ++ bytes " " ++ id1 ++ bytes " " ++ id2 ++
        bytes " " ++ ip ++ bytes " " ++ port ++ bytes "\n") := by
  have hlook := client_lookup_mem s hinv o ho
  have hnl : o.nick_len.toNat = O.length := by
    rcases ((hfl o ho).2 O hO).1 with h | h
    · rw [h]; rfl
    · omega
  have h5 : ¬ ((5 : Int) ≠ 5) := by decide
  have h58 : 58 ∈ o.addr := by rw [haddr]; simp
  unfold cmd_clt_accept
  rw [if_neg h5]
  simp only [List.getD_cons_succ, List.getD_cons_zero, hT, Option.bind, hlook, hO,
    Option.getD_some, hnl, List.take_length, if_pos h58]
  rw [haddr, takeWhile_before_colon ip port0 hip]
  refine ⟨_, rfl, ?_⟩
  have h0 := enqueued_on_refl s t hwf
  have h1 := enqueued_on_put s _ t _ O (enqueued_on_put s _ t _ (bytes "/accept ") h0)
  have h2 := enqueued_on_put s _ t _ id1 (enqueued_on_put s _ t _ (bytes " ") h1)
  have h3 := enqueued_on_put s _ t _ id2 (enqueued_on_put s _ t _ (bytes " ") h2)
  have h4 := enqueued_on_put s _ t _ ip (enqueued_on_put s _ t _ (bytes " ") h3)
  have h5 := enqueued_on_put s _ t _ port (enqueued_on_put s _ t _ (bytes " ") h4)
  have h6 := enqueued_on_put s _ t _ (bytes "\n") h5
  simpa [List.append_assoc] using h6

theorem cltcmd_server_commands_sorted (host : host_t) :
    (cltcmd_server_commands host).Pairwise (fun a b => strcmp a.name b.name < 0) := by
  simp only [cltcmd_server_commands, List.pairwise_cons, List.mem_cons, List.mem_singleton,
    List.not_mem_nil, forall_eq_or_imp, forall_eq, IsEmpty.forall_iff, implies_true,
    List.Pairwise.nil, and_true]
  decide

/-- The participant dispatches a relayed `/accept` line with five arguments to
`cmd_srv_accept`. -/
theorem cltcmd_exec_accept (host : host_t) (w : participant_t) (ts : List (List Nat))
    (hlen : ts.length = 5) (hts : ∀ t ∈ ts, t ≠ [] ∧ ∀ x ∈ t, is_token_byte x) :
    cltcmd_exec host (List.intercalate (bytes " ") (bytes "accept" :: ts) ++ bytes "\n")
        .CLTCMD_TYPE_SERVER w =
      cmd_srv_accept host 6 (bytes "accept" :: ts) .console (some .console) () w := by
  have hall : ∀ t ∈ bytes "accept" :: ts, t ≠ [] ∧ ∀ x ∈ t, is_token_byte x := by
    intro t ht
    rcases List.mem_cons.1 ht with h | h
    · rw [h]
      refine ⟨by decide, ?_⟩
      intro x hx
      simp only [bytes, String.toList, List.map_cons, List.map_nil, List.mem_cons,
        List.not_mem_nil, or_false] at hx
      rcases hx with h | h | h | h | h | h <;> rw [h] <;> unfold is_token_byte <;> decide
    · exact hts t h
  obtain ⟨offs, cmd', htok, hoffs⟩ := command_get_tokens_join (bytes "accept" :: ts)
    (List.cons_ne_nil _ _) hall
  have h10 : 10 ∈ List.intercalate (bytes " ") (bytes "accept" :: ts) ++ bytes "\n" := by
    simp [bytes]
  obtain ⟨args, command', htok', _, _, _, hfound⟩ :=
    command_exec_spec clt_put (List.intercalate (bytes " ") (bytes "accept" :: ts) ++ bytes "\n")
      (cltcmd_server_commands host) .console .console () w h10 (List.cons_ne_nil _ _)
      (cltcmd_server_commands_sorted host)
  rw [htok] at htok'
  simp only [Except.ok.injEq, Prod.mk.injEq] at htok'
  obtain ⟨_, hargs, hcmd⟩ := htok'
  subst hargs hcmd
  have hne : offs ≠ [] := by
    intro h
    rw [h] at hoffs
    simp at hoffs
  have hal : offs.length = 6 := by
    have := congrArg List.length hoffs
    simp only [List.length_map, List.length_cons, hlen] at this
    exact this
  have h1 := (hfound hne ⟨bytes "accept", 5,
      some (bytes "<nickname> <id1> <id2> <address> <port>"), cmd_srv_accept host⟩
    (by simp [cltcmd_server_commands]) (by rw [hoffs]; rfl)).1 (by rw [hal]; rfl)
  unfold cltcmd_exec
  simp only []
  rw [h1, hoffs, hal]
  simp only [Nat.cast_ofNat]
  unfold cmd_srv_accept
  simp only [ne_eq, not_true_eq_false, if_false]
  cases files_accept host w.files ((bytes "accept" :: ts).getD 1 [])
      ((bytes "accept" :: ts).getD 2 []) ((bytes "accept" :: ts).getD 3 [])
      ((bytes "accept" :: ts).getD 4 []) ((bytes "accept" :: ts).getD 5 []) with
  | error e => rfl
  | ok r => simp

theorem memcpy_zeros (c : List Nat) : memcpy (List.replicate c.length 0) 0 c = c := by
  simp [memcpy]

theorem FD_CLR_not_mem (fd : Int) (fds : List Int) : fd ∉ FD_CLR fd fds := by
  simp [FD_CLR]

/-- C29: for a well-formed queue whose descriptor is ready (set in the descriptor set, or
no set at all). On an empty queue `dbuffer_write` returns 0, makes no `write` call and clears
the descriptor in the set. On a queue holding the bytes `b` (`n > 0` of them), when the single
`write` accepts `k ≤ n` bytes, `dbuffer_write` offers exactly `b` to `write`, returns `k`, and
the queue afterwards is well-formed and holds exactly the bytes of `b` from index `k` on, with
`size = n - k`; the descriptor is cleared in the set when `k = n` and the set is unchanged
otherwise, so with a set the descriptor is in it afterwards exactly when `k ≠ n`. -/
theorem dbuffer_write_accepted (buffer : dbuffer_t) (fds : List Int) (io : sysio_t)
    (hwf : dbuffer_wf buffer) (hready : buffer.fds = none ∨ buffer.fd ∈ fds) :
    (dbuffer_contents buffer = [] →
      dbuffer_write buffer fds io =
        .ok (buffer, if buffer.fds ≠ none then FD_CLR buffer.fd fds else fds, io, 0)) ∧
    (dbuffer_contents buffer ≠ [] → ∀ k, k ≤ (dbuffer_contents buffer).length →
      io.writes.head? = some (some k) →
      ∃ b' fds' io', dbuffer_write buffer fds io = .ok (b', fds', io', k) ∧
        dbuffer_wf b' ∧ dbuffer_contents b' = (dbuffer_contents buffer).drop k ∧
        b'.size = ((dbuffer_contents buffer).length : Int) - k ∧
        b'.fd = buffer.fd ∧ b'.fds = buffer.fds ∧
        io'.log = io.log ++ [.write buffer.fd (dbuffer_contents buffer) (some k)] ∧
        fds' = (if k = (dbuffer_contents buffer).length then
          (if buffer.fds ≠ none then FD_CLR buffer.fd fds else fds) else fds) ∧
        (buffer.fds ≠ none → (buffer.fd ∈ fds' ↔ k ≠ (dbuffer_contents buffer).length))) := by
  have hsz : buffer.size = ((dbuffer_contents buffer).length : Int) := hwf.2.2
  have hnr : ¬ (buffer.fds ≠ none ∧ buffer.fd ∉ fds) := by
    rintro ⟨h1, h2⟩
    rcases hready with h | h
    · exact h1 h
    · exact h2 h
  constructor
  · intro hempty
    have h0 : buffer.size = 0 := by rw [hsz, hempty]; rfl
    unfold dbuffer_write
    rw [if_neg hnr, if_pos (Or.inl h0)]
  · intro hne k hk hw
    have hpos : 0 < (dbuffer_contents buffer).length := List.length_pos.2 hne
    have hchunks : buffer.chunks ≠ [] := by
      intro h
      apply hne
      simp [dbuffer_contents, h]
    have h2 : ¬ (buffer.size = 0 ∨ buffer.chunks = []) := by
      rintro (h | h)
      · rw [hsz] at h; omega
      · exact hchunks h
    have hn : buffer.size.toNat = (dbuffer_contents buffer).length := by
      rw [hsz]; rfl
    obtain ⟨g1, g2, g3, g4, g5, g6, _⟩ := dbuffer_get_data_spec buffer
      (dbuffer_contents buffer).length hwf (by rw [hsz])
    rw [List.take_length] at g2
    rw [List.drop_length] at g4
    have hdata : memcpy (List.replicate (dbuffer_contents buffer).length 0) 0
        ((dbuffer_get_data buffer (dbuffer_contents buffer).length).2.2.take
          (dbuffer_contents buffer).length) = dbuffer_contents buffer := by
      rw [g2, List.take_length, memcpy_zeros]
    unfold dbuffer_write
    rw [if_neg hnr, if_neg h2]
    simp only [hn, hdata, sys_write, hw, Nat.min_eq_left hk]
    by_cases hkn : k = (dbuffer_contents buffer).length
    · rw [if_pos hkn]
      refine ⟨_, _, _, rfl, g3, ?_, ?_, g5, g6, rfl, ?_, ?_⟩
      · rw [g4, hkn, List.drop_length]
      · rw [g3.2.2, g4, hkn]
        simp
      · rw [if_pos hkn]
      · intro hfds
        rw [if_pos hfds]
        constructor
        · intro h
          exact absurd h (FD_CLR_not_mem _ _)
        · intro h
          exact absurd hkn h
    · rw [if_neg hkn]
      obtain ⟨_, p2, p3, p4, p5, _⟩ := dbuffer_put_data_spec
        (dbuffer_get_data buffer (dbuffer_contents buffer).length).1
        ((dbuffer_contents buffer).drop k) g3
      refine ⟨_, _, _, rfl, p2, ?_, ?_, ?_, ?_, rfl, ?_, ?_⟩
      · rw [p3, g4, List.nil_append]
      · rw [p2.2.2, p3, g4, List.nil_append, List.length_drop]
        omega
      · rw [p4, g5]
      · rw [p5, g6]
      · rw [if_neg hkn]
      · intro hfds
        constructor
        · intro _
          exact hkn
        · intro _
          rcases hready with h | h
          · exact absurd h hfds
          · exact h

/-- Witness for C29: the queue holds `hello`, descriptor 4 is ready and `write` accepts 2
bytes: `dbuffer_write` returns 2, the queue then holds `llo` and the set is unchanged. -/
theorem dbuffer_write_accepted_witness :
    dbuffer_wf queue_hello ∧ (queue_hello.fds = none ∨ queue_hello.fd ∈ [(4 : Int)]) ∧
    ∃ b' fds' io', dbuffer_write queue_hello [4] (io_of [] [some 2]) = .ok (b', fds', io', 2) ∧
      dbuffer_contents b' = bytes "llo" ∧ b'.size = 3 ∧ fds' = [4] := by
  have hwf : dbuffer_wf queue_hello := by decide
  have hc : dbuffer_contents queue_hello = bytes "hello" := by decide
  obtain ⟨b', fds', io', h1, _, h3, h4, _, _, _, h8, _⟩ :=
    (dbuffer_write_accepted queue_hello [4] (io_of [] [some 2]) hwf (Or.inr (by decide))).2
      (by decide) 2 (by decide) rfl
  rw [hc] at h3 h4 h8
  exact ⟨hwf, Or.inr (by decide), b', fds', io', h1, h3, h4, h8⟩

/-- When the first `read` of `dbuffer_read` fails, the return value is 0. -/
theorem dbuffer_read_first_fails (buffer : dbuffer_t) (fds : List Int) (io : sysio_t)
    (hready : buffer.fds = none ∨ buffer.fd ∈ fds) (hfail : io.reads.head? = some none) :
    ∃ b' io', dbuffer_read buffer fds io = .ok (b', fds, io', 0) ∧ b'.size = buffer.size := by
  have hnr : ¬ (buffer.fds ≠ none ∧ buffer.fd ∉ fds) := by
    rintro ⟨h1, h2⟩
    rcases hready with h | h
    · exact h1 h
    · exact h2 h
  unfold dbuffer_read
  rw [if_neg hnr]
  simp only [read_loop, sys_read, hfail]
  exact ⟨_, _, rfl, by simp⟩

/-- C30 (evaluation at the failing input): on an empty queue whose descriptor 4 is ready,
`dbuffer_read` returns 0 when the first `read` fails with -1, the same value as when the first
`read` reports the end of the file; no byte is appended in either run. When `read` gives the
two bytes `hi` it returns 2, and when the descriptor is not ready it returns -2. -/
theorem read_error_returns_zero :
    (dbuffer_read (dbuffer_init 4 (some 0) 10) [4] (io_of [none] [])).toOption.map
      (fun r => (r.2.2.2, dbuffer_contents r.1, r.2.2.1.log)) =
        some (0, [], [.read 4 256 none]) ∧
    (dbuffer_read (dbuffer_init 4 (some 0) 10) [4] (io_of [some []] [])).toOption.map
      (fun r => (r.2.2.2, dbuffer_contents r.1, r.2.2.1.log)) =
        some (0, [], [.read 4 256 (some [])]) ∧
    (dbuffer_read (dbuffer_init 4 (some 0) 10) [4] (io_of [some (bytes "hi")] [])).toOption.map
      (fun r => (r.2.2.2, dbuffer_contents r.1)) = some (2, bytes "hi") ∧
    (dbuffer_read (dbuffer_init 4 (some 0) 10) [] (io_of [some (bytes "hi")] [])).toOption.map
      (fun r => (r.2.2.2, dbuffer_contents r.1)) = some (-2, []) := by
  decide!

theorem forbid_inv_init (files : files_t) (h : files.forbid = hash_init) :
    forbid_inv files [] := by
  refine ⟨by rw [h]; simp [hash_init], by simp, ?_⟩
  intro k e he
  rw [h] at he
  unfold bucket hash_init at he
  rw [List.getD_eq_getElem?_getD] at he
  by_cases hk : k < HASH_SIZE
  · rw [List.getElem?_replicate_of_lt hk] at he
    simp at he
  · rw [List.getElem?_eq_none (by simp; omega)] at he
    simp at he

theorem forbid_inv_forbid (files files' : files_t) (heap heap' : List nick_t) (ptr : Nat)
    (nick : List Nat) (res : Int) (hinv : forbid_inv files heap)
    (hfresh : ptr ∉ heap.map (fun n => n.addr))
    (h : files_forbid files heap ptr nick = .ok (files', heap', res)) :
    forbid_inv files' heap' := by
  obtain ⟨h1, h2, h3⟩ := hinv
  have hklt : hash_function nick < files.forbid.table.length := by
    rw [h1]; exact hash_function_lt nick
  unfold files_forbid hash_find hash_add at h
  simp only [if_pos (hash_function_lt nick)] at h
  cases hfl : hash_find_loop nick (files.forbid.table.getD (hash_function nick) []) with
  | some e =>
    rw [hfl] at h
    simp only [Except.ok.injEq, Prod.mk.injEq] at h
    obtain ⟨rfl, rfl, _⟩ := h
    exact ⟨h1, h2, h3⟩
  | none =>
    rw [hfl] at h
    simp only [Except.ok.injEq, Prod.mk.injEq] at h
    obtain ⟨rfl, rfl, _⟩ := h
    refine ⟨by simp [h1], ?_, ?_⟩
    · rw [List.map_cons, List.nodup_cons]
      exact ⟨hfresh, h2⟩
    · intro k e he
      by_cases hk : hash_function nick = k
      · subst hk
        have hb := bucket_set_self files.forbid (hash_function nick)
          (⟨ptr, 0, ptr, nick, hash_function nick⟩ ::
            files.forbid.table.getD (hash_function nick) []) hklt
        change e ∈ bucket ⟨files.forbid.table.set (hash_function nick) _⟩ _ at he
        rw [hb] at he
        rcases List.mem_cons.1 he with rfl | he'
        · exact ⟨rfl, rfl, _, List.mem_cons_self _ _, rfl, rfl⟩
        · obtain ⟨g1, g2, n, hn, g3, g4⟩ := h3 _ e he'
          exact ⟨g1, g2, n, List.mem_cons_of_mem _ hn, g3, g4⟩
      · have hb := bucket_set_other files.forbid (hash_function nick) k
          (⟨ptr, 0, ptr, nick, hash_function nick⟩ ::
            files.forbid.table.getD (hash_function nick) []) hk
        change e ∈ bucket ⟨files.forbid.table.set (hash_function nick) _⟩ _ at he
        rw [hb] at he
        obtain ⟨g1, g2, n, hn, g3, g4⟩ := h3 _ e he
        exact ⟨g1, g2, n, List.mem_cons_of_mem _ hn, g3, g4⟩

/-- The pointer updates of `files_allow` keep the address and the element of every
structure. -/
theorem nick_unlink_view (heap : List nick_t) (snick : nick_t) :
    (nick_unlink heap snick).map (fun n => (n.addr, n.element)) =
      heap.map (fun n => (n.addr, n.element)) := by
  have hf : ∀ (l : List nick_t) (g : nick_t → nick_t),
      (∀ n, (g n).addr = n.addr ∧ (g n).element = n.element) →
      (l.map g).map (fun n => (n.addr, n.element)) = l.map (fun n => (n.addr, n.element)) := by
    intro l g hg
    rw [List.map_map]
    apply List.map_congr_left
    intro n _
    simp [Function.comp, hg n]
  have hg : ∀ (p : Nat) (a b : Option Nat) (sel : Bool) (n : nick_t),
      (if n.addr = p then (if sel then { n with next := a } else { n with prev := b }) else n).addr
        = n.addr ∧
      (if n.addr = p then (if sel then { n with next := a } else { n with prev := b })
        else n).element = n.element := by
    intro p a b sel n
    by_cases h : n.addr = p <;> cases sel <;> simp [h]
  unfold nick_unlink
  cases hp : snick.prev with
  | none =>
    cases hq : snick.next with
    | none => simp
    | some q =>
      simp only []
      exact hf _ _ (fun n => by simpa using hg q none none false n)
  | some p =>
    cases hq : snick.next with
    | none =>
      simp only []
      exact hf _ _ (fun n => by simpa using hg p none none true n)
    | some q =>
      simp only []
      rw [hf _ _ (fun n => by simpa using hg q none (some p) false n)]
      exact hf _ _ (fun n => by simpa using hg p (some q) none true n)

theorem nick_unlink_addr (heap : List nick_t) (snick : nick_t) :
    (nick_unlink heap snick).map (fun n => n.addr) = heap.map (fun n => n.addr) := by
  have := congrArg (List.map Prod.fst) (nick_unlink_view heap snick)
  simpa [List.map_map, Function.comp] using this

theorem nick_unlink_mem (heap : List nick_t) (snick n : nick_t) (hn : n ∈ heap) :
    ∃ m ∈ nick_unlink heap snick, m.addr = n.addr ∧ m.element = n.element := by
  have hmem : (n.addr, n.element) ∈ heap.map (fun n => (n.addr, n.element)) :=
    List.mem_map.2 ⟨n, hn, rfl⟩
  rw [← nick_unlink_view heap snick] at hmem
  obtain ⟨m, hm, heq⟩ := List.mem_map.1 hmem
  simp only [Prod.mk.injEq] at heq
  exact ⟨m, hm, heq.1, heq.2⟩

theorem forbid_inv_allow (files files' : files_t) (heap heap' : List nick_t)
    (nick : List Nat) (hinv : forbid_inv files heap)
    (h : files_allow files heap nick = .ok (files', heap')) :
    forbid_inv files' heap' := by
  obtain ⟨h1, h2, h3⟩ := hinv
  unfold files_allow hash_find at h
  simp only [if_pos (hash_function_lt nick)] at h
  cases hfl : hash_find_loop nick (files.forbid.table.getD (hash_function nick) []) with
  | none =>
    rw [hfl] at h
    simp only [Except.ok.injEq, Prod.mk.injEq] at h
    obtain ⟨rfl, rfl⟩ := h
    exact ⟨h1, h2, h3⟩
  | some e =>
    rw [hfl] at h
    obtain ⟨hmem, hstr⟩ := hash_find_loop_some nick _ e hfl
    obtain ⟨g1, g2, n, hn, g3, g4⟩ := h3 (hash_function nick) e hmem
    simp only [] at h
    cases hfind : heap.find? (fun n => decide (n.addr = e.object)) with
    | none => rw [hfind] at h; simp at h
    | some snick =>
      rw [hfind] at h
      have hsa : snick.addr = e.addr := by
        have := List.find?_some hfind
        simp only [decide_eq_true_eq] at this
        rw [this, g2]
      have hklt : e.key < HASH_SIZE := by rw [g1]; exact hash_function_lt nick
      have hklen : e.key < files.forbid.table.length := by rw [h1]; exact hklt
      unfold hash_remove at h
      simp only [if_pos hklt, Except.ok.injEq, Prod.mk.injEq] at h
      obtain ⟨rfl, rfl⟩ := h
      refine ⟨by simp [h1], ?_, ?_⟩
      · have hsub : List.Sublist
            (((nick_unlink heap snick).filter (fun n => n.addr ≠ snick.addr)).map
              (fun n => n.addr))
            ((nick_unlink heap snick).map (fun n => n.addr)) :=
          List.Sublist.map _ (List.filter_sublist _)
        rw [nick_unlink_addr] at hsub
        exact h2.sublist hsub
      · intro k e' he'
        change e' ∈ bucket ⟨files.forbid.table.set e.key _⟩ k at he'
        have hold : e' ∈ bucket files.forbid k ∧ e'.addr ≠ e.addr := by
          by_cases hk : e.key = k
          · subst hk
            rw [bucket_set_self files.forbid e.key _ hklen] at he'
            obtain ⟨hin, hne⟩ := List.mem_filter.1 he'
            exact ⟨hin, by simpa using hne⟩
          · rw [bucket_set_other files.forbid e.key k _ hk] at he'
            refine ⟨he', ?_⟩
            intro hea
            obtain ⟨k1, _, n', hn', k3, k4⟩ := h3 k e' he'
            have hnn : n' = n := by
              apply List.inj_on_of_nodup_map h2 hn' hn
              rw [k3, g3, hea]
            apply hk
            rw [← k1, ← k4, hnn, g4]
        obtain ⟨k1, k2, n', hn', k3, k4⟩ := h3 k e' hold.1
        obtain ⟨m, hm, hma, hme⟩ := nick_unlink_mem heap snick n' hn'
        refine ⟨k1, k2, m, ?_, by rw [hma, k3], by rw [hme, k4]⟩
        apply List.mem_filter.2
        refine ⟨hm, ?_⟩
        simp only [ne_eq, decide_not, Bool.not_eq_true', decide_eq_false_iff_not]
        rw [hma, k3, hsa]
        exact hold.2

theorem forbid_reachable_inv (files : files_t) (heap : List nick_t)
    (h : forbid_reachable files heap) : forbid_inv files heap := by
  induction h with
  | init files h => exact forbid_inv_init files h
  | forbid files files' heap heap' ptr nick res _ hfresh hf ih =>
    exact forbid_inv_forbid files files' heap heap' ptr nick res ih hfresh hf
  | allow files files' heap heap' nick _ ha ih =>
    exact forbid_inv_allow files files' heap heap' nick ih ha
  | frame files files' heap _ hf ih =>
    obtain ⟨h1, h2, h3⟩ := ih
    exact ⟨by rw [hf]; exact h1, h2, by rw [hf]; exact h3⟩

theorem table_set_getD_self (l : List (List hash_element_t)) (k : Nat) (hk : k < l.length) :
    l.set k (l.getD k []) = l := by
  rw [List.getD_eq_getElem?_getD, List.getElem?_eq_getElem hk]
  apply List.ext_getElem (by simp)
  intro i h1 h2
  by_cases hik : k = i
  · subst hik
    simp
  · simp [List.getElem_set_ne hik]

theorem files_is_forbidden_false (files : files_t) (X : List Nat)
    (h : files_is_forbidden files X = .ok false) : hash_find files.forbid X = .ok none := by
  unfold files_is_forbidden at h
  cases hf : hash_find files.forbid X with
  | error e => rw [hf] at h; simp at h
  | ok r =>
    rw [hf] at h
    cases r with
    | none => rfl
    | some e => simp at h

theorem files_is_forbidden_true (files : files_t) (X : List Nat)
    (h : files_is_forbidden files X = .ok true) :
    ∃ e, hash_find files.forbid X = .ok (some e) := by
  unfold files_is_forbidden at h
  cases hf : hash_find files.forbid X with
  | error e => rw [hf] at h; simp at h
  | ok r =>
    rw [hf] at h
    cases r with
    | none => simp at h
    | some e => exact ⟨e, rfl⟩

/-- Forbidding a user who is not forbidden, then allowing him again. -/
theorem forbid_then_allow (files : files_t) (heap : List nick_t) (hinv : forbid_inv files heap)
    (ptr : Nat) (hfresh : ptr ∉ heap.map (fun n => n.addr)) (X : List Nat)
    (hnot : files_is_forbidden files X = .ok false) :
    ∃ f1 h1, files_forbid files heap ptr X = .ok (f1, h1, 0) ∧
      files_is_forbidden f1 X = .ok true ∧
      (∀ Y, Y ≠ X → files_is_forbidden f1 Y = files_is_forbidden files Y) ∧
      f1.console = files.console ∧
      ∃ f2 h2, files_allow f1 h1 X = .ok (f2, h2) ∧
        (∀ Y, files_is_forbidden f2 Y = files_is_forbidden files Y) ∧
        f2.forbid = files.forbid ∧ f2.console = files.console := by
  obtain ⟨h1, h2, h3⟩ := hinv
  have hfind := files_is_forbidden_false files X hnot
  have hklt := hash_function_lt X
  have hklen : hash_function X < files.forbid.table.length := by rw [h1]; exact hklt
  have hadded := hash_find_added files.forbid h1 X ⟨ptr, 0, ptr, X, hash_function X⟩ rfl
  have hfilter : (files.forbid.table.getD (hash_function X) []).filter
      (fun e => e.addr ≠ ptr) = files.forbid.table.getD (hash_function X) [] := by
    rw [List.filter_eq_self]
    intro e he
    obtain ⟨_, _, n, hn, g3, _⟩ := h3 (hash_function X) e he
    have : e.addr ≠ ptr := by
      intro hea
      apply hfresh
      exact List.mem_map.2 ⟨n, hn, by rw [g3, hea]⟩
    simpa using this
  refine ⟨{ files with forbid := ⟨files.forbid.table.set (hash_function X)
      (⟨ptr, 0, ptr, X, hash_function X⟩ :: files.forbid.table.getD (hash_function X) [])⟩ },
    ⟨ptr, none, files.nicks, X, ⟨ptr, 0, ptr, X, hash_function X⟩⟩ :: heap, ?_, ?_, ?_, rfl, ?_⟩
  · unfold files_forbid
    rw [hfind]
    unfold hash_add
    simp only [if_pos hklt]
  · unfold files_is_forbidden
    simp only []
    rw [hadded.1]
    rfl
  · intro Y hY
    unfold files_is_forbidden
    simp only []
    rw [hadded.2 Y hY]
  · refine ⟨{ files with nicks := files.nicks, forbid := files.forbid },
      (nick_unlink (⟨ptr, none, files.nicks, X, ⟨ptr, 0, ptr, X, hash_function X⟩⟩ :: heap)
        ⟨ptr, none, files.nicks, X, ⟨ptr, 0, ptr, X, hash_function X⟩⟩).filter
          (fun n => n.addr ≠ ptr), ?_, ?_, rfl, rfl⟩
    · unfold files_allow
      simp only []
      rw [hadded.1]
      simp only [List.find?_cons, decide_True]
      unfold hash_remove
      simp only [if_pos hklt]
      have hb := bucket_set_self files.forbid (hash_function X)
        (⟨ptr, 0, ptr, X, hash_function X⟩ :: files.forbid.table.getD (hash_function X) [])
        hklen
      unfold bucket at hb
      rw [hb, List.filter_cons_of_neg (by simp), hfilter, List.set_set,
        table_set_getD_self _ _ hklen]
    · intro Y
      rfl

theorem toOption_eq_some {α : Type} (r : Except Fault α) (a : α)
    (h : r.toOption = some a) : r = .ok a := by
  cases r with
  | error e => simp [Except.toOption] at h
  | ok b =>
    simp only [Except.toOption, Option.some.injEq] at h
    rw [h]

theorem hub_count_map (s s' : clients_t) (f : client_t → client_t)
    (hlist : s'.list = s.list.map f) (hnum : s'.number = s.number) (h : hub_count s) :
    hub_count s' := by
  unfold hub_count at *
  rw [hnum, hlist, List.length_map]
  exact h

theorem hub_count_client_update (s : clients_t) (ptr : Nat) (g : client_t → client_t)
    (h : hub_count s) : hub_count (client_update s ptr g) :=
  hub_count_map s (client_update s ptr g) (fun c => if c.ptr = ptr then g c else c) rfl rfl h

theorem hub_count_hub_put (r : bufref) (d : List Nat) (s : clients_t) (h : hub_count s) :
    hub_count (hub_put r d s) := by
  cases r with
  | console => exact hub_count_map s (hub_put .console d s) id (by simp [hub_put]) rfl h
  | client ptr => exact hub_count_client_update s ptr _ h

theorem hub_count_put_if (b : Option bufref) (d : List Nat) (s : clients_t)
    (h : hub_count s) : hub_count (put_if hub_put b d s) := by
  cases b with
  | none => exact h
  | some r => exact hub_count_hub_put r d s h

theorem hub_count_clients_send (s : clients_t) (d : List Nat) (e : Option Nat)
    (h : hub_count s) : hub_count (clients_send s d e) :=
  hub_count_map s (clients_send s d e) _ rfl rfl h

theorem hub_count_clients_disconnect (s s' : clients_t) (ptr : Nat) (h : hub_count s)
    (hd : clients_disconnect s ptr = .ok s') : hub_count s' := by
  unfold clients_disconnect at hd
  split at hd
  · exact absurd hd (by simp)
  · simp only [Except.ok.injEq] at hd
    subst hd
    exact hub_count_map s _ (fun c => if c.ptr = ptr then { c with nick_len := -1 } else c)
      (show clients_t.list _ = _ from rfl) rfl h

theorem hub_count_hub_io (s : clients_t) (console : iobuffer_t) (buffers : Nat → iobuffer_t)
    (read_fds write_fds : List Int) (h : hub_count s) :
    hub_count (hub_io s console buffers read_fds write_fds) :=
  hub_count_map s (hub_io s console buffers read_fds write_fds)
    (fun c => { c with buffer := buffers c.ptr }) rfl rfl h

theorem hub_count_p2p_params (b : bufref) : ∀ (args : List (List Nat)) (s : clients_t),
    hub_count s → hub_count (p2p_params b args s) := by
  intro args
  induction args with
  | nil => intro s h; exact h
  | cons a rest ih =>
    intro s h
    exact ih _ (hub_count_hub_put _ _ _ (hub_count_hub_put _ _ _ h))

theorem cmd_srv_who_count (ac : Int) (args : List (List Nat)) (c : bufref) (b : Option bufref)
    (d : Option Nat) (w w' : clients_t) (res : Int) (hw : hub_count w)
    (h : cmd_srv_who ac args c b d w = .ok (w', res)) : hub_count w' := by
  unfold cmd_srv_who at h
  split at h
  · exact absurd h (by simp)
  · simp only [] at h
    split at h
    · simp only [Except.ok.injEq, Prod.mk.injEq] at h
      rw [← h.1]; exact hub_count_put_if _ _ _ hw
    · split at h
      · exact absurd h (by simp)
      · simp only [Except.ok.injEq, Prod.mk.injEq] at h
        rw [← h.1]; exact hub_count_put_if _ _ _ hw

theorem cmd_srv_kill_count (ac : Int) (args : List (List Nat)) (c : bufref) (b : Option bufref)
    (d : Option Nat) (w w' : clients_t) (res : Int) (hw : hub_count w)
    (h : cmd_srv_kill ac args c b d w = .ok (w', res)) : hub_count w' := by
  unfold cmd_srv_kill at h
  split at h
  · exact absurd h (by simp)
  · split at h
    · exact absurd h (by simp)
    · simp only [Except.ok.injEq, Prod.mk.injEq] at h
      rw [← h.1]; exact hub_count_hub_put _ _ _ hw
    · split at h
      · exact absurd h (by simp)
      · simp only [] at h
        split at h
        · exact absurd h (by simp)
        · rename_i w4 hdis
          simp only [Except.ok.injEq, Prod.mk.injEq] at h
          rw [← h.1]
          exact hub_count_clients_disconnect _ _ _ (hub_count_hub_put _ _ _
            (hub_count_clients_send _ _ _ (hub_count_hub_put _ _ _ hw))) hdis

theorem cmd_srv_shutdown_count (ac : Int) (args : List (List Nat)) (c : bufref)
    (b : Option bufref) (d : Option Nat) (w w' : clients_t) (res : Int) (hw : hub_count w)
    (h : cmd_srv_shutdown ac args c b d w = .ok (w', res)) : hub_count w' := by
  unfold cmd_srv_shutdown at h
  split at h
  · exact absurd h (by simp)
  · simp only [Except.ok.injEq, Prod.mk.injEq] at h
    rw [← h.1]; exact hub_count_clients_send _ _ _ hw

theorem cmd_srv_help_count (ac : Int) (args : List (List Nat)) (c : bufref) (b : Option bufref)
    (d : Option Nat) (w w' : clients_t) (res : Int) (hw : hub_count w)
    (h : cmd_srv_help ac args c b d w = .ok (w', res)) : hub_count w' := by
  unfold cmd_srv_help at h
  split at h
  · exact absurd h (by simp)
  · split at h
    · exact absurd h (by simp)
    · simp only [Except.ok.injEq, Prod.mk.injEq] at h
      rw [← h.1]; exact hub_count_hub_put _ _ _ hw

theorem cmd_clt_connect_count (ac : Int) (args : List (List Nat)) (c : bufref)
    (b : Option bufref) (d : Option Nat) (w w' : clients_t) (res : Int) (hw : hub_count w)
    (h : cmd_clt_connect ac args c b d w = .ok (w', res)) : hub_count w' := by
  unfold cmd_clt_connect at h
  split at h
  · exact absurd h (by simp)
  · split at h
    · exact absurd h (by simp)
    · simp only [Except.ok.injEq, Prod.mk.injEq] at h
      rw [← h.1]; exact hub_count_hub_put _ _ _ hw

theorem cmd_clt_help_count (ac : Int) (args : List (List Nat)) (c : bufref) (b : Option bufref)
    (d : Option Nat) (w w' : clients_t) (res : Int) (hw : hub_count w)
    (h : cmd_clt_help ac args c b d w = .ok (w', res)) : hub_count w' := by
  unfold cmd_clt_help at h
  split at h
  · exact absurd h (by simp)
  · split at h
    · exact absurd h (by simp)
    · simp only [Except.ok.injEq, Prod.mk.injEq] at h
      rw [← h.1]; exact hub_count_hub_put _ _ _ hw

theorem cmd_clt_quit_count (ac : Int) (args : List (List Nat)) (c : bufref) (b : Option bufref)
    (d : Option Nat) (w w' : clients_t) (res : Int) (hw : hub_count w)
    (h : cmd_clt_quit ac args c b d w = .ok (w', res)) : hub_count w' := by
  unfold cmd_clt_quit at h
  split at h
  · exact absurd h (by simp)
  · split at h
    · exact absurd h (by simp)
    · split at h
      · exact absurd h (by simp)
      · simp only [] at h
        split at h
        · exact absurd h (by simp)
        · rename_i w4 hdis
          simp only [Except.ok.injEq, Prod.mk.injEq] at h
          rw [← h.1]
          exact hub_count_clients_disconnect _ _ _ (hub_count_hub_put _ _ _
            (hub_count_clients_send _ _ _ (hub_count_hub_put _ _ _ hw))) hdis

theorem p2p_refuse_count (b : Option bufref) (id : List Nat) (w w' : clients_t) (res : Int)
    (hw : hub_count w) (h : p2p_refuse b id w = .ok (w', res)) : hub_count w' := by
  unfold p2p_refuse at h
  split at h
  · exact absurd h (by simp)
  · simp only [Except.ok.injEq, Prod.mk.injEq] at h
    rw [← h.1]
    exact hub_count_hub_put _ _ _ (hub_count_hub_put _ _ _ (hub_count_hub_put _ _ _ hw))

theorem cmd_clt_p2p_count (ac : Int) (args : List (List Nat)) (c : bufref) (b : Option bufref)
    (d : Option Nat) (w w' : clients_t) (res : Int) (hw : hub_count w)
    (h : cmd_clt_p2p ac args c b d w = .ok (w', res)) : hub_count w' := by
  unfold cmd_clt_p2p at h
  split at h
  · exact absurd h (by simp)
  · split at h
    · exact absurd h (by simp)
    · exact p2p_refuse_count _ _ _ _ _ hw h
    · split at h
      · exact absurd h (by simp)
      · simp only [Except.ok.injEq, Prod.mk.injEq] at h
        rw [← h.1]
        exact hub_count_hub_put _ _ _ (hub_count_p2p_params _ _ _ (hub_count_hub_put _ _ _
          (hub_count_hub_put _ _ _ (hub_count_hub_put _ _ _ (hub_count_hub_put _ _ _ hw)))))

theorem cmd_clt_accept_count (ac : Int) (args : List (List Nat)) (c : bufref)
    (b : Option bufref) (d : Option Nat) (w w' : clients_t) (res : Int) (hw : hub_count w)
    (h : cmd_clt_accept ac args c b d w = .ok (w', res)) : hub_count w' := by
  unfold cmd_clt_accept at h
  split at h
  · exact absurd h (by simp)
  · split at h
    · exact absurd h (by simp)
    · exact p2p_refuse_count _ _ _ _ _ hw h
    · split at h
      · exact absurd h (by simp)
      · simp only [] at h
        split at h
        · simp only [Except.ok.injEq, Prod.mk.injEq] at h
          rw [← h.1]
          repeat apply hub_count_hub_put
          exact hw
        · exact absurd h (by simp)

/-- Every command of the hub, from the console or from a client, keeps the count of the
clients. -/
theorem srvcmd_exec_count (command : List Nat) (type : srvcmd_type_t) (console : bufref)
    (buffer : Option bufref) (w w' : clients_t) (client : Option Nat) (res : Int)
    (hw : hub_count w) (h : srvcmd_exec command type console buffer w client = .ok (w', res)) :
    hub_count w' := by
  unfold srvcmd_exec at h
  split at h
  · exact absurd h (by simp)
  · split at h
    · apply command_exec_preserves hub_count hub_put _ _ _ _ _ _ _ _ _
        (fun r d w hw => hub_count_hub_put r d w hw) _ hw h
      intro cmd hcmd ac args w1 w2 r hw1 hf
      simp only [server_commands, List.mem_cons, List.mem_singleton, List.not_mem_nil,
        or_false] at hcmd
      rcases hcmd with rfl | rfl | rfl | rfl
      · exact cmd_srv_help_count ac args console buffer client w1 w2 r hw1 hf
      · exact cmd_srv_kill_count ac args console buffer client w1 w2 r hw1 hf
      · exact cmd_srv_shutdown_count ac args console buffer client w1 w2 r hw1 hf
      · exact cmd_srv_who_count ac args console buffer client w1 w2 r hw1 hf
    · apply command_exec_preserves hub_count hub_put _ _ _ _ _ _ _ _ _
        (fun r d w hw => hub_count_hub_put r d w hw) _ hw h
      intro cmd hcmd ac args w1 w2 r hw1 hf
      simp only [client_commands, List.mem_cons, List.mem_singleton, List.not_mem_nil,
        or_false] at hcmd
      rcases hcmd with rfl | rfl | rfl | rfl | rfl | rfl | rfl | rfl
      · exact cmd_clt_accept_count ac args console buffer client w1 w2 r hw1 hf
      · exact cmd_clt_connect_count ac args console buffer client w1 w2 r hw1 hf
      · exact cmd_clt_help_count ac args console buffer client w1 w2 r hw1 hf
      · exact cmd_clt_quit_count ac args console buffer client w1 w2 r hw1 hf
      · exact cmd_clt_p2p_count ac args console buffer client w1 w2 r hw1 hf
      · exact cmd_clt_p2p_count ac args console buffer client w1 w2 r hw1 hf
      · exact cmd_clt_p2p_count ac args console buffer client w1 w2 r hw1 hf
      · exact cmd_srv_who_count ac args console buffer client w1 w2 r hw1 hf


theorem client_auth_command_count (ptr : Nat) (s s' : clients_t) (ac : Int)
    (args : List (List Nat)) (res : Int) (hs : hub_count s)
    (h : client_auth_command ptr s ac args = .ok (s', res)) : hub_count s' := by
  unfold client_auth_command at h
  split at h
  · exact absurd h (by simp)
  · rename_i client hl
    split at h
    · exact absurd h (by simp)
    · split at h
      · simp only [Except.ok.injEq, Prod.mk.injEq] at h
        rw [← h.1]; exact hs
      · split at h
        · simp only [Except.ok.injEq, Prod.mk.injEq] at h
          rw [← h.1]; exact hub_count_hub_put _ _ _ hs
        · simp only [] at h
          split at h
          · simp only [Except.ok.injEq, Prod.mk.injEq] at h
            rw [← h.1]; exact hub_count_hub_put _ _ _ hs
          · split at h
            · exact absurd h (by simp)
            · simp only [Except.ok.injEq, Prod.mk.injEq] at h
              rw [← h.1]; exact hub_count_hub_put _ _ _ hs
            · split at h
              · exact absurd h (by simp)
              · rename_i hash element hadd
                simp only [Except.ok.injEq, Prod.mk.injEq] at h
                rw [← h.1]
                apply hub_count_hub_put
                apply hub_count_hub_put
                apply hub_count_clients_send
                exact hub_count_client_update _ ptr _ hs

theorem client_input_line_count (ptr : Nat) (len : Int) (line : line_t) (s s' : clients_t)
    (hs : hub_count s) (h : client_input_line ptr len line s = .ok s') : hub_count s' := by
  unfold client_input_line at h
  split at h
  · exact absurd h (by simp)
  · split at h
    · split at h
      · simp only [Except.ok.injEq] at h
        rw [← h]; exact hub_count_clients_send _ _ _ hs
      · simp only [Except.ok.injEq] at h
        rw [← h]; exact hub_count_hub_put _ _ _ hs
    · simp only [] at h
      split at h
      · split at h
        · exact absurd h (by simp)
        · rename_i w r hexec
          simp only [Except.ok.injEq] at h
          rw [← h]
          exact srvcmd_exec_count _ _ _ _ _ _ _ _ hs hexec
      · split at h
        · exact absurd h (by simp)
        · rename_i ac offs command' _
          split at h
          · exact absurd h (by simp)
          · rename_i w r hauth
            have hw := client_auth_command_count _ _ _ _ _ _ hs hauth
            split at h
            · simp only [Except.ok.injEq] at h
              rw [← h]; exact hub_count_hub_put _ _ _ hw
            · simp only [Except.ok.injEq] at h
              rw [← h]; exact hw

theorem client_input_loop_count (ptr : Nat) (len : Int) : ∀ (fuel : Nat) (s s' : clients_t),
    hub_count s → client_input_loop ptr len fuel s = .ok s' → hub_count s' := by
  intro fuel
  induction fuel with
  | zero => intro s s' _ h; simp [client_input_loop] at h
  | succ fuel ih =>
    intro s s' hs h
    rw [client_input_loop] at h
    split at h
    · exact absurd h (by simp)
    · split at h
      · exact absurd h (by simp)
      · simp only [Except.ok.injEq] at h
        rw [← h]
        exact hub_count_client_update s ptr _ hs
      · split at h
        · exact absurd h (by simp)
        · rename_i w hline
          refine ih w s' (client_input_line_count _ _ _ _ _ ?_ hline) h
          exact hub_count_client_update s ptr _ hs

theorem client_input_lines_count (ptr : Nat) (s s' : clients_t) (hs : hub_count s)
    (h : client_input_lines ptr s = .ok s') : hub_count s' := by
  unfold client_input_lines at h
  split at h
  · exact absurd h (by simp)
  · exact client_input_loop_count _ _ _ _ _ hs h


theorem filter_ptr_length : ∀ (l : List client_t) (p : Nat),
    (l.map (fun c => c.ptr)).Nodup → (∃ c ∈ l, c.ptr = p) →
    (l.filter (fun c => c.ptr ≠ p)).length + 1 = l.length := by
  intro l p
  induction l with
  | nil => intro _ h; obtain ⟨c, hc, _⟩ := h; simp at hc
  | cons a l ih =>
    intro hnd hex
    rw [List.map_cons, List.nodup_cons] at hnd
    by_cases ha : a.ptr = p
    · have hall : l.filter (fun c => c.ptr ≠ p) = l := by
        rw [List.filter_eq_self]
        intro c hc
        have : c.ptr ≠ p := by
          intro hcp
          apply hnd.1
          rw [ha, ← hcp]
          exact List.mem_map_of_mem (fun c => c.ptr) hc
        simpa using this
      rw [List.filter_cons_of_neg (by simpa using ha), hall]
      rfl
    · have hex' : ∃ c ∈ l, c.ptr = p := by
        obtain ⟨c, hc, hcp⟩ := hex
        rcases List.mem_cons.1 hc with h | h
        · rw [h] at hcp; exact absurd hcp ha
        · exact ⟨c, h, hcp⟩
      rw [List.filter_cons_of_pos (by simpa using ha), List.length_cons, List.length_cons,
        ih hnd.2 hex']

theorem clients_add_count (s : clients_t) (ptr : Nat) (sock : Int) (addr : List Nat)
    (hs : hub_count s) : hub_count (clients_add s ptr sock addr) := by
  have hl : (clients_add s ptr sock addr).list = s.list ++
      [⟨ptr, iobuffer_init sock sock (some 0) (some 1) 10, none, 0, addr, addr.length,
        ⟨ptr, 0, 0, [], 0⟩⟩] := rfl
  have hn : (clients_add s ptr sock addr).number = s.number + 1 := rfl
  unfold hub_count at hs ⊢
  rw [hl, hn, hs]
  simp

theorem clients_remove_count (s s' : clients_t) (ptr : Nat) (hi : hub_inv s) (hs : hub_count s)
    (h : clients_remove s ptr = .ok s') : hub_count s' := by
  unfold clients_remove at h
  split at h
  · exact absurd h (by simp)
  · rename_i client hl
    obtain ⟨hmem, hptr⟩ := client_lookup_some s ptr client hl
    split at h
    · exact absurd h (by simp)
    · simp only [] at h
      split at h
      · exact absurd h (by simp)
      · rename_i hash' hrem
        simp only [Except.ok.injEq] at h
        rw [← h]
        generalize ht : (if client.nick_len > 0 then
            clients_send (hub_put bufref.console _ (client_update
              { s with read_fds := FD_CLR (iobuffer_get_input_fd client.buffer) s.read_fds }
              ptr (fun c => { c with buffer := iobuffer_free c.buffer }))) _ (some ptr)
          else hub_put bufref.console _ (client_update
              { s with read_fds := FD_CLR (iobuffer_get_input_fd client.buffer) s.read_fds }
              ptr (fun c => { c with buffer := iobuffer_free c.buffer }))) = t at hrem ⊢
        have hview : t.number = s.number ∧
            t.list.map (fun c => c.ptr) = s.list.map (fun c => c.ptr) := by
          have hv0 : (client_update
              { s with read_fds := FD_CLR (iobuffer_get_input_fd client.buffer) s.read_fds }
              ptr (fun c => { c with buffer := iobuffer_free c.buffer })).list.map
                (fun c => c.ptr) = s.list.map (fun c => c.ptr) := by
            simp only [client_update, List.map_map]
            apply List.map_congr_left
            intro c _
            by_cases hcp : c.ptr = ptr <;> simp [hcp]
          rw [← ht]
          split
          · refine ⟨rfl, ?_⟩
            rw [← hv0]
            simp only [clients_send, hub_put, List.map_map]
            apply List.map_congr_left
            intro c _
            simp only [Function.comp]
            split <;> rfl
          · refine ⟨rfl, ?_⟩
            rw [← hv0]
            rfl
        obtain ⟨htn, htv⟩ := hview
        have hnd : (t.list.map (fun c => c.ptr)).Nodup := by rw [htv]; exact hi.2.1
        have hex : ∃ c ∈ t.list, c.ptr = ptr := by
          have hm : ptr ∈ t.list.map (fun c => c.ptr) := by
            rw [htv, ← hptr]; exact List.mem_map_of_mem (fun c => c.ptr) hmem
          obtain ⟨c, hc, heq⟩ := List.mem_map.1 hm
          exact ⟨c, hc, heq⟩
        have hlen := filter_ptr_length t.list ptr hnd hex
        have hlen2 : t.list.length = s.list.length := by
          have := congrArg List.length htv
          simpa using this
        unfold hub_count at hs ⊢
        show t.number - 1 = ((t.list.filter (fun c => decide (c.ptr ≠ ptr))).length : Int)
        rw [htn, hs]
        omega

/-- In every state of the hub `number` is the length of the client list. -/
theorem hub_reachable_count (s : clients_t) (h : hub_reachable s) : hub_count s := by
  induction h with
  | init console srv_sock => rfl
  | add s ptr sock addr _ hfresh ih => exact clients_add_count s ptr sock addr ih
  | io s console buffers read_fds write_fds _ ih =>
    exact hub_count_hub_io s console buffers read_fds write_fds ih
  | input s s' client _ _ _ hstep ih => exact client_input_lines_count _ s s' ih hstep
  | console_command s s' command res _ hstep ih =>
    exact srvcmd_exec_count _ _ _ _ _ _ _ _ ih hstep
  | console_message s data _ ih => exact hub_count_clients_send s data none ih
  | remove s s' ptr hprev hstep ih =>
    exact clients_remove_count s s' ptr (hub_reachable_inv s hprev) ih hstep

theorem client_lookup_map (s s' : clients_t) (f : client_t → client_t)
    (hf : ∀ c, (f c).ptr = c.ptr) (hlist : s'.list = s.list.map f) (p : Nat) :
    client_lookup s' p = (client_lookup s p).map f := by
  unfold client_lookup
  rw [hlist, List.find?_map]
  congr 1
  have : ((fun c => decide (c.ptr = p)) ∘ f) = (fun c : client_t => decide (c.ptr = p)) := by
    funext c
    simp [Function.comp, hf]
  rw [this]

theorem snprintf_exact (s : List Nat) :
    (snprintf (List.replicate (s.length + 1) 0) (s.length + 1) s).take (s.length + 1) =
      s ++ [0] := by
  unfold snprintf
  rw [if_neg (by omega)]
  simp [memcpy]

/-- The value of `/quit` sent by an authenticated client, on the client list: the sender is
marked as draining and receives the farewell, every other client with `nick_len > 0` receives
the announcement with the byte after it, and the other clients are unchanged. -/
theorem cmd_clt_quit_spec (s : clients_t) (ptr : Nat) (c : client_t)
    (hlook : client_lookup s ptr = some c) (N : List Nat) (hN : c.nick = some N)
    (hlen : c.nick_len = (N.length : Int)) (args : List (List Nat)) (buffer : bufref) :
    ∃ s2, cmd_clt_quit 1 args .console (some buffer) (some ptr) s = .ok (s2, 0) ∧
      s2.hash = s.hash ∧ s2.number = s.number ∧
      s2.list = s.list.map (fun c' =>
        if c'.ptr = ptr then
          { c' with nick_len := -1,
                    buffer := iobuffer_put_data c'.buffer (bytes "** Goodbye!\n") }
        else if c'.nick_len > 0 then
          { c' with
            buffer := iobuffer_put_data c'.buffer
              (bytes "** " ++ N ++ bytes " has left server.\n" ++ [0]) }
        else c') := by
  have hl : (c.nick_len + 22).toNat =
      (bytes "** " ++ N ++ bytes " has left server.\n").length + 1 := by
    rw [hlen]
    simp [bytes]
    omega
  have hstr := snprintf_exact (bytes "** " ++ N ++ bytes " has left server.\n")
  unfold cmd_clt_quit
  simp only [hlook, hN, Option.getD_some, hl, hstr]
  generalize List.take _ (List.drop 3 _) = cdata
  rw [if_neg (by simp)]
  have hlist : (hub_put .console cdata (clients_send
      (hub_put (.client ptr) (bytes "** Goodbye!\n") s)
      (bytes "** " ++ N ++ bytes " has left server.\n" ++ [0]) (some ptr))).list =
      s.list.map (fun c' =>
        if c'.ptr = ptr then
          { c' with buffer := iobuffer_put_data c'.buffer (bytes "** Goodbye!\n") }
        else if c'.nick_len > 0 then
          { c' with
            buffer := iobuffer_put_data c'.buffer
              (bytes "** " ++ N ++ bytes " has left server.\n" ++ [0]) }
        else c') := by
    simp only [hub_put, clients_send, client_update, List.map_map]
    apply List.map_congr_left
    intro c' _
    by_cases hcp : c'.ptr = ptr
    · simp [hcp]
    · by_cases hpos : c'.nick_len > 0 <;> simp [hcp, hpos]
  have hlook3 := client_lookup_map s _ _ (by intro c'; split <;> [rfl; (split <;> rfl)]) hlist ptr
  rw [hlook] at hlook3
  unfold clients_disconnect
  rw [hlook3]
  refine ⟨_, rfl, rfl, rfl, ?_⟩
  simp only [client_update, Option.map_some']
  rw [hlist, List.map_map]
  apply List.map_congr_left
  intro c' _
  by_cases hcp : c'.ptr = ptr
  · simp [hcp]
  · by_cases hpos : c'.nick_len > 0 <;> simp [hcp, hpos]

/-- The value of an accepted `/connect N` on the client list: the sender holds `N` and the
new element and receives the greeting, every other client with `nick_len > 0` receives the
announcement, and the other clients are unchanged. -/
theorem client_auth_command_list (s : clients_t) (hinv : hub_inv s) (hfl : hub_fields s)
    (client : client_t) (hc : client ∈ s.list) (hn : client.nick = none)
    (hl : client.nick_len = 0) (N : List Nat) (hne : N ≠ []) (h58 : 58 ∉ N)
    (hfree : N ∉ index_nicks s) :
    ∃ s1, client_auth_command client.ptr s 2 [bytes "connect", N] = .ok (s1, 0) ∧
      s1.hash = ⟨s.hash.table.set (hash_function N)
        (⟨client.ptr, 0, client.ptr, N, hash_function N⟩ ::
          s.hash.table.getD (hash_function N) [])⟩ ∧
      s1.number = s.number ∧
      s1.list = s.list.map (fun c' =>
        if c'.ptr = client.ptr then
          { c' with nick := some N, nick_len := (N.length : Int),
                    hash_elm := ⟨client.ptr, 0, client.ptr, N, hash_function N⟩,
                    buffer := iobuffer_put_data c'.buffer (bytes "** Hello, " ++ N ++ bytes "!\n") }
        else if c'.nick_len > 0 then
          { c' with
            buffer := iobuffer_put_data c'.buffer (bytes "** " ++ N ++ bytes " connected.\n") }
        else c') := by
  refine ⟨_, client_auth_command_ok s hinv hfl client hc hn hl [bytes "connect", N] rfl N rfl
    hne h58 hfree, rfl, rfl, ?_⟩
  simp only [hub_put, clients_send, client_set_nick, client_update, List.map_map]
  apply List.map_congr_left
  intro c' _
  by_cases hcp : c'.ptr = client.ptr
  · simp [hcp]
  · by_cases hpos : c'.nick_len > 0 <;> simp [hcp, hpos]

/-- The value of `clients_remove` on a client that holds a nickname and has no positive
`nick_len` (a draining client): no announcement is sent to the other clients, the element of the
client leaves the list of its key and the client leaves the list. -/
theorem clients_remove_draining (s : clients_t) (hnum : s.number ≠ 0) (ptr : Nat)
    (c : client_t) (hlook : client_lookup s ptr = some c) (N : List Nat) (hN : c.nick = some N)
    (hlen : ¬ c.nick_len > 0) (hkey : c.hash_elm.key < HASH_SIZE) :
    ∃ s3, clients_remove s ptr = .ok s3 ∧
      s3.hash = ⟨s.hash.table.set c.hash_elm.key
        ((s.hash.table.getD c.hash_elm.key []).filter (fun e => e.addr ≠ c.hash_elm.addr))⟩ ∧
      s3.number = s.number - 1 ∧
      s3.list = s.list.filter (fun c' => c'.ptr ≠ ptr) := by
  unfold clients_remove
  simp only [hlook, if_neg hnum, hN, if_neg hlen]
  unfold hash_remove
  simp only [if_pos hkey]
  refine ⟨_, rfl, rfl, rfl, ?_⟩
  simp only [hub_put, client_update, List.filter_map]
  have hf : ((fun (c' : client_t) => decide (c'.ptr ≠ ptr)) ∘ fun c' =>
      if c'.ptr = ptr then { c' with buffer := iobuffer_free c'.buffer } else c') =
      (fun c' => decide (c'.ptr ≠ ptr)) := by
    funext c'
    simp only [Function.comp]
    split <;> rfl
  rw [hf]
  conv_rhs => rw [← List.map_id (List.filter (fun c' => decide (c'.ptr ≠ ptr)) s.list)]
  apply List.map_congr_left
  intro c' hc'
  have := (List.mem_filter.1 hc').2
  simp only [ne_eq, decide_not, Bool.not_eq_eq_eq_not, Bool.not_true,
    decide_eq_false_iff_not] at this
  simp [this]

/-- Taking the element of a client without nickname out of the list where it was put in front
gives the table as it was. -/
theorem hash_table_add_remove (s : clients_t) (hinv : hub_inv s) (p : client_t)
    (hp : p ∈ s.list) (hn : p.nick = none) (k : Nat) (hk : k < HASH_SIZE)
    (el : hash_element_t) (hel : el.addr = p.ptr) :
    (⟨(s.hash.table.set k (el :: s.hash.table.getD k [])).set k
      (((s.hash.table.set k (el :: s.hash.table.getD k [])).getD k []).filter
        (fun e => e.addr ≠ el.addr))⟩ : hash_t) = s.hash := by
  have hklt : k < s.hash.table.length := by rw [hinv.1]; exact hk
  have hget : (s.hash.table.set k (el :: s.hash.table.getD k [])).getD k [] =
      el :: s.hash.table.getD k [] := by
    simp [List.getD_eq_getElem?_getD, hklt]
  have hold : (s.hash.table.getD k []).filter (fun e => e.addr ≠ el.addr) =
      s.hash.table.getD k [] := by
    rw [List.filter_eq_self]
    intro e he
    have hne : e.addr ≠ el.addr := by
      intro heq
      obtain ⟨_, _, _, _, _, c, hc, hcp, hcn, _⟩ := hinv.2.2.2.2.1 k e he
      have := client_ptr_inj s hinv.2.1 c p hc hp (by rw [hcp, heq, hel])
      rw [this, hn] at hcn
      exact absurd hcn (by simp)
    simpa using hne
  rw [hget, List.filter_cons_of_neg (by simp), hold, List.set_set, table_set_getD_self _ _ hklt]

/-- C28 (amended): in every reachable hub state, for a client `p` without nickname
(`nick_len = 0`) and a non-empty nickname `X` without colon that is not in the index,
`/connect X` (`client_auth_command`) and then `/quit` (`cmd_clt_quit`) of `p` both return 0 and
`clients_remove` of `p` succeeds. After `/quit` the clients with `nick_len > 0` are those of
before the `/connect`, `p` is draining (`nick_len = -1`) and still holds `X`, `X` is still found
through the index and bound to `p`, and every other name is found as before; the queue of every
other client with `nick_len > 0` has gained the connect announcement and, after it, bytes that
begin with the announcement that `X` has left, and every other client without positive
`nick_len` is unchanged. After `clients_remove` of `p` the hash table is the one of before the
`/connect` and `p` is out of the client list. -/
theorem connect_quit_registry (s : clients_t) (hs : hub_reachable s) (p : client_t)
    (hp : p ∈ s.list) (hn : p.nick = none) (hl : p.nick_len = 0)
    (hwf : ∀ c ∈ s.list, dbuffer_wf c.buffer.output) (X : List Nat) (hne : X ≠ [])
    (h58 : 58 ∉ X) (hfree : X ∉ index_nicks s) :
    ∃ s1 s2 s3,
      client_auth_command p.ptr s 2 [bytes "connect", X] = .ok (s1, 0) ∧
      cmd_clt_quit 1 [bytes "quit"] .console (some (.client p.ptr)) (some p.ptr) s1 =
        .ok (s2, 0) ∧
      clients_remove s2 p.ptr = .ok s3 ∧
      List.Forall₂ (fun c c2 =>
          c2.ptr = c.ptr ∧ (c2.nick_len > 0 ↔ c.nick_len > 0) ∧
          (c.ptr = p.ptr → c2.nick = some X ∧ c2.nick_len = -1) ∧
          (c.ptr ≠ p.ptr → c2.nick = c.nick ∧ c2.nick_len = c.nick_len ∧
            (c.nick_len > 0 → ∃ tail, dbuffer_contents c2.buffer.output =
              dbuffer_contents c.buffer.output ++ (bytes "** " ++ X ++ bytes " connected.\n") ++
                (bytes "** " ++ X ++ bytes " has left server.\n") ++ tail) ∧
            (¬ c.nick_len > 0 → c2 = c)))
        s.list s2.list ∧
      clients_get_client_from_name s2 X = .ok (some p.ptr) ∧
      (∀ M, M ≠ X → clients_get_client_from_name s2 M = clients_get_client_from_name s M) ∧
      s3.hash = s.hash ∧ index_nicks s3 = index_nicks s ∧
      s3.list = s2.list.filter (fun c => c.ptr ≠ p.ptr) := by
  have hinv := hub_reachable_inv s hs
  have hfl := hub_reachable_fields s hs
  have hcount := hub_reachable_count s hs
  obtain ⟨s1, h1, h1h, h1n, h1l⟩ :=
    client_auth_command_list s hinv hfl p hp hn hl X hne h58 hfree
  -- the client after the `/connect`
  have hlook1 := client_lookup_map s s1 _
    (by intro c'; split <;> [rfl; (split <;> rfl)]) h1l p.ptr
  rw [client_lookup_mem s hinv p hp, Option.map_some', if_pos rfl] at hlook1
  obtain ⟨s2, h2, h2h, h2n, h2l⟩ := cmd_clt_quit_spec s1 p.ptr _ hlook1 X rfl rfl [bytes "quit"]
    (.client p.ptr)
  -- the client after the `/quit`
  have hlook2 := client_lookup_map s1 s2 _
    (by intro c'; split <;> [rfl; (split <;> rfl)]) h2l p.ptr
  rw [hlook1, Option.map_some', if_pos rfl] at hlook2
  have hnum : s2.number ≠ 0 := by
    rw [h2n, h1n, hcount]
    have := List.length_pos_of_mem hp
    omega
  obtain ⟨s3, h3, h3h, _, h3l⟩ := clients_remove_draining s2 hnum p.ptr _ hlook2 X rfl
    (by show ¬ ((-1 : Int) > 0); decide)
    (hash_function_lt X)
  have hfind := hash_find_added s.hash hinv.1 X ⟨p.ptr, 0, p.ptr, X, hash_function X⟩ rfl
  have hhash3 : s3.hash = s.hash := by
    rw [h3h, h2h, h1h]
    exact hash_table_add_remove s hinv p hp hn (hash_function X) (hash_function_lt X)
      ⟨p.ptr, 0, p.ptr, X, hash_function X⟩ rfl
  refine ⟨s1, s2, s3, h1, h2, h3, ?_, ?_, ?_, hhash3, ?_, h3l⟩
  · rw [h2l, h1l, List.map_map, List.forall₂_map_right_iff, List.forall₂_same]
    intro c hc
    have hw := hwf c hc
    by_cases hcp : c.ptr = p.ptr
    · have hcl : c.nick_len = 0 := by
        rw [client_ptr_inj s hinv.2.1 c p hc hp hcp]; exact hl
      simp [hcp, hcl]
    · by_cases hpos : c.nick_len > 0
      · have hA := iobuffer_put_data_spec c.buffer (bytes "** " ++ X ++ bytes " connected.\n") hw
        have hB := iobuffer_put_data_spec
          (iobuffer_put_data c.buffer (bytes "** " ++ X ++ bytes " connected.\n"))
          (bytes "** " ++ X ++ bytes " has left server.\n" ++ [0]) hA.2.1
        simp only [Function.comp, if_neg hcp, if_pos hpos]
        refine ⟨trivial, trivial, fun h => absurd h hcp, fun _ => ⟨trivial, trivial, ?_, ?_⟩⟩
        · intro _
          refine ⟨[0], ?_⟩
          rw [hB.2.2, hA.2.2]
          simp only [List.append_assoc]
        · intro h; exact absurd hpos h
      · simp [hcp, hpos]
  · unfold clients_get_client_from_name
    rw [h2h, h1h, hfind.1]
  · intro M hM
    unfold clients_get_client_from_name
    rw [h2h, h1h, hfind.2 M hM]
  · unfold index_nicks
    rw [hhash3]

/-- Witness for C28: in the hub where client 100 is authenticated as `bob`, client 200 sends
`/connect alice` and then `/quit`, and is removed. -/
theorem connect_quit_registry_witness :
    hub_reachable hub_bob ∧ bytes "alice" ∉ index_nicks hub_bob ∧
    ∃ s1 s2 s3,
      client_auth_command 200 hub_bob 2 [bytes "connect", bytes "alice"] = .ok (s1, 0) ∧
      cmd_clt_quit 1 [bytes "quit"] .console (some (.client 200)) (some 200) s1 =
        .ok (s2, 0) ∧
      clients_remove s2 200 = .ok s3 ∧
      List.Forall₂ (fun c c2 =>
          c2.ptr = c.ptr ∧ (c2.nick_len > 0 ↔ c.nick_len > 0) ∧
          (c.ptr = 200 → c2.nick = some (bytes "alice") ∧ c2.nick_len = -1) ∧
          (c.ptr ≠ 200 → c2.nick = c.nick ∧ c2.nick_len = c.nick_len ∧
            (c.nick_len > 0 → ∃ tail, dbuffer_contents c2.buffer.output =
              dbuffer_contents c.buffer.output ++
                (bytes "** " ++ bytes "alice" ++ bytes " connected.\n") ++
                (bytes "** " ++ bytes "alice" ++ bytes " has left server.\n") ++ tail) ∧
            (¬ c.nick_len > 0 → c2 = c)))
        hub_bob.list s2.list ∧
      clients_get_client_from_name s2 (bytes "alice") = .ok (some 200) ∧
      (∀ M, M ≠ bytes "alice" →
        clients_get_client_from_name s2 M = clients_get_client_from_name hub_bob M) ∧
      s3.hash = hub_bob.hash ∧ index_nicks s3 = index_nicks hub_bob ∧
      s3.list = s2.list.filter (fun c => c.ptr ≠ 200) := by
  obtain ⟨c, hc, hp, hn, hl⟩ : ∃ c ∈ hub_bob.list, c.ptr = 200 ∧ c.nick = none ∧
      c.nick_len = 0 := by decide!
  have hidx : bytes "alice" ∉ index_nicks hub_bob := by decide!
  have hwf : ∀ c ∈ hub_bob.list, dbuffer_wf c.buffer.output := by decide!
  have h := connect_quit_registry hub_bob hub_bob_reachable c hc hn hl hwf (bytes "alice")
    (by decide) (by decide) hidx
  rw [hp] at h
  exact ⟨hub_bob_reachable, hidx, h⟩

/-- Counterexample to C28 as stated: in the hub with two fresh clients the index is empty and
`bob` is free; after `/connect bob` and `/quit` of client 100 the index holds `bob`, which is
still found and bound to client 100. -/
theorem connect_quit_index_kept :
    hub_reachable hub_two ∧ index_nicks hub_two = [] ∧
    hub_two.list.map (fun c => (c.ptr, c.nick, c.nick_len)) = [(100, none, 0), (200, none, 0)] ∧
    ((client_auth_command 100 hub_two 2 [bytes "connect", bytes "bob"]).toOption.bind
      (fun r => ((cmd_clt_quit 1 [bytes "quit"] .console (some (.client 100)) (some 100)
        r.1).toOption.map (fun q => (r.2, q.2, index_nicks q.1))))) =
      some (0, 0, [bytes "bob"]) ∧
    ((client_auth_command 100 hub_two 2 [bytes "connect", bytes "bob"]).toOption.bind
      (fun r => ((cmd_clt_quit 1 [bytes "quit"] .console (some (.client 100)) (some 100)
        r.1).toOption.bind
          (fun q => (clients_get_client_from_name q.1 (bytes "bob")).toOption)))) =
      some (some 100) ∧
    ((client_auth_command 100 hub_two 2 [bytes "connect", bytes "bob"]).toOption.bind
      (fun r => ((cmd_clt_quit 1 [bytes "quit"] .console (some (.client 100)) (some 100)
        r.1).toOption.map (fun q => q.1.list.map (fun c => (c.ptr, c.nick_len)))))) =
      some [(100, -1), (200, 0)] ∧
    index_nicks hub_bob_quit = [bytes "bob"] ∧
    index_nicks hub_bob_quit ≠ index_nicks hub_two := by
  refine ⟨hub_two_reachable, by decide!, by decide!, by decide!, by decide!, by decide!,
    by decide!, by decide!⟩

theorem console_commands_sorted (host : host_t) :
    (console_commands host).Pairwise (fun a b => strcmp a.name b.name < 0) := by
  simp only [console_commands, List.pairwise_cons, List.mem_cons, List.mem_singleton,
    List.not_mem_nil, forall_eq_or_imp, forall_eq, IsEmpty.forall_iff, implies_true,
    List.Pairwise.nil, and_true]
  decide

/-- C34: each of the four command tables (`server_commands` and `client_commands` of the hub,
`console_commands` and `server_commands` of the participant) is strictly increasing in `strcmp`
order of its names, and for every entry of every table `command_find` applied to the name of
that entry with that table returns that entry. -/
theorem command_tables_sorted (host : host_t) :
    (server_commands.Pairwise (fun a b => strcmp a.name b.name < 0) ∧
     client_commands.Pairwise (fun a b => strcmp a.name b.name < 0) ∧
     (console_commands host).Pairwise (fun a b => strcmp a.name b.name < 0) ∧
     (cltcmd_server_commands host).Pairwise (fun a b => strcmp a.name b.name < 0)) ∧
    (∀ (k : Nat) (hk : k < server_commands.length),
      command_find server_commands[k].name server_commands server_commands.length =
        .ok (some k)) ∧
    (∀ (k : Nat) (hk : k < client_commands.length),
      command_find client_commands[k].name client_commands client_commands.length =
        .ok (some k)) ∧
    (∀ (k : Nat) (hk : k < (console_commands host).length),
      command_find (console_commands host)[k].name (console_commands host)
        (console_commands host).length = .ok (some k)) ∧
    (∀ (k : Nat) (hk : k < (cltcmd_server_commands host).length),
      command_find (cltcmd_server_commands host)[k].name (cltcmd_server_commands host)
        (cltcmd_server_commands host).length = .ok (some k)) := by
  have h1 : server_commands.Pairwise (fun a b => strcmp a.name b.name < 0) := by decide
  have h2 := client_commands_sorted
  have h3 := console_commands_sorted host
  have h4 := cltcmd_server_commands_sorted host
  refine ⟨⟨h1, h2, h3, h4⟩, ?_, ?_, ?_, ?_⟩
  · intro k hk
    exact (command_find_spec _ server_commands (List.cons_ne_nil _ _) h1).1 k hk rfl
  · intro k hk
    exact (command_find_spec _ client_commands (List.cons_ne_nil _ _) h2).1 k hk rfl
  · intro k hk
    exact (command_find_spec _ (console_commands host) (List.cons_ne_nil _ _) h3).1 k hk rfl
  · intro k hk
    exact (command_find_spec _ (cltcmd_server_commands host) (List.cons_ne_nil _ _) h4).1 k hk
      rfl

/-- Witness for C34: one entry of each table, found at its index. -/
theorem command_tables_sorted_witness :
    command_find (bytes "kill") server_commands server_commands.length = .ok (some 1) ∧
    command_find (bytes "quit") client_commands client_commands.length = .ok (some 3) ∧
    command_find (bytes "mode") (console_commands host_fresh)
      (console_commands host_fresh).length = .ok (some 4) ∧
    command_find (bytes "send") (cltcmd_server_commands host_fresh)
      (cltcmd_server_commands host_fresh).length = .ok (some 3) :=
  ⟨(command_tables_sorted host_fresh).2.1 1 (by decide),
   (command_tables_sorted host_fresh).2.2.1 3 (by decide),
   (command_tables_sorted host_fresh).2.2.2.1 4 (by decide),
   (command_tables_sorted host_fresh).2.2.2.2 3 (by decide)⟩

/-- On any table, sorted or not, the loop of `command_find` reads the table inside its bounds
and ends: from an interval `start .. end` with `0 ≤ start ≤ end + 1 ≤ count` (empty when
`start = end + 1`) and `pos` its middle, `end - start + 1` iterations are enough. -/
theorem find_loop_total {W R D : Type} (command : List Nat) (commands : List (command_t W R D))
    (hne : commands ≠ []) :
    ∀ (fuel : Nat) (start end_ : Int), 0 ≤ start → end_ < commands.length →
    start ≤ end_ + 1 → (end_ - start).toNat + 1 ≤ fuel →
    ∃ r, find_loop command commands fuel start end_ ((start + end_).tdiv 2) = .ok r ∧
      ∀ k, r = some k → k < commands.length := by
  intro fuel
  induction fuel with
  | zero => intro start end_ _ _ _ hf; omega
  | succ fuel ih =>
    intro start end_ h0 he hse hf
    have hlen : 0 < commands.length := List.length_pos.2 hne
    obtain ⟨hmid, hp0, hpe, hpeq⟩ := tdiv_two_mid start end_ h0 hse
    generalize hpos : (start + end_).tdiv 2 = pos at hmid hp0 hpe hpeq ⊢
    have hplt : pos.toNat < commands.length := by omega
    have hunf : find_loop command commands (fuel + 1) start end_ pos =
        if strcmp command commands[pos.toNat].name ≠ 0 ∧ start < end_ then
          if strcmp command commands[pos.toNat].name < 0 then
            find_loop command commands fuel start (pos - 1) ((start + (pos - 1)).tdiv 2)
          else find_loop command commands fuel (pos + 1) end_ ((pos + 1 + end_).tdiv 2)
        else if strcmp command commands[pos.toNat].name = 0 then .ok (some pos.toNat)
        else .ok none := by
      rw [find_loop, if_neg (by omega), List.getElem?_eq_getElem hplt]
    rw [hunf]
    by_cases hcont : strcmp command commands[pos.toNat].name ≠ 0 ∧ start < end_
    · rw [if_pos hcont]
      obtain ⟨_, hlt⟩ := hcont
      obtain ⟨hm1, hm2⟩ := hmid (by omega)
      by_cases hneg : strcmp command commands[pos.toNat].name < 0
      · rw [if_pos hneg]
        exact ih start (pos - 1) h0 (by omega) (by omega) (by omega)
      · rw [if_neg hneg]
        exact ih (pos + 1) end_ (by omega) he (by omega) (by omega)
    · rw [if_neg hcont]
      by_cases hz : strcmp command commands[pos.toNat].name = 0
      · rw [if_pos hz]
        refine ⟨_, rfl, ?_⟩
        intro k hk
        simp only [Option.some.injEq] at hk
        omega
      · rw [if_neg hz]
        exact ⟨_, rfl, fun k hk => absurd hk (by simp)⟩

/-- C39: for every command table with `count ≥ 1` entries, in any order, and every searched
string, `command_find` ends with a result (the iterations allowed are enough) and never reads
the table outside `0 .. count - 1` (a read outside is a bounds fault of the embedding); an
entry returned lies in the table. The same holds when the loop is entered with an empty
interval (`end = start - 1`, with `0 ≤ start ≤ count`) and `pos` computed from it: the one
read made is inside the table. -/
theorem command_find_in_bounds {W R D : Type} (command : List Nat)
    (commands : List (command_t W R D)) (hne : commands ≠ []) :
    (∃ r, command_find command commands commands.length = .ok r ∧
      ∀ k, r = some k → k < commands.length) ∧
    (∀ (start : Int) (fuel : Nat), 0 ≤ start → start ≤ commands.length →
      ∃ r, find_loop command commands (fuel + 1) start (start - 1)
          ((start + (start - 1)).tdiv 2) = .ok r ∧
        ∀ k, r = some k → k < commands.length) := by
  have hlen : 0 < commands.length := List.length_pos.2 hne
  constructor
  · have h := find_loop_total command commands hne ((commands.length : Int).toNat + 1) 0
      (commands.length - 1) (by omega) (by omega) (by omega) (by omega)
    rw [Int.zero_add] at h
    exact h
  · intro start fuel h0 h1
    exact find_loop_total command commands hne (fuel + 1) start (start - 1) h0 (by omega)
      (by omega) (by omega)

/-- Witness for C39: the console table of the hub and a string that is in no entry. -/
theorem command_find_in_bounds_witness :
    server_commands ≠ [] ∧
    ∃ r, command_find (bytes "zzz") server_commands server_commands.length = .ok r ∧
      ∀ k, r = some k → k < server_commands.length :=
  ⟨List.cons_ne_nil _ _,
   (command_find_in_bounds (bytes "zzz") server_commands (List.cons_ne_nil _ _)).1⟩

theorem hash_init_wf : hash_wf hash_init := by
  refine ⟨by simp [hash_init], ?_, ?_⟩
  · intro k e he
    have : bucket hash_init k = [] := by
      unfold bucket hash_init
      simp only [List.getD_eq_getElem?_getD]
      by_cases hk : k < HASH_SIZE
      · simp [List.getElem?_replicate, hk]
      · simp [List.getElem?_replicate, hk]
    rw [this] at he
    simp at he
  · intro k
    have : bucket hash_init k = [] := by
      unfold bucket hash_init
      simp only [List.getD_eq_getElem?_getD]
      by_cases hk : k < HASH_SIZE
      · simp [List.getElem?_replicate, hk]
      · simp [List.getElem?_replicate, hk]
    rw [this]
    simp

theorem hash_add_wf (hash hash' : hash_t) (str : List Nat) (object addr : Nat)
    (element : hash_element_t) (hw : hash_wf hash)
    (hfresh : ∀ k, ∀ e ∈ bucket hash k, e.addr ≠ addr)
    (h : hash_add hash str object addr = .ok (hash', element)) : hash_wf hash' := by
  obtain ⟨h1, h2, h3⟩ := hw
  unfold hash_add at h
  simp only [if_pos (hash_function_lt str), Except.ok.injEq, Prod.mk.injEq] at h
  obtain ⟨hh, _⟩ := h
  subst hh
  have hklt : hash_function str < hash.table.length := by rw [h1]; exact hash_function_lt str
  refine ⟨by simp [h1], ?_, ?_⟩
  · intro k e he
    by_cases hk : hash_function str = k
    · subst hk
      rw [bucket_set_self hash _ _ hklt] at he
      rcases List.mem_cons.1 he with h | h
      · rw [h]; exact ⟨rfl, rfl⟩
      · exact h2 _ e h
    · rw [bucket_set_other hash _ _ _ hk] at he
      exact h2 k e he
  · intro k
    by_cases hk : hash_function str = k
    · subst hk
      rw [bucket_set_self hash _ _ hklt, List.map_cons, List.nodup_cons]
      refine ⟨?_, h3 _⟩
      intro hmem
      obtain ⟨e, he, hea⟩ := List.mem_map.1 hmem
      exact hfresh _ e he hea
    · rw [bucket_set_other hash _ _ _ hk]
      exact h3 k

theorem hash_remove_wf (hash hash' : hash_t) (element : hash_element_t) (hw : hash_wf hash)
    (h : hash_remove hash element = .ok hash') : hash_wf hash' := by
  obtain ⟨h1, h2, h3⟩ := hw
  unfold hash_remove at h
  split at h
  · rename_i hkey
    simp only [Except.ok.injEq] at h
    subst h
    have hklt : element.key < hash.table.length := by rw [h1]; exact hkey
    refine ⟨by simp [h1], ?_, ?_⟩
    · intro k e he
      by_cases hk : element.key = k
      · subst hk
        rw [bucket_set_self hash _ _ hklt] at he
        exact h2 _ e (List.mem_filter.1 he).1
      · rw [bucket_set_other hash _ _ _ hk] at he
        exact h2 k e he
    · intro k
      by_cases hk : element.key = k
      · subst hk
        rw [bucket_set_self hash _ _ hklt]
        exact (h3 _).sublist ((List.filter_sublist _).map _)
      · rw [bucket_set_other hash _ _ _ hk]
        exact h3 k
  · exact absurd h (by simp)

/-- Every hash table of the program is well-formed. -/
theorem hash_reachable_wf (hash : hash_t) (h : hash_reachable hash) : hash_wf hash := by
  induction h with
  | init => exact hash_init_wf
  | add hash hash' str object addr element _ hfresh hadd ih =>
    exact hash_add_wf hash hash' str object addr element ih hfresh hadd
  | remove hash hash' element _ _ hrem ih => exact hash_remove_wf hash hash' element ih hrem

/-- Elements taken out of a list do not change what `hash_find` finds for a string that none
of them holds. -/
theorem hash_find_loop_filter (t : List Nat) (a : Nat) : ∀ (l : List hash_element_t),
    (∀ x ∈ l, x.addr = a → x.str ≠ t) →
    hash_find_loop t (l.filter (fun e => e.addr ≠ a)) = hash_find_loop t l := by
  intro l
  induction l with
  | nil => intro _; rfl
  | cons x rest ih =>
    intro h
    have ihr := ih (fun y hy => h y (List.mem_cons_of_mem _ hy))
    by_cases hx : x.addr = a
    · have hs := h x (List.mem_cons_self _ _) hx
      rw [List.filter_cons_of_neg (by simpa using hx), ihr]
      conv_rhs => rw [hash_find_loop]
      rw [if_neg (fun hc => hs ((strcmp_eq_zero _ _).1 hc).symm)]
    · rw [List.filter_cons_of_pos (by simpa using hx)]
      rw [hash_find_loop, ihr]
      conv_rhs => rw [hash_find_loop]

/-- What `hash_find` finds after `hash_remove` of the only element that holds its string. -/
theorem hash_find_removed (hash : hash_t) (hw : hash_wf hash) (e : hash_element_t)
    (he : e ∈ bucket hash e.key)
    (honly : ∀ k, ∀ x ∈ bucket hash k, x.str = e.str → x = e) :
    ∃ hash', hash_remove hash e = .ok hash' ∧ hash_find hash' e.str = .ok none ∧
      ∀ t, t ≠ e.str → hash_find hash' t = hash_find hash t := by
  obtain ⟨h1, h2, h3⟩ := hw
  have hkey := (h2 _ e he).2
  have hlt : e.key < HASH_SIZE := by rw [← hkey]; exact hash_function_lt _
  have hklt : e.key < hash.table.length := by rw [h1]; exact hlt
  unfold hash_remove
  rw [if_pos hlt]
  refine ⟨_, rfl, ?_, ?_⟩
  · unfold hash_find
    simp only [if_pos (hash_function_lt e.str)]
    have hb := bucket_set_self hash e.key
      ((hash.table.getD e.key []).filter (fun x => x.addr ≠ e.addr)) hklt
    unfold bucket at hb
    rw [hkey, hb]
    congr 1
    rw [hash_find_loop_none]
    intro x hx hxs
    obtain ⟨hx1, hx2⟩ := List.mem_filter.1 hx
    have := honly e.key x hx1 hxs
    rw [this] at hx2
    simp at hx2
  · intro t ht
    unfold hash_find
    simp only [if_pos (hash_function_lt t)]
    congr 1
    by_cases hk : e.key = hash_function t
    · have hb := bucket_set_self hash e.key
        ((hash.table.getD e.key []).filter (fun x => x.addr ≠ e.addr)) hklt
      unfold bucket at hb
      rw [← hk, hb]
      apply hash_find_loop_filter
      intro x hx hxa
      have hxe : x = e := by
        have hnd := h3 e.key
        exact List.inj_on_of_nodup_map hnd hx he hxa
      rw [hxe]
      exact fun h => ht h.symm
    · have hb := bucket_set_other hash e.key (hash_function t)
        ((hash.table.getD e.key []).filter (fun x => x.addr ≠ e.addr)) hk
      unfold bucket at hb
      rw [hb]

/-- C40: in every hash table of the program the table is a finite map keyed by the content of
the strings. `hash_function` yields a key in `0 .. 1023`. `hash_add(s, o)` succeeds, and after
it `hash_find(s)` returns the new element, whose object is `o`, and `hash_find(t)` is as before
for every `t ≠ s`, whether or not `t` has the key of `s`. `hash_remove` of an element of the
table that is the only one holding its string `s` succeeds, and after it `hash_find(s)`
returns `NULL` and `hash_find(t)` is as before for every `t ≠ s`. -/
theorem hash_finite_map (hash : hash_t) (hr : hash_reachable hash) :
    (∀ str, hash_function str ≤ 1023) ∧
    (∀ (s : List Nat) (o addr : Nat),
      ∃ hash' e, hash_add hash s o addr = .ok (hash', e) ∧ e.object = o ∧ e.str = s ∧
        hash_find hash' s = .ok (some e) ∧
        ∀ t, t ≠ s → hash_find hash' t = hash_find hash t) ∧
    (∀ e : hash_element_t, e ∈ bucket hash e.key →
      (∀ k, ∀ x ∈ bucket hash k, x.str = e.str → x = e) →
      ∃ hash', hash_remove hash e = .ok hash' ∧ hash_find hash' e.str = .ok none ∧
        ∀ t, t ≠ e.str → hash_find hash' t = hash_find hash t) := by
  have hw := hash_reachable_wf hash hr
  refine ⟨?_, ?_, ?_⟩
  · intro str
    have := hash_function_lt str
    unfold HASH_SIZE at this
    omega
  · intro s o addr
    have hf := hash_find_added hash hw.1 s ⟨addr, 0, o, s, hash_function s⟩ rfl
    unfold hash_add
    simp only [if_pos (hash_function_lt s)]
    exact ⟨_, _, rfl, rfl, rfl, hf.1, hf.2⟩
  · intro e he honly
    exact hash_find_removed hash hw e he honly

theorem hash_da_reachable : hash_reachable hash_da := by
  refine hash_reachable.add hash_init hash_da (bytes "da") 1 10
    ⟨10, 0, 1, bytes "da", hash_function (bytes "da")⟩ hash_reachable.init ?_ ?_
  · intro k e he
    have := (hash_init_wf.2.2 k)
    have hb : bucket hash_init k = [] := by
      unfold bucket hash_init
      simp only [List.getD_eq_getElem?_getD]
      by_cases hk : k < HASH_SIZE
      · simp [List.getElem?_replicate, hk]
      · simp [List.getElem?_replicate, hk]
    rw [hb] at he
    simp at he
  · apply toOption_eq_some
    decide!

/-- Witness for C40: the strings `da` and `bb` have the same key; in the table that holds
`da`, `hash_add` of `bb` makes `bb` found with its object and leaves `da` found as before. -/
theorem hash_finite_map_witness :
    hash_reachable hash_da ∧ hash_function (bytes "da") = hash_function (bytes "bb") ∧
    ∃ hash' e, hash_add hash_da (bytes "bb") 2 20 = .ok (hash', e) ∧ e.object = 2 ∧
      hash_find hash' (bytes "bb") = .ok (some e) ∧
      hash_find hash' (bytes "da") = hash_find hash_da (bytes "da") := by
  obtain ⟨hash', e, h1, h2, _, h4, h5⟩ :=
    (hash_finite_map hash_da hash_da_reachable).2.1 (bytes "bb") 2 20
  exact ⟨hash_da_reachable, by decide!, hash', e, h1, h2, h4, h5 (bytes "da") (by decide)⟩

/-- Counterexample to C32 as stated: on a queue just initialised, `dbuffer_read` whose first
`read` reports the end of the file returns 0 and leaves the queue with size 0 and one chunk
(the chunk allocated before the `read`), and so does `dbuffer_put_data` of 0 bytes;
`dbuffer_get_data` of all the bytes of a one-chunk queue frees the chunk and leaves none. -/
theorem empty_queue_keeps_chunk :
    (dbuffer_read (dbuffer_init 4 (some 0) 10) [4] (io_of [some []] [])).toOption.map
      (fun r => (r.2.2.2, r.1.size, r.1.chunks)) = some (0, 0, [ibuffer_new]) ∧
    (dbuffer_put_data (dbuffer_init 4 (some 1) 10) []).2 = 0 ∧
    (dbuffer_put_data (dbuffer_init 4 (some 1) 10) []).1.size = 0 ∧
    (dbuffer_put_data (dbuffer_init 4 (some 1) 10) []).1.chunks = [ibuffer_new] ∧
    queue_hello.chunks.length = 1 ∧ (dbuffer_get_data queue_hello 5).1.size = 0 ∧
    (dbuffer_get_data queue_hello 5).1.chunks = [] := by
  decide!

/-- When the `write` of `dbuffer_write` fails on a queue that holds bytes and whose descriptor
is ready, the run stops at the read of the byte before the array. -/
theorem dbuffer_write_fails (buffer : dbuffer_t) (fds : List Int) (io : sysio_t)
    (hready : buffer.fds = none ∨ buffer.fd ∈ fds) (hsize : buffer.size ≠ 0)
    (hchunks : buffer.chunks ≠ []) (hfail : io.writes.head? = some none) :
    dbuffer_write buffer fds io = .error Fault.bounds := by
  have hnr : ¬ (buffer.fds ≠ none ∧ buffer.fd ∉ fds) := by
    rintro ⟨h1, h2⟩
    rcases hready with h | h
    · exact h1 h
    · exact h2 h
  unfold dbuffer_write
  rw [if_neg hnr, if_neg (by simp [hsize, hchunks])]
  simp only [sys_write, hfail]

/-- C35 (evaluation at the failing input): the queue holds `hello`, descriptor 4 is ready and
the `write` returns -1: `dbuffer_write` has taken the 5 bytes out of the queue and passes
`data - 1` and the size 6 to `dbuffer_put_data`, a read before the array at which the run
stops, so that no queue with the same bytes and the same size results. When the `write`
accepts 0 bytes the queue holds `hello` with size 5 afterwards. -/
theorem write_error_reads_before_array :
    dbuffer_contents queue_hello = bytes "hello" ∧ queue_hello.size = 5 ∧
    fault_of (dbuffer_write queue_hello [4] (io_of [] [none])) = some Fault.bounds ∧
    (dbuffer_write queue_hello [4] (io_of [] [some 0])).toOption.map
      (fun r => (r.2.2.2, dbuffer_contents r.1, r.1.size)) = some (0, bytes "hello", 5) := by
  decide!

/-- C36 (evaluation at the failing input): client 100 is authenticated as `bob` and one read
delivers `/quit` and `/who`. After the `/quit` line the client holds its nickname with
`nick_len = -1`; the next command line is passed to `client_auth_command`, whose assertion
`client->nick == NULL` fails, and the run of `client_input_lines` stops there. -/
theorem quit_then_command_asserts :
    hub_bob_quit.list.map (fun c => (c.ptr, c.nick, c.nick_len)) =
      [(100, some (bytes "bob"), -1), (200, none, 0)] ∧
    fault_of (client_auth_command 100 hub_bob_quit 1 [bytes "who"]) = some Fault.assertion ∧
    fault_of (client_input_lines 100 (hub_receive hub_bob 100 (bytes "/quit\n"))) = none ∧
    fault_of (client_input_lines 100 (hub_receive hub_bob 100 (bytes "/quit\n/who\n"))) =
      some Fault.assertion := by
  decide!

/-- C37 (evaluation at the failing input): in the fast-mode receiver, for a datagram of 0
bytes the test `len != 1` lets the call `write(to_fd, buffer + 1, len - 1)` be made with the
count -1, at which the run stops; for the datagram `\1hi` the two payload bytes are written
and for a datagram of the single byte `\1` no `write` is made. -/
theorem empty_datagram_negative_count :
    fault_of (transfer_fast_receive (file_5_6 .FILES_MODE_FAST .FILE_DIR_RECEIVE)
      (io_of [some []] []) (List.replicate 1024 0)) = some Fault.bounds ∧
    (transfer_fast_receive (file_5_6 .FILES_MODE_FAST .FILE_DIR_RECEIVE)
      (io_of [some (1 :: bytes "hi")] []) (List.replicate 1024 0)).toOption.map
        (fun r => (r.1.log, r.2.2)) =
      some ([.read 5 1024 (some (1 :: bytes "hi")), .write 6 (bytes "hi") (some 2)],
        step_t.done) ∧
    (transfer_fast_receive (file_5_6 .FILES_MODE_FAST .FILE_DIR_RECEIVE)
      (io_of [some [1]] []) (List.replicate 1024 0)).toOption.map
        (fun r => (r.1.log, r.2.2)) =
      some ([.read 5 1024 (some [1])], step_t.done) := by
  decide!

/-- C38 (evaluation at the failing input): `files_init` assigns `nicks`, `console` and the two
hash tables and leaves the list head `files` as the memory handed over holds it. On the memory
`files_garbage`, which holds the address 4096 there, the first `files_transfer` after
`files_init` and `files_set_server` follows that pointer and stops at the read of
`file->next`; on a memory that holds `NULL` there it visits no transfer and returns 0. The
lookup by id goes through the key table, which `files_init` empties, and finds no transfer on
either memory. -/
theorem transfer_list_not_initialised :
    (∀ (files : files_t) (console : iobuffer_t),
      (files_init files console).files = files.files ∧
      (files_init files console).file_keys = hash_init) ∧
    (participant_init files_garbage).files.files = some 4096 ∧
    fault_of (files_transfer (participant_init files_garbage).files (io_of [] [])
      (List.replicate 1024 0)) = some Fault.bounds ∧
    (files_transfer (participant_init files_empty).files (io_of [] [])
      (List.replicate 1024 0)).toOption.map (fun r => (r.2.2, r.2.1.log)) = some (0, []) ∧
    (file_find (participant_init files_garbage).files (bytes "0123456789ABCDEF")).toOption =
      some none := by
  refine ⟨fun _ _ => ⟨rfl, rfl⟩, rfl, ?_, ?_, ?_⟩
  · decide!
  · decide!
  · decide!

theorem FD_SET_mem (fd : Int) (fds : List Int) : fd ∈ FD_SET fd fds := by
  unfold FD_SET
  split
  · assumption
  · exact List.mem_cons_self _ _

/-- The result of a `write` that does not fail: a count that is at most the number of bytes
offered. -/
theorem sys_write_count (io : sysio_t) (fd : Int) (data : List Nat)
    (hok : io.writes.head? ≠ some none) :
    ∃ k, k ≤ data.length ∧ (sys_write io fd data).2 = some k := by
  unfold sys_write
  cases hh : io.writes.head? with
  | none => exact ⟨data.length, Nat.le_refl _, rfl⟩
  | some o =>
    cases o with
    | none => exact absurd hh hok
    | some k => exact ⟨min k data.length, Nat.min_le_right _ _, rfl⟩

/-- C33 (amended): for a well-formed queue bound to a descriptor set, whatever the set holds,
a call of `dbuffer_write` whose `write`, if made, does not fail ends with the descriptor of the
queue in the set if and only if the size of the queue is greater than 0; the queue stays
well-formed and bound to the same descriptor and set. -/
theorem write_interest_after_write (buffer : dbuffer_t) (fds : List Int) (io : sysio_t)
    (hwf : dbuffer_wf buffer) (hbound : buffer.fds ≠ none)
    (hok : io.writes.head? ≠ some none) :
    ∃ b' fds' io' r, dbuffer_write buffer fds io = .ok (b', fds', io', r) ∧
      dbuffer_wf b' ∧ b'.fd = buffer.fd ∧ b'.fds = buffer.fds ∧
      (b'.fd ∈ fds' ↔ b'.size > 0) := by
  have hsz : buffer.size = ((dbuffer_contents buffer).length : Int) := hwf.2.2
  unfold dbuffer_write
  by_cases hin : buffer.fd ∈ fds
  · rw [if_neg (by simp [hin])]
    by_cases h2 : buffer.size = 0 ∨ buffer.chunks = []
    · rw [if_pos h2, if_pos hbound]
      have h0 : buffer.size = 0 := by
        rcases h2 with h | h
        · exact h
        · rw [hsz]
          simp [dbuffer_contents, h]
      refine ⟨_, _, _, _, rfl, hwf, rfl, rfl, ?_⟩
      constructor
      · intro h
        exact absurd h (FD_CLR_not_mem _ _)
      · intro h
        rw [h0] at h
        exact absurd h (by decide)
    · rw [if_neg h2]
      have hn : buffer.size.toNat = (dbuffer_contents buffer).length := by
        rw [hsz]; rfl
      obtain ⟨g1, g2, g3, g4, g5, g6, _⟩ := dbuffer_get_data_spec buffer
        (dbuffer_contents buffer).length hwf (by rw [hsz])
      rw [List.take_length] at g2
      rw [List.drop_length] at g4
      have hdata : memcpy (List.replicate (dbuffer_contents buffer).length 0) 0
          ((dbuffer_get_data buffer (dbuffer_contents buffer).length).2.2.take
            (dbuffer_contents buffer).length) = dbuffer_contents buffer := by
        rw [g2, List.take_length, memcpy_zeros]
      obtain ⟨k, hk, hw⟩ := sys_write_count io buffer.fd (dbuffer_contents buffer) hok
      simp only [hn, hdata, hw]
      by_cases hkn : k = (dbuffer_contents buffer).length
      · rw [if_pos hkn, if_pos hbound]
        refine ⟨_, _, _, _, rfl, g3, g5, g6, ?_⟩
        constructor
        · intro h
          rw [g5] at h
          exact absurd h (FD_CLR_not_mem _ _)
        · intro h
          rw [g3.2.2, g4] at h
          exact absurd h (by decide)
      · rw [if_neg hkn]
        obtain ⟨_, p2, p3, p4, p5, _⟩ := dbuffer_put_data_spec
          (dbuffer_get_data buffer (dbuffer_contents buffer).length).1
          ((dbuffer_contents buffer).drop k) g3
        refine ⟨_, _, _, _, rfl, p2, by rw [p4, g5], by rw [p5, g6], ?_⟩
        constructor
        · intro _
          rw [p2.2.2, p3, g4, List.nil_append, List.length_drop]
          omega
        · intro _
          rw [p4, g5]
          exact hin
  · rw [if_pos ⟨hbound, hin⟩]
    by_cases hs : buffer.size ≠ 0
    · rw [if_pos hs]
      refine ⟨_, _, _, _, rfl, hwf, rfl, rfl, ?_⟩
      constructor
      · intro _
        rw [hsz] at hs ⊢
        omega
      · intro _
        exact FD_SET_mem _ _
    · rw [if_neg hs]
      refine ⟨_, _, _, _, rfl, hwf, rfl, rfl, ?_⟩
      constructor
      · intro h
        exact absurd h hin
      · intro h
        have : buffer.size = 0 := by simpa using hs
        rw [this] at h
        exact absurd h (by decide)

/-- Witness for C33: the queue holds `hello` and its descriptor 4 is not in the set:
`dbuffer_write` puts it into the set; the size is 5. -/
theorem write_interest_after_write_witness :
    dbuffer_wf queue_hello ∧ queue_hello.fds ≠ none ∧
    (io_of [] []).writes.head? ≠ some none ∧
    ∃ b' fds' io' r, dbuffer_write queue_hello [] (io_of [] []) = .ok (b', fds', io', r) ∧
      dbuffer_wf b' ∧ b'.fd = queue_hello.fd ∧ b'.fds = queue_hello.fds ∧
      (b'.fd ∈ fds' ↔ b'.size > 0) :=
  ⟨by decide, by decide, by decide,
   write_interest_after_write queue_hello [] (io_of [] []) (by decide) (by decide)
     (by decide)⟩

/-- Counterexample to C33 as stated: the descriptor 4 of an empty queue bound to a set is not
in the set (`dbuffer_write` returns -2 and leaves the set empty); `dbuffer_put_data` of `hello`
makes the size 5 and has no access to the set, so the descriptor is not in the set although
the size is greater than 0; the next `dbuffer_write` returns -2 and puts it into the set.
Likewise `dbuffer_get_data` of the 5 bytes makes the size 0 and the descriptor stays in a set
that held it. -/
theorem put_leaves_write_interest :
    (dbuffer_write (dbuffer_init 4 (some 1) 10) [] (io_of [] [])).toOption.map
      (fun r => (r.2.2.2, r.2.1, r.1.size)) = some (-2, [], 0) ∧
    queue_hello = (dbuffer_put_data (dbuffer_init 4 (some 1) 10) (bytes "hello")).1 ∧
    queue_hello.fd = 4 ∧ queue_hello.fds = some 1 ∧ queue_hello.size = 5 ∧
    ¬ (queue_hello.fd ∈ ([] : List Int) ↔ queue_hello.size > 0) ∧
    (dbuffer_write queue_hello [] (io_of [] [])).toOption.map
      (fun r => (r.2.2.2, r.2.1, r.1.size)) = some (-2, [4], 5) ∧
    (dbuffer_get_data queue_hello 5).1.size = 0 ∧
    ¬ ((dbuffer_get_data queue_hello 5).1.fd ∈ ([4] : List Int) ↔
        (dbuffer_get_data queue_hello 5).1.size > 0) := by
  decide!

theorem chunks_full_cons (a : ibuffer_t) (l : List ibuffer_t) :
    chunks_full (a :: l) ↔ (l ≠ [] → a.end_ = BUFFER_SIZE) ∧ chunks_full l := by
  unfold chunks_full
  cases l with
  | nil => simp
  | cons x rest =>
    rw [List.dropLast_cons₂]
    simp

theorem chunks_full_nil : chunks_full [] := by
  intro c hc
  simp at hc

theorem chunks_full_single (a : ibuffer_t) : chunks_full [a] := by
  intro c hc
  simp at hc

theorem chunks_full_append (front cs : List ibuffer_t) (hcs : cs ≠ [])
    (hf : ∀ c ∈ front, c.end_ = BUFFER_SIZE) (hc : chunks_full cs) :
    chunks_full (front ++ cs) := by
  unfold chunks_full at *
  rw [List.dropLast_append_of_ne_nil _ hcs]
  intro c hmem
  rcases List.mem_append.1 hmem with h | h
  · exact hf c h
  · exact hc c h

/-- The chunks that `put_loop` leaves in place of the last chunk: all but the last are full. -/
theorem put_loop_full : ∀ (fuel : Nat) (ib : ibuffer_t) (data : List Nat)
    (cs : List ibuffer_t) (total : Nat), ib.end_ ≤ BUFFER_SIZE →
    put_loop fuel ib data = some (cs, total) → cs ≠ [] ∧ chunks_full cs := by
  intro fuel
  induction fuel with
  | zero => intro ib data cs total _ h; simp [put_loop] at h
  | succ fuel ih =>
    intro ib data cs total he h
    unfold put_loop at h
    simp only [] at h
    split at h
    · simp only [Option.some.injEq, Prod.mk.injEq] at h
      rw [← h.1]
      exact ⟨List.cons_ne_nil _ _, chunks_full_single _⟩
    · split at h
      · split at h
        · rename_i cs' total' heq
          simp only [Option.some.injEq, Prod.mk.injEq] at h
          rw [← h.1]
          have hnew : ibuffer_new.end_ ≤ BUFFER_SIZE := Nat.zero_le _
          obtain ⟨_, hfull⟩ := ih ibuffer_new _ cs' total' hnew heq
          refine ⟨List.cons_ne_nil _ _, ?_⟩
          rw [chunks_full_cons]
          refine ⟨fun _ => ?_, hfull⟩
          show ib.end_ + (BUFFER_SIZE - ib.end_) = BUFFER_SIZE
          omega
        · exact absurd h (by simp)
      · simp only [Option.some.injEq, Prod.mk.injEq] at h
        rw [← h.1]
        exact ⟨List.cons_ne_nil _ _, chunks_full_single _⟩

theorem dbuffer_put_data_full (b : dbuffer_t) (xs : List Nat)
    (hwf : ∀ c ∈ b.chunks, ibuffer_wf c) (hfull : chunks_full b.chunks) :
    chunks_full (dbuffer_put_data b xs).1.chunks := by
  unfold dbuffer_put_data
  simp only []
  split
  · rename_i cs total heq
    have hlast : (match b.chunks.getLast? with
        | some l => l
        | none => ibuffer_new).end_ ≤ BUFFER_SIZE := by
      cases hg : b.chunks.getLast? with
      | none => exact Nat.zero_le _
      | some l => exact (hwf l (List.mem_of_getLast?_eq_some hg)).2.1
    obtain ⟨hne, hcs⟩ := put_loop_full _ _ _ cs total hlast heq
    exact chunks_full_append _ cs hne hfull hcs
  · exact hfull

/-- The chunks that `get_loop` leaves: the first one with its `start` moved, or a final part
of the list; all but the last stay full. -/
theorem get_loop_full : ∀ (rest : List ibuffer_t) (ib : ibuffer_t)
    (size copy_size buffer_size done : Nat) (out : List Nat),
    chunks_full (ib :: rest) →
    chunks_full (get_loop ib rest size copy_size buffer_size done out).1 := by
  intro rest
  induction rest with
  | nil =>
    intro ib size copy_size buffer_size done out _
    unfold get_loop
    split
    · exact chunks_full_single _
    · exact chunks_full_nil
  | cons nxt rest' ih =>
    intro ib size copy_size buffer_size done out h
    rw [chunks_full_cons] at h
    unfold get_loop
    split
    · rw [chunks_full_cons]
      exact ⟨h.1, h.2⟩
    · simp only []
      split
      · exact h.2
      · exact ih nxt _ _ _ _ _ h.2

theorem dbuffer_get_data_full (b : dbuffer_t) (n : Nat) (hfull : chunks_full b.chunks) :
    chunks_full (dbuffer_get_data b n).1.chunks := by
  unfold dbuffer_get_data
  simp only []
  split
  · exact hfull
  · split
    · exact hfull
    · rename_i ib rest hch
      rw [hch] at hfull
      exact get_loop_full rest ib _ _ _ _ _ hfull

theorem tail_start_append (front : List ibuffer_t) (x : ibuffer_t) :
    (∀ c ∈ (front ++ [x]).tail, c.start = 0) ↔
      (∀ c ∈ front.tail, c.start = 0) ∧ (front ≠ [] → x.start = 0) := by
  cases front with
  | nil => simp
  | cons a rest =>
    simp only [List.cons_append, List.tail_cons, List.mem_append, List.mem_singleton, ne_eq,
      reduceCtorEq, not_false_eq_true, forall_const]
    constructor
    · intro h
      exact ⟨fun c hc => h c (Or.inl hc), h x (Or.inr rfl)⟩
    · rintro ⟨h1, h2⟩ c (hc | hc)
      · exact h1 c hc
      · rw [hc]; exact h2

/-- The bytes stored by a `read`: at most `count` of them. -/
theorem sys_read_length (io : sysio_t) (fd : Int) (count : Nat) (d : List Nat)
    (h : (sys_read io fd count).2 = some d) : d.length ≤ count := by
  unfold sys_read at h
  simp only [] at h
  cases hh : io.reads.head? with
  | none =>
    rw [hh] at h
    simp only [Option.some.injEq] at h
    rw [← h]
    exact Nat.zero_le _
  | some o =>
    cases o with
    | none => rw [hh] at h; exact absurd h (by simp)
    | some d0 =>
      rw [hh] at h
      simp only [Option.some.injEq] at h
      rw [← h, List.length_take]
      exact Nat.min_le_left _ _

/-- A `read` that stores bytes uses up one of the results given. -/
theorem sys_read_uses (io : sysio_t) (fd : Int) (count : Nat) (d : List Nat)
    (h : (sys_read io fd count).2 = some d) (hd : d.length ≠ 0) :
    (sys_read io fd count).1.reads.length + 1 = io.reads.length := by
  unfold sys_read at h ⊢
  simp only [] at h ⊢
  cases hr : io.reads with
  | nil =>
    rw [hr] at h
    simp only [List.head?_nil, Option.some.injEq] at h
    rw [← h] at hd
    exact absurd rfl hd
  | cons a rest => simp

/-- Invariant of the loop of `dbuffer_read`: the chunks stay well-formed, only the first may
have `start > 0`, all but the last are full, and the bytes counted in `total` are appended to
the live bytes. -/
theorem read_loop_spec (fd : Int) : ∀ (fuel : Nat) (front : List ibuffer_t) (ib : ibuffer_t)
    (has_prev : Bool) (total : Int) (io : sysio_t) (chunks : List ibuffer_t) (total' : Int)
    (io' : sysio_t),
    read_loop fd fuel front ib has_prev total io = .ok (chunks, total', io') →
    ibuffer_wf ib → (∀ c ∈ front, ibuffer_wf c ∧ c.end_ = BUFFER_SIZE) →
    (∀ c ∈ front.tail, c.start = 0) → (front ≠ [] → ib.start = 0) →
    (∀ c ∈ chunks, ibuffer_wf c) ∧ (∀ c ∈ chunks.tail, c.start = 0) ∧ chunks_full chunks ∧
    ∃ d : List Nat, (chunks.map ibuffer_live).flatten =
        ((front ++ [ib]).map ibuffer_live).flatten ++ d ∧ total' = total + d.length := by
  intro fuel
  induction fuel with
  | zero => intro front ib has_prev total io chunks total' io' h; simp [read_loop] at h
  | succ fuel ih =>
    intro front ib has_prev total io chunks total' io' h hib hfront htail hstart
    have hkeep : (∀ c ∈ front ++ [ib], ibuffer_wf c) ∧
        (∀ c ∈ (front ++ [ib]).tail, c.start = 0) ∧ chunks_full (front ++ [ib]) := by
      refine ⟨?_, (tail_start_append front ib).2 ⟨htail, hstart⟩, ?_⟩
      · intro c hc
        rcases List.mem_append.1 hc with hc | hc
        · exact (hfront c hc).1
        · rw [List.mem_singleton] at hc
          rw [hc]; exact hib
      · exact chunks_full_append front [ib] (List.cons_ne_nil _ _)
          (fun c hc => (hfront c hc).2) (chunks_full_single ib)
    unfold read_loop at h
    simp only [] at h
    split at h
    · simp only [Except.ok.injEq, Prod.mk.injEq] at h
      obtain ⟨h1, h2, _⟩ := h
      subst h1 h2
      exact ⟨hkeep.1, hkeep.2.1, hkeep.2.2, [], by simp, by simp⟩
    · rename_i d hd
      have hdl := sys_read_length io fd (BUFFER_SIZE - ib.end_) d hd
      split at h
      · split at h
        · rename_i hz hcond
          simp only [Except.ok.injEq, Prod.mk.injEq] at h
          obtain ⟨h1, h2, _⟩ := h
          subst h1 h2
          have hlive : ibuffer_live ib = [] := by
            have := ibuffer_live_length ib hib
            rw [hcond.1] at this
            exact List.length_eq_zero.1 (by omega)
          refine ⟨fun c hc => (hfront c hc).1, htail, ?_, [], ?_, by simp⟩
          · intro c hc
            exact (hfront c (List.mem_of_mem_dropLast hc)).2
          · simp [hlive]
        · simp only [Except.ok.injEq, Prod.mk.injEq] at h
          obtain ⟨h1, h2, _⟩ := h
          subst h1 h2
          exact ⟨hkeep.1, hkeep.2.1, hkeep.2.2, [], by simp, by simp⟩
      · have he := hib.2.1
        obtain ⟨a1, a2⟩ := ibuffer_append ib d hib (by omega)
        have happ : (((front ++ [(⟨ib.start, ib.end_ + d.length,
            memcpy ib.data ib.end_ d⟩ : ibuffer_t)]).map ibuffer_live).flatten) =
            ((front ++ [ib]).map ibuffer_live).flatten ++ d := by
          simp only [List.map_append, List.flatten_append, List.map_cons, List.map_nil,
            List.flatten_cons, List.flatten_nil, List.append_nil, a2, List.append_assoc]
        split at h
        · simp only [Except.ok.injEq, Prod.mk.injEq] at h
          obtain ⟨h1, h2, _⟩ := h
          subst h1 h2
          refine ⟨?_, ?_, ?_, d, happ, rfl⟩
          · intro c hc
            rcases List.mem_append.1 hc with hc | hc
            · exact (hfront c hc).1
            · rw [List.mem_singleton] at hc
              rw [hc]; exact a1
          · exact (tail_start_append front _).2 ⟨htail, hstart⟩
          · exact chunks_full_append front _ (List.cons_ne_nil _ _)
              (fun c hc => (hfront c hc).2) (chunks_full_single _)
        · rename_i hfill
          have hend : ib.end_ + d.length = BUFFER_SIZE := by
            have : BUFFER_SIZE - ib.end_ - d.length = 0 := by simpa using hfill
            omega
          obtain ⟨r1, r2, r3, d2, r4, r5⟩ := ih _ _ _ _ _ _ _ _ h ibuffer_new_wf
            (by
              intro c hc
              rcases List.mem_append.1 hc with hc | hc
              · exact hfront c hc
              · rw [List.mem_singleton] at hc
                rw [hc]; exact ⟨a1, hend⟩)
            (by
              have := (tail_start_append front
                ⟨ib.start, ib.end_ + d.length, memcpy ib.data ib.end_ d⟩).2 ⟨htail, hstart⟩
              exact this)
            (fun _ => rfl)
          refine ⟨r1, r2, r3, d ++ d2, ?_, ?_⟩
          · rw [r4]
            simp only [List.map_append, List.flatten_append, List.map_cons, List.map_nil,
              List.flatten_cons, List.flatten_nil, List.append_nil, a2, ibuffer_new_live,
              List.append_assoc, List.nil_append]
          · rw [r5, List.length_append]
            push_cast
            ring

/-- The loop of `dbuffer_read` ends within the iterations allowed. -/
theorem read_loop_total (fd : Int) : ∀ (fuel : Nat) (front : List ibuffer_t) (ib : ibuffer_t)
    (has_prev : Bool) (total : Int) (io : sysio_t), io.reads.length + 1 ≤ fuel →
    ∃ res, read_loop fd fuel front ib has_prev total io = .ok res := by
  intro fuel
  induction fuel with
  | zero => intro front ib has_prev total io h; omega
  | succ fuel ih =>
    intro front ib has_prev total io hf
    unfold read_loop
    simp only []
    split
    · exact ⟨_, rfl⟩
    · rename_i d hd
      split
      · split
        · exact ⟨_, rfl⟩
        · exact ⟨_, rfl⟩
      · rename_i hne
        split
        · exact ⟨_, rfl⟩
        · have := sys_read_uses io fd (BUFFER_SIZE - ib.end_) d hd hne
          exact ih _ _ _ _ _ (by omega)

/-- The invariant is kept by `dbuffer_read`. -/
theorem dbuffer_read_inv (b b' : dbuffer_t) (fds fds' : List Int) (io io' : sysio_t) (r : Int)
    (hwf : dbuffer_wf b) (hfull : chunks_full b.chunks)
    (h : dbuffer_read b fds io = .ok (b', fds', io', r)) :
    dbuffer_wf b' ∧ chunks_full b'.chunks := by
  obtain ⟨hc, ht, hs⟩ := hwf
  unfold dbuffer_read at h
  split at h
  · simp only [Except.ok.injEq, Prod.mk.injEq] at h
    rw [← h.1]
    exact ⟨⟨hc, ht, hs⟩, hfull⟩
  · simp only [] at h
    split at h
    · exact absurd h (by simp)
    · rename_i chunks total io1 hloop
      simp only [Except.ok.injEq, Prod.mk.injEq] at h
      rw [← h.1]
      have key : ∀ (front : List ibuffer_t) (l : ibuffer_t), ibuffer_wf l →
          (∀ c ∈ front, ibuffer_wf c ∧ c.end_ = BUFFER_SIZE) →
          (∀ c ∈ front.tail, c.start = 0) → (front ≠ [] → l.start = 0) →
          dbuffer_contents b = ((front ++ [l]).map ibuffer_live).flatten →
          read_loop b.fd (io.reads.length + 1) front l false 0 io = .ok (chunks, total, io1) →
          dbuffer_wf ⟨chunks, b.size + total, b.fd, b.fds, b.separator⟩ ∧
            chunks_full chunks := by
        intro front l hl hf htl hst hcont hrl
        obtain ⟨r1, r2, r3, d, r4, r5⟩ := read_loop_spec b.fd _ front l false 0 io chunks total
          io1 hrl hl hf htl hst
        refine ⟨⟨r1, r2, ?_⟩, r3⟩
        show b.size + total = ((chunks.map ibuffer_live).flatten.length : Int)
        rw [r4, ← hcont, r5, hs, List.length_append]
        push_cast
        ring
      rcases List.eq_nil_or_concat b.chunks with hnil | ⟨front, l, hfl⟩
      · rw [hnil] at hloop
        exact key [] ibuffer_new ibuffer_new_wf (by simp) (by simp) (by simp)
          (by simp [dbuffer_contents, hnil, ibuffer_new_live]) hloop
      · have hgl : b.chunks.getLast? = some l := by rw [hfl]; simp
        have hdl : b.chunks.dropLast = front := by rw [hfl]; simp
        rw [hgl, hdl] at hloop
        have htl := (tail_start_append front l).1
          (by rw [← List.concat_eq_append, ← hfl]; exact ht)
        refine key front l (hc l (by rw [hfl]; simp)) ?_ htl.1 htl.2
          (by simp [dbuffer_contents, hfl]) hloop
        intro c hcm
        refine ⟨hc c (by rw [hfl]; simp [hcm]), hfull c ?_⟩
        rw [hdl]
        exact hcm

/-- `dbuffer_read` always ends with a result. -/
theorem dbuffer_read_total (b : dbuffer_t) (fds : List Int) (io : sysio_t) :
    ∃ res, dbuffer_read b fds io = .ok res := by
  unfold dbuffer_read
  split
  · exact ⟨_, rfl⟩
  · simp only []
    obtain ⟨res, hres⟩ := read_loop_total b.fd (io.reads.length + 1) b.chunks.dropLast
      (match b.chunks.getLast? with
        | some l => l
        | none => ibuffer_new) false 0 io (Nat.le_refl _)
    split
    · rename_i e heq
      exact absurd (hres.symm.trans heq) (by simp)
    · exact ⟨_, rfl⟩

/-- The queue after `dbuffer_write`: the queue given, or the queue after `dbuffer_get_data` of
all its bytes, or that one after `dbuffer_put_data` of the bytes not written. -/
theorem dbuffer_write_cases (b b' : dbuffer_t) (fds fds' : List Int) (io io' : sysio_t)
    (r : Int) (h : dbuffer_write b fds io = .ok (b', fds', io', r)) :
    b' = b ∨ b' = (dbuffer_get_data b b.size.toNat).1 ∨
      ∃ xs, b' = (dbuffer_put_data (dbuffer_get_data b b.size.toNat).1 xs).1 := by
  unfold dbuffer_write at h
  split at h
  · simp only [Except.ok.injEq, Prod.mk.injEq] at h
    exact Or.inl h.1.symm
  · split at h
    · simp only [Except.ok.injEq, Prod.mk.injEq] at h
      exact Or.inl h.1.symm
    · simp only [] at h
      split at h
      · exact absurd h (by simp)
      · split at h
        · simp only [Except.ok.injEq, Prod.mk.injEq] at h
          exact Or.inr (Or.inl h.1.symm)
        · simp only [Except.ok.injEq, Prod.mk.injEq] at h
          exact Or.inr (Or.inr ⟨_, h.1.symm⟩)

theorem token_scan_le (separator : Nat) : ∀ (l : List Nat) (size chr : Nat),
    (token_scan separator l size chr).1 ≤ size + l.length := by
  intro l
  induction l with
  | nil => intro size chr; simp [token_scan]
  | cons c cs ih =>
    intro size chr
    unfold token_scan
    split
    · simp only [List.length_cons]
      omega
    · have := ih (size + 1) c
      simp only [List.length_cons]
      omega

theorem token_loop_le (separator : Nat) : ∀ (chunks : List ibuffer_t) (size chr r : Nat),
    token_loop separator chunks size chr = some r →
    r ≤ size + (chunks.map ibuffer_live).flatten.length := by
  intro chunks
  induction chunks with
  | nil => intro size chr r h; simp [token_loop] at h
  | cons ib rest ih =>
    intro size chr r h
    unfold token_loop at h
    simp only [] at h
    have hs := token_scan_le separator (ibuffer_live ib) size chr
    simp only [List.map_cons, List.flatten_cons, List.length_append]
    split at h
    · simp only [Option.some.injEq] at h
      omega
    · have := ih _ _ _ h
      omega

/-- The size of the first token is at most the number of queued bytes. -/
theorem dbuffer_token_size_le (b : dbuffer_t) :
    dbuffer_token_size b ≤ (dbuffer_contents b).length := by
  unfold dbuffer_token_size
  split
  · rename_i size h
    have := token_loop_le b.separator b.chunks 0 0 size h
    unfold dbuffer_contents
    omega
  · exact Nat.zero_le _

/-- The invariant is kept by the loop of `dbuffer_input_line`. -/
theorem input_line_loop_inv : ∀ (fuel : Nat) (b b' : dbuffer_t) (space : Nat)
    (line : Option line_t), dbuffer_wf b → chunks_full b.chunks →
    input_line_loop fuel b space = .ok (line, b') → dbuffer_wf b' ∧ chunks_full b'.chunks := by
  intro fuel
  induction fuel with
  | zero => intro b b' space line _ _ h; simp [input_line_loop] at h
  | succ fuel ih =>
    intro b b' space line hwf hfull h
    have hle : ((dbuffer_token_size b : Nat) : Int) ≤ b.size := by
      rw [hwf.2.2]
      exact_mod_cast dbuffer_token_size_le b
    have hg := (dbuffer_get_data_spec b (dbuffer_token_size b) hwf hle).2.2.1
    have hgf := dbuffer_get_data_full b (dbuffer_token_size b) hfull
    unfold input_line_loop at h
    simp only [] at h
    split at h
    · rename_i hlen
      split at h
      · split at h
        · split at h
          · simp only [Except.ok.injEq, Prod.mk.injEq] at h
            rw [← h.2]
            exact ⟨hg, hgf⟩
          · simp only [Except.ok.injEq, Prod.mk.injEq] at h
            rw [← h.2]
            exact ⟨hg, hgf⟩
        · exact ih _ _ _ _ hg hgf h
      · rename_i h1
        have h1' : dbuffer_token_size b = 1 := by simpa using h1
        rw [h1'] at hg hgf
        exact ih _ _ _ _ hg hgf h
    · simp only [Except.ok.injEq, Prod.mk.injEq] at h
      rw [← h.2]
      exact ⟨hwf, hfull⟩

/-- Every queue state reached by the five operations is well-formed, with all chunks but the
last one full. -/
theorem queue_reachable_inv (b : dbuffer_t) (h : queue_reachable b) :
    dbuffer_wf b ∧ chunks_full b.chunks := by
  induction h with
  | init fd fds separator => exact ⟨dbuffer_init_wf fd fds separator, chunks_full_nil⟩
  | put b xs _ ih =>
    exact ⟨(dbuffer_put_data_spec b xs ih.1).2.1, dbuffer_put_data_full b xs ih.1.1 ih.2⟩
  | get b n _ hn ih =>
    exact ⟨(dbuffer_get_data_spec b n ih.1 hn).2.2.1, dbuffer_get_data_full b n ih.2⟩
  | read b b' fds fds' io io' r _ hread ih =>
    exact dbuffer_read_inv b b' fds fds' io io' r ih.1 ih.2 hread
  | write b b' fds fds' io io' r _ hwrite ih =>
    have hsz : ((b.size.toNat : Nat) : Int) ≤ b.size := by
      rw [ih.1.2.2]
      simp
    have hg := (dbuffer_get_data_spec b b.size.toNat ih.1 hsz).2.2.1
    have hgf := dbuffer_get_data_full b b.size.toNat ih.2
    rcases dbuffer_write_cases b b' fds fds' io io' r hwrite with h | h | ⟨xs, h⟩
    · rw [h]; exact ih
    · rw [h]; exact ⟨hg, hgf⟩
    · rw [h]
      exact ⟨(dbuffer_put_data_spec _ xs hg).2.1, dbuffer_put_data_full _ xs hg.1 hgf⟩
  | input_line b b' space line _ hline ih =>
    exact input_line_loop_inv _ b b' space line ih.1 ih.2 hline

theorem live_length_sum : ∀ (l : List ibuffer_t), (∀ c ∈ l, ibuffer_wf c) →
    (((l.map ibuffer_live).flatten.length : Nat) : Int) =
      (l.map (fun c => (c.end_ : Int) - (c.start : Int))).sum := by
  intro l
  induction l with
  | nil => intro _; rfl
  | cons a rest ih =>
    intro h
    have ha := h a (List.mem_cons_self _ _)
    have hl := ibuffer_live_length a ha
    have := ih (fun c hc => h c (List.mem_cons_of_mem _ hc))
    simp only [List.map_cons, List.flatten_cons, List.length_append, List.sum_cons]
    push_cast
    rw [this, hl]
    have := ha.1
    omega

/-- C31: after every sequence of `dbuffer_put_data`, `dbuffer_get_data` (with `n ≤ size`),
`dbuffer_read`, `dbuffer_write` and `dbuffer_input_line` operations starting from
`dbuffer_init`, `size` is the sum of `end - start` over the chunks, every chunk has
`0 ≤ start ≤ end ≤ 256`, only the first chunk can have `start > 0` and only the last chunk
can have `end < 256`. -/
theorem queue_chunks_invariant (b : dbuffer_t) (h : queue_reachable b) :
    b.size = (b.chunks.map (fun c => (c.end_ : Int) - (c.start : Int))).sum ∧
    (∀ c ∈ b.chunks, 0 ≤ c.start ∧ c.start ≤ c.end_ ∧ c.end_ ≤ 256) ∧
    (∀ c ∈ b.chunks.tail, c.start = 0) ∧
    (∀ c ∈ b.chunks.dropLast, c.end_ = 256) := by
  obtain ⟨⟨hc, ht, hs⟩, hfull⟩ := queue_reachable_inv b h
  refine ⟨?_, fun c hm => ⟨Nat.zero_le _, (hc c hm).1, (hc c hm).2.1⟩, ht, hfull⟩
  rw [hs]
  exact live_length_sum b.chunks hc

theorem queue_read_300_reachable : queue_reachable queue_read_300 := by
  obtain ⟨⟨b', fds', io', r⟩, hres⟩ := dbuffer_read_total (dbuffer_init 4 (some 0) 10) [4]
    (io_of [some (List.replicate 256 7), some (List.replicate 44 8)] [])
  have hsize : (dbuffer_read (dbuffer_init 4 (some 0) 10) [4]
      (io_of [some (List.replicate 256 7), some (List.replicate 44 8)] [])).toOption.map
        (fun r => r.1.size) = some 300 := by decide!
  rw [hres] at hsize
  simp only [Except.toOption, Option.map_some', Option.some.injEq] at hsize
  have heq : queue_read_300 = (dbuffer_get_data b' 100).1 := by
    unfold queue_read_300
    rw [hres]
  rw [heq]
  refine queue_reachable.get b' 100 ?_ (by rw [hsize]; decide)
  exact queue_reachable.read _ b' [4] fds' _ io' r (queue_reachable.init 4 (some 0) 10) hres

/-- Witness for C31: 300 bytes read into a fresh queue in pieces of 256 and 44 bytes, of which
100 are then taken: two chunks, with `start = 100` and `end = 256` in the first and
`start = 0` and `end = 44` in the last, and size 200. -/
theorem queue_chunks_invariant_witness :
    queue_reachable queue_read_300 ∧
    queue_read_300.chunks.map (fun c => (c.start, c.end_)) = [(100, 256), (0, 44)] ∧
    queue_read_300.size = 200 ∧
    queue_read_300.size =
      (queue_read_300.chunks.map (fun c => (c.end_ : Int) - (c.start : Int))).sum ∧
    (∀ c ∈ queue_read_300.chunks, 0 ≤ c.start ∧ c.start ≤ c.end_ ∧ c.end_ ≤ 256) ∧
    (∀ c ∈ queue_read_300.chunks.tail, c.start = 0) ∧
    (∀ c ∈ queue_read_300.chunks.dropLast, c.end_ = 256) :=
  ⟨queue_read_300_reachable, by decide!, by decide!,
   queue_chunks_invariant queue_read_300 queue_read_300_reachable⟩

theorem put_loop_live : ∀ (fuel : Nat) (ib : ibuffer_t) (data : List Nat)
    (cs : List ibuffer_t) (total : Nat), (ib.start < ib.end_ ∨ ib.start = 0) →
    put_loop fuel ib data = some (cs, total) → chunks_live cs := by
  intro fuel
  induction fuel with
  | zero => intro ib data cs total _ h; simp [put_loop] at h
  | succ fuel ih =>
    intro ib data cs total hib h
    have hsingle : ∀ k, chunks_live [(⟨ib.start, ib.end_ + k,
        memcpy ib.data ib.end_ (data.take k)⟩ : ibuffer_t)] := by
      intro k c hc
      rw [List.mem_singleton] at hc
      rw [hc]
      rcases hib with h1 | h1
      · exact Or.inl (by show ib.start < ib.end_ + k; omega)
      · exact Or.inr h1
    unfold put_loop at h
    simp only [] at h
    split at h
    · simp only [Option.some.injEq, Prod.mk.injEq] at h
      rw [← h.1]
      intro c hc
      rw [List.mem_singleton] at hc
      rw [hc]
      rcases hib with h1 | h1
      · exact Or.inl (by show ib.start < ib.end_ + data.length; omega)
      · exact Or.inr h1
    · split at h
      · split at h
        · rename_i cs' total' heq
          simp only [Option.some.injEq, Prod.mk.injEq] at h
          rw [← h.1]
          have hrest := ih ibuffer_new _ cs' total' (Or.inr rfl) heq
          intro c hc
          rcases List.mem_cons.1 hc with hc | hc
          · exact hsingle _ c (by rw [hc]; exact List.mem_singleton.2 rfl)
          · exact hrest c hc
        · exact absurd h (by simp)
      · simp only [Option.some.injEq, Prod.mk.injEq] at h
        rw [← h.1]
        exact hsingle _

theorem dbuffer_put_data_live (b : dbuffer_t) (xs : List Nat) (h : chunks_live b.chunks) :
    chunks_live (dbuffer_put_data b xs).1.chunks := by
  unfold dbuffer_put_data
  simp only []
  split
  · rename_i cs total heq
    have hlast : (match b.chunks.getLast? with
        | some l => l
        | none => ibuffer_new).start < (match b.chunks.getLast? with
        | some l => l
        | none => ibuffer_new).end_ ∨ (match b.chunks.getLast? with
        | some l => l
        | none => ibuffer_new).start = 0 := by
      cases hg : b.chunks.getLast? with
      | none => exact Or.inr rfl
      | some l => exact h l (List.mem_of_getLast?_eq_some hg)
    have hcs := put_loop_live _ _ _ cs total hlast heq
    intro c hc
    rcases List.mem_append.1 hc with hc | hc
    · exact h c (List.mem_of_mem_dropLast hc)
    · exact hcs c hc
  · exact h

theorem get_loop_live : ∀ (rest : List ibuffer_t) (ib : ibuffer_t)
    (size copy_size buffer_size done : Nat) (out : List Nat),
    buffer_size = ib.end_ - ib.start → copy_size ≤ buffer_size →
    (∀ c ∈ rest, c.start = 0) →
    chunks_live (get_loop ib rest size copy_size buffer_size done out).1 := by
  intro rest
  induction rest with
  | nil =>
    intro ib size copy_size buffer_size done out hbs hle _
    unfold get_loop
    split
    · intro c hc
      rw [List.mem_singleton] at hc
      rw [hc]
      exact Or.inl (by show ib.start + copy_size < ib.end_; omega)
    · intro c hc
      simp at hc
  | cons nxt rest' ih =>
    intro ib size copy_size buffer_size done out hbs hle hrest
    unfold get_loop
    split
    · intro c hc
      rcases List.mem_cons.1 hc with hc | hc
      · rw [hc]
        exact Or.inl (by show ib.start + copy_size < ib.end_; omega)
      · exact Or.inr (hrest c hc)
    · simp only []
      split
      · intro c hc
        exact Or.inr (hrest c hc)
      · have hn0 := hrest nxt (List.mem_cons_self _ _)
        exact ih nxt _ _ _ _ _ (by omega) (by split <;> omega)
          (fun c hc => hrest c (List.mem_cons_of_mem _ hc))

theorem dbuffer_get_data_live (b : dbuffer_t) (n : Nat) (hwf : dbuffer_wf b)
    (h : chunks_live b.chunks) : chunks_live (dbuffer_get_data b n).1.chunks := by
  unfold dbuffer_get_data
  simp only []
  split
  · exact h
  · split
    · exact h
    · rename_i ib rest hch
      refine get_loop_live rest ib _ _ _ _ _ rfl (by split <;> omega) ?_
      intro c hc
      exact hwf.2.1 c (by rw [hch]; simpa using hc)

theorem read_loop_live (fd : Int) : ∀ (fuel : Nat) (front : List ibuffer_t) (ib : ibuffer_t)
    (has_prev : Bool) (total : Int) (io : sysio_t) (chunks : List ibuffer_t) (total' : Int)
    (io' : sysio_t),
    read_loop fd fuel front ib has_prev total io = .ok (chunks, total', io') →
    chunks_live front → (ib.start < ib.end_ ∨ ib.start = 0) → chunks_live chunks := by
  intro fuel
  induction fuel with
  | zero => intro front ib has_prev total io chunks total' io' h; simp [read_loop] at h
  | succ fuel ih =>
    intro front ib has_prev total io chunks total' io' h hfront hib
    have hkeep : ∀ k (d : List Nat), chunks_live (front ++
        [(⟨ib.start, ib.end_ + k, d⟩ : ibuffer_t)]) := by
      intro k d c hc
      rcases List.mem_append.1 hc with hc | hc
      · exact hfront c hc
      · rw [List.mem_singleton] at hc
        rw [hc]
        rcases hib with h1 | h1
        · exact Or.inl (by show ib.start < ib.end_ + k; omega)
        · exact Or.inr h1
    have hsame : chunks_live (front ++ [ib]) := hkeep 0 ib.data
    unfold read_loop at h
    simp only [] at h
    split at h
    · simp only [Except.ok.injEq, Prod.mk.injEq] at h
      rw [← h.1]
      exact hsame
    · split at h
      · split at h
        · simp only [Except.ok.injEq, Prod.mk.injEq] at h
          rw [← h.1]
          exact hfront
        · simp only [Except.ok.injEq, Prod.mk.injEq] at h
          rw [← h.1]
          exact hsame
      · split at h
        · simp only [Except.ok.injEq, Prod.mk.injEq] at h
          rw [← h.1]
          exact hkeep _ _
        · exact ih _ _ _ _ _ _ _ _ h (hkeep _ _) (Or.inr rfl)

theorem dbuffer_read_live (b b' : dbuffer_t) (fds fds' : List Int) (io io' : sysio_t) (r : Int)
    (hl : chunks_live b.chunks) (h : dbuffer_read b fds io = .ok (b', fds', io', r)) :
    chunks_live b'.chunks := by
  unfold dbuffer_read at h
  split at h
  · simp only [Except.ok.injEq, Prod.mk.injEq] at h
    rw [← h.1]
    exact hl
  · simp only [] at h
    split at h
    · exact absurd h (by simp)
    · rename_i chunks total io1 hloop
      simp only [Except.ok.injEq, Prod.mk.injEq] at h
      rw [← h.1]
      refine read_loop_live b.fd _ _ _ _ _ _ chunks total io1 hloop ?_ ?_
      · intro c hc
        exact hl c (List.mem_of_mem_dropLast hc)
      · cases hg : b.chunks.getLast? with
        | none => exact Or.inr rfl
        | some l => exact hl l (List.mem_of_getLast?_eq_some hg)

theorem input_line_loop_live : ∀ (fuel : Nat) (b b' : dbuffer_t) (space : Nat)
    (line : Option line_t), dbuffer_wf b → chunks_live b.chunks →
    input_line_loop fuel b space = .ok (line, b') → chunks_live b'.chunks := by
  intro fuel
  induction fuel with
  | zero => intro b b' space line _ _ h; simp [input_line_loop] at h
  | succ fuel ih =>
    intro b b' space line hwf hl h
    have hle : ((dbuffer_token_size b : Nat) : Int) ≤ b.size := by
      rw [hwf.2.2]
      exact_mod_cast dbuffer_token_size_le b
    have hg := (dbuffer_get_data_spec b (dbuffer_token_size b) hwf hle).2.2.1
    have hgl := dbuffer_get_data_live b (dbuffer_token_size b) hwf hl
    unfold input_line_loop at h
    simp only [] at h
    split at h
    · split at h
      · split at h
        · split at h
          · simp only [Except.ok.injEq, Prod.mk.injEq] at h
            rw [← h.2]
            exact hgl
          · simp only [Except.ok.injEq, Prod.mk.injEq] at h
            rw [← h.2]
            exact hgl
        · exact ih _ _ _ _ hg hgl h
      · rename_i h1
        have h1' : dbuffer_token_size b = 1 := by simpa using h1
        rw [h1'] at hg hgl
        exact ih _ _ _ _ hg hgl h
    · simp only [Except.ok.injEq, Prod.mk.injEq] at h
      rw [← h.2]
      exact hl

/-- In every queue state reached by the five operations, a chunk with `start > 0` holds
bytes. -/
theorem queue_reachable_live (b : dbuffer_t) (h : queue_reachable b) :
    chunks_live b.chunks := by
  induction h with
  | init fd fds separator => intro c hc; simp [dbuffer_init] at hc
  | put b xs _ ih => exact dbuffer_put_data_live b xs ih
  | get b n hb _ ih => exact dbuffer_get_data_live b n (queue_reachable_inv b hb).1 ih
  | read b b' fds fds' io io' r _ hread ih =>
    exact dbuffer_read_live b b' fds fds' io io' r ih hread
  | write b b' fds fds' io io' r hb hwrite ih =>
    have hwf := (queue_reachable_inv b hb).1
    have hsz : ((b.size.toNat : Nat) : Int) ≤ b.size := by
      rw [hwf.2.2]
      simp
    have hgl := dbuffer_get_data_live b b.size.toNat hwf ih
    rcases dbuffer_write_cases b b' fds fds' io io' r hwrite with h | h | ⟨xs, h⟩
    · rw [h]; exact ih
    · rw [h]; exact hgl
    · rw [h]; exact dbuffer_put_data_live _ xs hgl
  | input_line b b' space line hb hline ih =>
    exact input_line_loop_live _ b b' space line (queue_reachable_inv b hb).1 ih hline

/-- C32 (amended): after every sequence of `dbuffer_put_data`, `dbuffer_get_data` (with
`n ≤ size`), `dbuffer_read`, `dbuffer_write` and `dbuffer_input_line` operations starting from
`dbuffer_init`, a queue whose size is 0 holds no byte and at most one chunk, and that chunk is
empty with `start = end = 0`. -/
theorem empty_queue_chunks (b : dbuffer_t) (h : queue_reachable b) (h0 : b.size = 0) :
    dbuffer_contents b = [] ∧
    (b.chunks = [] ∨ ∃ c, b.chunks = [c] ∧ c.start = 0 ∧ c.end_ = 0) := by
  obtain ⟨⟨hc, ht, hs⟩, hfull⟩ := queue_reachable_inv b h
  have hlive := queue_reachable_live b h
  have hcont : dbuffer_contents b = [] := by
    apply List.length_eq_zero.1
    rw [h0] at hs
    exact_mod_cast hs.symm
  have hempty : ∀ c ∈ b.chunks, c.start = 0 ∧ c.end_ = 0 := by
    intro c hm
    have hl : ibuffer_live c = [] := by
      have : ibuffer_live c ∈ b.chunks.map ibuffer_live := List.mem_map_of_mem _ hm
      unfold dbuffer_contents at hcont
      exact List.flatten_eq_nil_iff.1 hcont _ this
    have hlen := ibuffer_live_length c (hc c hm)
    rw [hl] at hlen
    simp only [List.length_nil] at hlen
    have hse := (hc c hm).1
    rcases hlive c hm with h1 | h1
    · omega
    · exact ⟨h1, by omega⟩
  refine ⟨hcont, ?_⟩
  have hdl : b.chunks.dropLast = [] := by
    apply List.eq_nil_iff_forall_not_mem.2
    intro c hm
    have h1 := hfull c hm
    have h2 := (hempty c (List.mem_of_mem_dropLast hm)).2
    rw [h2] at h1
    exact absurd h1 (by decide)
  cases hch : b.chunks with
  | nil => exact Or.inl rfl
  | cons a rest =>
    right
    cases rest with
    | nil => exact ⟨a, rfl, hempty a (by rw [hch]; exact List.mem_singleton.2 rfl)⟩
    | cons x rest' =>
      rw [hch, List.dropLast_cons₂] at hdl
      exact absurd hdl (by simp)

theorem queue_read_eof_reachable :
    ∃ b fds' io' r, dbuffer_read (dbuffer_init 4 (some 0) 10) [4] (io_of [some []] []) =
      .ok (b, fds', io', r) ∧ queue_reachable b ∧ b.size = 0 ∧ b.chunks = [ibuffer_new] := by
  obtain ⟨⟨b', fds', io', r⟩, hres⟩ := dbuffer_read_total (dbuffer_init 4 (some 0) 10) [4]
    (io_of [some []] [])
  have hval : (dbuffer_read (dbuffer_init 4 (some 0) 10) [4]
      (io_of [some []] [])).toOption.map (fun r => (r.1.size, r.1.chunks)) =
        some (0, [ibuffer_new]) := by decide!
  rw [hres] at hval
  simp only [Except.toOption, Option.map_some', Option.some.injEq, Prod.mk.injEq] at hval
  exact ⟨b', fds', io', r, hres,
    queue_reachable.read _ b' [4] fds' _ io' r (queue_reachable.init 4 (some 0) 10) hres,
    hval.1, hval.2⟩

/-- Witness for C32: the queue after `dbuffer_put_data` of 0 bytes on a fresh queue has size 0
and holds the one chunk `ibuffer_new`. -/
theorem empty_queue_chunks_witness :
    queue_reachable (dbuffer_put_data (dbuffer_init 4 (some 1) 10) []).1 ∧
    (dbuffer_put_data (dbuffer_init 4 (some 1) 10) []).1.size = 0 ∧
    dbuffer_contents (dbuffer_put_data (dbuffer_init 4 (some 1) 10) []).1 = [] ∧
    ((dbuffer_put_data (dbuffer_init 4 (some 1) 10) []).1.chunks = [] ∨
      ∃ c, (dbuffer_put_data (dbuffer_init 4 (some 1) 10) []).1.chunks = [c] ∧
        c.start = 0 ∧ c.end_ = 0) :=
  ⟨queue_reachable.put _ [] (queue_reachable.init 4 (some 1) 10), by decide!,
   empty_queue_chunks _ (queue_reachable.put _ [] (queue_reachable.init 4 (some 1) 10))
     (by decide!)⟩


/-- Witness for C9: in a registry with `bob` (address 100) and `alice` (200) authenticated,
a draining client (300) and an unauthenticated one (400), the broadcast of `bob: hi` with
`bob` excluded is appended to the output queue of `alice` alone. -/
theorem clients_send_frame_witness :
    (∀ c ∈ hub_four.list, dbuffer_wf c.buffer.output) ∧
    hub_queues hub_four =
      [(100, 3, bytes ("** Hello, bob!\n** alice connected.\n** carol connected.\n" ++
          "** carol has left server.\n\x00")),
        (200, 5, bytes ("** Hello, alice!\n** carol connected.\n" ++
          "** carol has left server.\n\x00")),
        (300, -1, bytes "** Hello, carol!\n** Goodbye!\n"), (400, 0, [])] ∧
    hub_queues (clients_send hub_four (bytes "bob: hi\n") (some 100)) =
      [(100, 3, bytes ("** Hello, bob!\n** alice connected.\n** carol connected.\n" ++
          "** carol has left server.\n\x00")),
        (200, 5, bytes ("** Hello, alice!\n** carol connected.\n" ++
          "** carol has left server.\n\x00bob: hi\n")),
        (300, -1, bytes "** Hello, carol!\n** Goodbye!\n"), (400, 0, [])] ∧
    (clients_send hub_four (bytes "bob: hi\n") (some 100)).number = hub_four.number ∧
    (clients_send hub_four (bytes "bob: hi\n") (some 100)).hash = hub_four.hash ∧
    (clients_send hub_four (bytes "bob: hi\n") (some 100)).console = hub_four.console ∧
    (clients_send hub_four (bytes "bob: hi\n") (some 100)).read_fds = hub_four.read_fds ∧
    (clients_send hub_four (bytes "bob: hi\n") (some 100)).write_fds = hub_four.write_fds ∧
    (clients_send hub_four (bytes "bob: hi\n") (some 100)).srv_sock = hub_four.srv_sock ∧
    List.Forall₂ (fun c c' =>
        c'.ptr = c.ptr ∧ c'.nick = c.nick ∧ c'.nick_len = c.nick_len ∧ c'.addr = c.addr ∧
        c'.addr_len = c.addr_len ∧ c'.hash_elm = c.hash_elm ∧
        c'.buffer.input = c.buffer.input ∧
        (some c.ptr ≠ some 100 → c.nick_len > 0 →
          dbuffer_contents c'.buffer.output =
            dbuffer_contents c.buffer.output ++ bytes "bob: hi\n" ∧
          dbuffer_wf c'.buffer.output) ∧
        ((some c.ptr = some 100 ∨ c.nick_len ≤ 0) → c' = c))
      hub_four.list (clients_send hub_four (bytes "bob: hi\n") (some 100)).list :=
  ⟨by decide!, by decide!, by decide!,
    clients_send_frame hub_four (bytes "bob: hi\n") (some 100) (by decide!)⟩

theorem takeWhile_append_nul (r x : List Nat) :
    (r ++ 0 :: x).takeWhile (· ≠ 0) = r.takeWhile (· ≠ 0) := by
  induction r with
  | nil => simp
  | cons a r ih =>
    by_cases ha : a = 0
    · simp [ha]
    · simp only [List.cons_append, List.takeWhile_cons, ha, ne_eq, not_false_eq_true,
        decide_True, if_true, List.cons.injEq, true_and]
      exact ih

/-- The C string at the offset of a token is the token up to its first NUL byte. -/
theorem cstr_of_run (l r : List Nat) (o : Nat)
    (h : (l.drop o).take (r.length + 1) = r ++ [0]) :
    cstr l o = r.takeWhile (· ≠ 0) := by
  unfold cstr
  have hsplit := List.take_append_drop (r.length + 1) (l.drop o)
  rw [h] at hsplit
  rw [← hsplit, List.append_assoc]
  exact takeWhile_append_nul r _

theorem cstr_map_of_runs (command command' : List Nat) (args : List Nat)
    (runs : List (List Nat))
    (hfa : List.Forall₂ (fun o r => (command'.drop o).take (r.length + 1) = r ++ [0] ∧
      (command.drop o).take r.length = r) args runs) :
    args.map (cstr command') = runs.map (fun r => r.takeWhile (· ≠ 0)) := by
  induction hfa with
  | nil => rfl
  | cons hh _ ih =>
    rw [List.map_cons, List.map_cons, ih, cstr_of_run _ _ _ hh.1]

/-- The argument strings that `command_get_tokens` yields are the tokens of the line, each up
to its first NUL byte. -/
theorem command_get_tokens_args (command : List Nat) (h10 : 10 ∈ command) (k : Int)
    (args : List Nat) (command' : List Nat)
    (htok : command_get_tokens command = .ok (k, args, command')) :
    args.map (cstr command') =
      (((command.takeWhile (· ≠ 10)).splitOnP is_space_tab).filter (· ≠ [])).map
        (fun r => r.takeWhile (· ≠ 0)) := by
  obtain ⟨args2, command2, htok2, _, _, hfa, _⟩ := command_get_tokens_spec command h10
  rw [htok] at htok2
  simp only [Except.ok.injEq, Prod.mk.injEq] at htok2
  obtain ⟨_, ha, hc⟩ := htok2
  subst ha hc
  exact cstr_map_of_runs command _ _ _ hfa

/-- The bytes of an argument string are argument bytes. -/
theorem runs_cstr_tokens (command : List Nat) :
    ∀ r ∈ ((command.takeWhile (· ≠ 10)).splitOnP is_space_tab).filter (· ≠ []),
      ∀ x ∈ r.takeWhile (· ≠ 0), is_token_byte x := by
  intro r hr x hx
  have hx0 : x ≠ 0 := by
    have := List.mem_takeWhile_imp hx
    simpa using this
  have hxr : x ∈ r := (List.takeWhile_sublist _).subset hx
  rw [← token_runs_eq_split _ 0] at hr
  obtain ⟨p, hp, rfl⟩ := List.mem_map.1 hr
  obtain ⟨pre, post, hl, _, hnb, hne, _⟩ := token_runs_sound _ 0 p hp
  have hb := hnb x hxr
  have hxl : x ∈ command.takeWhile (· ≠ 10) := by
    rw [hl]
    simp [hxr]
  have hx10 : x ≠ 10 := by
    have := List.mem_takeWhile_imp hxl
    simpa using this
  simp only [is_space_tab, Bool.or_eq_false_iff, beq_eq_false_iff_ne, ne_eq] at hb
  exact ⟨hx0, hb.2, hx10, hb.1⟩

/-- C20: in every state of the hub, for an authenticated originator with nickname `O` and a
command line whose argument strings (the tokens of the line, each read as a C string, that is
up to its first NUL byte) are `cmd`, `T` and `rest`, with `cmd` one of `receive`, `send`
(three more arguments) and `refuse` (two more) and `T` found in the index as the client at
address `t`: `srvcmd_exec` returns 0 and enqueues on the channel of `t`, a client of the list,
exactly the line `/cmd O rest..` with single spaces and LF, and nothing anywhere else. When
none of the strings of `rest` is empty, tokenizing that line (after the slash) gives back
`cmd`, `O`, `rest`. -/
theorem relay_to_target (s : clients_t) (hs : hub_reachable s) (o : client_t) (ho : o ∈ s.list)
    (O : List Nat) (hO : o.nick = some O) (hlen : o.nick_len > 0)
    (hwf : ∀ c ∈ s.list, dbuffer_wf c.buffer.output)
    (command : List Nat) (h10 : 10 ∈ command)
    (cmd T : List Nat) (rest : List (List Nat))
    (hargs : (((command.takeWhile (· ≠ 10)).splitOnP is_space_tab).filter (· ≠ [])).map
      (fun r => r.takeWhile (· ≠ 0)) = cmd :: T :: rest)
    (hcmd : (cmd = bytes "receive" ∧ rest.length = 3) ∨ (cmd = bytes "send" ∧ rest.length = 3) ∨
      (cmd = bytes "refuse" ∧ rest.length = 2))
    (t : Nat) (hT : clients_get_client_from_name s T = .ok (some t)) :
    (∃ c ∈ s.list, c.ptr = t ∧ c.nick = some T) ∧
    ∃ s', srvcmd_exec command .SRVCMD_TYPE_CLIENT .console (some (.client o.ptr)) s
        (some o.ptr) = .ok (s', 0) ∧
      enqueued_on s s' t (bytes "/" ++ cmd ++ bytes " " ++ O ++ bytes " " ++
        List.intercalate (bytes " ") rest ++ bytes "\n") ∧
      ((∀ a ∈ rest, a ≠ []) →
        ∃ offs command',
          command_get_tokens ((bytes "/" ++ cmd ++ bytes " " ++ O ++ bytes " " ++
            List.intercalate (bytes " ") rest ++ bytes "\n").drop 1) =
            .ok (((cmd :: O :: rest).length : Nat), offs, command') ∧
          offs.map (cstr command') = cmd :: O :: rest) := by
  have hinv := hub_reachable_inv s hs
  have hfl := hub_reachable_fields s hs
  have hrest : rest ≠ [] := by
    intro h
    rw [h] at hcmd
    simp at hcmd
  refine ⟨hub_inv_lookup_exists s hinv T t hT, ?_⟩
  obtain ⟨s', hrelay, henq⟩ := cmd_clt_p2p_relay s hinv hfl o ho O hO hlen cmd T rest hrest t hT
    (fun c hc _ => hwf c hc) .console (some (.client o.ptr))
  refine ⟨s', ?_, henq, ?_⟩
  · obtain ⟨args, command', htok, _, _, _, hfound⟩ :=
      command_exec_spec hub_put command client_commands .console (.client o.ptr) (some o.ptr) s
        h10 (List.cons_ne_nil _ _) client_commands_sorted
    have hargs' := (command_get_tokens_args command h10 _ args command' htok).trans hargs
    have hne : args ≠ [] := by
      intro h
      rw [h] at hargs'
      simp at hargs'
    have hal : args.length = (cmd :: T :: rest).length := by
      rw [← hargs', List.length_map]
    have hexec : ∀ e ∈ client_commands, e.name = cmd → e.function = cmd_clt_p2p →
        (((cmd :: T :: rest).length : Nat) : Int) = e.arg_count + 1 →
        srvcmd_exec command .SRVCMD_TYPE_CLIENT .console (some (.client o.ptr)) s
          (some o.ptr) = .ok (s', 0) := by
      intro e he hname hfun hcount
      have h1 := ((hfound hne e he (by rw [hargs', hname]; rfl)).1 (by rw [hal]; exact hcount))
      unfold srvcmd_exec
      simp only [reduceCtorEq, if_false]
      rw [h1, hargs', hal, hfun, hrelay]
      simp
    rcases hcmd with ⟨hc, hl⟩ | ⟨hc, hl⟩ | ⟨hc, hl⟩
    · exact hexec ⟨bytes "receive", 4, some (bytes "<nickname> <id> <mode> <filename>"),
        cmd_clt_p2p⟩ (by simp [client_commands]) hc.symm rfl (by simp [hl])
    · exact hexec ⟨bytes "send", 4, some (bytes "<nickname> <id> <mode> <filename>"),
        cmd_clt_p2p⟩ (by simp [client_commands]) hc.symm rfl (by simp [hl])
    · exact hexec ⟨bytes "refuse", 3, some (bytes "<nickname> <id> <reason>"),
        cmd_clt_p2p⟩ (by simp [client_commands]) hc.symm rfl (by simp [hl])
  · intro hfull
    have hline : (bytes "/" ++ cmd ++ bytes " " ++ O ++ bytes " " ++
        List.intercalate (bytes " ") rest ++ bytes "\n").drop 1 =
        List.intercalate (bytes " ") (cmd :: O :: rest) ++ bytes "\n" := by
      rw [intercalate_space_cons cmd _ (List.cons_ne_nil _ _),
        intercalate_space_cons O _ hrest]
      simp [bytes, List.append_assoc]
    rw [hline]
    apply command_get_tokens_join _ (List.cons_ne_nil _ _)
    intro a ha
    have hrt : ∀ b ∈ cmd :: T :: rest, ∀ x ∈ b, is_token_byte x := by
      intro b hb
      rw [← hargs] at hb
      obtain ⟨r, hr, rfl⟩ := List.mem_map.1 hb
      exact runs_cstr_tokens command r hr
    rcases List.mem_cons.1 ha with h | h
    · rw [h]
      refine ⟨?_, hrt cmd (List.mem_cons_self _ _)⟩
      rcases hcmd with ⟨hc, _⟩ | ⟨hc, _⟩ | ⟨hc, _⟩ <;> rw [hc] <;> decide
    · rcases List.mem_cons.1 h with h | h
      · rw [h]
        obtain ⟨hnl, htk⟩ := (hfl o ho).2 O hO
        refine ⟨?_, htk⟩
        intro hnil
        rw [hnil] at hnl
        simp at hnl
        omega
      · exact ⟨hfull a h, hrt a (List.mem_cons_of_mem _ (List.mem_cons_of_mem _ h))⟩

/-- Witness for C20: `alice` at address 200 sends `/send bob K secure f`, relayed to `bob` at
address 100 as `/send alice K secure f`, which is tokenized into `send`, `alice`, `K`,
`secure`, `f`. -/
theorem relay_to_target_witness :
    hub_reachable hub_bob_alice ∧
    (∃ c ∈ hub_bob_alice.list, c.ptr = 100 ∧ c.nick = some (bytes "bob")) ∧
    ∃ s', srvcmd_exec (bytes "send bob K secure f\n") .SRVCMD_TYPE_CLIENT .console
        (some (.client 200)) hub_bob_alice (some 200) = .ok (s', 0) ∧
      enqueued_on hub_bob_alice s' 100 (bytes "/send alice K secure f\n") ∧
      ∃ offs command',
        command_get_tokens (bytes "send alice K secure f\n") = .ok (5, offs, command') ∧
        offs.map (cstr command') =
          [bytes "send", bytes "alice", bytes "K", bytes "secure", bytes "f"] := by
  obtain ⟨c, hc, hp, hn, hl⟩ : ∃ c ∈ hub_bob_alice.list, c.ptr = 200 ∧
      c.nick = some (bytes "alice") ∧ c.nick_len > 0 := by decide!
  have hwf : ∀ c ∈ hub_bob_alice.list, dbuffer_wf c.buffer.output := by decide!
  have hfind : clients_get_client_from_name hub_bob_alice (bytes "bob") = .ok (some 100) := by
    have hv : (match clients_get_client_from_name hub_bob_alice (bytes "bob") with
      | .ok r => r
      | .error _ => none) = some 100 := by decide!
    cases hr : clients_get_client_from_name hub_bob_alice (bytes "bob") with
    | error e => rw [hr] at hv; simp at hv
    | ok r => rw [hr] at hv; simp only [] at hv; rw [hv]
  obtain ⟨hbob, s', hexec, henq, htok⟩ :=
    relay_to_target hub_bob_alice hub_bob_alice_reachable c hc (bytes "alice") hn hl hwf
      (bytes "send bob K secure f\n") (by decide)
      (bytes "send") (bytes "bob") [bytes "K", bytes "secure", bytes "f"] (by decide!)
      (Or.inr (Or.inl ⟨rfl, rfl⟩)) 100 hfind
  rw [hp] at hexec
  exact ⟨hub_bob_alice_reachable, hbob, s', hexec, henq, htok (by decide)⟩

/-- Counterexample for C20: `alice` (address 200) sends `/send bob` followed by a token that
begins with a NUL byte, then `secure f`. The command has five argument strings, the third one
empty; the hub returns 0 and enqueues `/send alice  secure f` (two spaces) for `bob`, and
tokenizing that line gives the four strings `send`, `alice`, `secure`, `f`. -/
theorem relay_nul_argument :
    hub_reachable hub_bob_alice ∧
    (∃ c ∈ hub_bob_alice.list, c.ptr = 200 ∧ c.nick = some (bytes "alice") ∧ c.nick_len > 0) ∧
    (clients_get_client_from_name hub_bob_alice (bytes "bob")).toOption = some (some 100) ∧
    (command_get_tokens (bytes "send bob \x00K secure f\n")).toOption.map
        (fun r => (r.1, r.2.1.map (cstr r.2.2))) =
      some (5, [bytes "send", bytes "bob", [], bytes "secure", bytes "f"]) ∧
    hub_queues hub_bob_alice =
      [(100, 3, bytes "** Hello, bob!\n** alice connected.\n"),
        (200, 5, bytes "** Hello, alice!\n")] ∧
    (srvcmd_exec (bytes "send bob \x00K secure f\n") .SRVCMD_TYPE_CLIENT .console
        (some (.client 200)) hub_bob_alice (some 200)).toOption.map
        (fun r => (r.2, hub_queues r.1)) =
      some (0, [(100, 3, bytes "** Hello, bob!\n** alice connected.\n/send alice  secure f\n"),
        (200, 5, bytes "** Hello, alice!\n")]) ∧
    (command_get_tokens (bytes "send alice  secure f\n")).toOption.map
        (fun r => (r.1, r.2.1.map (cstr r.2.2))) =
      some (4, [bytes "send", bytes "alice", bytes "secure", bytes "f"]) :=
  ⟨hub_bob_alice_reachable, by decide!, by decide!, by decide!, by decide!, by decide!,
    by decide!⟩

/-- C21: in every state of the hub, for an authenticated originator with nickname `O` whose
stored address is `ip`, a colon and `port0` (`ip` without colon), and a command line whose
argument strings (the tokens of the line, each read as a C string, that is up to its first
NUL byte) are `accept`, `T`, `id1`, `id2`, `port`, with `T` found in the index as the client
at address `t`: `srvcmd_exec` returns 0 and enqueues on the channel of `t`, a client of the
list, exactly the line `/accept O id1 id2 ip port` with single spaces and LF, and nothing
anywhere else. The table of the participant for commands from the hub has an entry `accept`
with five arguments. When `ip` is an argument string and none of `id1`, `id2`, `port` is
empty, the relayed line (after the slash) is tokenized into the command and the five
arguments `O`, `id1`, `id2`, `ip`, `port`, and `cltcmd_exec` on it calls the handler
`cmd_srv_accept` with these six strings. -/
theorem accept_relay_spliced (s : clients_t) (hs : hub_reachable s) (o : client_t)
    (ho : o ∈ s.list) (O : List Nat) (hO : o.nick = some O) (hlen : o.nick_len > 0)
    (hwf : ∀ c ∈ s.list, dbuffer_wf c.buffer.output)
    (ip port0 : List Nat) (haddr : o.addr = ip ++ 58 :: port0) (hip : 58 ∉ ip)
    (command : List Nat) (h10 : 10 ∈ command)
    (T id1 id2 port : List Nat)
    (hargs : (((command.takeWhile (· ≠ 10)).splitOnP is_space_tab).filter (· ≠ [])).map
      (fun r => r.takeWhile (· ≠ 0)) = [bytes "accept", T, id1, id2, port])
    (t : Nat) (hT : clients_get_client_from_name s T = .ok (some t))
    (host : host_t) (w : participant_t) :
    (∃ c ∈ s.list, c.ptr = t ∧ c.nick = some T) ∧
    ∃ s', srvcmd_exec command .SRVCMD_TYPE_CLIENT .console (some (.client o.ptr)) s
        (some o.ptr) = .ok (s', 0) ∧
      enqueued_on s s' t (bytes "/accept " ++ O ++ bytes " " ++ id1 ++ bytes " " ++ id2 ++
        bytes " " ++ ip ++ bytes " " ++ port ++ bytes "\n") ∧
      (∃ e ∈ cltcmd_server_commands host, e.name = bytes "accept" ∧ e.arg_count = 5) ∧
      ((ip ≠ [] ∧ ∀ x ∈ ip, is_token_byte x) → id1 ≠ [] → id2 ≠ [] → port ≠ [] →
        (∃ offs command',
          command_get_tokens ((bytes "/accept " ++ O ++ bytes " " ++ id1 ++ bytes " " ++ id2 ++
            bytes " " ++ ip ++ bytes " " ++ port ++ bytes "\n").drop 1) =
            .ok (6, offs, command') ∧
          offs.map (cstr command') = [bytes "accept", O, id1, id2, ip, port]) ∧
        cltcmd_exec host ((bytes "/accept " ++ O ++ bytes " " ++ id1 ++ bytes " " ++ id2 ++
            bytes " " ++ ip ++ bytes " " ++ port ++ bytes "\n").drop 1) .CLTCMD_TYPE_SERVER w =
          cmd_srv_accept host 6 [bytes "accept", O, id1, id2, ip, port] .console
            (some .console) () w) := by
  have hinv := hub_reachable_inv s hs
  have hfl := hub_reachable_fields s hs
  refine ⟨hub_inv_lookup_exists s hinv T t hT, ?_⟩
  obtain ⟨s', hrelay, henq⟩ := cmd_clt_accept_relay s hinv hfl o ho O hO hlen (bytes "accept")
    T id1 id2 port ip port0 haddr hip t hT (fun c hc _ => hwf c hc) .console
    (some (.client o.ptr))
  refine ⟨s', ?_, henq, ⟨_, List.mem_cons_self _ _, rfl, rfl⟩, ?_⟩
  · obtain ⟨args, command', htok, _, _, _, hfound⟩ :=
      command_exec_spec hub_put command client_commands .console (.client o.ptr) (some o.ptr) s
        h10 (List.cons_ne_nil _ _) client_commands_sorted
    have hargs' := (command_get_tokens_args command h10 _ args command' htok).trans hargs
    have hne : args ≠ [] := by
      intro h
      rw [h] at hargs'
      simp at hargs'
    have hal : args.length = 5 := by
      have := congrArg List.length hargs'
      simpa using this
    have h1 := (hfound hne ⟨bytes "accept", 4, some (bytes "<nickname> <id1> <id2> <port>"),
        cmd_clt_accept⟩ (by simp [client_commands]) (by rw [hargs']; rfl)).1 (by rw [hal]; rfl)
    unfold srvcmd_exec
    simp only [reduceCtorEq, if_false]
    rw [h1, hargs', hal]
    simp only [Nat.cast_ofNat]
    rw [hrelay]
    simp
  · intro hipt h1 h2 h3
    have hline : (bytes "/accept " ++ O ++ bytes " " ++ id1 ++ bytes " " ++ id2 ++
        bytes " " ++ ip ++ bytes " " ++ port ++ bytes "\n").drop 1 =
        List.intercalate (bytes " ") (bytes "accept" :: [O, id1, id2, ip, port]) ++
          bytes "\n" := by
      simp [bytes, List.intercalate, List.intersperse, List.append_assoc]
    have hrt : ∀ b ∈ [bytes "accept", T, id1, id2, port], ∀ x ∈ b, is_token_byte x := by
      intro b hb
      rw [← hargs] at hb
      obtain ⟨r, hr, rfl⟩ := List.mem_map.1 hb
      exact runs_cstr_tokens command r hr
    have hts : ∀ a ∈ [O, id1, id2, ip, port], a ≠ [] ∧ ∀ x ∈ a, is_token_byte x := by
      intro a ha
      simp only [List.mem_cons, List.mem_singleton, List.not_mem_nil, or_false] at ha
      rcases ha with h | h | h | h | h
      · rw [h]
        obtain ⟨hnl, htk⟩ := (hfl o ho).2 O hO
        refine ⟨?_, htk⟩
        intro hnil
        rw [hnil] at hnl
        simp at hnl
        omega
      · rw [h]; exact ⟨h1, hrt id1 (by simp)⟩
      · rw [h]; exact ⟨h2, hrt id2 (by simp)⟩
      · rw [h]; exact hipt
      · rw [h]; exact ⟨h3, hrt port (by simp)⟩
    rw [hline]
    refine ⟨?_, cltcmd_exec_accept host w [O, id1, id2, ip, port] rfl hts⟩
    apply command_get_tokens_join _ (List.cons_ne_nil _ _)
    intro a ha
    rcases List.mem_cons.1 ha with h | h
    · rw [h]
      exact ⟨by decide, hrt _ (List.mem_cons_self _ _)⟩
    · exact hts a h

/-- Witness for C21: `alice` at address 200, whose stored address is `1.2.3.5:6`, sends
`/accept bob K1 K2 5000`, relayed to `bob` at address 100 as
`/accept alice K1 K2 1.2.3.5 5000`, which is tokenized into `accept` and five arguments and
dispatched to `cmd_srv_accept`. -/
theorem accept_relay_spliced_witness :
    hub_reachable hub_bob_alice ∧
    (∃ c ∈ hub_bob_alice.list, c.ptr = 100 ∧ c.nick = some (bytes "bob")) ∧
    ∃ s', srvcmd_exec (bytes "accept bob K1 K2 5000\n") .SRVCMD_TYPE_CLIENT .console
        (some (.client 200)) hub_bob_alice (some 200) = .ok (s', 0) ∧
      enqueued_on hub_bob_alice s' 100 (bytes "/accept alice K1 K2 1.2.3.5 5000\n") ∧
      (∃ offs command',
        command_get_tokens (bytes "accept alice K1 K2 1.2.3.5 5000\n") =
          .ok (6, offs, command') ∧
        offs.map (cstr command') = [bytes "accept", bytes "alice", bytes "K1", bytes "K2",
          bytes "1.2.3.5", bytes "5000"]) ∧
      cltcmd_exec host_fresh (bytes "accept alice K1 K2 1.2.3.5 5000\n") .CLTCMD_TYPE_SERVER
          (participant_init files_empty) =
        cmd_srv_accept host_fresh 6 [bytes "accept", bytes "alice", bytes "K1", bytes "K2",
          bytes "1.2.3.5", bytes "5000"] .console (some .console) ()
          (participant_init files_empty) := by
  obtain ⟨c, hc, hp, hn, hl, ha⟩ : ∃ c ∈ hub_bob_alice.list, c.ptr = 200 ∧
      c.nick = some (bytes "alice") ∧ c.nick_len > 0 ∧
      c.addr = bytes "1.2.3.5" ++ 58 :: bytes "6" := by decide!
  have hwf : ∀ c ∈ hub_bob_alice.list, dbuffer_wf c.buffer.output := by decide!
  have hfind : clients_get_client_from_name hub_bob_alice (bytes "bob") = .ok (some 100) := by
    have hv : (match clients_get_client_from_name hub_bob_alice (bytes "bob") with
      | .ok r => r
      | .error _ => none) = some 100 := by decide!
    cases hr : clients_get_client_from_name hub_bob_alice (bytes "bob") with
    | error e => rw [hr] at hv; simp at hv
    | ok r => rw [hr] at hv; simp only [] at hv; rw [hv]
  have htok : (bytes "1.2.3.5") ≠ [] ∧ ∀ x ∈ bytes "1.2.3.5", is_token_byte x := by
    unfold is_token_byte
    decide
  obtain ⟨hbob, s', hexec, henq, _, hclt⟩ :=
    accept_relay_spliced hub_bob_alice hub_bob_alice_reachable c hc (bytes "alice") hn hl hwf
      (bytes "1.2.3.5") (bytes "6") ha (by decide)
      (bytes "accept bob K1 K2 5000\n") (by decide)
      (bytes "bob") (bytes "K1") (bytes "K2") (bytes "5000") (by decide!)
      100 hfind host_fresh (participant_init files_empty)
  rw [hp] at hexec
  obtain ⟨h5, h6⟩ := hclt htok (by decide) (by decide) (by decide)
  exact ⟨hub_bob_alice_reachable, hbob, s', hexec, henq, h5, h6⟩

/-- Counterexample for C21: `alice` (address 200, stored address `1.2.3.5:6`) sends
`/accept bob`, a token that begins with a NUL byte, then `K2 5000`. The command has five
argument strings, the third one empty; the hub returns 0 and enqueues
`/accept alice  K2 1.2.3.5 5000` (two spaces) for `bob`. That line is tokenized into `accept`
and four arguments, and `cltcmd_exec` of the participant answers it with the argument count
message without calling the handler. -/
theorem accept_nul_argument :
    hub_reachable hub_bob_alice ∧
    (∃ c ∈ hub_bob_alice.list, c.ptr = 200 ∧ c.nick = some (bytes "alice") ∧ c.nick_len > 0 ∧
      c.addr = bytes "1.2.3.5:6") ∧
    (clients_get_client_from_name hub_bob_alice (bytes "bob")).toOption = some (some 100) ∧
    (command_get_tokens (bytes "accept bob \x00K1 K2 5000\n")).toOption.map
        (fun r => (r.1, r.2.1.map (cstr r.2.2))) =
      some (5, [bytes "accept", bytes "bob", [], bytes "K2", bytes "5000"]) ∧
    hub_queues hub_bob_alice =
      [(100, 3, bytes "** Hello, bob!\n** alice connected.\n"),
        (200, 5, bytes "** Hello, alice!\n")] ∧
    (srvcmd_exec (bytes "accept bob \x00K1 K2 5000\n") .SRVCMD_TYPE_CLIENT .console
        (some (.client 200)) hub_bob_alice (some 200)).toOption.map
        (fun r => (r.2, hub_queues r.1)) =
      some (0, [(100, 3,
          bytes "** Hello, bob!\n** alice connected.\n/accept alice  K2 1.2.3.5 5000\n"),
        (200, 5, bytes "** Hello, alice!\n")]) ∧
    (command_get_tokens (bytes "accept alice  K2 1.2.3.5 5000\n")).toOption.map
        (fun r => (r.1, r.2.1.map (cstr r.2.2))) =
      some (5, [bytes "accept", bytes "alice", bytes "K2", bytes "1.2.3.5", bytes "5000"]) ∧
    clt_printed (cltcmd_exec host_fresh (bytes "accept alice  K2 1.2.3.5 5000\n")
        .CLTCMD_TYPE_SERVER (participant_init files_empty)) =
      some (bytes
        "Wrong argument count.  Syntax: /accept <nickname> <id1> <id2> <address> <port>\n") ∧
    clt_sent (cltcmd_exec host_fresh (bytes "accept alice  K2 1.2.3.5 5000\n")
        .CLTCMD_TYPE_SERVER (participant_init files_empty)) = some [] :=
  ⟨hub_bob_alice_reachable, by decide!, by decide!, by decide!, by decide!, by decide!,
    by decide!, by decide!, by decide!⟩

theorem files_print_only (files : files_t) (msg : List Nat)
    (hwfc : dbuffer_wf files.console.output) :
    printed_only files (files_print files msg) msg := by
  obtain ⟨k1, k2, k3⟩ := iobuffer_put_data_spec files.console msg hwfc
  exact ⟨rfl, rfl, rfl, rfl, rfl, rfl, rfl, k1, k2, k3⟩

/-- C25: in every state of the forbidden users reached by `files_forbid` and `files_allow`,
for a nickname `X` and a fresh address `ptr` for `malloc`. If `X` is not forbidden,
`files_forbid(X)` returns 0, prints nothing, makes `files_is_forbidden(X)` true and leaves
`files_is_forbidden(Y)` as it was for every other `Y`; `files_allow(X)` right after it prints
nothing and gives back the former table, so that `files_is_forbidden` is on every nickname
what it was before. If `X` is forbidden, `files_forbid(X)` returns 0 and appends exactly
`User already forbidden.` and LF to the output queue of the console; if `X` is not forbidden,
`files_allow(X)` appends exactly `User not forbidden.` and LF to it; in both cases nothing
else changes: the table of forbidden users, the allocated structures, `files_is_forbidden` on
every nickname, the input queue of the console, the transfers, the mode and the server
handler are what they were. -/
theorem forbid_allow_roundtrip (files : files_t) (heap : List nick_t)
    (hr : forbid_reachable files heap) (ptr : Nat) (hfresh : ptr ∉ heap.map (fun n => n.addr))
    (X : List Nat) :
    (files_is_forbidden files X = .ok true ∨ files_is_forbidden files X = .ok false) ∧
    (files_is_forbidden files X = .ok false →
      ∃ f1 h1, files_forbid files heap ptr X = .ok (f1, h1, 0) ∧
        files_is_forbidden f1 X = .ok true ∧
        (∀ Y, Y ≠ X → files_is_forbidden f1 Y = files_is_forbidden files Y) ∧
        f1.console = files.console ∧
        ∃ f2 h2, files_allow f1 h1 X = .ok (f2, h2) ∧
          (∀ Y, files_is_forbidden f2 Y = files_is_forbidden files Y) ∧
          f2.forbid = files.forbid ∧ f2.console = files.console) ∧
    (files_is_forbidden files X = .ok true →
      ∃ f1, files_forbid files heap ptr X = .ok (f1, heap, 0) ∧
        f1.nicks = files.nicks ∧ f1.forbid = files.forbid ∧ f1.files = files.files ∧
        f1.heap = files.heap ∧ f1.file_keys = files.file_keys ∧ f1.mode = files.mode ∧
        f1.server = files.server ∧ f1.console.input = files.console.input ∧
        (∀ Y, files_is_forbidden f1 Y = files_is_forbidden files Y) ∧
        (dbuffer_wf files.console.output →
          dbuffer_wf f1.console.output ∧
          dbuffer_contents f1.console.output =
            dbuffer_contents files.console.output ++ bytes "User already forbidden.\n")) ∧
    (files_is_forbidden files X = .ok false →
      ∃ f1, files_allow files heap X = .ok (f1, heap) ∧
        f1.nicks = files.nicks ∧ f1.forbid = files.forbid ∧ f1.files = files.files ∧
        f1.heap = files.heap ∧ f1.file_keys = files.file_keys ∧ f1.mode = files.mode ∧
        f1.server = files.server ∧ f1.console.input = files.console.input ∧
        (∀ Y, files_is_forbidden f1 Y = files_is_forbidden files Y) ∧
        (dbuffer_wf files.console.output →
          dbuffer_wf f1.console.output ∧
          dbuffer_contents f1.console.output =
            dbuffer_contents files.console.output ++ bytes "User not forbidden.\n")) := by
  have hinv := forbid_reachable_inv files heap hr
  refine ⟨?_, forbid_then_allow files heap hinv ptr hfresh X, ?_, ?_⟩
  · unfold files_is_forbidden hash_find
    simp only [if_pos (hash_function_lt X)]
    cases hash_find_loop X (files.forbid.table.getD (hash_function X) []) with
    | none => right; rfl
    | some e => left; rfl
  · intro h
    obtain ⟨e, he⟩ := files_is_forbidden_true files X h
    refine ⟨files_print files msg_already, ?_, rfl, rfl, rfl, rfl, rfl, rfl, rfl, rfl,
      fun _ => rfl, ?_⟩
    · unfold files_forbid
      rw [he]
    · intro hwfc
      obtain ⟨_, _, _, _, _, _, _, _, k2, k3⟩ := files_print_only files msg_already hwfc
      exact ⟨k2, k3⟩
  · intro h
    refine ⟨files_print files msg_not, ?_, rfl, rfl, rfl, rfl, rfl, rfl, rfl, rfl,
      fun _ => rfl, ?_⟩
    · unfold files_allow
      rw [files_is_forbidden_false files X h]
    · intro hwfc
      obtain ⟨_, _, _, _, _, _, _, _, k2, k3⟩ := files_print_only files msg_not hwfc
      exact ⟨k2, k3⟩

/-- Witness for C25: with `bob` forbidden (structure at address 500), `/forbid alice` with a
structure at address 600 and `/allow alice` give back the table; `/forbid bob` prints
`User already forbidden.` and `/allow alice` prints `User not forbidden.` on the console,
which was empty, and neither changes the table. -/
theorem forbid_allow_roundtrip_witness :
    forbid_reachable forbid_bob.1 forbid_bob.2 ∧
    600 ∉ forbid_bob.2.map (fun n => n.addr) ∧
    files_is_forbidden forbid_bob.1 (bytes "alice") = .ok false ∧
    files_is_forbidden forbid_bob.1 (bytes "bob") = .ok true ∧
    dbuffer_wf forbid_bob.1.console.output ∧
    dbuffer_contents forbid_bob.1.console.output = [] ∧
    (∃ f1 h1, files_forbid forbid_bob.1 forbid_bob.2 600 (bytes "alice") = .ok (f1, h1, 0) ∧
      files_is_forbidden f1 (bytes "alice") = .ok true ∧
      (∀ Y, Y ≠ bytes "alice" → files_is_forbidden f1 Y = files_is_forbidden forbid_bob.1 Y) ∧
      f1.console = forbid_bob.1.console ∧
      ∃ f2 h2, files_allow f1 h1 (bytes "alice") = .ok (f2, h2) ∧
        (∀ Y, files_is_forbidden f2 Y = files_is_forbidden forbid_bob.1 Y) ∧
        f2.forbid = forbid_bob.1.forbid ∧ f2.console = forbid_bob.1.console) ∧
    (∃ f1, files_forbid forbid_bob.1 forbid_bob.2 600 (bytes "bob") =
        .ok (f1, forbid_bob.2, 0) ∧
      f1.forbid = forbid_bob.1.forbid ∧
      dbuffer_contents f1.console.output = [] ++ bytes "User already forbidden.\n") ∧
    (∃ f1, files_allow forbid_bob.1 forbid_bob.2 (bytes "alice") = .ok (f1, forbid_bob.2) ∧
      f1.forbid = forbid_bob.1.forbid ∧
      dbuffer_contents f1.console.output = [] ++ bytes "User not forbidden.\n") := by
  have hr : forbid_reachable forbid_bob.1 forbid_bob.2 :=
    forbid_reachable.forbid files_empty forbid_bob.1 [] forbid_bob.2 500 (bytes "bob") 0
      (forbid_reachable.init files_empty rfl) (by simp) (toOption_eq_some _ _ (by decide!))
  have hnot : files_is_forbidden forbid_bob.1 (bytes "alice") = .ok false :=
    toOption_eq_some _ _ (by decide!)
  have hyes : files_is_forbidden forbid_bob.1 (bytes "bob") = .ok true :=
    toOption_eq_some _ _ (by decide!)
  have hwfc : dbuffer_wf forbid_bob.1.console.output := by decide!
  have hempty : dbuffer_contents forbid_bob.1.console.output = [] := by decide!
  obtain ⟨a1, g1, _, g2, _, _, _, _, _, _, _, g3⟩ :=
    (forbid_allow_roundtrip forbid_bob.1 forbid_bob.2 hr 600 (by decide!) (bytes "bob")).2.2.1
      hyes
  obtain ⟨b1, k1, _, k2, _, _, _, _, _, _, _, k3⟩ :=
    (forbid_allow_roundtrip forbid_bob.1 forbid_bob.2 hr 600 (by decide!)
      (bytes "alice")).2.2.2 hnot
  refine ⟨hr, by decide!, hnot, hyes, hwfc, hempty,
    (forbid_allow_roundtrip forbid_bob.1 forbid_bob.2 hr 600 (by decide!) (bytes "alice")).2.1
      hnot, ⟨a1, g1, g2, ?_⟩, ⟨b1, k1, k2, ?_⟩⟩
  · rw [(g3 hwfc).2, hempty]
  · rw [(k3 hwfc).2, hempty]

theorem dropWhile_after_colon (peer remote : List Nat) (h : 58 ∉ peer) :
    ((peer ++ 58 :: remote).dropWhile (· ≠ 58)).drop 1 = remote := by
  induction peer with
  | nil => simp
  | cons a l ih =>
    have ha : a ≠ 58 := fun h58 => h (h58 ▸ List.mem_cons_self _ _)
    have hl : 58 ∉ l := fun hm => h (List.mem_cons_of_mem _ hm)
    simp only [List.cons_append, List.dropWhile_cons, ha, ne_eq, not_false_eq_true,
      decide_True, if_true]
    exact ih hl

/-- The line that `send_transfer_init` queues for the hub. -/
theorem send_transfer_init_spec (files : files_t) (ptr : Nat) (file : file_t)
    (hl : file_lookup files ptr = some file) (hsock : files.server.sock ≠ -1)
    (hwf : dbuffer_wf files.server.buffer.output) :
    ∃ f', send_transfer_init files ptr = .ok f' ∧ f'.heap = files.heap ∧
      f'.files = files.files ∧ f'.file_keys = files.file_keys ∧ f'.forbid = files.forbid ∧
      f'.mode = files.mode ∧ f'.nicks = files.nicks ∧ f'.console = files.console ∧
      f'.server.sock = files.server.sock ∧ f'.server.read_fds = files.server.read_fds ∧
      f'.server.write_fds = files.server.write_fds ∧
      f'.server.num_fds = files.server.num_fds ∧
      f'.server.buffer.input = files.server.buffer.input ∧
      dbuffer_contents f'.server.buffer.output =
        dbuffer_contents files.server.buffer.output ++
          (request_word file.dir ++ file.nick.take file.nick_len.toNat ++ bytes " " ++
            file.key.take FILE_KEY_LENGTH ++ mode_word files.mode ++
            file.name.take file.name_len.toNat ++ bytes "\n") := by
  have hstep : send_transfer_init files ptr = .ok
      ([request_word file.dir, file.nick.take file.nick_len.toNat, bytes " ",
        file.key.take FILE_KEY_LENGTH, mode_word files.mode,
        file.name.take file.name_len.toNat, bytes "\n"].foldl files_send files) := by
    unfold send_transfer_init
    rw [hl]
    simp only []
    cases file.dir <;> cases files.mode <;> rfl
  obtain ⟨b1, b2, b3, b4, b5, b6, b7, b8, b9, b10, b11, b12, _, b14⟩ :=
    files_send_all_spec _ files hsock hwf
  refine ⟨_, hstep, b1, b2, b3, b4, b5, b6, b7, b8, b9, b10, b11, b12, ?_⟩
  rw [b14]
  simp [List.append_assoc]

/-- The common end of `files_req_receive` and `files_req_send`: the new transfer gets its
descriptors and `send_transfer_init` queues the request for the hub. -/
theorem request_init_spec (files : files_t) (hinv : files_inv files) (nick name : List Nat)
    (dir : file_dir_t) (ptr : Nat) (hfresh : ptr ∉ files.heap.map (fun f => f.addr))
    (fds : Int × Int × Int) (rand : Nat → Nat) (pos fuel : Nat)
    (hsock : files.server.sock ≠ -1) (hwf : dbuffer_wf files.server.buffer.output)
    (f1 : files_t) (p pos' : Nat)
    (hnew : file_new files ptr fds nick name files.mode dir rand pos fuel = .ok (f1, p, pos'))
    (from_fd to_fd : Int) :
    ∃ f' fl, send_transfer_init (file_update f1 p
        (fun f => { f with from_fd := from_fd, to_fd := to_fd, sock_fd := -1 })) p = .ok f' ∧
      f'.heap = fl :: files.heap ∧ f'.files = some ptr ∧ fl.addr = ptr ∧ fl.dir = dir ∧
      fl.mode = files.mode ∧ fl.nick = nick ∧ fl.name = name ∧ fl.from_fd = from_fd ∧
      fl.to_fd = to_fd ∧ fl.sock_fd = -1 ∧ fl.key.length = FILE_KEY_LENGTH ∧
      (∀ g ∈ files.heap, g.key ≠ fl.key) ∧
      dbuffer_contents f'.server.buffer.output =
        dbuffer_contents files.server.buffer.output ++
          (request_word dir ++ nick ++ bytes " " ++ fl.key ++ mode_word files.mode ++ name ++
            bytes "\n") ∧
      f'.server.buffer.input = files.server.buffer.input ∧
      f'.server.sock = files.server.sock ∧ f'.server.read_fds = files.server.read_fds ∧
      f'.server.write_fds = files.server.write_fds ∧
      f'.server.num_fds = files.server.num_fds ∧
      f'.console = files.console ∧ f'.forbid = files.forbid ∧ f'.nicks = files.nicks ∧
      f'.mode = files.mode := by
  obtain ⟨_, hp, f, hheap, ha, hlen, _, hdiff, hnick, hname, hmode, hdir, _, _, hfiles⟩ :=
    file_new_inv _ _ _ _ _ _ _ _ _ _ _ _ _ hinv hfresh hnew
  subst hp
  obtain ⟨hserver, hconsole, hforbid, hmode1, hnicks, hfield⟩ :=
    file_new_frame _ _ _ _ _ _ _ _ _ _ _ _ _ hnew
  have hnl : f.nick_len.toNat = nick.length := by
    rw [(hfield f _ hheap).1]
    rfl
  have hml : f.name_len.toNat = name.length := by
    rw [(hfield f _ hheap).2.1]
    rfl
  have hupd : (file_update f1 p
      (fun f => { f with from_fd := from_fd, to_fd := to_fd, sock_fd := -1 })).heap =
      { f with from_fd := from_fd, to_fd := to_fd, sock_fd := -1 } :: files.heap := by
    show f1.heap.map _ = _
    rw [hheap, List.map_cons, if_pos ha]
    congr 1
    rw [List.map_congr_left, List.map_id]
    intro g hg
    have : g.addr ≠ p := fun h => hfresh (h ▸ List.mem_map_of_mem _ hg)
    rw [if_neg this]
    rfl
  have hlook : file_lookup (file_update f1 p
      (fun f => { f with from_fd := from_fd, to_fd := to_fd, sock_fd := -1 })) p =
      some { f with from_fd := from_fd, to_fd := to_fd, sock_fd := -1 } := by
    unfold file_lookup
    rw [hupd, List.find?_cons_of_pos]
    simpa using ha
  have hsv : (file_update f1 p
      (fun f => { f with from_fd := from_fd, to_fd := to_fd, sock_fd := -1 })).server =
      files.server := hserver
  obtain ⟨f', hres, c1, c2, _, c4, c5, c6, c7, c8, c9, c10, c11, c12, c13⟩ :=
    send_transfer_init_spec _ p _ hlook (by rw [hsv]; exact hsock) (by rw [hsv]; exact hwf)
  refine ⟨f', _, hres, c1.trans hupd, c2.trans hfiles, ha, hdir, hmode, hnick, hname, rfl, rfl,
    rfl, hlen, hdiff, ?_, by rw [c12, hsv], by rw [c8, hsv], by rw [c9, hsv], by rw [c10, hsv],
    by rw [c11, hsv], c7.trans hconsole, c4.trans hforbid, c6.trans hnicks, c5.trans hmode1⟩
  rw [c13, hsv]
  have hm1 : (file_update f1 p
      (fun f => { f with from_fd := from_fd, to_fd := to_fd, sock_fd := -1 })).mode =
      files.mode := hmode1
  simp only [hnl, hml, hnick, hname, hdir, hm1, List.take_length]
  rw [← hlen, List.take_length]

theorem clt_put_only (console : cltref) (msg : List Nat) (w : participant_t)
    (hwfc : dbuffer_wf w.files.console.output) :
    clt_printed_only w (clt_put console msg w) msg [] :=
  ⟨files_print_only w.files msg hwfc, rfl, by simp [clt_put]⟩

/-- The branch that `cmd_cns_transfer` takes when the first argument names the remote file. -/
theorem cmd_cns_transfer_receive (host : host_t) (w : participant_t)
    (cmd peer remote loc : List Nat) (hpeer : 58 ∉ peer) (hloc : 58 ∉ loc)
    (console : cltref) (buffer : Option cltref) :
    cmd_cns_transfer host 3 [cmd, peer ++ 58 :: remote, loc] console buffer () w =
      if peer = [] then .ok (clt_put console (bytes "No nickname specified.\n") w, 0)
      else if loc = [] then .ok (clt_put console (bytes "No local file specified.\n") w, 0)
      else if remote = [] then
        .ok (clt_put console (bytes "No remote file specified.\n") w, 0)
      else clt_request w (files_req_receive host.env w.files peer remote loc host.ptr
        host.fds host.rand host.pos host.fuel) := by
  have h3 : ¬ ((3 : Int) ≠ 3) := by decide
  have h1 : 58 ∈ peer ++ 58 :: remote := by simp
  unfold cmd_cns_transfer
  simp only [if_neg h3, List.getD_cons_succ, List.getD_cons_zero, if_pos h1, if_pos hloc,
    takeWhile_before_colon peer remote hpeer, dropWhile_after_colon peer remote hpeer]

/-- The branch that `cmd_cns_transfer` takes when the second argument names the remote file. -/
theorem cmd_cns_transfer_send (host : host_t) (w : participant_t)
    (cmd peer remote loc : List Nat) (hpeer : 58 ∉ peer) (hloc : 58 ∉ loc)
    (console : cltref) (buffer : Option cltref) :
    cmd_cns_transfer host 3 [cmd, loc, peer ++ 58 :: remote] console buffer () w =
      if peer = [] then .ok (clt_put console (bytes "No nickname specified.\n") w, 0)
      else if loc = [] then .ok (clt_put console (bytes "No local file specified.\n") w, 0)
      else if remote = [] then
        .ok (clt_put console (bytes "No remote file specified.\n") w, 0)
      else clt_request w (files_req_send host.env w.files peer loc remote host.ptr
        host.fds host.rand host.pos host.fuel) := by
  have h3 : ¬ ((3 : Int) ≠ 3) := by decide
  have h1 : 58 ∈ peer ++ 58 :: remote := by simp
  unfold cmd_cns_transfer
  simp only [if_neg h3, List.getD_cons_succ, List.getD_cons_zero, if_neg hloc, if_pos h1,
    takeWhile_before_colon peer remote hpeer, dropWhile_after_colon peer remote hpeer]

/-- The outcomes of `files_req_receive` as outcomes of a command. -/
theorem req_receive_outcomes (host : host_t) (w : participant_t)
    (hr : files_reachable w.files) (hfresh : host.ptr ∉ w.files.heap.map (fun f => f.addr))
    (hsock : w.files.server.sock ≠ -1) (hwf : dbuffer_wf w.files.server.buffer.output)
    (hwfc : dbuffer_wf w.files.console.output) (peer remote loc : List Nat) :
    ((verify_filename remote ≠ 0 ∨ verify_filename loc ≠ 0) →
      ∃ w', clt_request w (files_req_receive host.env w.files peer remote loc host.ptr
          host.fds host.rand host.pos host.fuel) = .ok (w', 0) ∧
        clt_printed_only w w' (bytes "Error: invalid filename.\n") []) ∧
    (verify_filename remote = 0 → verify_filename loc = 0 →
      (host.env.stat loc = true →
        ∃ w', clt_request w (files_req_receive host.env w.files peer remote loc host.ptr
            host.fds host.rand host.pos host.fuel) = .ok (w', 0) ∧
          clt_printed_only w w' (bytes "Error: file already exists.\n") [.stat loc]) ∧
      (host.env.stat loc = false → host.env.creat loc = -1 →
        ∃ w', clt_request w (files_req_receive host.env w.files peer remote loc host.ptr
            host.fds host.rand host.pos host.fuel) = .ok (w', 0) ∧
          clt_printed_only w w' (bytes "Error: cannot create file.\n")
            [.stat loc, .creat loc]) ∧
      (host.env.stat loc = false → host.env.creat loc ≠ -1 →
        (∃ q, file_new w.files host.ptr host.fds peer remote w.files.mode .FILE_DIR_RECEIVE
          host.rand host.pos host.fuel = .ok q) →
        ∃ w', clt_request w (files_req_receive host.env w.files peer remote loc host.ptr
            host.fds host.rand host.pos host.fuel) = .ok (w', 0) ∧
          transfer_requested w w' host.ptr .FILE_DIR_RECEIVE peer remote (-1)
            (host.env.creat loc) [.stat loc, .creat loc])) := by
  have hinv := files_reachable_inv w.files hr
  refine ⟨?_, ?_⟩
  · intro hv
    refine ⟨⟨files_print w.files (bytes "Error: invalid filename.\n"), w.nicks, w.calls ++ []⟩,
      ?_, files_print_only w.files _ hwfc, rfl, rfl⟩
    unfold files_req_receive
    rw [if_pos hv]
    rfl
  · intro hv1 hv2
    have hv : ¬ (verify_filename remote ≠ 0 ∨ verify_filename loc ≠ 0) := by
      simp [hv1, hv2]
    refine ⟨?_, ?_, ?_⟩
    · intro hstat
      refine ⟨⟨files_print w.files (bytes "Error: file already exists.\n"), w.nicks,
        w.calls ++ [.stat loc]⟩, ?_, files_print_only w.files _ hwfc, rfl, rfl⟩
      unfold files_req_receive
      rw [if_neg hv, if_pos hstat]
      rfl
    · intro hstat hcreat
      refine ⟨⟨files_print w.files (bytes "Error: cannot create file.\n"), w.nicks,
        w.calls ++ [.stat loc, .creat loc]⟩, ?_, files_print_only w.files _ hwfc, rfl, rfl⟩
      unfold files_req_receive
      have hs : ¬ (host.env.stat loc = true) := by simp [hstat]
      rw [if_neg hv, if_neg hs]
      simp only [if_pos hcreat]
      rfl
    · intro hstat hcreat hnew
      obtain ⟨⟨f1, p, pos'⟩, hnew⟩ := hnew
      obtain ⟨f', fl, hres, c1, c2, c3, c4, c5, c6, c7, c8, c9, c10, c11, c12, c13, c14, c15,
        c16, c17, c18, c19, c20, c21, c22⟩ :=
        request_init_spec w.files hinv peer remote .FILE_DIR_RECEIVE host.ptr hfresh host.fds
          host.rand host.pos host.fuel hsock hwf f1 p pos' hnew (-1) (host.env.creat loc)
      have hs : ¬ (host.env.stat loc = true) := by simp [hstat]
      refine ⟨⟨f', w.nicks, w.calls ++ [.stat loc, .creat loc]⟩, ?_, fl, c1, c2, c3, c4, c5,
        c6, c7, c8, c9, c10, c11, c12, c13, c14, c15, c16, c17, c18, c19, c20, c21, c22, rfl,
        rfl⟩
      unfold files_req_receive
      rw [if_neg hv, if_neg hs]
      simp only [if_neg hcreat, hnew, hres]
      rfl

/-- The outcomes of `files_req_send` as outcomes of a command. -/
theorem req_send_outcomes (host : host_t) (w : participant_t)
    (hr : files_reachable w.files) (hfresh : host.ptr ∉ w.files.heap.map (fun f => f.addr))
    (hsock : w.files.server.sock ≠ -1) (hwf : dbuffer_wf w.files.server.buffer.output)
    (hwfc : dbuffer_wf w.files.console.output) (peer remote loc : List Nat) :
    ((verify_filename loc ≠ 0 ∨ verify_filename remote ≠ 0) →
      ∃ w', clt_request w (files_req_send host.env w.files peer loc remote host.ptr
          host.fds host.rand host.pos host.fuel) = .ok (w', 0) ∧
        clt_printed_only w w' (bytes "Error: invalid filename.\n") []) ∧
    (verify_filename loc = 0 → verify_filename remote = 0 →
      (host.env.open_ loc = -1 →
        ∃ w', clt_request w (files_req_send host.env w.files peer loc remote host.ptr
            host.fds host.rand host.pos host.fuel) = .ok (w', 0) ∧
          clt_printed_only w w' (bytes "Error: cannot open file.\n") [.open_ loc]) ∧
      (host.env.open_ loc ≠ -1 →
        (∃ q, file_new w.files host.ptr host.fds peer remote w.files.mode .FILE_DIR_SEND
          host.rand host.pos host.fuel = .ok q) →
        ∃ w', clt_request w (files_req_send host.env w.files peer loc remote host.ptr
            host.fds host.rand host.pos host.fuel) = .ok (w', 0) ∧
          transfer_requested w w' host.ptr .FILE_DIR_SEND peer remote (host.env.open_ loc)
            (-1) [.open_ loc])) := by
  have hinv := files_reachable_inv w.files hr
  refine ⟨?_, ?_⟩
  · intro hv
    refine ⟨⟨files_print w.files (bytes "Error: invalid filename.\n"), w.nicks, w.calls ++ []⟩,
      ?_, files_print_only w.files _ hwfc, rfl, rfl⟩
    unfold files_req_send
    rw [if_pos hv]
    rfl
  · intro hv1 hv2
    have hv : ¬ (verify_filename loc ≠ 0 ∨ verify_filename remote ≠ 0) := by
      simp [hv1, hv2]
    refine ⟨?_, ?_⟩
    · intro hopen
      refine ⟨⟨files_print w.files (bytes "Error: cannot open file.\n"), w.nicks,
        w.calls ++ [.open_ loc]⟩, ?_, files_print_only w.files _ hwfc, rfl, rfl⟩
      unfold files_req_send
      rw [if_neg hv]
      simp only [if_pos hopen]
      rfl
    · intro hopen hnew
      obtain ⟨⟨f1, p, pos'⟩, hnew⟩ := hnew
      obtain ⟨f', fl, hres, c1, c2, c3, c4, c5, c6, c7, c8, c9, c10, c11, c12, c13, c14, c15,
        c16, c17, c18, c19, c20, c21, c22⟩ :=
        request_init_spec w.files hinv peer remote .FILE_DIR_SEND host.ptr hfresh host.fds
          host.rand host.pos host.fuel hsock hwf f1 p pos' hnew (host.env.open_ loc) (-1)
      refine ⟨⟨f', w.nicks, w.calls ++ [.open_ loc]⟩, ?_, fl, c1, c2, c3, c4, c5,
        c6, c7, c8, c9, c10, c11, c12, c13, c14, c15, c16, c17, c18, c19, c20, c21, c22, rfl,
        rfl⟩
      unfold files_req_send
      rw [if_neg hv]
      simp only [if_neg hopen, hnew, hres]
      rfl

/-- C26: for the console command `/transfer` (`cmd_cns_transfer` with the three argument
strings `cmd` and two more) while connected to the hub, with `peer` and `remote` the text
before and after the first colon of the argument that holds one, and `loc` the other
argument. If both arguments or neither hold a colon, only the message about one local and one
remote file is printed. Otherwise the first that applies of: an empty `peer` prints only
`No nickname specified.`, an empty `loc` only `No local file specified.`, an empty `remote`
only `No remote file specified.`. When none of the three is empty and the colon is in the
first argument, the request is a receive: `files_req_receive` refuses an invalid or existing
name or a failed `creat` with its message, and else creates `loc`, adds a transfer with
direction `FILE_DIR_RECEIVE`, peer `peer`, name `remote` and the new descriptor as target,
and queues `/receive peer id mode remote` for the hub. When the colon is in the second
argument, the request is a send: `files_req_send` refuses an invalid name or a failed `open`
with its message, and else opens `loc`, adds a transfer with direction `FILE_DIR_SEND`, peer
`peer`, name `remote` and the new descriptor as source, and queues `/send peer id mode remote`
for the hub. Every case returns 0, and in every case that prints a message the state differs
by that message (and the system calls listed) alone: no transfer is created and nothing is
queued for the hub. -/
theorem transfer_request (host : host_t) (w : participant_t) (hr : files_reachable w.files)
    (hfresh : host.ptr ∉ w.files.heap.map (fun f => f.addr))
    (hsock : w.files.server.sock ≠ -1) (hwf : dbuffer_wf w.files.server.buffer.output)
    (hwfc : dbuffer_wf w.files.console.output)
    (cmd peer remote loc : List Nat) (hpeer : 58 ∉ peer) (hloc : 58 ∉ loc)
    (console : cltref) (buffer : Option cltref) :
    (∀ a b, (58 ∈ a ∧ 58 ∈ b) ∨ (58 ∉ a ∧ 58 ∉ b) →
      ∃ w', cmd_cns_transfer host 3 [cmd, a, b] console buffer () w = .ok (w', 0) ∧
        clt_printed_only w w'
          (bytes "There must be only and at most one local file and one remote file.\n") []) ∧
    (peer = [] →
      (∃ w', cmd_cns_transfer host 3 [cmd, peer ++ 58 :: remote, loc] console buffer () w =
          .ok (w', 0) ∧ clt_printed_only w w' (bytes "No nickname specified.\n") []) ∧
      (∃ w', cmd_cns_transfer host 3 [cmd, loc, peer ++ 58 :: remote] console buffer () w =
          .ok (w', 0) ∧ clt_printed_only w w' (bytes "No nickname specified.\n") [])) ∧
    (peer ≠ [] → loc = [] →
      (∃ w', cmd_cns_transfer host 3 [cmd, peer ++ 58 :: remote, loc] console buffer () w =
          .ok (w', 0) ∧ clt_printed_only w w' (bytes "No local file specified.\n") []) ∧
      (∃ w', cmd_cns_transfer host 3 [cmd, loc, peer ++ 58 :: remote] console buffer () w =
          .ok (w', 0) ∧ clt_printed_only w w' (bytes "No local file specified.\n") [])) ∧
    (peer ≠ [] → loc ≠ [] → remote = [] →
      (∃ w', cmd_cns_transfer host 3 [cmd, peer ++ 58 :: remote, loc] console buffer () w =
          .ok (w', 0) ∧ clt_printed_only w w' (bytes "No remote file specified.\n") []) ∧
      (∃ w', cmd_cns_transfer host 3 [cmd, loc, peer ++ 58 :: remote] console buffer () w =
          .ok (w', 0) ∧ clt_printed_only w w' (bytes "No remote file specified.\n") [])) ∧
    (peer ≠ [] → loc ≠ [] → remote ≠ [] →
      ((verify_filename remote ≠ 0 ∨ verify_filename loc ≠ 0) →
        (∃ w', cmd_cns_transfer host 3 [cmd, peer ++ 58 :: remote, loc] console buffer () w =
            .ok (w', 0) ∧ clt_printed_only w w' (bytes "Error: invalid filename.\n") []) ∧
        (∃ w', cmd_cns_transfer host 3 [cmd, loc, peer ++ 58 :: remote] console buffer () w =
            .ok (w', 0) ∧ clt_printed_only w w' (bytes "Error: invalid filename.\n") [])) ∧
      (verify_filename remote = 0 → verify_filename loc = 0 →
        (host.env.stat loc = true →
          ∃ w', cmd_cns_transfer host 3 [cmd, peer ++ 58 :: remote, loc] console buffer () w =
              .ok (w', 0) ∧
            clt_printed_only w w' (bytes "Error: file already exists.\n") [.stat loc]) ∧
        (host.env.stat loc = false → host.env.creat loc = -1 →
          ∃ w', cmd_cns_transfer host 3 [cmd, peer ++ 58 :: remote, loc] console buffer () w =
              .ok (w', 0) ∧
            clt_printed_only w w' (bytes "Error: cannot create file.\n")
              [.stat loc, .creat loc]) ∧
        (host.env.stat loc = false → host.env.creat loc ≠ -1 →
          (∃ q, file_new w.files host.ptr host.fds peer remote w.files.mode .FILE_DIR_RECEIVE
            host.rand host.pos host.fuel = .ok q) →
          ∃ w', cmd_cns_transfer host 3 [cmd, peer ++ 58 :: remote, loc] console buffer () w =
              .ok (w', 0) ∧
            transfer_requested w w' host.ptr .FILE_DIR_RECEIVE peer remote (-1)
              (host.env.creat loc) [.stat loc, .creat loc]) ∧
        (host.env.open_ loc = -1 →
          ∃ w', cmd_cns_transfer host 3 [cmd, loc, peer ++ 58 :: remote] console buffer () w =
              .ok (w', 0) ∧
            clt_printed_only w w' (bytes "Error: cannot open file.\n") [.open_ loc]) ∧
        (host.env.open_ loc ≠ -1 →
          (∃ q, file_new w.files host.ptr host.fds peer remote w.files.mode .FILE_DIR_SEND
            host.rand host.pos host.fuel = .ok q) →
          ∃ w', cmd_cns_transfer host 3 [cmd, loc, peer ++ 58 :: remote] console buffer () w =
              .ok (w', 0) ∧
            transfer_requested w w' host.ptr .FILE_DIR_SEND peer remote (host.env.open_ loc)
              (-1) [.open_ loc]))) := by
  have hrecv := cmd_cns_transfer_receive host w cmd peer remote loc hpeer hloc console buffer
  have hsend := cmd_cns_transfer_send host w cmd peer remote loc hpeer hloc console buffer
  refine ⟨?_, ?_, ?_, ?_, ?_⟩
  · intro a b h
    have h3 : ¬ ((3 : Int) ≠ 3) := by decide
    refine ⟨_, ?_, clt_put_only console _ w hwfc⟩
    unfold cmd_cns_transfer
    rcases h with ⟨h1, h2⟩ | ⟨h1, h2⟩
    · simp only [if_neg h3, List.getD_cons_succ, List.getD_cons_zero, if_pos h1,
        if_neg (not_not.2 h2)]
    · simp only [if_neg h3, List.getD_cons_succ, List.getD_cons_zero, if_neg h1, if_neg h2]
  · intro hp
    simp only [hrecv, hsend, if_pos hp]
    exact ⟨⟨_, rfl, clt_put_only console _ w hwfc⟩, ⟨_, rfl, clt_put_only console _ w hwfc⟩⟩
  · intro hp hl
    simp only [hrecv, hsend, if_neg hp, if_pos hl]
    exact ⟨⟨_, rfl, clt_put_only console _ w hwfc⟩, ⟨_, rfl, clt_put_only console _ w hwfc⟩⟩
  · intro hp hl hrm
    simp only [hrecv, hsend, if_neg hp, if_neg hl, if_pos hrm]
    exact ⟨⟨_, rfl, clt_put_only console _ w hwfc⟩, ⟨_, rfl, clt_put_only console _ w hwfc⟩⟩
  · intro hp hl hrm
    simp only [hrecv, hsend, if_neg hp, if_neg hl, if_neg hrm]
    obtain ⟨r1, r2⟩ := req_receive_outcomes host w hr hfresh hsock hwf hwfc peer remote loc
    obtain ⟨s1, s2⟩ := req_send_outcomes host w hr hfresh hsock hwf hwfc peer remote loc
    refine ⟨fun hv => ⟨r1 hv, s1 (Or.symm hv)⟩, ?_⟩
    intro hv1 hv2
    obtain ⟨r3, r4, r5⟩ := r2 hv1 hv2
    obtain ⟨s3, s4⟩ := s2 hv2 hv1
    exact ⟨r3, r4, r5, s3, s4⟩

/-- Witness for C26: in the participant as `main` sets it up, `/transfer a.txt bob:b.txt` opens
`a.txt` (descriptor 7), adds a transfer to `bob` with direction `FILE_DIR_SEND` and name
`b.txt`, and queues `/send bob 0123456789ABCDEF secure b.txt` for the hub;
`/transfer bob:b.txt a.txt` creates `a.txt`, adds a transfer with direction
`FILE_DIR_RECEIVE` and queues `/receive bob 0123456789ABCDEF secure b.txt`. -/
theorem transfer_request_witness :
    files_reachable (participant_init files_empty).files ∧
    58 ∉ bytes "bob" ∧ 58 ∉ bytes "a.txt" ∧
    (∃ w', cmd_cns_transfer host_fresh 3 [bytes "transfer", bytes "a.txt", bytes "bob:b.txt"]
        .console (some .console) () (participant_init files_empty) = .ok (w', 0) ∧
      transfer_requested (participant_init files_empty) w' 1000 .FILE_DIR_SEND (bytes "bob")
        (bytes "b.txt") 7 (-1) [.open_ (bytes "a.txt")]) ∧
    (∃ w', cmd_cns_transfer host_fresh 3 [bytes "transfer", bytes "bob:b.txt", bytes "a.txt"]
        .console (some .console) () (participant_init files_empty) = .ok (w', 0) ∧
      transfer_requested (participant_init files_empty) w' 1000 .FILE_DIR_RECEIVE
        (bytes "bob") (bytes "b.txt") (-1) 7
        [.stat (bytes "a.txt"), .creat (bytes "a.txt")]) ∧
    clt_sent (cmd_cns_transfer host_fresh 3 [bytes "transfer", bytes "a.txt", bytes "bob:b.txt"]
        .console (some .console) () (participant_init files_empty)) =
      some (bytes "/send bob 0123456789ABCDEF secure b.txt\n") ∧
    clt_sent (cmd_cns_transfer host_fresh 3 [bytes "transfer", bytes "bob:b.txt", bytes "a.txt"]
        .console (some .console) () (participant_init files_empty)) =
      some (bytes "/receive bob 0123456789ABCDEF secure b.txt\n") := by
  have hr : files_reachable (participant_init files_empty).files :=
    files_reachable.init _ rfl rfl
  have hnew : ∀ dir, ∃ q, file_new (participant_init files_empty).files host_fresh.ptr
      host_fresh.fds (bytes "bob") (bytes "b.txt") (participant_init files_empty).files.mode
      dir host_fresh.rand host_fresh.pos host_fresh.fuel = .ok q := by
    intro dir
    have hok : is_ok (file_new (participant_init files_empty).files host_fresh.ptr
      host_fresh.fds (bytes "bob") (bytes "b.txt") (participant_init files_empty).files.mode
      dir host_fresh.rand host_fresh.pos host_fresh.fuel) = true := by
      cases dir <;> decide!
    cases h : file_new (participant_init files_empty).files host_fresh.ptr
      host_fresh.fds (bytes "bob") (bytes "b.txt") (participant_init files_empty).files.mode
      dir host_fresh.rand host_fresh.pos host_fresh.fuel with
    | error e => rw [h] at hok; simp [is_ok] at hok
    | ok q => exact ⟨q, rfl⟩
  obtain ⟨_, _, _, _, h5⟩ :=
    transfer_request host_fresh (participant_init files_empty) hr (by decide) (by decide)
      (dbuffer_init_wf _ _ _) (dbuffer_init_wf _ _ _) (bytes "transfer") (bytes "bob")
      (bytes "b.txt") (bytes "a.txt") (by decide) (by decide) .console (some .console)
  obtain ⟨_, h6⟩ := h5 (by decide) (by decide) (by decide)
  obtain ⟨_, _, h7, _, h8⟩ := h6 (by decide) (by decide)
  exact ⟨hr, by decide, by decide, h8 (by decide) (hnew _), h7 rfl (by decide) (hnew _),
    by decide!, by decide!⟩

/-- Counterexample for C26: with the first argument `bob:x` (a colon, the peer `bob` and the
remote name `x`, both non-empty) and an empty second argument, `cmd_cns_transfer` makes no
receive request: it returns 0 and only prints `No local file specified.`; no transfer is
created, nothing is queued for the hub and no system call is made. The console line
`/transfer bob:x` followed by a token that begins with a NUL byte gives these arguments. The
same holds for a send with an empty first argument. With the first argument `:` (empty peer
and empty remote name) and the second `f`, the message is `No nickname specified.`. -/
theorem transfer_empty_local :
    (command_get_tokens (bytes "transfer bob:x \x00y\n")).toOption.map
        (fun r => (r.1, r.2.1.map (cstr r.2.2))) =
      some (3, [bytes "transfer", bytes "bob:x", []]) ∧
    clt_printed (cltcmd_exec host_fresh (bytes "transfer bob:x \x00y\n") .CLTCMD_TYPE_CONSOLE
        (participant_init files_empty)) = some (bytes "No local file specified.\n") ∧
    clt_sent (cltcmd_exec host_fresh (bytes "transfer bob:x \x00y\n") .CLTCMD_TYPE_CONSOLE
        (participant_init files_empty)) = some [] ∧
    (cmd_cns_transfer host_fresh 3 [bytes "transfer", bytes "bob:x", []] .console
        (some .console) () (participant_init files_empty)).toOption.map
        (fun r => (r.2, dbuffer_contents r.1.files.console.output,
          dbuffer_contents r.1.files.server.buffer.output)) =
      some (0, bytes "No local file specified.\n", []) ∧
    (cmd_cns_transfer host_fresh 3 [bytes "transfer", bytes "bob:x", []] .console
        (some .console) () (participant_init files_empty)).toOption.map
        (fun r => (r.1.files.heap, r.1.calls)) = some ([], []) ∧
    (cmd_cns_transfer host_fresh 3 [bytes "transfer", [], bytes "bob:x"] .console
        (some .console) () (participant_init files_empty)).toOption.map
        (fun r => (r.2, dbuffer_contents r.1.files.console.output,
          dbuffer_contents r.1.files.server.buffer.output)) =
      some (0, bytes "No local file specified.\n", []) ∧
    (cmd_cns_transfer host_fresh 3 [bytes "transfer", [], bytes "bob:x"] .console
        (some .console) () (participant_init files_empty)).toOption.map
        (fun r => (r.1.files.heap, r.1.calls)) = some ([], []) ∧
    (cmd_cns_transfer host_fresh 3 [bytes "transfer", bytes ":", bytes "f"] .console
        (some .console) () (participant_init files_empty)).toOption.map
        (fun r => (r.2, dbuffer_contents r.1.files.console.output,
          dbuffer_contents r.1.files.server.buffer.output)) =
      some (0, bytes "No nickname specified.\n", []) ∧
    (cmd_cns_transfer host_fresh 3 [bytes "transfer", bytes ":", bytes "f"] .console
        (some .console) () (participant_init files_empty)).toOption.map
        (fun r => (r.1.files.heap, r.1.calls)) = some ([], []) := by
  refine ⟨by decide!, by decide!, by decide!, by decide!, by decide!, by decide!, by decide!,
    by decide!, by decide!⟩

end Minitalk
